import Mathlib

/-!
# Tracer: a shallow embedding of the path-tracing core

The C++ program computes with `float`.  The embedding reads its arithmetic in two ways.

The first part is written over an arbitrary linearly ordered field `F` (exact arithmetic,
no rounding, no NaN); the theorems instantiate `F` with the real numbers.  The functions
of the C math library that the program calls (`sqrt`, `cos`, `sin`, `pow`, the constant
`M_PI`) are passed as a record `MathOps F`, so every definition below stays executable.
The only place where the program stores an infinity is `Intersection::distance_`;
that field has the type `ExtFloat F`, the field `F` extended by `+inf` and `-inf`.

The second part repeats the functions whose result depends on the rounding over `F32`, a
model of IEEE-754 binary32 (round to nearest, ties to even, gradual underflow, overflow
to infinity, NaN).  The statements about the values that the program computes where
rounding decides the outcome (the hit or miss of a ray, the equality of floats, an
overflowing reflectance) are proved there.
-/

namespace Tracer

/-! ## Common.h -/

/-- The functions of the C math library used by the renderer. -/
structure MathOps (F : Type) where
  sqrt : F → F
  cos : F → F
  sin : F → F
  pow : F → F → F
  pi : F

/-- A float that may be infinite (the type of `Intersection::distance_`). -/
inductive ExtFloat (F : Type) where
  | ninf : ExtFloat F
  | fin (v : F) : ExtFloat F
  | pinf : ExtFloat F
deriving DecidableEq

section Embedding

variable {F : Type} [LinearOrderedField F]

/-- The comparison `a < b` of two floats, infinities included. -/
def ExtFloat.lt : ExtFloat F → ExtFloat F → Bool
  | .ninf, .ninf => false
  | .ninf, _ => true
  | .fin _, .ninf => false
  | .fin a, .fin b => decide (a < b)
  | .fin _, .pinf => true
  | .pinf, _ => false

/-- The library test `isinf`. -/
def ExtFloat.isinf : ExtFloat F → Bool
  | .fin _ => false
  | _ => true

/-- Template `FLOAT_EQ` at finite arguments: `(a>b?a-b:b-a) < 0.0001F`; the bound is the
value of the `float` literal, `13743895 * 2^-37`. -/
def FLOAT_EQ (a b : F) : Bool :=
  decide ((if a > b then a - b else b - a) < 13743895 / 137438953472)

/-- Template `FLOAT_EQ` at distances: with an infinite argument the difference
is infinite (or NaN for two equal infinities) and the comparison fails. -/
def ExtFloat.FLOAT_EQ : ExtFloat F → ExtFloat F → Bool
  | .fin a, .fin b => Tracer.FLOAT_EQ a b
  | _, _ => false

/-- Template `CLAMP_0_1`. -/
def CLAMP_0_1 (x : F) : F := if x < 0 then 0 else if x > 1 then 1 else x

/-! ## Vector.h -/

/-- Class `Vector3f` (a `Vector<float,3>`). -/
structure Vector3f (F : Type) where
  x : F
  y : F
  z : F
deriving DecidableEq

/-- Member `operator+`. -/
def Vector3f.add (a b : Vector3f F) : Vector3f F := ⟨a.x + b.x, a.y + b.y, a.z + b.z⟩

/-- Member `operator-`. -/
def Vector3f.sub (a b : Vector3f F) : Vector3f F := ⟨a.x - b.x, a.y - b.y, a.z - b.z⟩

/-- Member `operator*(float)`. -/
def Vector3f.scale (a : Vector3f F) (b : F) : Vector3f F := ⟨a.x * b, a.y * b, a.z * b⟩

/-- Member `operator==` for a float vector: component-wise `FLOAT_EQ`. -/
def Vector3f.eq (a b : Vector3f F) : Bool :=
  FLOAT_EQ a.x b.x && FLOAT_EQ a.y b.y && FLOAT_EQ a.z b.z

/-- Member `Multiply`: the component-wise product. -/
def Vector3f.Multiply (a b : Vector3f F) : Vector3f F := ⟨a.x * b.x, a.y * b.y, a.z * b.z⟩

/-- Member `Dot`. -/
def Vector3f.Dot (a b : Vector3f F) : F := a.x * b.x + a.y * b.y + a.z * b.z

/-- Member `Length`. -/
def Vector3f.Length (m : MathOps F) (a : Vector3f F) : F :=
  m.sqrt (a.x * a.x + a.y * a.y + a.z * a.z)

/-- Member `Cross`. -/
def Vector3f.Cross (a b : Vector3f F) : Vector3f F :=
  ⟨a.y * b.z - a.z * b.y, a.z * b.x - a.x * b.z, a.x * b.y - a.y * b.x⟩

/-- Member `Clamp`. -/
def Vector3f.Clamp (a : Vector3f F) : Vector3f F := ⟨CLAMP_0_1 a.x, CLAMP_0_1 a.y, CLAMP_0_1 a.z⟩

/-- Member `Normalize`: `*this * (1/Length())`. -/
def Vector3f.Normalize (m : MathOps F) (a : Vector3f F) : Vector3f F :=
  a.scale (1 / a.Length m)

/-- Struct `Ray`. -/
structure Ray (F : Type) where
  origin : Vector3f F
  direction : Vector3f F

/-! ## ScenePrimative.h, ScenePrimative.hpp -/

/-- Class `Intersection`. -/
structure Intersection (F : Type) where
  distance : ExtFloat F
  normal : Vector3f F
  intersectionPosition : Vector3f F

/-- Static member `Intersection::NO_INTERSECTION`. -/
def Intersection.NO_INTERSECTION : Intersection F :=
  ⟨.pinf, ⟨0, 0, 0⟩, ⟨0, 0, 0⟩⟩

/-- Member `Intersection::operator==`. -/
def Intersection.eq (a b : Intersection F) : Bool :=
  if a.distance.isinf && b.distance.isinf then true
  else a.distance.FLOAT_EQ b.distance && a.normal.eq b.normal &&
    a.intersectionPosition.eq b.intersectionPosition

/-- Member `Intersection::operator!=`. -/
def Intersection.ne (a b : Intersection F) : Bool := !(a.eq b)

/-- Member `Intersection::operator<`. -/
def Intersection.lt (a b : Intersection F) : Bool := a.distance.lt b.distance

/-- Class `Sphere`. -/
structure Sphere (F : Type) where
  radius : F
  position : Vector3f F

/-- Member `Sphere::Intersect`. -/
def Sphere.Intersect (m : MathOps F) (s : Sphere F) (ray : Ray F) : Intersection F :=
  let op := s.position.sub ray.origin
  let epsilon : F := 15 / 1000
  let b := op.Dot ray.direction
  let det_squared := b * b - op.Dot op + s.radius * s.radius
  if det_squared < 0 then Intersection.NO_INTERSECTION
  else
    let det := m.sqrt det_squared
    let hit : F → Intersection F := fun t =>
      let intersection := ray.origin.add (ray.direction.scale t)
      let normal := (intersection.sub s.position).Normalize m
      ⟨.fin t, normal, intersection⟩
    if b - det > epsilon then hit (b - det)
    else if b + det > epsilon then hit (b + det)
    else Intersection.NO_INTERSECTION

/-- Class `ScenePrimative`: the only geometry kind is the sphere. -/
structure ScenePrimative (F : Type) where
  sphere : Sphere F
  materialId : Nat

/-- Member `ScenePrimative::Intersect`. -/
def ScenePrimative.Intersect (m : MathOps F) (p : ScenePrimative F) (ray : Ray F) :
    Intersection F :=
  p.sphere.Intersect m ray

/-! ## Material.h -/

/-- Class `Color`: a `Vector3f` read as red, green, blue. -/
abbrev Color (F : Type) := Vector3f F

/-- Enum `Material::MaterialType`. -/
inductive MaterialType where
  | DIFFUSE : MaterialType
  | SPECULAR : MaterialType
  | REFRACTION : MaterialType
deriving DecidableEq

/-- Struct `Material`. -/
structure Material (F : Type) where
  emission : Color F
  color : Color F
  materialType : MaterialType

/-- Default constructor `Material()`: zero colours, type `DIFFUSE`. -/
def Material.default : Material F := ⟨⟨0, 0, 0⟩, ⟨0, 0, 0⟩, .DIFFUSE⟩

/-! ## Renderer.cpp -/

/-- Function `ClosestIntersection`, the loop from index `i` on with the current
`bestIntersection` and `*primativeId`. -/
def ClosestIntersectionLoop (m : MathOps F) (r : Ray F) :
    List (ScenePrimative F) → Nat → Intersection F × Nat → Intersection F × Nat
  | [], _, best => best
  | p :: ps, i, (bestIntersection, primativeId) =>
    let newIntersection := p.Intersect m r
    if newIntersection.lt bestIntersection then
      ClosestIntersectionLoop m r ps (i + 1) (newIntersection, i)
    else
      ClosestIntersectionLoop m r ps (i + 1) (bestIntersection, primativeId)

/-- Function `ClosestIntersection`: the returned intersection and the value
left in `*primativeId`. -/
def ClosestIntersection (m : MathOps F) (r : Ray F) (primatives : List (ScenePrimative F)) :
    Intersection F × Nat :=
  ClosestIntersectionLoop m r primatives 0 (Intersection.NO_INTERSECTION, 0)

/-- Struct `Renderer::RenderRandomSeed`: two 32-bit words. -/
structure RenderRandomSeed where
  s1 : Nat
  s2 : Nat
deriving DecidableEq

/-- The value of the IEEE-754 single with the bit pattern `ui` (normal numbers):
sign bit 31, exponent field bits 30..23 with bias 127, 23 mantissa bits. -/
def floatOfBits (ui : Nat) : F :=
  (if ui / 2 ^ 31 % 2 = 1 then -1 else 1) * (2 : F) ^ (((ui / 2 ^ 23 % 256 : Nat) : Int) - 127) *
    (1 + ((ui % 2 ^ 23 : Nat) : F) / 2 ^ 23)

/-- Function `GetRandom`: the returned float and the updated seed. -/
def GetRandom (seed : RenderRandomSeed) : F × RenderRandomSeed :=
  let s1 := (36969 * (seed.s1 &&& 65535) + (seed.s1 >>> 16)) % 2 ^ 32
  let s2 := (18000 * (seed.s2 &&& 65535) + (seed.s2 >>> 16)) % 2 ^ 32
  let ires := ((s1 <<< 16) + s2) % 2 ^ 32
  let ui := (ires &&& 0x007fffff) ||| 0x40000000
  ((floatOfBits ui - 2) / 2, ⟨s1, s2⟩)

/-- The local variables of `Renderer::SampleLight` that live across loop iterations. -/
structure PathState (F : Type) where
  r : Ray F
  depth : Nat
  accumulatedColor : Color F
  accumulatedReflectance : Color F
  seed : RenderRandomSeed

/-- Outcome of one iteration of the `while (1)` loop of `SampleLight`: a `return`
(with the seed as left behind the pointer) or a `continue`. -/
inductive LoopStep (F : Type) where
  | ret (c : Color F) (seed : RenderRandomSeed) : LoopStep F
  | next (st : PathState F) : LoopStep F

/-- The local `fixedNormal` of `SampleLight`: the normal turned against the ray. -/
def facingNormal (intersection : Intersection F) (r : Ray F) : Vector3f F :=
  if intersection.normal.Dot r.direction < 0 then intersection.normal
  else intersection.normal.scale (-1)

/-- The mirror ray built in the `SPECULAR` branch and as `reflRay`. -/
def reflectedRay (intersection : Intersection F) (r : Ray F) : Ray F :=
  ⟨intersection.intersectionPosition,
    r.direction.sub ((intersection.normal.scale 2).scale (intersection.normal.Dot r.direction))⟩

/-- The vector `u` of the `DIFFUSE` branch, perpendicular to the facing normal `w`. -/
def diffuseU (m : MathOps F) (w : Vector3f F) : Vector3f F :=
  ((if |w.x| > 1 / 10 then (⟨0, 1, 0⟩ : Vector3f F) else ⟨1, 0, 0⟩).Cross w).Normalize m

/-- The vector `v` of the `DIFFUSE` branch. -/
def diffuseV (m : MathOps F) (w : Vector3f F) : Vector3f F :=
  w.Cross (diffuseU m w)

/-- The vector that the `DIFFUSE` branch normalises to obtain `d`, from the facing
normal and the two draws. -/
def diffuseSample (m : MathOps F) (fixedNormal : Vector3f F) (g1 g2 : F) : Vector3f F :=
  let r1 := 2 * m.pi * g1
  let r2 := g2
  let r2s := m.sqrt r2
  let w := fixedNormal
  let u := diffuseU m w
  let v := diffuseV m w
  (((u.scale (m.cos r1)).scale r2s).add ((v.scale (m.sin r1)).scale r2s)).add
    (w.scale (m.sqrt (1 - r2)))

/-- The direction `d` computed in the `DIFFUSE` branch. -/
def diffuseDirection (m : MathOps F) (fixedNormal : Vector3f F) (g1 g2 : F) : Vector3f F :=
  (diffuseSample m fixedNormal g1 g2).Normalize m

/-- The local `into` of the `REFRACTION` branch: whether the ray enters the glass. -/
def refractInto (intersection : Intersection F) (r : Ray F) : Bool :=
  decide (intersection.normal.Dot (facingNormal intersection r) > 0)

/-- The local `nnt` of the `REFRACTION` branch: `nc/nt` when entering and `nt/nc` when
leaving, with `nc = 1` and `nt = 1.5`. -/
def refractNnt (intersection : Intersection F) (r : Ray F) : F :=
  let nc : F := 1
  let nt : F := 15 / 10
  if refractInto intersection r then nc / nt else nt / nc

/-- The local `ddn` of the `REFRACTION` branch. -/
def refractDdn (intersection : Intersection F) (r : Ray F) : F :=
  r.direction.Dot (facingNormal intersection r)

/-- The local `cos2t` of the `REFRACTION` branch. -/
def refractCos2t (intersection : Intersection F) (r : Ray F) : F :=
  1 - refractNnt intersection r * refractNnt intersection r *
    (1 - refractDdn intersection r * refractDdn intersection r)

/-- The vector that the `REFRACTION` branch normalises to obtain `tdir`. -/
def refractSample (m : MathOps F) (intersection : Intersection F) (r : Ray F) : Vector3f F :=
  (r.direction.scale (refractNnt intersection r)).sub (intersection.normal.scale
    ((if refractInto intersection r then 1 else -1) *
      (refractDdn intersection r * refractNnt intersection r +
        m.sqrt (refractCos2t intersection r))))

/-- The local `tdir` of the `REFRACTION` branch. -/
def refractTdir (m : MathOps F) (intersection : Intersection F) (r : Ray F) : Vector3f F :=
  (refractSample m intersection r).Normalize m

/-- The local `R0` of the `REFRACTION` branch. -/
def schlickR0 : F :=
  let nc : F := 1
  let nt : F := 15 / 10
  let a := nt - nc
  let b := nt + nc
  a * a / (b * b)

/-- The local `c` of the `REFRACTION` branch. -/
def schlickC (m : MathOps F) (intersection : Intersection F) (r : Ray F) : F :=
  1 - (if refractInto intersection r then -refractDdn intersection r
    else (refractTdir m intersection r).Dot intersection.normal)

/-- The local `Re` of the `REFRACTION` branch. -/
def schlickRe (m : MathOps F) (intersection : Intersection F) (r : Ray F) : F :=
  schlickR0 + (1 - schlickR0) * schlickC m intersection r * schlickC m intersection r *
    schlickC m intersection r * schlickC m intersection r * schlickC m intersection r

/-- The local `P` of the `REFRACTION` branch. -/
def reflectP (m : MathOps F) (intersection : Intersection F) (r : Ray F) : F :=
  25 / 100 + 5 / 10 * schlickRe m intersection r

/-- One iteration of the `while (1)` loop of `Renderer::SampleLight`.  A read of
`materials` past its end has no defined behaviour in the program; the model reads
a default-constructed material there. -/
def SampleLightBody (m : MathOps F) (primatives : List (ScenePrimative F))
    (materials : List (Material F)) (st : PathState F) : LoopStep F :=
  let found := ClosestIntersection m st.r primatives
  let intersection := found.1
  let primativeId := found.2
  if intersection.eq Intersection.NO_INTERSECTION then .ret st.accumulatedColor st.seed
  else
    let depth := st.depth + 1
    if depth > 7 then .ret st.accumulatedColor st.seed
    else
      let primative := primatives.getD primativeId ⟨⟨0, ⟨0, 0, 0⟩⟩, 0⟩
      let material := materials.getD primative.materialId Material.default
      let fixedNormal := facingNormal intersection st.r
      let BDRF := material.color
      let accumulatedColor :=
        st.accumulatedColor.add (st.accumulatedReflectance.Multiply material.emission)
      let accumulatedReflectance := st.accumulatedReflectance.Multiply BDRF
      match material.materialType with
      | .DIFFUSE =>
        let g1 := (GetRandom st.seed : F × RenderRandomSeed)
        let g2 := (GetRandom g1.2 : F × RenderRandomSeed)
        let d := diffuseDirection m fixedNormal g1.1 g2.1
        .next ⟨⟨intersection.intersectionPosition, d⟩, depth, accumulatedColor,
          accumulatedReflectance, g2.2⟩
      | .SPECULAR =>
        .next ⟨reflectedRay intersection st.r, depth, accumulatedColor,
          accumulatedReflectance, st.seed⟩
      | .REFRACTION =>
        let reflRay := reflectedRay intersection st.r
        let into := decide (intersection.normal.Dot fixedNormal > 0)
        let nc : F := 1
        let nt : F := 15 / 10
        let nnt := if into then nc / nt else nt / nc
        let ddn := st.r.direction.Dot fixedNormal
        let cos2t := 1 - nnt * nnt * (1 - ddn * ddn)
        if cos2t < 0 then
          .next ⟨reflRay, depth, accumulatedColor, accumulatedReflectance, st.seed⟩
        else
          let tdir := ((st.r.direction.scale nnt).sub (intersection.normal.scale
            ((if into then 1 else -1) * (ddn * nnt + m.sqrt cos2t)))).Normalize m
          let a := nt - nc
          let b := nt + nc
          let R0 := a * a / (b * b)
          let c := 1 - (if into then -ddn else tdir.Dot intersection.normal)
          let Re := R0 + (1 - R0) * c * c * c * c * c
          let Tr := 1 - Re
          let P := 25 / 100 + 5 / 10 * Re
          let RP := Re / P
          let TP := Tr / (1 - P)
          let g := (GetRandom st.seed : F × RenderRandomSeed)
          if g.1 < P then
            .next ⟨reflRay, depth, accumulatedColor, accumulatedReflectance.scale RP, g.2⟩
          else
            .next ⟨⟨intersection.intersectionPosition, tdir⟩, depth, accumulatedColor,
              accumulatedReflectance.scale TP, g.2⟩

/-- The material of the primitive found by the closest-intersection query that the
loop body of `SampleLight` makes in the state `st`; `none` when that query misses. -/
def SampleLightHit (m : MathOps F) (primatives : List (ScenePrimative F))
    (materials : List (Material F)) (st : PathState F) : Option (Material F) :=
  let found := ClosestIntersection m st.r primatives
  if found.1.eq Intersection.NO_INTERSECTION then none
  else some (materials.getD (primatives.getD found.2 ⟨⟨0, ⟨0, 0, 0⟩⟩, 0⟩).materialId
    Material.default)

/-- Whether an iteration ends in `continue` (a scattering step was taken). -/
def LoopStep.continues : LoopStep F → Bool
  | .ret _ _ => false
  | .next _ => true

/-- The `while (1)` loop of `SampleLight`, run for at most `fuel` iterations. -/
def SampleLightLoop (m : MathOps F) (primatives : List (ScenePrimative F))
    (materials : List (Material F)) : Nat → PathState F → Option (Color F × RenderRandomSeed)
  | 0, _ => none
  | fuel + 1, st =>
    match SampleLightBody m primatives materials st with
    | .ret c seed => some (c, seed)
    | .next st' => SampleLightLoop m primatives materials fuel st'

/-- The states in which the loop body of `SampleLight` is entered, in order, for at
most `fuel` iterations: one `ClosestIntersection` query per entry, one scattering
step per entry that continues. -/
def SampleLightTrace (m : MathOps F) (primatives : List (ScenePrimative F))
    (materials : List (Material F)) : Nat → PathState F → List (PathState F)
  | 0, _ => []
  | fuel + 1, st =>
    match SampleLightBody m primatives materials st with
    | .ret _ _ => [st]
    | .next st' => st :: SampleLightTrace m primatives materials fuel st'

/-- The state in which `SampleLight` enters its loop. -/
def SampleLightInit (r : Ray F) (seed : RenderRandomSeed) : PathState F :=
  ⟨r, 0, ⟨0, 0, 0⟩, ⟨1, 1, 1⟩, seed⟩

/-- Function `Renderer::SampleLight`: the returned colour and the seed left behind
the pointer; `none` only if the loop were still running after `fuel` iterations. -/
def SampleLight (m : MathOps F) (fuel : Nat) (r : Ray F) (primatives : List (ScenePrimative F))
    (materials : List (Material F)) (seed : RenderRandomSeed) :
    Option (Color F × RenderRandomSeed) :=
  SampleLightLoop m primatives materials fuel (SampleLightInit r seed)

/-! ## Camera.h, Camera.hpp -/

/-- Class `Camera`; `imagePlaneBounds_` holds left, bottom, right, top. -/
structure Camera (F : Type) where
  up : Vector3f F
  look : Vector3f F
  eye : Vector3f F
  focalLength : F
  left : F
  bottom : F
  right : F
  top : F

/-- The local `w` of `Camera::GenerateLookForPixel`. -/
def Camera.frameW (m : MathOps F) (cam : Camera F) : Vector3f F :=
  (cam.eye.sub cam.look).Normalize m

/-- The local `u` of `Camera::GenerateLookForPixel`. -/
def Camera.frameU (m : MathOps F) (cam : Camera F) : Vector3f F :=
  (cam.up.Cross (cam.frameW m)).Normalize m

/-- The local `v` of `Camera::GenerateLookForPixel`. -/
def Camera.frameV (m : MathOps F) (cam : Camera F) : Vector3f F :=
  ((cam.frameW m).Cross (cam.frameU m)).Normalize m

/-- Member `Camera::GenerateLookForPixel`; `imageWidth-1` and `imageHeight-1` are
computed in 32-bit unsigned arithmetic before the conversion to float. -/
def Camera.GenerateLookForPixel (m : MathOps F) (cam : Camera F)
    (pixelX pixelY imageWidth imageHeight : Nat) : Ray F :=
  let w := (cam.eye.sub cam.look).Normalize m
  let u := (cam.up.Cross w).Normalize m
  let v := (w.Cross u).Normalize m
  let px := (pixelX : F) / (((imageWidth + 2 ^ 32 - 1) % 2 ^ 32 : Nat) : F) *
    (cam.right - cam.left) + cam.left
  let py := (pixelY : F) / (((imageHeight + 2 ^ 32 - 1) % 2 ^ 32 : Nat) : F) *
    (cam.top - cam.bottom) + cam.bottom
  let position := ((cam.eye.sub (w.scale cam.focalLength)).add (u.scale px)).add (v.scale py)
  let direction := (position.sub cam.eye).Normalize m
  ⟨position, direction⟩

/-! ## Image.h -/

/-- Class `Pixel`: three 8-bit channels. -/
structure Pixel where
  r : Nat
  g : Nat
  b : Nat
deriving DecidableEq

/-- The conversion `static_cast<uint8>(float)`: truncation; the program only converts
values in `[0, 256)`, the model reduces any other value modulo 256. -/
def toUint8 [FloorRing F] (x : F) : Nat := ⌊x⌋₊ % 256

/-- Constructor `Pixel(const Color&)`. -/
def Pixel.ofColor [FloorRing F] (c : Color F) : Pixel :=
  let fixed := c.Clamp
  ⟨toUint8 (fixed.x * 255), toUint8 (fixed.y * 255), toUint8 (fixed.z * 255)⟩

/-- The lambda `gamma` of `Pixel::GammaCorrect`. -/
def gamma [FloorRing F] (m : MathOps F) (color : Nat) : Nat :=
  toUint8 (255 * m.pow ((color : F) / 255) (1 / (22 / 10)) + 5 / 10)

/-- Member `Pixel::GammaCorrect`. -/
def Pixel.GammaCorrect [FloorRing F] (m : MathOps F) (p : Pixel) : Pixel :=
  ⟨gamma m p.r, gamma m p.g, gamma m p.b⟩

/-- Class `Image`: the pixel buffer, row-major. -/
structure Image where
  width : Nat
  height : Nat
  data : List Pixel

/-- Member `Image::GetDataSize` (32-bit unsigned product). -/
def Image.GetDataSize (img : Image) : Nat := img.width * img.height % 2 ^ 32

/-- Constructor `Image(width, height)`: every pixel default-constructed. -/
def Image.new (width height : Nat) : Image :=
  ⟨width, height, List.replicate (width * height % 2 ^ 32) ⟨0, 0, 0⟩⟩

/-! ## Renderer.cpp: the kernel -/

/-- The sample loop of the kernel: `remaining` more passes of
`accumulatedColor += SampleLight(...) * (1.F/samplesPerPixel)`. -/
def SampleLoop (m : MathOps F) (fuel : Nat) (ray : Ray F) (primatives : List (ScenePrimative F))
    (materials : List (Material F)) (samplesPerPixel : Nat) :
    Nat → Color F → RenderRandomSeed → Option (Color F × RenderRandomSeed)
  | 0, accumulatedColor, seed => some (accumulatedColor, seed)
  | remaining + 1, accumulatedColor, seed =>
    match SampleLight m fuel ray primatives materials seed with
    | none => none
    | some (c, seed') =>
      SampleLoop m fuel ray primatives materials samplesPerPixel remaining
        (accumulatedColor.add (c.scale (1 / (samplesPerPixel : F)))) seed'

/-- The body of the kernel of `Renderer::RenderScene` for the work item `threadId`:
the slot it writes and the pixel it writes there. -/
def RenderKernel [FloorRing F] (m : MathOps F) (fuel : Nat) (primatives : List (ScenePrimative F))
    (materials : List (Material F)) (cam : Camera F) (samplesPerPixel pixelWidth pixelHeight : Nat)
    (threadId : Nat) : Option (Nat × Pixel) :=
  let x := threadId % pixelWidth
  let y := threadId / pixelWidth
  let seed : RenderRandomSeed := ⟨x, y⟩
  let ray := cam.GenerateLookForPixel m x y pixelWidth pixelHeight
  match SampleLoop m fuel ray primatives materials samplesPerPixel samplesPerPixel ⟨0, 0, 0⟩ seed with
  | none => none
  | some (accumulatedColor, _) =>
    some (y * pixelWidth + x, (Pixel.ofColor accumulatedColor).GammaCorrect m)

/-- The work items `threadId, threadId+1, ...` of the dispatch, `count` of them, each
writing its slot of the pixel buffer. -/
def RenderItems [FloorRing F] (m : MathOps F) (fuel : Nat) (primatives : List (ScenePrimative F))
    (materials : List (Material F)) (cam : Camera F) (samplesPerPixel pixelWidth pixelHeight : Nat) :
    Nat → Nat → List Pixel → Option (List Pixel)
  | 0, _, pixels => some pixels
  | count + 1, threadId, pixels =>
    match RenderKernel m fuel primatives materials cam samplesPerPixel pixelWidth pixelHeight
        threadId with
    | none => none
    | some (slot, p) =>
      RenderItems m fuel primatives materials cam samplesPerPixel pixelWidth pixelHeight count
        (threadId + 1) (pixels.set slot p)

/-- Member `Renderer::RenderScene(scene, camera, samplesPerPixel, image)`: one work item
per id below `pixelCount`. -/
def RenderSceneInto [FloorRing F] (m : MathOps F) (fuel : Nat) (primatives : List (ScenePrimative F))
    (materials : List (Material F)) (cam : Camera F) (samplesPerPixel : Nat) (image : Image) :
    Option Image :=
  let pixelWidth := image.width
  let pixelHeight := image.height
  let pixelCount := pixelWidth * pixelHeight % 2 ^ 32
  match RenderItems m fuel primatives materials cam samplesPerPixel pixelWidth pixelHeight
      pixelCount 0 image.data with
  | none => none
  | some pixels => some ⟨image.width, image.height, pixels⟩

/-- Member `Renderer::RenderScene(scene, camera, samplesPerPixel, width, height)`. -/
def RenderScene [FloorRing F] (m : MathOps F) (fuel : Nat) (primatives : List (ScenePrimative F))
    (materials : List (Material F)) (cam : Camera F) (samplesPerPixel width height : Nat) :
    Option Image :=
  RenderSceneInto m fuel primatives materials cam samplesPerPixel (Image.new width height)

/-- The work items of the dispatch run one after the other in the order `order`, each
writing its slot of the pixel buffer: the kernel of `Renderer::RenderScene` under an
arbitrary schedule of the work items. -/
def RenderSchedule [FloorRing F] (m : MathOps F) (fuel : Nat) (primatives : List (ScenePrimative F))
    (materials : List (Material F)) (cam : Camera F) (samplesPerPixel pixelWidth pixelHeight : Nat) :
    List Nat → List Pixel → Option (List Pixel)
  | [], pixels => some pixels
  | threadId :: rest, pixels =>
    match RenderKernel m fuel primatives materials cam samplesPerPixel pixelWidth pixelHeight
        threadId with
    | none => none
    | some (slot, p) =>
      RenderSchedule m fuel primatives materials cam samplesPerPixel pixelWidth pixelHeight rest
        (pixels.set slot p)

/-! ## Image.h: pixel access -/

/-- Member `Image::GetPixel`: the element `data_[y*width_+x]`, the index computed in
32-bit unsigned arithmetic.  A read past the end of the buffer has no defined behaviour
in the program; the model reads a default-constructed pixel there. -/
def Image.GetPixel (img : Image) (x y : Nat) : Pixel :=
  img.data.getD ((y * img.width + x) % 2 ^ 32) ⟨0, 0, 0⟩

/-- Member `Image::SetPixel`: the assignment `GetPixel(x,y) = p`.  A write past the end
of the buffer has no defined behaviour in the program; the model leaves the buffer as
it is. -/
def Image.SetPixel (img : Image) (x y : Nat) (p : Pixel) : Image :=
  ⟨img.width, img.height, img.data.set ((y * img.width + x) % 2 ^ 32) p⟩

/-- Member `Image::GetWidth`. -/
def Image.GetWidth (img : Image) : Nat := img.width

/-- Member `Image::GetHeight`. -/
def Image.GetHeight (img : Image) : Nat := img.height

/-! ## Material.h, Material.cpp: the material store -/

/-- Class `MaterialManager`: the vector `materialList_` and the name map
`materialMap_` (latest binding of a name first). -/
structure MaterialManager (F : Type) where
  materialList : List (Material F)
  materialMap : List (String × Nat)

/-- The default-constructed `MaterialManager`. -/
def MaterialManager.empty : MaterialManager F := ⟨[], []⟩

/-- Member `MaterialManager::AddMaterial(material)`: the returned id, which is the size
of `materialList_` converted to a 32-bit unsigned, and the manager afterwards. -/
def MaterialManager.AddMaterial (mm : MaterialManager F) (material : Material F) :
    Nat × MaterialManager F :=
  let newMaterialId := mm.materialList.length % 2 ^ 32
  (newMaterialId, ⟨mm.materialList ++ [material], mm.materialMap⟩)

/-- Member `MaterialManager::GetMaterial(materialIndex)`: `materialList_[materialIndex]`.
A read past the end of the vector has no defined behaviour in the program; the model
reads a default-constructed material there. -/
def MaterialManager.GetMaterial (mm : MaterialManager F) (materialIndex : Nat) : Material F :=
  mm.materialList.getD materialIndex Material.default

/-- Member `MaterialManager::GetMaterials`. -/
def MaterialManager.GetMaterials (mm : MaterialManager F) : List (Material F) :=
  mm.materialList

/-! ## Scene.h -/

/-- Class `Scene`: the vector `scenePrimatives_` and the member `materialManager_`. -/
structure Scene (F : Type) where
  scenePrimatives : List (ScenePrimative F)
  materialManager : MaterialManager F

/-- The default-constructed `Scene`. -/
def Scene.empty : Scene F := ⟨[], MaterialManager.empty⟩

/-- Member `Scene::AddPrimative(sphere, materialId)`: the id is stored as given. -/
def Scene.AddPrimative (s : Scene F) (sphere : Sphere F) (materialId : Nat) : Scene F :=
  ⟨s.scenePrimatives ++ [⟨sphere, materialId⟩], s.materialManager⟩

/-- Member `Scene::AddPrimative(sphere, material)`: the material is added to the store
and the primitive gets the id returned for it. -/
def Scene.AddPrimativeMaterial (s : Scene F) (sphere : Sphere F) (material : Material F) :
    Scene F :=
  let added := s.materialManager.AddMaterial material
  ⟨s.scenePrimatives ++ [⟨sphere, added.1⟩], added.2⟩

/-- Member `Scene::GetPrimatives`. -/
def Scene.GetPrimatives (s : Scene F) : List (ScenePrimative F) := s.scenePrimatives

/-- Member `Scene::GetMaterialManager`. -/
def Scene.GetMaterialManager (s : Scene F) : MaterialManager F := s.materialManager

/-- The validity of the material indices of a scene: every primitive's material index
is below the number of materials in the scene's store. -/
def Scene.IndicesValid (s : Scene F) : Prop :=
  ∀ p ∈ s.scenePrimatives, p.materialId < s.materialManager.materialList.length

/-! ## Vector.h: equality of vectors of any size -/

/-- Member `Vector<T,N>::operator==`, the loop over the components with its early
return; the vectors are given as the lists of their `N` components and `componentEq`
is the comparison the loop makes for the element type `T`. -/
def Vector.eq {T : Type} (componentEq : T → T → Bool) : List T → List T → Bool
  | a :: as, b :: bs => if !(componentEq a b) then false else Vector.eq componentEq as bs
  | _, _ => true

/-- Member `Vector<T,N>::operator==` for `T = float` or `double`: the components are
compared with `FLOAT_EQ`. -/
def Vector.eqFloat (a b : List F) : Bool := Vector.eq FLOAT_EQ a b

/-- Member `Vector<T,N>::operator==` for any other `T`: the components are compared
with `==`. -/
def Vector.eqExact {T : Type} [DecidableEq T] (a b : List T) : Bool :=
  Vector.eq (fun x y => decide (x = y)) a b

/-- Member `Vector<T,N>::operator!=` for `T = float` or `double`. -/
def Vector.neFloat (a b : List F) : Bool := !(Vector.eqFloat a b)

/-- Member `Vector<T,N>::operator!=` for any other `T`. -/
def Vector.neExact {T : Type} [DecidableEq T] (a b : List T) : Bool := !(Vector.eqExact a b)

/-- Member `operator!=` for a float vector of size three. -/
def Vector3f.ne (a b : Vector3f F) : Bool := !(a.eq b)

/-! ## Material.cpp: reading a material file

A file is given as the list of its lines, each line as the list of its
whitespace-separated fields, which is how `std::getline` and `operator>>` hand it to
the reader. -/

/-- The exceptions that the material loader throws. -/
inductive TracerException where
  | FileReadException : TracerException
  | ParseException : TracerException
  | MaterialNotFoundException : TracerException
deriving DecidableEq

/-- The formatted extraction `operator>>` of a field of a line into a `float` and into
an `int`: the number read, or nothing when the extraction fails. -/
structure StreamOps (F : Type) where
  readFloat : String → Option F
  readInt : String → Option Int

/-- Struct `MaterialFileReadInfo`. -/
structure MaterialFileReadInfo (F : Type) where
  name : String
  material : Material F
  diffuse : Color F
  specular : Color F

/-- The locals `materials`, `materialCount` and `currentMaterial` of `ReadMaterialFile`. -/
structure ReadState (F : Type) where
  materials : List (MaterialFileReadInfo F)
  materialCount : Nat
  currentMaterial : MaterialFileReadInfo F

/-- The locals of `ReadMaterialFile` before the first line is read. -/
def ReadState.init : ReadState F :=
  ⟨[], 0, ⟨"", Material.default, ⟨0, 0, 0⟩, ⟨0, 0, 0⟩⟩⟩

/-- The lambda `addMaterial` of `ReadMaterialFile`: the colour of `currentMaterial` is
set from its type, and `currentMaterial` is appended to `materials`. -/
def addMaterial (st : ReadState F) : ReadState F :=
  let color := if st.currentMaterial.material.materialType = .DIFFUSE
    then st.currentMaterial.diffuse else st.currentMaterial.specular
  let currentMaterial : MaterialFileReadInfo F :=
    ⟨st.currentMaterial.name,
      ⟨st.currentMaterial.material.emission, color, st.currentMaterial.material.materialType⟩,
      st.currentMaterial.diffuse, st.currentMaterial.specular⟩
  ⟨st.materials ++ [currentMaterial], st.materialCount, currentMaterial⟩

/-- The extraction `lineParser >> r >> g >> b` followed by `Color(r,g,b)`. -/
def readColor (ops : StreamOps F) : List String → Option (Color F)
  | r :: g :: b :: _ =>
    match ops.readFloat r, ops.readFloat g, ops.readFloat b with
    | some r, some g, some b => some ⟨r, g, b⟩
    | _, _, _ => none
  | _ => none

/-- The body of the `while (std::getline(file, line))` loop of `ReadMaterialFile`. -/
def ReadMaterialLine (ops : StreamOps F) (st : ReadState F) (line : List String) :
    Except TracerException (ReadState F) :=
  match line with
  | [] => .ok st
  | type :: rest =>
    if type = "#" then .ok st
    else if type = "newmtl" then
      match rest with
      | [] => .error .ParseException
      | materialName :: _ =>
        let st := if st.materialCount > 0 then addMaterial st else st
        .ok ⟨st.materials, (st.materialCount + 1) % 2 ^ 32,
          ⟨materialName, st.currentMaterial.material, st.currentMaterial.diffuse,
            st.currentMaterial.specular⟩⟩
    else if type = "Ns" then .ok st
    else if type = "Ka" then .ok st
    else if type = "Kd" then
      match readColor ops rest with
      | none => .error .ParseException
      | some c =>
        .ok ⟨st.materials, st.materialCount,
          ⟨st.currentMaterial.name, st.currentMaterial.material, c,
            st.currentMaterial.specular⟩⟩
    else if type = "Ks" then
      match readColor ops rest with
      | none => .error .ParseException
      | some c =>
        .ok ⟨st.materials, st.materialCount,
          ⟨st.currentMaterial.name, st.currentMaterial.material,
            st.currentMaterial.diffuse, c⟩⟩
    else if type = "Ke" then
      match readColor ops rest with
      | none => .error .ParseException
      | some c =>
        .ok ⟨st.materials, st.materialCount,
          ⟨st.currentMaterial.name,
            ⟨c, st.currentMaterial.material.color, st.currentMaterial.material.materialType⟩,
            st.currentMaterial.diffuse, st.currentMaterial.specular⟩⟩
    else if type = "Ni" then .ok st
    else if type = "d" then .ok st
    else if type = "illum" then
      match rest with
      | [] => .error .ParseException
      | field :: _ =>
        match ops.readInt field with
        | none => .error .ParseException
        | some illumModelNum =>
          let setType : MaterialType → Except TracerException (ReadState F) := fun t =>
            .ok ⟨st.materials, st.materialCount,
              ⟨st.currentMaterial.name,
                ⟨st.currentMaterial.material.emission, st.currentMaterial.material.color, t⟩,
                st.currentMaterial.diffuse, st.currentMaterial.specular⟩⟩
          if illumModelNum = 0 ∨ illumModelNum = 1 ∨ illumModelNum = 2 then setType .DIFFUSE
          else if illumModelNum = 3 then setType .SPECULAR
          else if illumModelNum = 4 then setType .REFRACTION
          else .error .ParseException
    else .error .ParseException

/-- The `while (std::getline(file, line))` loop of `ReadMaterialFile`. -/
def ReadMaterialLines (ops : StreamOps F) :
    List (List String) → ReadState F → Except TracerException (ReadState F)
  | [], st => .ok st
  | line :: rest, st =>
    match ReadMaterialLine ops st line with
    | .error e => .error e
    | .ok st' => ReadMaterialLines ops rest st'

/-- Function `ReadMaterialFile`; `files` gives the lines of the files that can be
opened. -/
def ReadMaterialFile (ops : StreamOps F) (files : String → Option (List (List String)))
    (filename : String) : Except TracerException (List (MaterialFileReadInfo F)) :=
  match files filename with
  | none => .error .FileReadException
  | some lines =>
    match ReadMaterialLines ops lines ReadState.init with
    | .error e => .error e
    | .ok st =>
      if st.materialCount ≠ st.materials.length then .ok (addMaterial st).materials
      else .ok st.materials

/-! ## Material.cpp: the named materials of the manager -/

/-- Member `MaterialManager::GetUniqueMaterialName`. -/
def GetUniqueMaterialName (fileName materialName : String) : String :=
  fileName ++ ":" ++ materialName

/-- Member `MaterialManager::AddMaterial(material, file, materialName)`: the material is
added and `materialMap_[uniqueName]` is set to its id, in place of any earlier binding of
that name. -/
def MaterialManager.AddMaterialNamed (mm : MaterialManager F) (material : Material F)
    (file materialName : String) : Nat × MaterialManager F :=
  let added := mm.AddMaterial material
  let newMaterialId := added.1
  let uniqueName := GetUniqueMaterialName file materialName
  (newMaterialId, ⟨added.2.materialList,
    (uniqueName, newMaterialId) :: added.2.materialMap.filter (fun e => !(e.1 == uniqueName))⟩)

/-- Member `MaterialManager::LoadMaterialFile`: the id of the first material added and
the manager afterwards; an exception leaves the manager as it was. -/
def MaterialManager.LoadMaterialFile (ops : StreamOps F)
    (files : String → Option (List (List String))) (mm : MaterialManager F) (file : String) :
    Except TracerException (Nat × MaterialManager F) :=
  match ReadMaterialFile ops files file with
  | .error e => .error e
  | .ok newMaterials =>
    if newMaterials.length = 0 then .error .MaterialNotFoundException
    else
      let firstId := mm.materialList.length % 2 ^ 32
      .ok (firstId, newMaterials.foldl
        (fun acc newMaterial =>
          (acc.AddMaterialNamed newMaterial.material file newMaterial.name).2) mm)

/-- Member `MaterialManager::GetMaterial(file, materialName)`: the returned id or the
exception thrown, and the manager afterwards. -/
def MaterialManager.GetMaterialNamed (ops : StreamOps F)
    (files : String → Option (List (List String))) (mm : MaterialManager F)
    (file materialName : String) : Except TracerException Nat × MaterialManager F :=
  let uniqueName := GetUniqueMaterialName file materialName
  match mm.materialMap.lookup uniqueName with
  | some id => (.ok id, mm)
  | none =>
    match mm.LoadMaterialFile ops files file with
    | .error e => (.error e, mm)
    | .ok (firstId, loaded) =>
      if materialName = "" then (.ok firstId, loaded)
      else
        match loaded.materialMap.lookup uniqueName with
        | none => (.error .MaterialNotFoundException, loaded)
        | some id => (.ok id, loaded)

/-- A stream extraction for small examples: it reads the fields `0`, `1`, ..., `9` as
these numbers and fails on every other field. -/
def digitStream : StreamOps F :=
  ⟨fun s => (["0", "1", "2", "3", "4", "5", "6", "7", "8", "9"].indexOf? s).map
      (fun n => (n : F)),
    fun s => (["0", "1", "2", "3", "4", "5", "6", "7", "8", "9"].indexOf? s).map
      (fun n => (n : Int))⟩

/-! ## The blocks of a material file

The vocabulary in which the material-file contracts are stated: the blocks of a file and
the value that the lines of a block give for a field. -/

/-- Whether a line is a `newmtl` line. -/
def isNewmtl (line : List String) : Bool := line.head? == some "newmtl"

/-- A block of a material file: its `newmtl` line, which gives the name (the fields after
the name are not read), and the lines up to the next `newmtl` line. -/
structure MaterialBlock where
  name : String
  trailing : List String
  body : List (List String)

/-- The lines of a block. -/
def MaterialBlock.lines (b : MaterialBlock) : List (List String) :=
  ("newmtl" :: b.name :: b.trailing) :: b.body

/-- The colour that a line gives for the field `key` (`Kd`, `Ks` or `Ke`), if it is a
line of that field with three readable numbers. -/
def lineColor (ops : StreamOps F) (key : String) (line : List String) : Option (Color F) :=
  match line with
  | [] => none
  | type :: rest => if type = key then readColor ops rest else none

/-- The illumination model number that a line gives, if it is an `illum` line with a
readable number. -/
def lineIllum (ops : StreamOps F) (line : List String) : Option Int :=
  match line with
  | [] => none
  | type :: rest =>
    if type = "illum" then
      match rest with
      | [] => none
      | field :: _ => ops.readInt field
    else none

/-- The material type of an illumination model number: `DIFFUSE` for 0, 1 and 2,
`SPECULAR` for 3, `REFRACTION` for 4. -/
def illumType (illumModelNum : Int) : Option MaterialType :=
  if illumModelNum = 0 ∨ illumModelNum = 1 ∨ illumModelNum = 2 then some .DIFFUSE
  else if illumModelNum = 3 then some .SPECULAR
  else if illumModelNum = 4 then some .REFRACTION
  else none

/-- The value that the lines of a block give for a field: the value given by the last
line that gives one. -/
def blockField {α : Type} (f : List String → Option α) (body : List (List String)) :
    Option α :=
  body.foldl (fun acc line => f line <|> acc) none

/-- What a parsed material owes to its block: the name of the block and, for each of
`Ke`, `Kd`, `Ks` and `illum` that the block gives, the value given; the colour is the
diffuse colour when the type is `DIFFUSE` and the specular colour otherwise. -/
def MaterialBlock.Describes (ops : StreamOps F) (b : MaterialBlock)
    (info : MaterialFileReadInfo F) : Prop :=
  info.name = b.name ∧
  (∀ e, blockField (lineColor ops "Ke") b.body = some e → info.material.emission = e) ∧
  (∀ d, blockField (lineColor ops "Kd") b.body = some d → info.diffuse = d) ∧
  (∀ s, blockField (lineColor ops "Ks") b.body = some s → info.specular = s) ∧
  (∀ n, blockField (lineIllum ops) b.body = some n →
    illumType n = some info.material.materialType) ∧
  info.material.color =
    if info.material.materialType = .DIFFUSE then info.diffuse else info.specular

end Embedding

/-! ## The arithmetic of the program: IEEE-754 binary32

The definitions above read the program over an ordered field, where every operation is
exact.  The program computes in `float`; the definitions below repeat the functions whose
results depend on the rounding, over a model of binary32 with round-to-nearest-even, the
infinities and NaN. -/

/-- A `float`: NaN, the two infinities, or the finite value `(-1)^neg * m * 2^e`, kept in
the form in which binary32 stores it (`m < 2^24`, `e >= -149`, and `m >= 2^23` unless
`e = -149`; zero is `fin false 0 0`).  The sign of zero, which no operation of the
program tells apart, is not kept. -/
inductive F32 where
  | nan : F32
  | ninf : F32
  | pinf : F32
  | fin (neg : Bool) (m : Nat) (e : Int) : F32
deriving DecidableEq

/-- The number of binary digits of `n`, found by halving the range of the search: `steps`
are the shifts still to try and `acc` the digits already counted. -/
def bitLengthAux : List Nat → Nat → Nat → Nat
  | [], n, acc => if n = 0 then acc else acc + 1
  | k :: steps, n, acc =>
    if n >>> k ≠ 0 then bitLengthAux steps (n >>> k) (acc + k) else bitLengthAux steps n acc

/-- The number of binary digits of `n` (for `n < 2^512`). -/
def bitLength (n : Nat) : Nat := bitLengthAux [256, 128, 64, 32, 16, 8, 4, 2, 1] n 0

/-- Zero. -/
def F32.zero : F32 := .fin false 0 0

/-- The exponent of `n/d` for `n, d > 0`: the integer `e` with `2^e <= n/d < 2^(e+1)`. -/
def F32.exponent (n d : Nat) : Int :=
  let bn := bitLength n
  let bd := bitLength d
  let ge : Bool := if bd ≥ bn then decide (n <<< (bd - bn) ≥ d)
    else decide (n ≥ d <<< (bn - bd))
  (bn : Int) - (bd : Int) - (if ge then 0 else 1)

/-- The integer nearest to `num/den`, the even one of two that are equally near. -/
def roundNearestEven (num den : Nat) : Nat :=
  let k := num / den
  let r := num % den
  if 2 * r > den ∨ (2 * r = den ∧ k % 2 = 1) then k + 1 else k

/-- The float `(-1)^neg * k * 2^q` for a significand `k <= 2^24` that has been rounded at
the exponent `q`: the significand `2^24` is stored as `2^23` at the next exponent, and an
exponent above the largest gives infinity. -/
def F32.pack (neg : Bool) (k : Nat) (q : Int) : F32 :=
  let m := if k = 2 ^ 24 then 2 ^ 23 else k
  let ex := if k = 2 ^ 24 then q + 1 else q
  if m = 0 then F32.zero
  else if ex > 104 then (if neg then .ninf else .pinf)
  else .fin neg m ex

/-- The binary32 value nearest to `(-1)^neg * (n/d) * 2^s` for `d > 0`, ties to the even
significand, with overflow to infinity and gradual underflow: the rounding that every
binary32 operation applies to its exact result.  The significand is rounded at the exponent
`q`, 23 below the exponent of the value and not below -149. -/
def F32.round (neg : Bool) (n d : Nat) (s : Int) : F32 :=
  if n = 0 then F32.zero
  else
    let q : Int := max (F32.exponent n d + s - 23) (-149)
    let sh : Int := s - q
    let num := if sh ≥ 0 then n <<< sh.toNat else n
    let den := if sh ≥ 0 then d else d <<< (-sh).toNat
    F32.pack neg (roundNearestEven num den) q

/-- The conversion of an unsigned integer to `float`. -/
def F32.ofNat (n : Nat) : F32 := F32.round false n 1 0

/-- The `float` literal with the decimal value `n/d`. -/
def F32.ofRatio (n d : Nat) : F32 := F32.round false n d 0

/-- Unary minus. -/
def F32.neg : F32 → F32
  | .nan => .nan
  | .ninf => .pinf
  | .pinf => .ninf
  | .fin neg m e => if m = 0 then .fin false 0 0 else .fin (!neg) m e

/-- The finite value `(-1)^neg * m * 2^e` as the integer multiple of `2^q`, `q <= e`. -/
def F32.aligned (neg : Bool) (m : Nat) (e q : Int) : Int :=
  (if neg then -1 else 1) * ((m <<< (e - q).toNat : Nat) : Int)

/-- Addition. -/
def F32.add : F32 → F32 → F32
  | .nan, _ => .nan
  | _, .nan => .nan
  | .pinf, .ninf => .nan
  | .ninf, .pinf => .nan
  | .pinf, _ => .pinf
  | _, .pinf => .pinf
  | .ninf, _ => .ninf
  | _, .ninf => .ninf
  | .fin n1 m1 e1, .fin n2 m2 e2 =>
    let q := min e1 e2
    let sum := F32.aligned n1 m1 e1 q + F32.aligned n2 m2 e2 q
    F32.round (decide (sum < 0)) sum.natAbs 1 q

/-- Subtraction. -/
def F32.sub (a b : F32) : F32 := F32.add a (F32.neg b)

/-- Multiplication. -/
def F32.mul : F32 → F32 → F32
  | .nan, _ => .nan
  | _, .nan => .nan
  | .pinf, .fin n m _ => if m = 0 then .nan else if n then .ninf else .pinf
  | .ninf, .fin n m _ => if m = 0 then .nan else if n then .pinf else .ninf
  | .fin n m _, .pinf => if m = 0 then .nan else if n then .ninf else .pinf
  | .fin n m _, .ninf => if m = 0 then .nan else if n then .pinf else .ninf
  | .pinf, .pinf => .pinf
  | .ninf, .ninf => .pinf
  | .pinf, .ninf => .ninf
  | .ninf, .pinf => .ninf
  | .fin n1 m1 e1, .fin n2 m2 e2 => F32.round (n1 != n2) (m1 * m2) 1 (e1 + e2)

/-- Division. -/
def F32.div : F32 → F32 → F32
  | .nan, _ => .nan
  | _, .nan => .nan
  | .pinf, .fin n _ _ => if n then .ninf else .pinf
  | .ninf, .fin n _ _ => if n then .pinf else .ninf
  | .fin _ _ _, .pinf => F32.zero
  | .fin _ _ _, .ninf => F32.zero
  | .pinf, .pinf => .nan
  | .ninf, .ninf => .nan
  | .pinf, .ninf => .nan
  | .ninf, .pinf => .nan
  | .fin n1 m1 e1, .fin n2 m2 e2 =>
    if m2 = 0 then (if m1 = 0 then .nan else if n1 != n2 then .ninf else .pinf)
    else F32.round (n1 != n2) m1 m2 (e1 - e2)

/-- The comparison `a < b`; false when an argument is NaN. -/
def F32.lt : F32 → F32 → Bool
  | .nan, _ => false
  | _, .nan => false
  | .ninf, .ninf => false
  | .ninf, _ => true
  | _, .ninf => false
  | .pinf, _ => false
  | _, .pinf => true
  | .fin n1 m1 e1, .fin n2 m2 e2 =>
    decide (F32.aligned n1 m1 e1 (min e1 e2) < F32.aligned n2 m2 e2 (min e1 e2))

/-- The largest `r` with `r*r <= n` among the numbers below `2^bits` that extend `r`. -/
def isqrtAux (n : Nat) : Nat → Nat → Nat
  | 0, r => r
  | bits + 1, r => if (r + 2 ^ bits) * (r + 2 ^ bits) ≤ n then isqrtAux n bits (r + 2 ^ bits)
    else isqrtAux n bits r

/-- The correctly rounded square root. -/
def F32.sqrt : F32 → F32
  | .nan => .nan
  | .ninf => .nan
  | .pinf => .pinf
  | .fin neg m e =>
    if m = 0 then F32.zero
    else if neg then .nan
    else
      let k : Nat := if (e - 52) % 2 = 0 then 52 else 53
      let n := m <<< k
      let r := isqrtAux n 40 0
      F32.round false (2 * r + (if r * r = n then 0 else 1)) 2 ((e - k) / 2)

/-- The library test `isinf`. -/
def F32.isinf : F32 → Bool
  | .ninf => true
  | .pinf => true
  | _ => false

/-- The value of a finite `float` (zero for NaN and the infinities). -/
def F32.toRat : F32 → ℚ
  | .fin neg m e => (if neg then -1 else 1) * (m : ℚ) * (2 : ℚ) ^ e
  | _ => 0

/-- Whether a float is one of the finite values that binary32 stores: a significand below
`2^24` at an exponent from `-149` to `104`. -/
def F32.isStored : F32 → Bool
  | .fin _ m e => decide (m < 2 ^ 24 ∧ -149 ≤ e ∧ e ≤ 104)
  | _ => false

/-- Whether a float is finite: neither NaN nor an infinity. -/
def F32.isFinite : F32 → Bool
  | .fin _ _ _ => true
  | _ => false

/-- Whether a float is a stored finite value of magnitude at most one: `m * 2^e <= 1`,
compared as integers. -/
def F32.atMostOne : F32 → Bool
  | .fin _ m e => decide (m < 2 ^ 24 ∧ m <<< e.toNat ≤ 1 <<< (-e).toNat)
  | _ => false

instance : Add F32 := ⟨F32.add⟩
instance : Sub F32 := ⟨F32.sub⟩
instance : Mul F32 := ⟨F32.mul⟩
instance : Div F32 := ⟨F32.div⟩
instance : Neg F32 := ⟨F32.neg⟩
instance (n : Nat) : OfNat F32 n := ⟨F32.ofNat n⟩

/-! ## Vector.h, Common.h in binary32 -/

/-- Member `operator+` of a float vector, in binary32. -/
def Vector3f.add32 (a b : Vector3f F32) : Vector3f F32 := ⟨a.x + b.x, a.y + b.y, a.z + b.z⟩

/-- Member `operator-` of a float vector, in binary32. -/
def Vector3f.sub32 (a b : Vector3f F32) : Vector3f F32 := ⟨a.x - b.x, a.y - b.y, a.z - b.z⟩

/-- Member `operator*(float)`, in binary32. -/
def Vector3f.scale32 (a : Vector3f F32) (b : F32) : Vector3f F32 := ⟨a.x * b, a.y * b, a.z * b⟩

/-- Member `Multiply`, in binary32. -/
def Vector3f.Multiply32 (a b : Vector3f F32) : Vector3f F32 :=
  ⟨a.x * b.x, a.y * b.y, a.z * b.z⟩

/-- Member `Dot`, in binary32: the accumulator starts at zero and receives the three
products in order. -/
def Vector3f.Dot32 (a b : Vector3f F32) : F32 :=
  F32.zero + a.x * b.x + a.y * b.y + a.z * b.z

/-- Member `Length`, in binary32, with the library square root `sqrt`. -/
def Vector3f.Length32 (sqrt : F32 → F32) (a : Vector3f F32) : F32 :=
  sqrt (F32.zero + a.x * a.x + a.y * a.y + a.z * a.z)

/-- Member `Cross`, in binary32. -/
def Vector3f.Cross32 (a b : Vector3f F32) : Vector3f F32 :=
  ⟨a.y * b.z - a.z * b.y, a.z * b.x - a.x * b.z, a.x * b.y - a.y * b.x⟩

/-- Member `Normalize`, in binary32: `*this * (1/Length())`. -/
def Vector3f.Normalize32 (sqrt : F32 → F32) (a : Vector3f F32) : Vector3f F32 :=
  a.scale32 (F32.ofNat 1 / a.Length32 sqrt)

/-- Template `FLOAT_EQ` at `float`: `(a>b?a-b:b-a) < 0.0001F`, the difference rounded to
binary32 and the bound the binary32 literal. -/
def FLOAT_EQ32 (a b : F32) : Bool :=
  F32.lt (if F32.lt b a then a - b else b - a) (F32.ofRatio 1 10000)

/-- Member `Vector<float,N>::operator==`, in binary32. -/
def Vector.eqFloat32 (a b : List F32) : Bool := Vector.eq FLOAT_EQ32 a b

/-- Member `Vector<float,N>::operator!=`, in binary32. -/
def Vector.neFloat32 (a b : List F32) : Bool := !(Vector.eqFloat32 a b)

/-- Member `operator==` of a float vector of size three, in binary32. -/
def Vector3f.eq32 (a b : Vector3f F32) : Bool :=
  Vector.eqFloat32 [a.x, a.y, a.z] [b.x, b.y, b.z]

/-- Member `operator!=` of a float vector of size three, in binary32. -/
def Vector3f.ne32 (a b : Vector3f F32) : Bool := !(a.eq32 b)

/-- Whether the three components of a colour are finite. -/
def Vector3f.isFinite32 (c : Vector3f F32) : Bool :=
  c.x.isFinite && c.y.isFinite && c.z.isFinite

/-- Whether the three components of a colour are of magnitude at most one. -/
def Vector3f.atMostOne32 (c : Vector3f F32) : Bool :=
  c.x.atMostOne && c.y.atMostOne && c.z.atMostOne

/-! ## ScenePrimative.h, ScenePrimative.hpp in binary32 -/

/-- Class `Intersection`, its distance a `float`. -/
structure Intersection32 where
  distance : F32
  normal : Vector3f F32
  intersectionPosition : Vector3f F32
deriving DecidableEq

/-- Static member `Intersection::NO_INTERSECTION`. -/
def Intersection32.NO_INTERSECTION : Intersection32 :=
  ⟨.pinf, ⟨F32.zero, F32.zero, F32.zero⟩, ⟨F32.zero, F32.zero, F32.zero⟩⟩

/-- Member `Intersection::operator==`, in binary32. -/
def Intersection32.eq (a b : Intersection32) : Bool :=
  if a.distance.isinf && b.distance.isinf then true
  else FLOAT_EQ32 a.distance b.distance && a.normal.eq32 b.normal &&
    a.intersectionPosition.eq32 b.intersectionPosition

/-- Member `Intersection::operator<`, in binary32. -/
def Intersection32.lt (a b : Intersection32) : Bool := F32.lt a.distance b.distance

/-- Member `Sphere::Intersect`, in binary32, with the library square root `sqrt`. -/
def Sphere.Intersect32 (sqrt : F32 → F32) (s : Sphere F32) (ray : Ray F32) : Intersection32 :=
  let op := s.position.sub32 ray.origin
  let epsilon := F32.ofRatio 15 1000
  let b := op.Dot32 ray.direction
  let det_squared := b * b - op.Dot32 op + s.radius * s.radius
  if F32.lt det_squared F32.zero then Intersection32.NO_INTERSECTION
  else
    let det := sqrt det_squared
    let hit : F32 → Intersection32 := fun t =>
      let intersection := ray.origin.add32 (ray.direction.scale32 t)
      let normal := (intersection.sub32 s.position).Normalize32 sqrt
      ⟨t, normal, intersection⟩
    if F32.lt epsilon (b - det) then hit (b - det)
    else if F32.lt epsilon (b + det) then hit (b + det)
    else Intersection32.NO_INTERSECTION

/-- Member `ScenePrimative::Intersect`, in binary32. -/
def ScenePrimative.Intersect32 (sqrt : F32 → F32) (p : ScenePrimative F32) (ray : Ray F32) :
    Intersection32 :=
  p.sphere.Intersect32 sqrt ray

/-! ## Material.h, Renderer.cpp in binary32 -/

/-- The functions of the SYCL math library that the renderer calls at `float`. -/
structure MathOps32 where
  sqrt : F32 → F32
  cos : F32 → F32
  sin : F32 → F32
  pow : F32 → F32 → F32

/-- Function `fabs`. -/
def F32.abs : F32 → F32
  | .nan => .nan
  | .ninf => .pinf
  | .pinf => .pinf
  | .fin _ m e => .fin false m e

/-- The `float` with the bit pattern `ui`: sign bit 31, exponent field bits 30..23 with
bias 127, 23 mantissa bits. -/
def F32.ofBits (ui : Nat) : F32 :=
  let neg : Bool := decide (ui / 2 ^ 31 % 2 = 1)
  let ex : Nat := ui / 2 ^ 23 % 256
  let frac : Nat := ui % 2 ^ 23
  if ex = 255 then (if frac = 0 then (if neg then .ninf else .pinf) else .nan)
  else if ex = 0 then (if frac = 0 then F32.zero else .fin neg frac (-149))
  else .fin neg (2 ^ 23 + frac) ((ex : Int) - 150)

/-- The `float` nearest to `M_PI`: `static_cast<float>(M_PI)`. -/
def F32.pi : F32 := .fin false 13176795 (-22)

/-- Default constructor `Material()`, at `float`. -/
def Material.default32 : Material F32 :=
  ⟨⟨F32.zero, F32.zero, F32.zero⟩, ⟨F32.zero, F32.zero, F32.zero⟩, .DIFFUSE⟩

/-- Function `ClosestIntersection` in binary32, the loop from index `i` on with the current
`bestIntersection` and `*primativeId`. -/
def ClosestIntersectionLoop32 (sqrt : F32 → F32) (r : Ray F32) :
    List (ScenePrimative F32) → Nat → Intersection32 × Nat → Intersection32 × Nat
  | [], _, best => best
  | p :: ps, i, (bestIntersection, primativeId) =>
    let newIntersection := p.Intersect32 sqrt r
    if newIntersection.lt bestIntersection then
      ClosestIntersectionLoop32 sqrt r ps (i + 1) (newIntersection, i)
    else
      ClosestIntersectionLoop32 sqrt r ps (i + 1) (bestIntersection, primativeId)

/-- Function `ClosestIntersection` in binary32: the returned intersection and the value
left in `*primativeId`. -/
def ClosestIntersection32 (sqrt : F32 → F32) (r : Ray F32)
    (primatives : List (ScenePrimative F32)) : Intersection32 × Nat :=
  ClosestIntersectionLoop32 sqrt r primatives 0 (Intersection32.NO_INTERSECTION, 0)

/-- Function `GetRandom` in binary32: the returned float and the updated seed. -/
def GetRandom32 (seed : RenderRandomSeed) : F32 × RenderRandomSeed :=
  let s1 := (36969 * (seed.s1 &&& 65535) + (seed.s1 >>> 16)) % 2 ^ 32
  let s2 := (18000 * (seed.s2 &&& 65535) + (seed.s2 >>> 16)) % 2 ^ 32
  let ires := ((s1 <<< 16) + s2) % 2 ^ 32
  let ui := (ires &&& 0x007fffff) ||| 0x40000000
  ((F32.ofBits ui - 2) / 2, ⟨s1, s2⟩)

/-- The local `fixedNormal` of `SampleLight` in binary32: the normal turned against the
ray. -/
def facingNormal32 (intersection : Intersection32) (r : Ray F32) : Vector3f F32 :=
  if F32.lt (intersection.normal.Dot32 r.direction) F32.zero then intersection.normal
  else intersection.normal.scale32 (F32.neg 1)

/-- The mirror ray built in the `SPECULAR` branch and as `reflRay`, in binary32. -/
def reflectedRay32 (intersection : Intersection32) (r : Ray F32) : Ray F32 :=
  ⟨intersection.intersectionPosition,
    r.direction.sub32
      ((intersection.normal.scale32 2).scale32 (intersection.normal.Dot32 r.direction))⟩

/-- The `DIFFUSE` branch of the loop body in binary32: the ray on which the path continues
and the seed after the two draws. -/
def diffuseStep32 (m : MathOps32) (intersection : Intersection32) (r : Ray F32)
    (seed : RenderRandomSeed) : Ray F32 × RenderRandomSeed :=
  let fixedNormal := facingNormal32 intersection r
  let g1 := GetRandom32 seed
  let r1 := 2 * F32.pi * g1.1
  let g2 := GetRandom32 g1.2
  let r2 := g2.1
  let r2s := m.sqrt r2
  let w := fixedNormal
  let u := ((if F32.lt (F32.ofRatio 1 10) (F32.abs w.x) then (⟨0, 1, 0⟩ : Vector3f F32)
    else ⟨1, 0, 0⟩).Cross32 w).Normalize32 m.sqrt
  let v := w.Cross32 u
  let d := ((((u.scale32 (m.cos r1)).scale32 r2s).add32
    ((v.scale32 (m.sin r1)).scale32 r2s)).add32
      (w.scale32 (m.sqrt (1 - r2)))).Normalize32 m.sqrt
  (⟨intersection.intersectionPosition, d⟩, g2.2)

/-- The `REFRACTION` branch of the loop body in binary32, entered with the reflectance
already multiplied by the colour of the material: the ray on which the path continues,
the reflectance and the seed it leaves. -/
def refractionStep32 (m : MathOps32) (intersection : Intersection32) (r : Ray F32)
    (accumulatedReflectance : Color F32) (seed : RenderRandomSeed) :
    Ray F32 × Color F32 × RenderRandomSeed :=
  let fixedNormal := facingNormal32 intersection r
  let reflRay := reflectedRay32 intersection r
  let into := F32.lt F32.zero (intersection.normal.Dot32 fixedNormal)
  let nc : F32 := 1
  let nt : F32 := F32.ofRatio 15 10
  let nnt := if into then nc / nt else nt / nc
  let ddn := r.direction.Dot32 fixedNormal
  let cos2t := 1 - nnt * nnt * (1 - ddn * ddn)
  if F32.lt cos2t F32.zero then (reflRay, accumulatedReflectance, seed)
  else
    let tdir := ((r.direction.scale32 nnt).sub32 (intersection.normal.scale32
      ((if into then 1 else F32.neg 1) * (ddn * nnt + m.sqrt cos2t)))).Normalize32 m.sqrt
    let a := nt - nc
    let b := nt + nc
    let R0 := a * a / (b * b)
    let c := 1 - (if into then F32.neg ddn else tdir.Dot32 intersection.normal)
    let Re := R0 + (1 - R0) * c * c * c * c * c
    let Tr := 1 - Re
    let P := F32.ofRatio 25 100 + F32.ofRatio 5 10 * Re
    let RP := Re / P
    let TP := Tr / (1 - P)
    let g := GetRandom32 seed
    if F32.lt g.1 P then (reflRay, accumulatedReflectance.scale32 RP, g.2)
    else (⟨intersection.intersectionPosition, tdir⟩, accumulatedReflectance.scale32 TP, g.2)

/-- One iteration of the `while (1)` loop of `Renderer::SampleLight`, in binary32.  A read
of `materials` past its end has no defined behaviour in the program; the model reads a
default-constructed material there. -/
def SampleLightBody32 (m : MathOps32) (primatives : List (ScenePrimative F32))
    (materials : List (Material F32)) (st : PathState F32) : LoopStep F32 :=
  let found := ClosestIntersection32 m.sqrt st.r primatives
  let intersection := found.1
  let primativeId := found.2
  if intersection.eq Intersection32.NO_INTERSECTION then .ret st.accumulatedColor st.seed
  else
    let depth := st.depth + 1
    if depth > 7 then .ret st.accumulatedColor st.seed
    else
      let primative := primatives.getD primativeId
        ⟨⟨F32.zero, ⟨F32.zero, F32.zero, F32.zero⟩⟩, 0⟩
      let material := materials.getD primative.materialId Material.default32
      let BDRF := material.color
      let accumulatedColor :=
        st.accumulatedColor.add32 (st.accumulatedReflectance.Multiply32 material.emission)
      let accumulatedReflectance := st.accumulatedReflectance.Multiply32 BDRF
      match material.materialType with
      | .DIFFUSE =>
        let step := diffuseStep32 m intersection st.r st.seed
        .next ⟨step.1, depth, accumulatedColor, accumulatedReflectance, step.2⟩
      | .SPECULAR =>
        .next ⟨reflectedRay32 intersection st.r, depth, accumulatedColor,
          accumulatedReflectance, st.seed⟩
      | .REFRACTION =>
        let step := refractionStep32 m intersection st.r accumulatedReflectance st.seed
        .next ⟨step.1, depth, accumulatedColor, step.2.1, step.2.2⟩

/-- The `while (1)` loop of `SampleLight` in binary32, run for at most `fuel` iterations. -/
def SampleLightLoop32 (m : MathOps32) (primatives : List (ScenePrimative F32))
    (materials : List (Material F32)) :
    Nat → PathState F32 → Option (Color F32 × RenderRandomSeed)
  | 0, _ => none
  | fuel + 1, st =>
    match SampleLightBody32 m primatives materials st with
    | .ret c seed => some (c, seed)
    | .next st' => SampleLightLoop32 m primatives materials fuel st'

/-- The states in which the loop body of `SampleLight` is entered in binary32, in order,
for at most `fuel` iterations. -/
def SampleLightTrace32 (m : MathOps32) (primatives : List (ScenePrimative F32))
    (materials : List (Material F32)) : Nat → PathState F32 → List (PathState F32)
  | 0, _ => []
  | fuel + 1, st =>
    match SampleLightBody32 m primatives materials st with
    | .ret _ _ => [st]
    | .next st' => st :: SampleLightTrace32 m primatives materials fuel st'

/-- The state in which `SampleLight` enters its loop, in binary32. -/
def SampleLightInit32 (r : Ray F32) (seed : RenderRandomSeed) : PathState F32 :=
  ⟨r, 0, ⟨F32.zero, F32.zero, F32.zero⟩, ⟨1, 1, 1⟩, seed⟩

/-- Function `Renderer::SampleLight` in binary32: the returned colour and the seed left
behind the pointer; `none` only if the loop were still running after `fuel` iterations. -/
def SampleLight32 (m : MathOps32) (fuel : Nat) (r : Ray F32)
    (primatives : List (ScenePrimative F32)) (materials : List (Material F32))
    (seed : RenderRandomSeed) : Option (Color F32 × RenderRandomSeed) :=
  SampleLightLoop32 m primatives materials fuel (SampleLightInit32 r seed)

/-! ## Camera.hpp, Image.h in binary32 -/

/-- Member `Camera::GenerateLookForPixel` in binary32; `imageWidth-1` and `imageHeight-1`
are computed in 32-bit unsigned arithmetic before the conversion to float. -/
def Camera.GenerateLookForPixel32 (sqrt : F32 → F32) (cam : Camera F32)
    (pixelX pixelY imageWidth imageHeight : Nat) : Ray F32 :=
  let w := (cam.eye.sub32 cam.look).Normalize32 sqrt
  let u := (cam.up.Cross32 w).Normalize32 sqrt
  let v := (w.Cross32 u).Normalize32 sqrt
  let px := F32.ofNat pixelX / F32.ofNat ((imageWidth + 2 ^ 32 - 1) % 2 ^ 32) *
    (cam.right - cam.left) + cam.left
  let py := F32.ofNat pixelY / F32.ofNat ((imageHeight + 2 ^ 32 - 1) % 2 ^ 32) *
    (cam.top - cam.bottom) + cam.bottom
  let position :=
    ((cam.eye.sub32 (w.scale32 cam.focalLength)).add32 (u.scale32 px)).add32 (v.scale32 py)
  let direction := (position.sub32 cam.eye).Normalize32 sqrt
  ⟨position, direction⟩

/-- Template `CLAMP_0_1` at `float`: `x<0 ? 0 : x>1 ? 1 : x`; a NaN is returned as it is. -/
def CLAMP_0_1_32 (x : F32) : F32 :=
  if F32.lt x F32.zero then F32.zero else if F32.lt 1 x then 1 else x

/-- Member `Clamp`, in binary32. -/
def Vector3f.Clamp32 (a : Vector3f F32) : Vector3f F32 :=
  ⟨CLAMP_0_1_32 a.x, CLAMP_0_1_32 a.y, CLAMP_0_1_32 a.z⟩

/-- The conversion `static_cast<uint8>(float)`: truncation towards zero; `none` where the
conversion has no defined behaviour (NaN, an infinity, a truncated value outside
`[0, 255]`). -/
def toUint8_32 : F32 → Option Nat
  | .fin neg m e =>
    let t := if e ≥ 0 then m <<< e.toNat else m >>> (-e).toNat
    if t = 0 then some 0
    else if neg then none
    else if t < 256 then some t
    else none
  | _ => none

/-- Constructor `Pixel(const Color&)`, in binary32. -/
def Pixel.ofColor32 (c : Color F32) : Option Pixel :=
  let fixed := c.Clamp32
  match toUint8_32 (fixed.x * 255), toUint8_32 (fixed.y * 255), toUint8_32 (fixed.z * 255) with
  | some r, some g, some b => some ⟨r, g, b⟩
  | _, _, _ => none

/-- The lambda `gamma` of `Pixel::GammaCorrect`, in binary32. -/
def gamma32 (pow : F32 → F32 → F32) (color : Nat) : Option Nat :=
  toUint8_32 (255 * pow (F32.ofNat color / 255) (1 / F32.ofRatio 22 10) + F32.ofRatio 5 10)

/-- Member `Pixel::GammaCorrect`, in binary32. -/
def Pixel.GammaCorrect32 (pow : F32 → F32 → F32) (p : Pixel) : Option Pixel :=
  match gamma32 pow p.r, gamma32 pow p.g, gamma32 pow p.b with
  | some r, some g, some b => some ⟨r, g, b⟩
  | _, _, _ => none

/-! ## Renderer.cpp: the kernel in binary32 -/

/-- The sample loop of the kernel in binary32: `remaining` more passes of
`accumulatedColor += SampleLight(...) * (1.F/samplesPerPixel)`. -/
def SampleLoop32 (m : MathOps32) (fuel : Nat) (ray : Ray F32)
    (primatives : List (ScenePrimative F32)) (materials : List (Material F32))
    (samplesPerPixel : Nat) :
    Nat → Color F32 → RenderRandomSeed → Option (Color F32 × RenderRandomSeed)
  | 0, accumulatedColor, seed => some (accumulatedColor, seed)
  | remaining + 1, accumulatedColor, seed =>
    match SampleLight32 m fuel ray primatives materials seed with
    | none => none
    | some (c, seed') =>
      SampleLoop32 m fuel ray primatives materials samplesPerPixel remaining
        (accumulatedColor.add32 (c.scale32 (1 / F32.ofNat samplesPerPixel))) seed'

/-- The body of the kernel of `Renderer::RenderScene` in binary32 for the work item
`threadId`: the slot it writes and the pixel it writes there; `none` where a conversion
to `uint8` has no defined behaviour. -/
def RenderKernel32 (m : MathOps32) (fuel : Nat) (primatives : List (ScenePrimative F32))
    (materials : List (Material F32)) (cam : Camera F32)
    (samplesPerPixel pixelWidth pixelHeight : Nat) (threadId : Nat) : Option (Nat × Pixel) :=
  let x := threadId % pixelWidth
  let y := threadId / pixelWidth
  let seed : RenderRandomSeed := ⟨x, y⟩
  let ray := cam.GenerateLookForPixel32 m.sqrt x y pixelWidth pixelHeight
  match SampleLoop32 m fuel ray primatives materials samplesPerPixel samplesPerPixel
      ⟨F32.zero, F32.zero, F32.zero⟩ seed with
  | none => none
  | some (accumulatedColor, _) =>
    match Pixel.ofColor32 accumulatedColor with
    | none => none
    | some p =>
      match p.GammaCorrect32 m.pow with
      | none => none
      | some q => some (y * pixelWidth + x, q)

/-- The work items `threadId, threadId+1, ...` of the dispatch in binary32, `count` of
them, each writing its slot of the pixel buffer. -/
def RenderItems32 (m : MathOps32) (fuel : Nat) (primatives : List (ScenePrimative F32))
    (materials : List (Material F32)) (cam : Camera F32)
    (samplesPerPixel pixelWidth pixelHeight : Nat) :
    Nat → Nat → List Pixel → Option (List Pixel)
  | 0, _, pixels => some pixels
  | count + 1, threadId, pixels =>
    match RenderKernel32 m fuel primatives materials cam samplesPerPixel pixelWidth
        pixelHeight threadId with
    | none => none
    | some (slot, p) =>
      RenderItems32 m fuel primatives materials cam samplesPerPixel pixelWidth pixelHeight
        count (threadId + 1) (pixels.set slot p)

/-- Member `Renderer::RenderScene(scene, camera, samplesPerPixel, width, height)` in
binary32: one work item per id below `pixelCount`. -/
def RenderScene32 (m : MathOps32) (fuel : Nat) (primatives : List (ScenePrimative F32))
    (materials : List (Material F32)) (cam : Camera F32)
    (samplesPerPixel width height : Nat) : Option Image :=
  match RenderItems32 m fuel primatives materials cam samplesPerPixel width height
      (width * height % 2 ^ 32) 0 (Image.new width height).data with
  | none => none
  | some pixels => some ⟨width, height, pixels⟩

/-- The math library over the real numbers, every function exact. -/
noncomputable def realMath : MathOps ℝ :=
  ⟨Real.sqrt, Real.cos, Real.sin, fun x y => x ^ y, Real.pi⟩

/-! ## Sphere::Intersect -/

section SphereLemmas

/-- With a unit direction, the point `o + t*d` lies on the sphere exactly when
`(t - b)^2` equals the discriminant. -/
theorem onSphere_iff (s : Sphere ℝ) (ray : Ray ℝ)
    (hd : ray.direction.Dot ray.direction = 1) (t : ℝ) :
    (((ray.origin.add (ray.direction.scale t)).sub s.position).Dot
        ((ray.origin.add (ray.direction.scale t)).sub s.position) = s.radius * s.radius) ↔
      (t - (s.position.sub ray.origin).Dot ray.direction) *
          (t - (s.position.sub ray.origin).Dot ray.direction) =
        (s.position.sub ray.origin).Dot ray.direction *
            (s.position.sub ray.origin).Dot ray.direction -
          (s.position.sub ray.origin).Dot (s.position.sub ray.origin) +
            s.radius * s.radius := by
  simp only [Vector3f.Dot, Vector3f.add, Vector3f.sub, Vector3f.scale] at hd ⊢
  constructor
  · intro h
    linear_combination h - t ^ 2 * hd
  · intro h
    linear_combination h + t ^ 2 * hd

/-- The two roots of `(t - b)^2 = D` for `D ≥ 0`. -/
theorem sq_eq_iff_root (t b D : ℝ) (hD : 0 ≤ D) :
    (t - b) * (t - b) = D ↔ t = b - Real.sqrt D ∨ t = b + Real.sqrt D := by
  have hs := Real.mul_self_sqrt hD
  constructor
  · intro h
    have h2 : (t - b - Real.sqrt D) * (t - b + Real.sqrt D) = 0 := by
      linear_combination h - hs
    rcases mul_eq_zero.mp h2 with h3 | h3
    · right; linarith
    · left; linarith
  · rintro (h | h)
    · rw [h]; linear_combination hs
    · rw [h]; linear_combination hs

/-- The three outcomes of `Sphere::Intersect` over the reals. -/
theorem Sphere_Intersect_cases (s : Sphere ℝ) (ray : Ray ℝ) :
    let b := (s.position.sub ray.origin).Dot ray.direction
    let D := b * b - (s.position.sub ray.origin).Dot (s.position.sub ray.origin) +
      s.radius * s.radius
    let hit : ℝ → Intersection ℝ := fun t =>
      ⟨.fin t, ((ray.origin.add (ray.direction.scale t)).sub s.position).Normalize realMath,
        ray.origin.add (ray.direction.scale t)⟩
    (D < 0 ∧ s.Intersect realMath ray = Intersection.NO_INTERSECTION) ∨
    (0 ≤ D ∧ 15 / 1000 < b - Real.sqrt D ∧ s.Intersect realMath ray = hit (b - Real.sqrt D)) ∨
    (0 ≤ D ∧ b - Real.sqrt D ≤ 15 / 1000 ∧ 15 / 1000 < b + Real.sqrt D ∧
      s.Intersect realMath ray = hit (b + Real.sqrt D)) ∨
    (0 ≤ D ∧ b - Real.sqrt D ≤ 15 / 1000 ∧ b + Real.sqrt D ≤ 15 / 1000 ∧
      s.Intersect realMath ray = Intersection.NO_INTERSECTION) := by
  intro b D hit
  by_cases h1 : D < 0
  · left
    refine ⟨h1, ?_⟩
    simp only [Sphere.Intersect]
    rw [if_pos h1]
  · right
    have h1' : 0 ≤ D := not_lt.mp h1
    by_cases h2 : 15 / 1000 < b - Real.sqrt D
    · left
      refine ⟨h1', h2, ?_⟩
      simp only [Sphere.Intersect, realMath]
      rw [if_neg h1, if_pos h2]
      rfl
    · right
      have h2' : b - Real.sqrt D ≤ 15 / 1000 := not_lt.mp h2
      by_cases h3 : 15 / 1000 < b + Real.sqrt D
      · left
        refine ⟨h1', h2', h3, ?_⟩
        simp only [Sphere.Intersect, realMath]
        rw [if_neg h1, if_neg h2, if_pos h3]
        rfl
      · right
        refine ⟨h1', h2', not_lt.mp h3, ?_⟩
        simp only [Sphere.Intersect, realMath]
        rw [if_neg h1, if_neg h2, if_neg h3]

/-- Summary of `Sphere::Intersect` for a unit direction: either a miss and no
admissible point of the sphere on the ray, or the hit at the least admissible root. -/
theorem Sphere_Intersect_summary (s : Sphere ℝ) (ray : Ray ℝ)
    (hd : ray.direction.Dot ray.direction = 1) :
    let onS : ℝ → Prop := fun t =>
      ((ray.origin.add (ray.direction.scale t)).sub s.position).Dot
        ((ray.origin.add (ray.direction.scale t)).sub s.position) = s.radius * s.radius
    let b := (s.position.sub ray.origin).Dot ray.direction
    let D := b * b - (s.position.sub ray.origin).Dot (s.position.sub ray.origin) +
      s.radius * s.radius
    (s.Intersect realMath ray = Intersection.NO_INTERSECTION ∧
        ∀ t : ℝ, 15 / 1000 < t → ¬ onS t) ∨
    (∃ t : ℝ, s.Intersect realMath ray =
          ⟨.fin t, ((ray.origin.add (ray.direction.scale t)).sub s.position).Normalize realMath,
            ray.origin.add (ray.direction.scale t)⟩ ∧
        15 / 1000 < t ∧ onS t ∧ (∀ t' : ℝ, 15 / 1000 < t' → onS t' → t ≤ t') ∧
        t = (if 15 / 1000 < b - Real.sqrt D then b - Real.sqrt D else b + Real.sqrt D)) := by
  intro onS b D
  have hon : ∀ t, onS t ↔ (t - b) * (t - b) = D := fun t => onSphere_iff s ray hd t
  have hc := Sphere_Intersect_cases s ray
  dsimp only at hc
  rcases hc with ⟨hD, hI⟩ | ⟨hD, h1, hI⟩ | ⟨hD, h1, h2, hI⟩ | ⟨hD, h1, h2, hI⟩
  · left
    refine ⟨hI, fun t _ ht => ?_⟩
    have := (hon t).mp ht
    have h0 := mul_self_nonneg (t - b)
    change D < 0 at hD
    linarith
  · right
    change 0 ≤ D at hD
    change 15 / 1000 < b - Real.sqrt D at h1
    have hs := Real.sqrt_nonneg D
    refine ⟨b - Real.sqrt D, hI, h1, (hon _).mpr ((sq_eq_iff_root _ _ _ hD).mpr (Or.inl rfl)),
      fun t' _ ht' => ?_, ?_⟩
    · rcases (sq_eq_iff_root _ _ _ hD).mp ((hon t').mp ht') with h | h <;> linarith
    · rw [if_pos h1]
  · right
    change 0 ≤ D at hD
    change b - Real.sqrt D ≤ 15 / 1000 at h1
    change 15 / 1000 < b + Real.sqrt D at h2
    refine ⟨b + Real.sqrt D, hI, h2, (hon _).mpr ((sq_eq_iff_root _ _ _ hD).mpr (Or.inr rfl)),
      fun t' ht1 ht' => ?_, ?_⟩
    · rcases (sq_eq_iff_root _ _ _ hD).mp ((hon t').mp ht') with h | h <;> linarith
    · rw [if_neg (not_lt.mpr h1)]
  · left
    change 0 ≤ D at hD
    change b - Real.sqrt D ≤ 15 / 1000 at h1
    change b + Real.sqrt D ≤ 15 / 1000 at h2
    refine ⟨hI, fun t ht1 ht => ?_⟩
    rcases (sq_eq_iff_root _ _ _ hD).mp ((hon t).mp ht) with h | h <;> linarith

/-- For a ray through the centre (`c = o + k*d`, `d` a unit vector) the source's
`b` is `k` and the discriminant is `r*r`. -/
theorem through_centre (s : Sphere ℝ) (ray : Ray ℝ)
    (hd : ray.direction.Dot ray.direction = 1) (k : ℝ)
    (hc : s.position = ray.origin.add (ray.direction.scale k)) :
    (s.position.sub ray.origin).Dot ray.direction = k ∧
    (s.position.sub ray.origin).Dot ray.direction *
          (s.position.sub ray.origin).Dot ray.direction -
        (s.position.sub ray.origin).Dot (s.position.sub ray.origin) +
      s.radius * s.radius = s.radius * s.radius := by
  rw [hc]
  simp only [Vector3f.Dot, Vector3f.add, Vector3f.sub, Vector3f.scale] at hd ⊢
  constructor
  · linear_combination k * hd
  · linear_combination (k ^ 2 * (ray.direction.x * ray.direction.x +
      ray.direction.y * ray.direction.y + ray.direction.z * ray.direction.z)) * hd

/-- The unit sphere at the origin, met by the ray from `(0,0,-3)` along `(0,0,1)`:
the hit is at distance two, at the pole `(0,0,-1)`. -/
theorem unitSphere_hit :
    Sphere.Intersect realMath ⟨1, ⟨0, 0, 0⟩⟩ ⟨⟨0, 0, -3⟩, ⟨0, 0, 1⟩⟩ =
      ⟨.fin 2, ⟨0, 0, -1⟩, ⟨0, 0, -1⟩⟩ := by
  norm_num [Sphere.Intersect, realMath, Vector3f.Dot, Vector3f.sub, Vector3f.add,
    Vector3f.scale, Vector3f.Normalize, Vector3f.Length]

end SphereLemmas

/-! ## Sphere::Intersect in exact arithmetic: the contract -/

/-- A sphere of negative radius, in exact arithmetic: for the sphere of radius `-1` centred
at the origin and the ray from `(0,0,-2)` along the unit vector `(0,0,1)` (through the
centre, `k = 2 > r + 0.015`) `Sphere::Intersect` returns the distance `1 = k - |r|`, not
`k - r = 3`. -/
theorem Sphere_Intersect_through_centre_counterexample :
    (⟨0, 0, 1⟩ : Vector3f ℝ).Dot ⟨0, 0, 1⟩ = 1 ∧
    (⟨0, 0, 0⟩ : Vector3f ℝ) = (⟨0, 0, -2⟩ : Vector3f ℝ).add (Vector3f.scale ⟨0, 0, 1⟩ 2) ∧
    (-1 : ℝ) + 15 / 1000 < 2 ∧
    (Sphere.Intersect realMath ⟨-1, ⟨0, 0, 0⟩⟩ ⟨⟨0, 0, -2⟩, ⟨0, 0, 1⟩⟩).distance = .fin 1 ∧
    (Sphere.Intersect realMath ⟨-1, ⟨0, 0, 0⟩⟩ ⟨⟨0, 0, -2⟩, ⟨0, 0, 1⟩⟩).distance ≠
      .fin (2 - (-1)) := by
  have h : Sphere.Intersect realMath ⟨-1, ⟨0, 0, 0⟩⟩ ⟨⟨0, 0, -2⟩, ⟨0, 0, 1⟩⟩ =
      ⟨.fin 1, ⟨0, 0, -1⟩, ⟨0, 0, -1⟩⟩ := by
    norm_num [Sphere.Intersect, realMath, Vector3f.Dot, Vector3f.sub, Vector3f.add,
      Vector3f.scale, Vector3f.Normalize, Vector3f.Length]
  refine ⟨by simp [Vector3f.Dot], by simp [Vector3f.add, Vector3f.scale], by norm_num,
    by rw [h], ?_⟩
  rw [h]
  simp only [ne_eq, ExtFloat.fin.injEq]
  norm_num

/-- The contract of `Sphere::Intersect` in exact arithmetic (the program read over the real
numbers, without rounding): for a unit direction it returns the sentinel exactly when no
`t > 0.015` puts `o + t*d` on the sphere; otherwise the distance is the least such `t`
(the smaller root `b - sqrt(disc)` if it exceeds `0.015`, else the larger root), with hit
position `o + t*d`; every returned distance is `+inf` or greater than `0.015`; and for a
ray through the centre starting at distance `k > |r| + 0.015` the distance is `k - |r|`.
In binary32 the discriminant is rounded and the equivalence is lost, see
`Sphere.Intersect32`. -/
theorem Sphere_Intersect_contract (s : Sphere ℝ) (ray : Ray ℝ)
    (hd : ray.direction.Dot ray.direction = 1) :
    let I := s.Intersect realMath ray
    let onS : ℝ → Prop := fun t =>
      ((ray.origin.add (ray.direction.scale t)).sub s.position).Dot
        ((ray.origin.add (ray.direction.scale t)).sub s.position) = s.radius * s.radius
    let b := (s.position.sub ray.origin).Dot ray.direction
    let D := b * b - (s.position.sub ray.origin).Dot (s.position.sub ray.origin) +
      s.radius * s.radius
    (I = Intersection.NO_INTERSECTION ↔ ¬ ∃ t : ℝ, 15 / 1000 < t ∧ onS t) ∧
    ((∃ t : ℝ, 15 / 1000 < t ∧ onS t) →
      ∃ t : ℝ, I.distance = .fin t ∧ 15 / 1000 < t ∧ onS t ∧
        (∀ t' : ℝ, 15 / 1000 < t' → onS t' → t ≤ t') ∧
        t = (if 15 / 1000 < b - Real.sqrt D then b - Real.sqrt D else b + Real.sqrt D) ∧
        I.intersectionPosition = ray.origin.add (ray.direction.scale t)) ∧
    (I.distance = .pinf ∨ ∃ t : ℝ, I.distance = .fin t ∧ 15 / 1000 < t) ∧
    (∀ k : ℝ, s.position = ray.origin.add (ray.direction.scale k) →
      |s.radius| + 15 / 1000 < k → I.distance = .fin (k - |s.radius|)) := by
  intro I onS b D
  have hon : ∀ t, onS t ↔ (t - b) * (t - b) = D := fun t => onSphere_iff s ray hd t
  have hcentre : ∀ k : ℝ, s.position = ray.origin.add (ray.direction.scale k) →
      |s.radius| + 15 / 1000 < k →
      Real.sqrt D = |s.radius| ∧ b = k ∧ onS (k - |s.radius|) := by
    intro k hc _
    obtain ⟨hb, hD⟩ := through_centre s ray hd k hc
    have hD' : D = s.radius * s.radius := hD
    have hb' : b = k := hb
    refine ⟨by rw [hD']; exact Real.sqrt_mul_self_eq_abs _, hb', (hon _).mpr ?_⟩
    rw [hb', hD']
    have := abs_mul_abs_self s.radius
    linear_combination this
  have hs := Sphere_Intersect_summary s ray hd
  dsimp only at hs
  rcases hs with ⟨hI, hno⟩ | ⟨t, hI, ht, hont, hleast, hite⟩
  · have hI' : I = Intersection.NO_INTERSECTION := hI
    refine ⟨⟨fun _ ⟨t, h1, h2⟩ => hno t h1 h2, fun _ => hI'⟩, ?_, ?_, ?_⟩
    · rintro ⟨t, h1, h2⟩
      exact absurd h2 (hno t h1)
    · left
      rw [hI']
      rfl
    · intro k hc hk
      obtain ⟨_, _, h3⟩ := hcentre k hc hk
      exact absurd h3 (hno _ (by linarith))
  · have hI' : I = ⟨.fin t,
        ((ray.origin.add (ray.direction.scale t)).sub s.position).Normalize realMath,
        ray.origin.add (ray.direction.scale t)⟩ := hI
    refine ⟨⟨fun h => ?_, fun h => absurd ⟨t, ht, hont⟩ h⟩, ?_, ?_, ?_⟩
    · rw [hI'] at h
      simp [Intersection.NO_INTERSECTION] at h
    · intro _
      exact ⟨t, by rw [hI'], ht, hont, hleast, hite, by rw [hI']⟩
    · right
      exact ⟨t, by rw [hI'], ht⟩
    · intro k hc hk
      obtain ⟨h1, h2, _⟩ := hcentre k hc hk
      have hite' : t = (if 15 / 1000 < b - Real.sqrt D then b - Real.sqrt D
          else b + Real.sqrt D) := hite
      rw [h1, h2, if_pos (by linarith)] at hite'
      rw [hI', hite']

/-- Example for the contract in exact arithmetic: the unit sphere at the origin and the ray
from `(0,0,-3)` towards `(0,0,1)`. -/
theorem Sphere_Intersect_contract_witness :
    (Sphere.Intersect realMath ⟨1, ⟨0, 0, 0⟩⟩ ⟨⟨0, 0, -3⟩, ⟨0, 0, 1⟩⟩).distance =
      .fin ((3 : ℝ) - |(1 : ℝ)|) :=
  (Sphere_Intersect_contract ⟨1, ⟨0, 0, 0⟩⟩ ⟨⟨0, 0, -3⟩, ⟨0, 0, 1⟩⟩
    (by simp [Vector3f.Dot])).2.2.2 3 (by simp [Vector3f.add, Vector3f.scale]) (by norm_num)

/-! ## Claim C7 -/

/-- C7: two intersections whose distances are infinite compare equal under
`operator==` (and not unequal under `operator!=`) whatever their normal and position
fields hold; in particular every result of `Sphere::Intersect` with an infinite
distance compares equal to `NO_INTERSECTION()`. -/
theorem Intersection_eq_of_isinf {F : Type} [LinearOrderedField F] :
    (∀ a b : Intersection F, a.distance.isinf = true → b.distance.isinf = true →
      a.eq b = true ∧ a.ne b = false) ∧
    (∀ (m : MathOps F) (s : Sphere F) (ray : Ray F),
      (s.Intersect m ray).distance.isinf = true →
        (s.Intersect m ray).eq Intersection.NO_INTERSECTION = true ∧
        (ScenePrimative.Intersect m ⟨s, 0⟩ ray).eq Intersection.NO_INTERSECTION = true) := by
  have key : ∀ a b : Intersection F, a.distance.isinf = true → b.distance.isinf = true →
      a.eq b = true := by
    intro a b ha hb
    simp [Intersection.eq, ha, hb]
  refine ⟨fun a b ha hb => ⟨key a b ha hb, by simp [Intersection.ne, key a b ha hb]⟩, ?_⟩
  intro m s ray h
  exact ⟨key _ _ h rfl, key _ _ h rfl⟩

/-- Witness for C7: a `+inf` and a `-inf` intersection with different payloads. -/
theorem Intersection_eq_of_isinf_witness :
    Intersection.eq (⟨.pinf, ⟨1, 2, 3⟩, ⟨4, 5, 6⟩⟩ : Intersection ℚ)
      ⟨.ninf, ⟨0, 0, 0⟩, ⟨7, 8, 9⟩⟩ = true :=
  (Intersection_eq_of_isinf.1 ⟨.pinf, ⟨1, 2, 3⟩, ⟨4, 5, 6⟩⟩ ⟨.ninf, ⟨0, 0, 0⟩, ⟨7, 8, 9⟩⟩ rfl rfl).1

/-! ## Sphere::Intersect in exact arithmetic: a ray that points away -/

/-- In exact arithmetic, when the origin is outside the sphere (`|c - o|^2 > r^2`) and the
direction points away (`(c - o).d <= 0`), `Sphere::Intersect` returns the sentinel.  In
binary32 the rounded discriminant can give a hit, see `Sphere.Intersect32`. -/
theorem Sphere_Intersect_outside_away (s : Sphere ℝ) (ray : Ray ℝ)
    (hout : (s.position.sub ray.origin).Dot (s.position.sub ray.origin) >
      s.radius * s.radius)
    (haway : (s.position.sub ray.origin).Dot ray.direction ≤ 0) :
    s.Intersect realMath ray = Intersection.NO_INTERSECTION := by
  have hc := Sphere_Intersect_cases s ray
  dsimp only at hc
  generalize hb : (s.position.sub ray.origin).Dot ray.direction = b at hc haway
  generalize hD : b * b - (s.position.sub ray.origin).Dot (s.position.sub ray.origin) +
    s.radius * s.radius = D at hc
  have hlt : D < b * b := by rw [← hD]; linarith
  rcases hc with ⟨_, hI⟩ | ⟨h0, h1, _⟩ | ⟨h0, _, h2, _⟩ | ⟨_, _, _, hI⟩
  · exact hI
  · have := Real.sqrt_nonneg D
    linarith
  · have h3 : Real.sqrt D < Real.sqrt (b * b) := Real.sqrt_lt_sqrt h0 hlt
    rw [Real.sqrt_mul_self_eq_abs, abs_of_nonpos haway] at h3
    linarith
  · exact hI

/-- Example in exact arithmetic: the sphere and the ray of the repository's `SphereTest`. -/
theorem Sphere_Intersect_outside_away_witness :
    Sphere.Intersect realMath ⟨2, ⟨3, 3, 3⟩⟩ ⟨⟨0, 0, 0⟩, ⟨1, 2, -3⟩⟩ =
      Intersection.NO_INTERSECTION :=
  Sphere_Intersect_outside_away ⟨2, ⟨3, 3, 3⟩⟩ ⟨⟨0, 0, 0⟩, ⟨1, 2, -3⟩⟩
    (by simp only [Vector3f.Dot, Vector3f.sub]; norm_num)
    (by simp only [Vector3f.Dot, Vector3f.sub]; norm_num)

/-! ## Sphere::Intersect in exact arithmetic: the normal -/

/-- In exact arithmetic, for a radius `r > 0` and a unit-direction ray that hits, the
returned normal is `(hit - centre)/r`, it has length one, and the hit position is on the
sphere surface (`|hit - centre| = r`).  In binary32 these hold up to rounding at best, see
`Sphere.Intersect32`. -/
theorem Sphere_Intersect_normal (s : Sphere ℝ) (ray : Ray ℝ) (hr : 0 < s.radius)
    (hd : ray.direction.Dot ray.direction = 1)
    (hhit : s.Intersect realMath ray ≠ Intersection.NO_INTERSECTION) :
    (s.Intersect realMath ray).normal =
      ⟨((s.Intersect realMath ray).intersectionPosition.x - s.position.x) / s.radius,
       ((s.Intersect realMath ray).intersectionPosition.y - s.position.y) / s.radius,
       ((s.Intersect realMath ray).intersectionPosition.z - s.position.z) / s.radius⟩ ∧
    (s.Intersect realMath ray).normal.Length realMath = 1 ∧
    ((s.Intersect realMath ray).intersectionPosition.sub s.position).Length realMath =
      s.radius := by
  have hs := Sphere_Intersect_summary s ray hd
  dsimp only at hs
  rcases hs with ⟨hI, _⟩ | ⟨t, hI, _, hont, _, _⟩
  · exact absurd hI hhit
  · rw [hI]
    dsimp only
    generalize ray.origin.add (ray.direction.scale t) = p at hont
    have hlen : (p.sub s.position).Length realMath = s.radius := by
      simp only [Vector3f.Length, realMath]
      simp only [Vector3f.Dot] at hont
      rw [hont, Real.sqrt_mul_self hr.le]
    have hnorm : (p.sub s.position).Normalize realMath =
        ⟨(p.x - s.position.x) / s.radius, (p.y - s.position.y) / s.radius,
          (p.z - s.position.z) / s.radius⟩ := by
      rw [Vector3f.Normalize, hlen]
      simp only [Vector3f.scale, Vector3f.sub, mul_one_div]
    refine ⟨hnorm, ?_, hlen⟩
    rw [hnorm]
    simp only [Vector3f.Length, realMath]
    simp only [Vector3f.Dot, Vector3f.sub] at hont
    have hr' : s.radius ≠ 0 := hr.ne'
    have : (p.x - s.position.x) / s.radius * ((p.x - s.position.x) / s.radius) +
        (p.y - s.position.y) / s.radius * ((p.y - s.position.y) / s.radius) +
        (p.z - s.position.z) / s.radius * ((p.z - s.position.z) / s.radius) = 1 := by
      field_simp
      linear_combination hont
    rw [this, Real.sqrt_one]

/-- Example in exact arithmetic: the unit sphere at the origin, hit from `(0,0,-3)` along
`(0,0,1)`. -/
theorem Sphere_Intersect_normal_witness :
    (Sphere.Intersect realMath ⟨1, ⟨0, 0, 0⟩⟩ ⟨⟨0, 0, -3⟩, ⟨0, 0, 1⟩⟩).normal.Length
      realMath = 1 :=
  (Sphere_Intersect_normal ⟨1, ⟨0, 0, 0⟩⟩ ⟨⟨0, 0, -3⟩, ⟨0, 0, 1⟩⟩ (by norm_num)
    (by simp [Vector3f.Dot])
    (by rw [unitSphere_hit]; simp [Intersection.NO_INTERSECTION])).2.1

/-! ## Claim C2 -/

section ClosestLemmas

variable {F : Type} [LinearOrderedField F]

/-- No distance is smaller than itself. -/
theorem ExtFloat_lt_self (a : ExtFloat F) : a.lt a = false := by
  cases a <;> simp [ExtFloat.lt]

/-- The comparison of distances is transitive. -/
theorem ExtFloat_lt_transitive {a b c : ExtFloat F} (h1 : a.lt b = true) (h2 : b.lt c = true) :
    a.lt c = true := by
  cases a <;> cases b <;> cases c <;> simp_all [ExtFloat.lt]
  exact lt_trans h1 h2

/-- A distance below `b` is below everything that is not below `b`. -/
theorem ExtFloat_lt_of_lt_of_not_lt {a b c : ExtFloat F} (h1 : a.lt b = true)
    (h2 : c.lt b = false) : a.lt c = true := by
  cases a <;> cases b <;> cases c <;> simp_all [ExtFloat.lt]
  exact lt_of_lt_of_le h1 h2

/-- Two distances, neither below the other, are equal. -/
theorem ExtFloat_eq_of_not_lt {a b : ExtFloat F} (h1 : a.lt b = false) (h2 : b.lt a = false) :
    a = b := by
  cases a <;> cases b <;> simp_all [ExtFloat.lt]
  exact le_antisymm h2 h1

/-- Only `+inf` has nothing below `+inf`. -/
theorem ExtFloat_not_lt_pinf {a : ExtFloat F} (h : a.lt .pinf = false) : a = .pinf := by
  cases a <;> simp_all [ExtFloat.lt]

/-- No intersection is better than itself. -/
theorem Intersection_lt_self (a : Intersection F) : a.lt a = false :=
  ExtFloat_lt_self _

/-- The order `operator<` on intersections is transitive. -/
theorem Intersection_lt_transitive {a b c : Intersection F} (h1 : a.lt b = true)
    (h2 : b.lt c = true) : a.lt c = true :=
  ExtFloat_lt_transitive h1 h2

/-- An intersection better than `b` is better than everything not better than `b`. -/
theorem Intersection_lt_of_lt_of_not_lt {a b c : Intersection F} (h1 : a.lt b = true)
    (h2 : c.lt b = false) : a.lt c = true :=
  ExtFloat_lt_of_lt_of_not_lt h1 h2

/-- A result of `Sphere::Intersect` is the sentinel or has a finite distance. -/
theorem Sphere_Intersect_sentinel_or_fin (m : MathOps F) (s : Sphere F) (ray : Ray F) :
    s.Intersect m ray = Intersection.NO_INTERSECTION ∨
      ∃ t, (s.Intersect m ray).distance = .fin t := by
  simp only [Sphere.Intersect]
  split_ifs
  · left; rfl
  · right; exact ⟨_, rfl⟩
  · right; exact ⟨_, rfl⟩
  · left; rfl

/-- The loop of `ClosestIntersection`: either nothing in the rest of the list beats the
current best, which is returned unchanged, or the result is the first element of the
rest whose distance is minimal. -/
theorem ClosestIntersectionLoop_spec (m : MathOps F) (r : Ray F)
    (ps : List (ScenePrimative F)) :
    ∀ (i : Nat) (best : Intersection F) (id : Nat),
      (ClosestIntersectionLoop m r ps i (best, id) = (best, id) ∧
        ∀ q ∈ ps, (q.Intersect m r).lt best = false) ∨
      (∃ k p, ps[k]? = some p ∧
        ClosestIntersectionLoop m r ps i (best, id) = (p.Intersect m r, i + k) ∧
        (p.Intersect m r).lt best = true ∧
        (∀ (j : Nat) (q : ScenePrimative F), ps[j]? = some q → (q.Intersect m r).lt (p.Intersect m r) = false) ∧
        (∀ (j : Nat) (q : ScenePrimative F), j < k → ps[j]? = some q →
          (p.Intersect m r).lt (q.Intersect m r) = true)) := by
  induction ps with
  | nil =>
    intro i best id
    left
    exact ⟨rfl, by simp⟩
  | cons p ps ih =>
    intro i best id
    by_cases hlt : (p.Intersect m r).lt best = true
    · have hstep : ClosestIntersectionLoop m r (p :: ps) i (best, id) =
          ClosestIntersectionLoop m r ps (i + 1) (p.Intersect m r, i) := by
        simp only [ClosestIntersectionLoop, hlt, if_true]
      right
      rcases ih (i + 1) (p.Intersect m r) i with ⟨h1, h2⟩ | ⟨k, q, hk, h1, h2, h3, h4⟩
      · refine ⟨0, p, by simp, by rw [hstep, h1]; rfl, hlt, ?_, ?_⟩
        · intro j q hq
          cases j with
          | zero =>
            simp only [List.getElem?_cons_zero, Option.some.injEq] at hq
            rw [← hq]
            exact Intersection_lt_self _
          | succ j =>
            simp only [List.getElem?_cons_succ] at hq
            exact h2 q (List.getElem?_mem hq)
        · intro j q hj
          exact absurd hj (Nat.not_lt_zero j)
      · refine ⟨k + 1, q, by simpa using hk, by rw [hstep, h1]; congr 1; omega,
          Intersection_lt_transitive h2 hlt, ?_, ?_⟩
        · intro j q' hq'
          cases j with
          | zero =>
            simp only [List.getElem?_cons_zero, Option.some.injEq] at hq'
            rw [← hq']
            cases hc : (p.Intersect m r).lt (q.Intersect m r) with
            | false => rfl
            | true =>
              have := Intersection_lt_transitive hc h2
              rw [Intersection_lt_self] at this
              exact absurd this (by simp)
          | succ j =>
            simp only [List.getElem?_cons_succ] at hq'
            exact h3 j q' hq'
        · intro j q' hj hq'
          cases j with
          | zero =>
            simp only [List.getElem?_cons_zero, Option.some.injEq] at hq'
            rw [← hq']
            exact h2
          | succ j =>
            simp only [List.getElem?_cons_succ] at hq'
            exact h4 j q' (by omega) hq'
    · have hlt' : (p.Intersect m r).lt best = false := by
        cases h : (p.Intersect m r).lt best with
        | false => rfl
        | true => exact absurd h hlt
      have hstep : ClosestIntersectionLoop m r (p :: ps) i (best, id) =
          ClosestIntersectionLoop m r ps (i + 1) (best, id) := by
        simp only [ClosestIntersectionLoop, hlt', Bool.false_eq_true, if_false]
      rcases ih (i + 1) best id with ⟨h1, h2⟩ | ⟨k, q, hk, h1, h2, h3, h4⟩
      · left
        refine ⟨by rw [hstep, h1], ?_⟩
        intro q hq
        rcases List.mem_cons.mp hq with h | h
        · rw [h]; exact hlt'
        · exact h2 q h
      · right
        refine ⟨k + 1, q, by simpa using hk, by rw [hstep, h1]; congr 1; omega, h2, ?_, ?_⟩
        · intro j q' hq'
          cases j with
          | zero =>
            simp only [List.getElem?_cons_zero, Option.some.injEq] at hq'
            rw [← hq']
            cases hc : (p.Intersect m r).lt (q.Intersect m r) with
            | false => rfl
            | true =>
              have := Intersection_lt_transitive hc h2
              rw [hlt'] at this
              exact absurd this (by simp)
          | succ j =>
            simp only [List.getElem?_cons_succ] at hq'
            exact h3 j q' hq'
        · intro j q' hj hq'
          cases j with
          | zero =>
            simp only [List.getElem?_cons_zero, Option.some.injEq] at hq'
            rw [← hq']
            exact Intersection_lt_of_lt_of_not_lt h2 hlt'
          | succ j =>
            simp only [List.getElem?_cons_succ] at hq'
            exact h4 j q' (by omega) hq'

end ClosestLemmas

/-- C2: `ClosestIntersection` returns the sentinel when every primitive misses (so also
for the empty list); otherwise it returns `primitives[i].Intersect(ray)` and the id `i`,
where no primitive is closer than primitive `i` and every primitive before `i` has a
different (hence larger) distance; a finite result comes with an id below the
primitive count. -/
theorem ClosestIntersection_spec {F : Type} [LinearOrderedField F] (m : MathOps F)
    (r : Ray F) (prims : List (ScenePrimative F)) :
    ((∀ p ∈ prims, p.Intersect m r = Intersection.NO_INTERSECTION) →
      ClosestIntersection m r prims = (Intersection.NO_INTERSECTION, 0)) ∧
    ClosestIntersection m r [] = (Intersection.NO_INTERSECTION, 0) ∧
    ((∃ p ∈ prims, p.Intersect m r ≠ Intersection.NO_INTERSECTION) →
      ∃ (i : Nat) (p : ScenePrimative F), prims[i]? = some p ∧
        ClosestIntersection m r prims = (p.Intersect m r, i) ∧
        (∀ (j : Nat) (q : ScenePrimative F), prims[j]? = some q →
          (q.Intersect m r).lt (p.Intersect m r) = false) ∧
        (∀ (j : Nat) (q : ScenePrimative F), j < i → prims[j]? = some q →
          (q.Intersect m r).distance ≠ (p.Intersect m r).distance ∧
          (p.Intersect m r).lt (q.Intersect m r) = true)) ∧
    (∀ t : F, (ClosestIntersection m r prims).1.distance = .fin t →
      (ClosestIntersection m r prims).2 < prims.length) := by
  have hspec := ClosestIntersectionLoop_spec m r prims 0 Intersection.NO_INTERSECTION 0
  have hmiss : ∀ q : ScenePrimative F,
      (q.Intersect m r).lt Intersection.NO_INTERSECTION = false →
      q.Intersect m r = Intersection.NO_INTERSECTION := by
    intro q hq
    have hd : (q.Intersect m r).distance = .pinf := ExtFloat_not_lt_pinf hq
    rcases Sphere_Intersect_sentinel_or_fin m q.sphere r with h | ⟨t, h⟩
    · exact h
    · have h' : (q.Intersect m r).distance = .fin t := h
      rw [hd] at h'
      exact absurd h' (by simp)
  refine ⟨?_, rfl, ?_, ?_⟩
  · intro hall
    rcases hspec with ⟨h1, _⟩ | ⟨k, p, hk, _, h2, _, _⟩
    · exact h1
    · rw [hall p (List.getElem?_mem hk), Intersection_lt_self] at h2
      exact absurd h2 (by simp)
  · rintro ⟨p, hp, hne⟩
    rcases hspec with ⟨_, h2⟩ | ⟨k, q, hk, h1, _, h3, h4⟩
    · exact absurd (hmiss p (h2 p hp)) hne
    · refine ⟨k, q, hk, by rw [ClosestIntersection, h1, Nat.zero_add], h3, ?_⟩
      intro j q' hj hq'
      have hlt := h4 j q' hj hq'
      refine ⟨fun heq => ?_, hlt⟩
      have hlt' : (q.Intersect m r).distance.lt (q'.Intersect m r).distance = true := hlt
      rw [heq, ExtFloat_lt_self] at hlt'
      exact absurd hlt' (by simp)
  · intro t ht
    rcases hspec with ⟨h1, _⟩ | ⟨k, q, hk, h1, _, _, _⟩
    · rw [ClosestIntersection, h1] at ht
      exact absurd ht (by simp [Intersection.NO_INTERSECTION])
    · rw [ClosestIntersection, h1, Nat.zero_add]
      exact (List.getElem?_eq_some.mp hk).1

/-- Witness for C2: two copies of one sphere tie; the first is reported. -/
theorem ClosestIntersection_spec_witness :
    (ClosestIntersection realMath ⟨⟨0, 0, -3⟩, ⟨0, 0, 1⟩⟩
      [⟨⟨1, ⟨0, 0, 0⟩⟩, 0⟩, ⟨⟨1, ⟨0, 0, 0⟩⟩, 1⟩]).2 = 0 := by
  obtain ⟨i, p, hi, hres, _, hfirst⟩ :=
    (ClosestIntersection_spec realMath ⟨⟨0, 0, -3⟩, ⟨0, 0, 1⟩⟩
      [⟨⟨1, ⟨0, 0, 0⟩⟩, 0⟩, ⟨⟨1, ⟨0, 0, 0⟩⟩, 1⟩]).2.2.1
      ⟨⟨⟨1, ⟨0, 0, 0⟩⟩, 0⟩, by simp, by
        rw [ScenePrimative.Intersect, unitSphere_hit]
        simp [Intersection.NO_INTERSECTION]⟩
  rw [hres]
  show i = 0
  rcases i with _ | _ | i
  · rfl
  · simp only [zero_add, List.getElem?_cons_succ, List.getElem?_cons_zero,
      Option.some.injEq] at hi
    have := (hfirst 0 ⟨⟨1, ⟨0, 0, 0⟩⟩, 0⟩ (by omega) (by simp)).1
    rw [← hi] at this
    exact absurd rfl this
  · simp at hi

/-! ## Renderer::SampleLight -/

section SampleLightLemmas

variable {F : Type} [LinearOrderedField F]

/-- A miss ends the loop with the colour accumulated so far. -/
theorem SampleLightBody_miss (m : MathOps F) (prims : List (ScenePrimative F))
    (mats : List (Material F)) (st : PathState F)
    (h : SampleLightHit m prims mats st = none) :
    SampleLightBody m prims mats st = .ret st.accumulatedColor st.seed := by
  unfold SampleLightHit at h
  unfold SampleLightBody
  dsimp only at h ⊢
  split_ifs at h with hmiss
  rw [if_pos hmiss]

/-- A hit at depth seven or more ends the loop with the colour accumulated so far. -/
theorem SampleLightBody_deep (m : MathOps F) (prims : List (ScenePrimative F))
    (mats : List (Material F)) (st : PathState F) (hd : 7 < st.depth + 1) :
    SampleLightBody m prims mats st = .ret st.accumulatedColor st.seed := by
  unfold SampleLightBody
  dsimp only
  split_ifs <;> rfl

/-- A hit at depth below seven continues: the depth grows by one, the emission of the
hit material, weighted by the reflectance, is added to the colour, and for a diffuse or
specular material the reflectance is multiplied by the albedo. -/
theorem SampleLightBody_hit (m : MathOps F) (prims : List (ScenePrimative F))
    (mats : List (Material F)) (st : PathState F) (mat : Material F)
    (h : SampleLightHit m prims mats st = some mat) (hd : st.depth + 1 ≤ 7) :
    ∃ st', SampleLightBody m prims mats st = .next st' ∧ st'.depth = st.depth + 1 ∧
      st'.accumulatedColor =
        st.accumulatedColor.add (st.accumulatedReflectance.Multiply mat.emission) ∧
      (mat.materialType ≠ .REFRACTION →
        st'.accumulatedReflectance = st.accumulatedReflectance.Multiply mat.color) := by
  unfold SampleLightHit at h
  unfold SampleLightBody
  dsimp only at h ⊢
  split_ifs at h with hmiss
  simp only [Option.some.injEq] at h
  rw [if_neg hmiss, if_neg (by omega), h]
  split
  · exact ⟨_, rfl, rfl, rfl, fun _ => rfl⟩
  · exact ⟨_, rfl, rfl, rfl, fun _ => rfl⟩
  · rename_i hty
    split_ifs <;> exact ⟨_, rfl, rfl, rfl, fun hne => absurd hty hne⟩

/-- A diffuse hit at depth below seven continues from the hit position in the
direction sampled around the facing normal from the next two draws. -/
theorem SampleLightBody_diffuse (m : MathOps F) (prims : List (ScenePrimative F))
    (mats : List (Material F)) (st : PathState F) (mat : Material F)
    (h : SampleLightHit m prims mats st = some mat) (hty : mat.materialType = .DIFFUSE)
    (hd : st.depth + 1 ≤ 7) :
    SampleLightBody m prims mats st = .next
      ⟨⟨(ClosestIntersection m st.r prims).1.intersectionPosition,
        diffuseDirection m (facingNormal (ClosestIntersection m st.r prims).1 st.r)
          (GetRandom st.seed : F × RenderRandomSeed).1
          (GetRandom (GetRandom st.seed : F × RenderRandomSeed).2 : F × RenderRandomSeed).1⟩,
        st.depth + 1,
        st.accumulatedColor.add (st.accumulatedReflectance.Multiply mat.emission),
        st.accumulatedReflectance.Multiply mat.color,
        (GetRandom (GetRandom st.seed : F × RenderRandomSeed).2 : F × RenderRandomSeed).2⟩ := by
  unfold SampleLightHit at h
  unfold SampleLightBody
  dsimp only at h ⊢
  split_ifs at h with hmiss
  simp only [Option.some.injEq] at h
  rw [if_neg hmiss, if_neg (by omega), h]
  simp only [hty]

/-- Whenever the loop continues, the query hit and the depth was below seven. -/
theorem SampleLightBody_next (m : MathOps F) (prims : List (ScenePrimative F))
    (mats : List (Material F)) (st st' : PathState F)
    (h : SampleLightBody m prims mats st = .next st') :
    st.depth + 1 ≤ 7 ∧ st'.depth = st.depth + 1 ∧
      ∃ mat, SampleLightHit m prims mats st = some mat := by
  cases hhit : SampleLightHit m prims mats st with
  | none =>
    rw [SampleLightBody_miss m prims mats st hhit] at h
    exact absurd h (by simp)
  | some mat =>
    by_cases hd : st.depth + 1 ≤ 7
    · obtain ⟨st'', h1, h2, _⟩ := SampleLightBody_hit m prims mats st mat hhit hd
      rw [h1] at h
      simp only [LoopStep.next.injEq] at h
      rw [← h]
      exact ⟨hd, h2, mat, rfl⟩
    · rw [SampleLightBody_deep m prims mats st (by omega)] at h
      exact absurd h (by simp)

end SampleLightLemmas

section TraceLemmas

variable {F : Type} [LinearOrderedField F]

/-- From depth `d` the loop body is entered at most `8 - d` times (once if `d ≥ 7`). -/
theorem SampleLightTrace_length_le (m : MathOps F) (prims : List (ScenePrimative F))
    (mats : List (Material F)) :
    ∀ (fuel : Nat) (st : PathState F),
      (SampleLightTrace m prims mats fuel st).length ≤ max 1 (8 - st.depth) := by
  intro fuel
  induction fuel with
  | zero => intro st; simp [SampleLightTrace]
  | succ fuel ih =>
    intro st
    cases hb : SampleLightBody m prims mats st with
    | ret c seed => simp [SampleLightTrace, hb]
    | next st' =>
      obtain ⟨h1, h2, _⟩ := SampleLightBody_next m prims mats st st' hb
      have := ih st'
      simp only [SampleLightTrace, hb, List.length_cons]
      rw [h2] at this
      omega

/-- From depth `d` at most `7 - d` iterations continue. -/
theorem SampleLightTrace_continues_le (m : MathOps F) (prims : List (ScenePrimative F))
    (mats : List (Material F)) :
    ∀ (fuel : Nat) (st : PathState F),
      ((SampleLightTrace m prims mats fuel st).filter
        (fun s => (SampleLightBody m prims mats s).continues)).length ≤ 7 - st.depth := by
  intro fuel
  induction fuel with
  | zero => intro st; simp [SampleLightTrace]
  | succ fuel ih =>
    intro st
    cases hb : SampleLightBody m prims mats st with
    | ret c seed => simp [SampleLightTrace, hb, LoopStep.continues]
    | next st' =>
      obtain ⟨h1, h2, _⟩ := SampleLightBody_next m prims mats st st' hb
      have := ih st'
      have hc : (SampleLightBody m prims mats st).continues = true := by rw [hb]; rfl
      have htr : SampleLightTrace m prims mats (fuel + 1) st =
          st :: SampleLightTrace m prims mats fuel st' := by
        simp only [SampleLightTrace, hb]
      rw [htr, List.filter_cons, if_pos hc, List.length_cons]
      rw [h2] at this
      omega

/-- With at least one unit of fuel and `fuel + depth ≥ 8` the loop returns. -/
theorem SampleLightLoop_returns (m : MathOps F) (prims : List (ScenePrimative F))
    (mats : List (Material F)) :
    ∀ (fuel : Nat) (st : PathState F), 1 ≤ fuel → 8 ≤ fuel + st.depth →
      ∃ res, SampleLightLoop m prims mats fuel st = some res := by
  intro fuel
  induction fuel with
  | zero => intro st h; omega
  | succ fuel ih =>
    intro st _ h8
    cases hb : SampleLightBody m prims mats st with
    | ret c seed => exact ⟨(c, seed), by simp [SampleLightLoop, hb]⟩
    | next st' =>
      obtain ⟨h1, h2, _⟩ := SampleLightBody_next m prims mats st st' hb
      obtain ⟨res, hres⟩ := ih st' (by omega) (by omega)
      exact ⟨res, by simp [SampleLightLoop, hb, hres]⟩

/-- More fuel does not change a result. -/
theorem SampleLightLoop_mono (m : MathOps F) (prims : List (ScenePrimative F))
    (mats : List (Material F)) :
    ∀ (fuel fuel' : Nat) (st : PathState F) (res : Color F × RenderRandomSeed),
      fuel ≤ fuel' → SampleLightLoop m prims mats fuel st = some res →
      SampleLightLoop m prims mats fuel' st = some res := by
  intro fuel
  induction fuel with
  | zero => intro fuel' st res _ h; simp [SampleLightLoop] at h
  | succ fuel ih =>
    intro fuel' st res hle h
    obtain ⟨k, rfl⟩ : ∃ k, fuel' = k + 1 := ⟨fuel' - 1, by omega⟩
    cases hb : SampleLightBody m prims mats st with
    | ret c seed =>
      simp only [SampleLightLoop, hb] at h ⊢
      exact h
    | next st' =>
      simp only [SampleLightLoop, hb] at h ⊢
      exact ih k st' res (by omega) h

/-- When every query hits, the loop started at depth `d ≤ 7` with `8 - d` units of fuel
enters its body exactly `8 - d` times, continues `7 - d` times and returns from the
state of depth seven. -/
theorem SampleLightTrace_all_hit (m : MathOps F) (prims : List (ScenePrimative F))
    (mats : List (Material F)) :
    ∀ (fuel : Nat) (st : PathState F), 1 ≤ fuel → fuel + st.depth = 8 →
      (∀ s ∈ SampleLightTrace m prims mats fuel st, SampleLightHit m prims mats s ≠ none) →
      (SampleLightTrace m prims mats fuel st).length = fuel ∧
      ((SampleLightTrace m prims mats fuel st).filter
        (fun s => (SampleLightBody m prims mats s).continues)).length = fuel - 1 ∧
      ∃ last, (SampleLightTrace m prims mats fuel st)[fuel - 1]? = some last ∧
        last.depth = 7 ∧ SampleLightHit m prims mats last ≠ none ∧
        SampleLightBody m prims mats last = .ret last.accumulatedColor last.seed ∧
        SampleLightLoop m prims mats fuel st = some (last.accumulatedColor, last.seed) := by
  intro fuel
  induction fuel with
  | zero => intro st h; omega
  | succ fuel ih =>
    intro st _ h8 hall
    have hst : SampleLightHit m prims mats st ≠ none := by
      apply hall
      simp only [SampleLightTrace]
      split <;> simp
    by_cases hd : st.depth + 1 ≤ 7
    · obtain ⟨mat, hmat⟩ := Option.ne_none_iff_exists'.mp hst
      obtain ⟨st', hb, h2, _⟩ := SampleLightBody_hit m prims mats st mat hmat hd
      have htr : SampleLightTrace m prims mats (fuel + 1) st =
          st :: SampleLightTrace m prims mats fuel st' := by
        simp only [SampleLightTrace, hb]
      obtain ⟨i1, i2, last, i3, i4, i5, i6, i7⟩ := ih st' (by omega) (by omega)
        (fun s hs => hall s (by rw [htr]; exact List.mem_cons_of_mem _ hs))
      refine ⟨by rw [htr, List.length_cons, i1], ?_, last, ?_, i4, i5, i6, ?_⟩
      · have hc : (SampleLightBody m prims mats st).continues = true := by rw [hb]; rfl
        rw [htr, List.filter_cons, if_pos hc, List.length_cons, i2]
        omega
      · rw [htr]
        obtain ⟨k, rfl⟩ : ∃ k, fuel = k + 1 := ⟨fuel - 1, by omega⟩
        simpa using i3
      · simp only [SampleLightLoop, hb]
        exact i7
    · have hb := SampleLightBody_deep m prims mats st (by omega)
      have hf : fuel = 0 := by omega
      subst hf
      have htr : SampleLightTrace m prims mats (0 + 1) st = [st] := by
        simp only [SampleLightTrace, hb]
      refine ⟨by rw [htr]; rfl, ?_, st, by rw [htr]; rfl, by omega, hst, hb, ?_⟩
      · rw [htr]
        simp [hb, LoopStep.continues]
      · simp only [SampleLightLoop, hb]

end TraceLemmas

/-! ## Claim C3 -/

section PathLemmas

variable {F : Type} [LinearOrderedField F]

end PathLemmas

/-- C4: `SampleLight` terminates for every ray, scene and sampler state: eight loop
iterations always suffice (more fuel gives the same result), the loop body, which makes
one closest-intersection query per entry, is entered at most eight times, at most seven
iterations scatter (and add emission), and when every query hits the body is entered
exactly eight times, seven iterations scatter and the return happens on the eighth hit. -/
theorem SampleLight_terminates {F : Type} [LinearOrderedField F] (m : MathOps F)
    (r : Ray F) (prims : List (ScenePrimative F)) (mats : List (Material F))
    (seed : RenderRandomSeed) :
    (∃ res, SampleLight m 8 r prims mats seed = some res ∧
      ∀ fuel, 8 ≤ fuel → SampleLight m fuel r prims mats seed = some res) ∧
    (∀ fuel, (SampleLightTrace m prims mats fuel (SampleLightInit r seed)).length ≤ 8) ∧
    (∀ fuel, ((SampleLightTrace m prims mats fuel (SampleLightInit r seed)).filter
      (fun s => (SampleLightBody m prims mats s).continues)).length ≤ 7) ∧
    ((∀ s ∈ SampleLightTrace m prims mats 8 (SampleLightInit r seed),
        SampleLightHit m prims mats s ≠ none) →
      (SampleLightTrace m prims mats 8 (SampleLightInit r seed)).length = 8 ∧
      ((SampleLightTrace m prims mats 8 (SampleLightInit r seed)).filter
        (fun s => (SampleLightBody m prims mats s).continues)).length = 7 ∧
      ∃ last, (SampleLightTrace m prims mats 8 (SampleLightInit r seed))[7]? = some last ∧
        last.depth = 7 ∧ SampleLightHit m prims mats last ≠ none ∧
        SampleLightBody m prims mats last = .ret last.accumulatedColor last.seed ∧
        SampleLight m 8 r prims mats seed = some (last.accumulatedColor, last.seed)) := by
  refine ⟨?_, ?_, ?_, ?_⟩
  · obtain ⟨res, hres⟩ := SampleLightLoop_returns m prims mats 8 (SampleLightInit r seed)
      (by omega) (by omega)
    exact ⟨res, hres, fun fuel hf =>
      SampleLightLoop_mono m prims mats 8 fuel (SampleLightInit r seed) res hf hres⟩
  · intro fuel
    exact SampleLightTrace_length_le m prims mats fuel (SampleLightInit r seed)
  · intro fuel
    exact SampleLightTrace_continues_le m prims mats fuel (SampleLightInit r seed)
  · intro hall
    exact SampleLightTrace_all_hit m prims mats 8 (SampleLightInit r seed) (by omega) rfl hall

/-! ## A mirror ball: concrete paths used by the witnesses -/

/-- Inside the unit mirror ball, a ray from a pole towards the centre hits the
opposite pole at distance two. -/
theorem mirrorBall_closest (a : ℝ) (ha : a = 1 ∨ a = -1) :
    ClosestIntersection realMath ⟨⟨0, 0, a⟩, ⟨0, 0, -a⟩⟩ [⟨⟨1, ⟨0, 0, 0⟩⟩, 0⟩] =
      (⟨.fin 2, ⟨0, 0, -a⟩, ⟨0, 0, -a⟩⟩, 0) := by
  rcases ha with rfl | rfl <;>
    norm_num [ClosestIntersection, ClosestIntersectionLoop, ScenePrimative.Intersect,
      Sphere.Intersect, realMath, Vector3f.Dot, Vector3f.sub, Vector3f.add, Vector3f.scale,
      Vector3f.Normalize, Vector3f.Length, Intersection.lt, ExtFloat.lt,
      Intersection.NO_INTERSECTION]

/-- Inside the unit mirror ball, the loop body run on a ray from a pole towards the
centre finds a hit and, if it continues, continues with the ray from the opposite pole
towards the centre. -/
theorem mirrorBall_body (a : ℝ) (ha : a = 1 ∨ a = -1) (mat : Material ℝ)
    (hmat : mat.materialType = .SPECULAR) (st : PathState ℝ)
    (hr : st.r = ⟨⟨0, 0, a⟩, ⟨0, 0, -a⟩⟩) :
    SampleLightHit realMath [⟨⟨1, ⟨0, 0, 0⟩⟩, 0⟩] [mat] st = some mat ∧
    ∀ st', SampleLightBody realMath [⟨⟨1, ⟨0, 0, 0⟩⟩, 0⟩] [mat] st = .next st' →
      st'.r = ⟨⟨0, 0, -a⟩, ⟨0, 0, - -a⟩⟩ := by
  constructor
  · unfold SampleLightHit
    rw [hr, mirrorBall_closest a ha]
    simp [Intersection.eq, ExtFloat.isinf, ExtFloat.FLOAT_EQ, Intersection.NO_INTERSECTION]
  · intro st' hb
    unfold SampleLightBody at hb
    rw [hr, mirrorBall_closest a ha] at hb
    simp only [Intersection.eq, ExtFloat.isinf, Intersection.NO_INTERSECTION,
      Bool.false_and, Bool.false_eq_true, if_false, ExtFloat.FLOAT_EQ, List.getD_cons_zero,
      hmat] at hb
    split_ifs at hb
    simp only [LoopStep.next.injEq] at hb
    rw [← hb]
    simp only [reflectedRay, Vector3f.Dot, Vector3f.sub, Vector3f.scale]
    rcases ha with rfl | rfl <;> norm_num

/-- Inside the unit mirror ball every query of the path hits. -/
theorem mirrorBall_trace (mat : Material ℝ) (hmat : mat.materialType = .SPECULAR) :
    ∀ (fuel : Nat) (a : ℝ) (st : PathState ℝ), (a = 1 ∨ a = -1) →
      st.r = ⟨⟨0, 0, a⟩, ⟨0, 0, -a⟩⟩ →
      ∀ s ∈ SampleLightTrace realMath [⟨⟨1, ⟨0, 0, 0⟩⟩, 0⟩] [mat] fuel st,
        SampleLightHit realMath [⟨⟨1, ⟨0, 0, 0⟩⟩, 0⟩] [mat] s ≠ none := by
  intro fuel
  induction fuel with
  | zero => intro a st _ _ s hs; simp [SampleLightTrace] at hs
  | succ fuel ih =>
    intro a st ha hr s hs
    obtain ⟨h1, h2⟩ := mirrorBall_body a ha mat hmat st hr
    cases hb : SampleLightBody realMath [⟨⟨1, ⟨0, 0, 0⟩⟩, 0⟩] [mat] st with
    | ret c seed =>
      simp only [SampleLightTrace, hb, List.mem_singleton] at hs
      rw [hs, h1]
      simp
    | next st' =>
      simp only [SampleLightTrace, hb, List.mem_cons] at hs
      rcases hs with hs | hs
      · rw [hs, h1]
        simp
      · exact ih (-a) st' (by rcases ha with rfl | rfl <;> simp) (h2 st' hb) s hs

/-- Witness for C4: inside a unit mirror ball every query hits; the body is entered
eight times. -/
theorem SampleLight_terminates_witness :
    (SampleLightTrace realMath [⟨⟨1, ⟨0, 0, 0⟩⟩, 0⟩]
      [⟨⟨0, 0, 0⟩, ⟨1, 1, 1⟩, .SPECULAR⟩] 8
      (SampleLightInit ⟨⟨0, 0, 1⟩, ⟨0, 0, -1⟩⟩ ⟨3, 4⟩)).length = 8 :=
  ((SampleLight_terminates realMath ⟨⟨0, 0, 1⟩, ⟨0, 0, -1⟩⟩ [⟨⟨1, ⟨0, 0, 0⟩⟩, 0⟩]
    [⟨⟨0, 0, 0⟩, ⟨1, 1, 1⟩, .SPECULAR⟩] ⟨3, 4⟩).2.2.2
    (mirrorBall_trace ⟨⟨0, 0, 0⟩, ⟨1, 1, 1⟩, .SPECULAR⟩ rfl 8 1 _ (Or.inl rfl) rfl)).1

section SamplerLemmas

variable {F : Type} [LinearOrderedField F]

/-- A mantissa below `2^23` or-ed with `0x40000000` is the bit pattern of the float
`2 * (1 + mantissa / 2^23)`. -/
theorem floatOfBits_two (x : Nat) (hx : x < 2 ^ 23) :
    (floatOfBits (x ||| 0x40000000) : F) = 2 * (1 + (x : F) / 2 ^ 23) := by
  have h : x ||| 0x40000000 = 2 ^ 23 * 128 + x := by
    rw [Nat.or_comm, Nat.mul_add_lt_is_or hx 128]
  have h1 : (2 ^ 23 * 128 + x) / 2 ^ 31 % 2 = 0 := by omega
  have h2 : (2 ^ 23 * 128 + x) / 2 ^ 23 % 256 = 128 := by omega
  have h3 : (2 ^ 23 * 128 + x) % 2 ^ 23 = x := by omega
  rw [floatOfBits, h, h1, h2, h3]
  norm_num

/-- The value returned by `GetRandom` is a 23-bit mantissa divided by `2^23`, so it lies
in `[0, 1)`. -/
theorem GetRandom_range (seed : RenderRandomSeed) :
    0 ≤ (GetRandom seed : F × RenderRandomSeed).1 ∧
      (GetRandom seed : F × RenderRandomSeed).1 < 1 := by
  have hx : ∀ y : Nat, y &&& 0x007fffff < 2 ^ 23 :=
    fun y => Nat.and_lt_two_pow y (by norm_num)
  simp only [GetRandom]
  rw [floatOfBits_two _ (hx _)]
  have h2 := hx ((((36969 * (seed.s1 &&& 65535) + (seed.s1 >>> 16)) % 2 ^ 32) <<< 16 +
    (18000 * (seed.s2 &&& 65535) + (seed.s2 >>> 16)) % 2 ^ 32) % 2 ^ 32)
  generalize ((((36969 * (seed.s1 &&& 65535) + (seed.s1 >>> 16)) % 2 ^ 32) <<< 16 +
    (18000 * (seed.s2 &&& 65535) + (seed.s2 >>> 16)) % 2 ^ 32) % 2 ^ 32) &&& 0x007fffff = x
    at h2 ⊢
  have h3 : ((x : Nat) : F) < 2 ^ 23 := by exact_mod_cast h2
  have h4 : (0 : F) ≤ (x : F) := Nat.cast_nonneg x
  have h5 : (2 * (1 + (x : F) / 2 ^ 23) - 2) / 2 = (x : F) / 2 ^ 23 := by ring
  rw [h5]
  constructor
  · positivity
  · rw [div_lt_one (by positivity)]
    exact h3

end SamplerLemmas

/-! ## Claim C10 -/

section DiffuseLemmas

/-- The cross product taken in the `DIFFUSE` branch is perpendicular to the normal and,
for a unit normal, is not the zero vector. -/
theorem diffuse_cross (n : Vector3f ℝ) (hn : n.Dot n = 1) :
    ((if |n.x| > 1 / 10 then (⟨0, 1, 0⟩ : Vector3f ℝ) else ⟨1, 0, 0⟩).Cross n).Dot n = 0 ∧
    0 < ((if |n.x| > 1 / 10 then (⟨0, 1, 0⟩ : Vector3f ℝ) else ⟨1, 0, 0⟩).Cross n).Dot
      ((if |n.x| > 1 / 10 then (⟨0, 1, 0⟩ : Vector3f ℝ) else ⟨1, 0, 0⟩).Cross n) := by
  simp only [Vector3f.Dot] at hn
  split_ifs with h
  · simp only [Vector3f.Cross, Vector3f.Dot]
    refine ⟨by ring, ?_⟩
    have hx : 0 < |n.x| := lt_trans (by norm_num) h
    have hx2 : 0 < n.x * n.x := mul_self_pos.mpr (abs_pos.mp hx)
    nlinarith [mul_self_nonneg n.z]
  · simp only [Vector3f.Cross, Vector3f.Dot]
    refine ⟨by ring, ?_⟩
    have hx : |n.x| ≤ 1 / 10 := not_lt.mp h
    have hx2 : n.x * n.x ≤ 1 / 100 := by
      have h0 := abs_nonneg n.x
      have : |n.x| * |n.x| ≤ 1 / 10 * (1 / 10) := mul_le_mul hx hx h0 (by norm_num)
      rw [abs_mul_abs_self] at this
      linarith
    nlinarith

/-- For a unit normal `n`, the vectors `u` and `v` of the `DIFFUSE` branch are unit
vectors, perpendicular to `n` and to each other. -/
theorem diffuse_basis (n : Vector3f ℝ) (hn : n.Dot n = 1) :
    (diffuseU realMath n).Dot n = 0 ∧ (diffuseV realMath n).Dot n = 0 ∧
    (diffuseU realMath n).Dot (diffuseU realMath n) = 1 ∧
    (diffuseV realMath n).Dot (diffuseV realMath n) = 1 ∧
    (diffuseU realMath n).Dot (diffuseV realMath n) = 0 := by
  obtain ⟨hc1, hc2⟩ := diffuse_cross n hn
  have hu : ∀ c : Vector3f ℝ, c.Dot n = 0 → 0 < c.Dot c →
      (c.Normalize realMath).Dot n = 0 ∧
      (c.Normalize realMath).Dot (c.Normalize realMath) = 1 := by
    intro c h1 h2
    simp only [Vector3f.Normalize, Vector3f.Length, realMath, Vector3f.scale, Vector3f.Dot]
      at h1 h2 ⊢
    have hs := Real.mul_self_sqrt h2.le
    have hpos : 0 < Real.sqrt (c.x * c.x + c.y * c.y + c.z * c.z) := Real.sqrt_pos.mpr h2
    generalize Real.sqrt (c.x * c.x + c.y * c.y + c.z * c.z) = L at hs hpos
    have hL : L ≠ 0 := hpos.ne'
    constructor
    · have : c.x * (1 / L) * n.x + c.y * (1 / L) * n.y + c.z * (1 / L) * n.z =
          (c.x * n.x + c.y * n.y + c.z * n.z) * (1 / L) := by ring
      rw [this, h1, zero_mul]
    · field_simp
      linarith
  obtain ⟨hu1, hu2⟩ := hu _ hc1 hc2
  have hu1' : (diffuseU realMath n).Dot n = 0 := hu1
  have hu2' : (diffuseU realMath n).Dot (diffuseU realMath n) = 1 := hu2
  simp only [diffuseV]
  generalize diffuseU realMath n = u at hu1' hu2' ⊢
  simp only [Vector3f.Cross, Vector3f.Dot] at hn hu1' hu2' ⊢
  refine ⟨hu1', by ring, hu2', ?_, by ring⟩
  linear_combination (u.x * u.x + u.y * u.y + u.z * u.z) * hn + hu2' -
    (u.x * n.x + u.y * n.y + u.z * n.z) * hu1'

/-- For a unit normal and a second draw in `[0, 1]`, the vector normalised by the
`DIFFUSE` branch already has length one, and its dot product with the normal is
`sqrt(1 - r2)`. -/
theorem diffuseSample_dot (n : Vector3f ℝ) (hn : n.Dot n = 1) (g1 g2 : ℝ) (h0 : 0 ≤ g2)
    (h1 : g2 ≤ 1) :
    (diffuseSample realMath n g1 g2).Dot n = Real.sqrt (1 - g2) ∧
    (diffuseSample realMath n g1 g2).Dot (diffuseSample realMath n g1 g2) = 1 := by
  obtain ⟨hun, hvn, huu, hvv, huv⟩ := diffuse_basis n hn
  have hcs := Real.cos_sq_add_sin_sq (2 * Real.pi * g1)
  have hs1 := Real.mul_self_sqrt h0
  have hs2 := Real.mul_self_sqrt (show (0 : ℝ) ≤ 1 - g2 by linarith)
  simp only [diffuseSample]
  generalize diffuseV realMath n = v at hun hvn huu hvv huv ⊢
  generalize diffuseU realMath n = u at hun hvn huu hvv huv ⊢
  simp only [realMath]
  generalize Real.cos (2 * Real.pi * g1) = c at hcs ⊢
  generalize Real.sin (2 * Real.pi * g1) = s at hcs ⊢
  generalize Real.sqrt g2 = s1 at hs1 ⊢
  generalize Real.sqrt (1 - g2) = s2 at hs2 ⊢
  simp only [Vector3f.Dot, Vector3f.add, Vector3f.scale] at hn hun hvn huu hvv huv ⊢
  constructor
  · linear_combination c * s1 * hun + s * s1 * hvn + s2 * hn
  · linear_combination c ^ 2 * s1 ^ 2 * huu + s ^ 2 * s1 ^ 2 * hvv + s2 ^ 2 * hn +
      2 * c * s * s1 ^ 2 * huv + 2 * c * s1 * s2 * hun + 2 * s * s1 * s2 * hvn +
      s1 ^ 2 * hcs + hs1 + hs2

end DiffuseLemmas

/-- C10: for every unit facing normal `n` and every sampler state, the direction `d`
of the diffuse branch (built from the next two draws) satisfies `d.n >= 0`; the vectors
`u` and `v` are perpendicular to `n`, the cross product normalised into `u` is not the
zero vector and `u` has length one, and neither is the vector normalised into `d`. -/
theorem diffuse_direction_faces_normal (n : Vector3f ℝ) (hn : n.Dot n = 1)
    (seed : RenderRandomSeed) :
    0 ≤ (diffuseDirection realMath n (GetRandom seed : ℝ × RenderRandomSeed).1
      (GetRandom (GetRandom seed : ℝ × RenderRandomSeed).2 : ℝ × RenderRandomSeed).1).Dot n ∧
    (diffuseU realMath n).Dot n = 0 ∧ (diffuseV realMath n).Dot n = 0 ∧
    (if |n.x| > 1 / 10 then (⟨0, 1, 0⟩ : Vector3f ℝ) else ⟨1, 0, 0⟩).Cross n ≠ ⟨0, 0, 0⟩ ∧
    (diffuseU realMath n).Length realMath = 1 ∧
    (diffuseSample realMath n (GetRandom seed : ℝ × RenderRandomSeed).1
      (GetRandom (GetRandom seed : ℝ × RenderRandomSeed).2 : ℝ × RenderRandomSeed).1).Length
        realMath = 1 ∧
    (∀ (prims : List (ScenePrimative ℝ)) (mats : List (Material ℝ)) (st : PathState ℝ)
      (mat : Material ℝ), st.seed = seed →
      facingNormal (ClosestIntersection realMath st.r prims).1 st.r = n →
      SampleLightHit realMath prims mats st = some mat → mat.materialType = .DIFFUSE →
      st.depth + 1 ≤ 7 →
      ∃ st', SampleLightBody realMath prims mats st = .next st' ∧
        0 ≤ st'.r.direction.Dot n) := by
  obtain ⟨hun, hvn, huu, _, _⟩ := diffuse_basis n hn
  obtain ⟨hc1, hc2⟩ := diffuse_cross n hn
  have hg : 0 ≤ (GetRandom (GetRandom seed : ℝ × RenderRandomSeed).2 :
      ℝ × RenderRandomSeed).1 ∧
      (GetRandom (GetRandom seed : ℝ × RenderRandomSeed).2 : ℝ × RenderRandomSeed).1 < 1 :=
    GetRandom_range _
  obtain ⟨hg0, hg1⟩ := hg
  obtain ⟨hd1, hd2⟩ := diffuseSample_dot n hn (GetRandom seed : ℝ × RenderRandomSeed).1
    (GetRandom (GetRandom seed : ℝ × RenderRandomSeed).2 : ℝ × RenderRandomSeed).1 hg0 hg1.le
  have hlen : ∀ a : Vector3f ℝ, a.Dot a = 1 → a.Length realMath = 1 := by
    intro a ha
    simp only [Vector3f.Dot] at ha
    simp only [Vector3f.Length, realMath, ha, Real.sqrt_one]
  have hdir : 0 ≤ (diffuseDirection realMath n (GetRandom seed : ℝ × RenderRandomSeed).1
      (GetRandom (GetRandom seed : ℝ × RenderRandomSeed).2 :
        ℝ × RenderRandomSeed).1).Dot n := by
    rw [diffuseDirection, Vector3f.Normalize, hlen _ hd2]
    generalize diffuseSample realMath n _ _ = raw at hd1 ⊢
    have : (raw.scale (1 / 1)).Dot n = raw.Dot n := by
      simp only [Vector3f.scale, Vector3f.Dot]
      ring
    rw [this, hd1]
    exact Real.sqrt_nonneg _
  refine ⟨hdir, hun, hvn, ?_, hlen _ huu, hlen _ hd2, ?_⟩
  · intro h
    rw [h] at hc2
    simp [Vector3f.Dot] at hc2
  · intro prims mats st mat hseed hfn hhit hty hdepth
    refine ⟨_, SampleLightBody_diffuse realMath prims mats st mat hhit hty hdepth, ?_⟩
    rw [hfn, hseed]
    exact hdir

/-- Witness for C10: the normal `(0,0,1)` and the sampler state of pixel `(3,4)`. -/
theorem diffuse_direction_faces_normal_witness :
    0 ≤ (diffuseDirection realMath ⟨0, 0, 1⟩ (GetRandom ⟨3, 4⟩ : ℝ × RenderRandomSeed).1
      (GetRandom (GetRandom ⟨3, 4⟩ : ℝ × RenderRandomSeed).2 : ℝ × RenderRandomSeed).1).Dot
        ⟨0, 0, 1⟩ :=
  (diffuse_direction_faces_normal ⟨0, 0, 1⟩ (by simp [Vector3f.Dot]) ⟨3, 4⟩).1

/-! ## Scenes without emission, in exact arithmetic -/

section BlackLemmas

variable {F : Type} [LinearOrderedField F]

/-- A `return` of the loop body hands back the accumulated colour and the seed. -/
theorem SampleLightBody_ret (m : MathOps F) (prims : List (ScenePrimative F))
    (mats : List (Material F)) (st : PathState F) (c : Color F) (seed : RenderRandomSeed)
    (h : SampleLightBody m prims mats st = .ret c seed) :
    c = st.accumulatedColor ∧ seed = st.seed := by
  cases hhit : SampleLightHit m prims mats st with
  | none =>
    rw [SampleLightBody_miss m prims mats st hhit] at h
    simp only [LoopStep.ret.injEq] at h
    exact ⟨h.1.symm, h.2.symm⟩
  | some mat =>
    by_cases hd : st.depth + 1 ≤ 7
    · obtain ⟨st', h1, _⟩ := SampleLightBody_hit m prims mats st mat hhit hd
      rw [h1] at h
      exact absurd h (by simp)
    · rw [SampleLightBody_deep m prims mats st (by omega)] at h
      simp only [LoopStep.ret.injEq] at h
      exact ⟨h.1.symm, h.2.symm⟩

/-- A material looked up by the loop body is one of the store or the default one. -/
theorem SampleLightHit_mem (m : MathOps F) (prims : List (ScenePrimative F))
    (mats : List (Material F)) (st : PathState F) (mat : Material F)
    (h : SampleLightHit m prims mats st = some mat) :
    mat ∈ mats ∨ mat = Material.default := by
  unfold SampleLightHit at h
  dsimp only at h
  split_ifs at h
  simp only [Option.some.injEq] at h
  rw [← h, List.getD_eq_getElem?_getD]
  cases hget : mats[(prims.getD (ClosestIntersection m st.r prims).2
      ⟨⟨0, ⟨0, 0, 0⟩⟩, 0⟩).materialId]? with
  | none => right; rfl
  | some x => left; exact List.getElem?_mem hget

/-- Without emission the accumulated colour stays black through the loop. -/
theorem SampleLightLoop_black (m : MathOps F) (prims : List (ScenePrimative F))
    (mats : List (Material F)) (hzero : ∀ mat ∈ mats, mat.emission = ⟨0, 0, 0⟩) :
    ∀ (fuel : Nat) (st : PathState F) (res : Color F × RenderRandomSeed),
      st.accumulatedColor = ⟨0, 0, 0⟩ → SampleLightLoop m prims mats fuel st = some res →
      res.1 = ⟨0, 0, 0⟩ := by
  intro fuel
  induction fuel with
  | zero => intro st res _ h; simp [SampleLightLoop] at h
  | succ fuel ih =>
    intro st res hacc h
    cases hb : SampleLightBody m prims mats st with
    | ret c seed =>
      simp only [SampleLightLoop, hb, Option.some.injEq] at h
      rw [← h]
      exact (SampleLightBody_ret m prims mats st c seed hb).1.trans hacc
    | next st' =>
      simp only [SampleLightLoop, hb] at h
      obtain ⟨hd, _, mat, hmat⟩ := SampleLightBody_next m prims mats st st' hb
      obtain ⟨st'', h1, _, h3, _⟩ := SampleLightBody_hit m prims mats st mat hmat hd
      rw [hb] at h1
      simp only [LoopStep.next.injEq] at h1
      have hem : mat.emission = ⟨0, 0, 0⟩ := by
        rcases SampleLightHit_mem m prims mats st mat hmat with hm | hm
        · exact hzero mat hm
        · rw [hm]; rfl
      apply ih st' res _ h
      rw [h1, h3, hacc, hem]
      simp [Vector3f.add, Vector3f.Multiply]

/-- Without emission every estimate of `SampleLight` is black. -/
theorem SampleLight_black (m : MathOps F) (prims : List (ScenePrimative F))
    (mats : List (Material F)) (hzero : ∀ mat ∈ mats, mat.emission = ⟨0, 0, 0⟩)
    (fuel : Nat) (hf : 8 ≤ fuel) (r : Ray F) (seed : RenderRandomSeed) :
    ∃ seed', SampleLight m fuel r prims mats seed = some (⟨0, 0, 0⟩, seed') := by
  obtain ⟨res, hres⟩ := SampleLightLoop_returns m prims mats fuel (SampleLightInit r seed)
    (by omega) (by omega)
  have := SampleLightLoop_black m prims mats hzero fuel (SampleLightInit r seed) res rfl hres
  refine ⟨res.2, ?_⟩
  rw [SampleLight, hres, ← this]

/-- Without emission the sample loop of the kernel leaves its accumulator black. -/
theorem SampleLoop_black (m : MathOps F) (prims : List (ScenePrimative F))
    (mats : List (Material F)) (hzero : ∀ mat ∈ mats, mat.emission = ⟨0, 0, 0⟩)
    (fuel : Nat) (hf : 8 ≤ fuel) (r : Ray F) (spp : Nat) :
    ∀ (remaining : Nat) (seed : RenderRandomSeed),
      ∃ seed', SampleLoop m fuel r prims mats spp remaining ⟨0, 0, 0⟩ seed =
        some (⟨0, 0, 0⟩, seed') := by
  intro remaining
  induction remaining with
  | zero => intro seed; exact ⟨seed, rfl⟩
  | succ remaining ih =>
    intro seed
    obtain ⟨seed1, h1⟩ := SampleLight_black m prims mats hzero fuel hf r seed
    obtain ⟨seed2, h2⟩ := ih seed1
    refine ⟨seed2, ?_⟩
    simp only [SampleLoop, h1]
    have : (Vector3f.add (⟨0, 0, 0⟩ : Vector3f F)
        (Vector3f.scale ⟨0, 0, 0⟩ (1 / (spp : F)))) = ⟨0, 0, 0⟩ := by
      simp [Vector3f.add, Vector3f.scale]
    rw [this, h2]

end BlackLemmas

/-- The black colour is written as the black pixel. -/
theorem Pixel_black :
    (Pixel.ofColor (⟨0, 0, 0⟩ : Color ℝ)).GammaCorrect realMath = ⟨0, 0, 0⟩ := by
  have h1 : toUint8 (CLAMP_0_1 (0 : ℝ) * 255) = 0 := by
    norm_num [toUint8, CLAMP_0_1]
  have h2 : gamma realMath 0 = 0 := by
    simp only [gamma, realMath, toUint8, Nat.cast_zero, zero_div]
    rw [Real.zero_rpow (by norm_num), mul_zero, zero_add,
      Nat.floor_eq_zero.mpr (by norm_num)]
  simp only [Pixel.ofColor, Vector3f.Clamp, Pixel.GammaCorrect, h1, h2]

/-- The work items keep an all-black buffer all-black when each writes a black pixel. -/
theorem RenderItems_black (fuel : Nat) (prims : List (ScenePrimative ℝ))
    (mats : List (Material ℝ)) (cam : Camera ℝ) (spp w h : Nat)
    (hk : ∀ id, ∃ slot, RenderKernel realMath fuel prims mats cam spp w h id =
      some (slot, ⟨0, 0, 0⟩)) :
    ∀ (count id : Nat) (pixels : List Pixel), (∀ p ∈ pixels, p = ⟨0, 0, 0⟩) →
      ∃ out, RenderItems realMath fuel prims mats cam spp w h count id pixels = some out ∧
        out.length = pixels.length ∧ ∀ p ∈ out, p = ⟨0, 0, 0⟩ := by
  intro count
  induction count with
  | zero => intro id pixels hp; exact ⟨pixels, rfl, rfl, hp⟩
  | succ count ih =>
    intro id pixels hp
    obtain ⟨slot, hslot⟩ := hk id
    obtain ⟨out, h1, h2, h3⟩ := ih (id + 1) (pixels.set slot ⟨0, 0, 0⟩) (by
      intro p hp'
      rcases List.mem_or_eq_of_mem_set hp' with h | h
      · exact hp p h
      · exact h)
    refine ⟨out, ?_, by rw [h2, List.length_set], h3⟩
    simp only [RenderItems, hslot, h1]

/-- In exact arithmetic, if every material of the store has zero emission, `SampleLight`
returns `(0,0,0)` for every ray and sampler state, every work item of `RenderScene` writes
`Pixel(0,0,0)`, and the rendered image is black, for every resolution and sample count.
In binary32 a reflectance that overflows makes the colour NaN, see `SampleLight32`. -/
theorem zero_emission_renders_black (prims : List (ScenePrimative ℝ))
    (mats : List (Material ℝ)) (hzero : ∀ mat ∈ mats, mat.emission = ⟨0, 0, 0⟩)
    (fuel : Nat) (hf : 8 ≤ fuel) :
    (∀ (r : Ray ℝ) (seed : RenderRandomSeed),
      ∃ seed', SampleLight realMath fuel r prims mats seed = some (⟨0, 0, 0⟩, seed')) ∧
    (∀ (cam : Camera ℝ) (samplesPerPixel width height threadId : Nat),
      ∃ slot, RenderKernel realMath fuel prims mats cam samplesPerPixel width height
        threadId = some (slot, ⟨0, 0, 0⟩)) ∧
    (∀ (cam : Camera ℝ) (samplesPerPixel width height : Nat),
      ∃ img, RenderScene realMath fuel prims mats cam samplesPerPixel width height =
          some img ∧
        img.data.length = width * height % 2 ^ 32 ∧ ∀ p ∈ img.data, p = ⟨0, 0, 0⟩) := by
  have hkernel : ∀ (cam : Camera ℝ) (spp w h id : Nat),
      ∃ slot, RenderKernel realMath fuel prims mats cam spp w h id =
        some (slot, ⟨0, 0, 0⟩) := by
    intro cam spp w h id
    obtain ⟨seed', hs⟩ := SampleLoop_black realMath prims mats hzero fuel hf
      (cam.GenerateLookForPixel realMath (id % w) (id / w) w h) spp spp ⟨id % w, id / w⟩
    refine ⟨id / w * w + id % w, ?_⟩
    simp only [RenderKernel, hs, Pixel_black]
  refine ⟨fun r seed => SampleLight_black realMath prims mats hzero fuel hf r seed,
    hkernel, ?_⟩
  intro cam spp w h
  obtain ⟨out, h1, h2, h3⟩ := RenderItems_black fuel prims mats cam spp w h
    (hkernel cam spp w h) (w * h % 2 ^ 32) 0 (Image.new w h).data (by
      intro p hp
      simp only [Image.new] at hp
      exact List.eq_of_mem_replicate hp)
  refine ⟨⟨w, h, out⟩, ?_, ?_, h3⟩
  · simp only [RenderScene, RenderSceneInto]
    rw [show (Image.new w h).width = w from rfl, show (Image.new w h).height = h from rfl, h1]
  · rw [h2]
    simp [Image.new]

/-- Example in exact arithmetic: the scene without primitives and materials, three samples
per pixel, work item five of a 4x2 image. -/
theorem zero_emission_renders_black_witness :
    ∃ slot, RenderKernel realMath 8 [] [] ⟨⟨0, 1, 0⟩, ⟨0, 0, 0⟩, ⟨0, 0, 4⟩, 1, -1, -1, 1, 1⟩
      3 4 2 5 = some (slot, ⟨0, 0, 0⟩) :=
  (zero_emission_renders_black [] [] (by simp) 8 (le_refl 8)).2.1
    ⟨⟨0, 1, 0⟩, ⟨0, 0, 0⟩, ⟨0, 0, 4⟩, 1, -1, -1, 1, 1⟩ 3 4 2 5

/-! ## Claim C6 -/

section BranchLemmas

variable {F : Type} [LinearOrderedField F]

/-- A specular hit at depth below seven continues with the mirror ray and the same
sampler state. -/
theorem SampleLightBody_specular (m : MathOps F) (prims : List (ScenePrimative F))
    (mats : List (Material F)) (st : PathState F) (mat : Material F)
    (h : SampleLightHit m prims mats st = some mat) (hty : mat.materialType = .SPECULAR)
    (hd : st.depth + 1 ≤ 7) :
    SampleLightBody m prims mats st = .next
      ⟨reflectedRay (ClosestIntersection m st.r prims).1 st.r, st.depth + 1,
        st.accumulatedColor.add (st.accumulatedReflectance.Multiply mat.emission),
        st.accumulatedReflectance.Multiply mat.color, st.seed⟩ := by
  unfold SampleLightHit at h
  unfold SampleLightBody
  dsimp only at h ⊢
  split_ifs at h with hmiss
  simp only [Option.some.injEq] at h
  rw [if_neg hmiss, if_neg (by omega), h]
  simp only [hty]

/-- A refractive hit at depth below seven: total internal reflection continues with the
mirror ray and the same sampler state; otherwise one draw chooses between the mirror
ray, weighted by `Re/P`, and the transmitted ray, weighted by `(1-Re)/(1-P)`. -/
theorem SampleLightBody_refraction (m : MathOps F) (prims : List (ScenePrimative F))
    (mats : List (Material F)) (st : PathState F) (mat : Material F)
    (h : SampleLightHit m prims mats st = some mat) (hty : mat.materialType = .REFRACTION)
    (hd : st.depth + 1 ≤ 7) :
    SampleLightBody m prims mats st =
      if refractCos2t (ClosestIntersection m st.r prims).1 st.r < 0 then
        .next ⟨reflectedRay (ClosestIntersection m st.r prims).1 st.r, st.depth + 1,
          st.accumulatedColor.add (st.accumulatedReflectance.Multiply mat.emission),
          st.accumulatedReflectance.Multiply mat.color, st.seed⟩
      else if (GetRandom st.seed : F × RenderRandomSeed).1 <
          reflectP m (ClosestIntersection m st.r prims).1 st.r then
        .next ⟨reflectedRay (ClosestIntersection m st.r prims).1 st.r, st.depth + 1,
          st.accumulatedColor.add (st.accumulatedReflectance.Multiply mat.emission),
          (st.accumulatedReflectance.Multiply mat.color).scale
            (schlickRe m (ClosestIntersection m st.r prims).1 st.r /
              reflectP m (ClosestIntersection m st.r prims).1 st.r),
          (GetRandom st.seed : F × RenderRandomSeed).2⟩
      else
        .next ⟨⟨(ClosestIntersection m st.r prims).1.intersectionPosition,
            refractTdir m (ClosestIntersection m st.r prims).1 st.r⟩, st.depth + 1,
          st.accumulatedColor.add (st.accumulatedReflectance.Multiply mat.emission),
          (st.accumulatedReflectance.Multiply mat.color).scale
            ((1 - schlickRe m (ClosestIntersection m st.r prims).1 st.r) /
              (1 - reflectP m (ClosestIntersection m st.r prims).1 st.r)),
          (GetRandom st.seed : F × RenderRandomSeed).2⟩ := by
  unfold SampleLightHit at h
  unfold SampleLightBody
  dsimp only at h ⊢
  split_ifs at h with hmiss
  simp only [Option.some.injEq] at h
  rw [if_neg hmiss, if_neg (by omega), h]
  simp only [hty]
  rfl

end BranchLemmas

/-! ## Two concrete rays at the unit ball, used by the witnesses below -/

/-- The closest intersection of the ray from `(0,0,-3)` along `(0,0,1)` with the unit
ball: the pole `(0,0,-1)` at distance two. -/
theorem headOn_closest :
    ClosestIntersection realMath ⟨⟨0, 0, -3⟩, ⟨0, 0, 1⟩⟩ [⟨⟨1, ⟨0, 0, 0⟩⟩, 0⟩] =
      (⟨.fin 2, ⟨0, 0, -1⟩, ⟨0, 0, -1⟩⟩, 0) := by
  simp [ClosestIntersection, ClosestIntersectionLoop, ScenePrimative.Intersect,
    unitSphere_hit, Intersection.lt, ExtFloat.lt, Intersection.NO_INTERSECTION]

/-- The loop body entered with the head-on ray finds the material of the unit ball. -/
theorem headOn_hit (mat : Material ℝ) (st : PathState ℝ)
    (hr : st.r = ⟨⟨0, 0, -3⟩, ⟨0, 0, 1⟩⟩) :
    SampleLightHit realMath [⟨⟨1, ⟨0, 0, 0⟩⟩, 0⟩] [mat] st = some mat := by
  unfold SampleLightHit
  rw [hr, headOn_closest]
  simp [Intersection.eq, ExtFloat.isinf, ExtFloat.FLOAT_EQ, Intersection.NO_INTERSECTION]

/-- The closest intersection of the ray from `(0,4/5,0)` along `(1,0,0)`, which starts
inside the unit ball: the point `(3/5,4/5,0)` at distance `3/5`. -/
theorem grazing_closest :
    ClosestIntersection realMath ⟨⟨0, 4 / 5, 0⟩, ⟨1, 0, 0⟩⟩ [⟨⟨1, ⟨0, 0, 0⟩⟩, 0⟩] =
      (⟨.fin (3 / 5), ⟨3 / 5, 4 / 5, 0⟩, ⟨3 / 5, 4 / 5, 0⟩⟩, 0) := by
  have hs : Real.sqrt (9 / 25) = 3 / 5 := by
    rw [show (9 / 25 : ℝ) = 3 / 5 * (3 / 5) by norm_num]
    exact Real.sqrt_mul_self (by norm_num)
  have h : Sphere.Intersect realMath ⟨1, ⟨0, 0, 0⟩⟩ ⟨⟨0, 4 / 5, 0⟩, ⟨1, 0, 0⟩⟩ =
      ⟨.fin (3 / 5), ⟨3 / 5, 4 / 5, 0⟩, ⟨3 / 5, 4 / 5, 0⟩⟩ := by
    norm_num [Sphere.Intersect, realMath, Vector3f.Dot, Vector3f.sub, Vector3f.add,
      Vector3f.scale, Vector3f.Normalize, Vector3f.Length, hs]
  simp [ClosestIntersection, ClosestIntersectionLoop, ScenePrimative.Intersect,
    h, Intersection.lt, ExtFloat.lt, Intersection.NO_INTERSECTION]

/-- The loop body entered with the grazing ray finds the material of the unit ball. -/
theorem grazing_hit (mat : Material ℝ) (st : PathState ℝ)
    (hr : st.r = ⟨⟨0, 4 / 5, 0⟩, ⟨1, 0, 0⟩⟩) :
    SampleLightHit realMath [⟨⟨1, ⟨0, 0, 0⟩⟩, 0⟩] [mat] st = some mat := by
  unfold SampleLightHit
  rw [hr, grazing_closest]
  simp [Intersection.eq, ExtFloat.isinf, ExtFloat.FLOAT_EQ, Intersection.NO_INTERSECTION]

/-! ## Claim C11 -/

/-- C11: on a specular hit with incoming direction `d` the next ray starts at the hit
position and has the direction `d - 2(d.n)n`, where `n` is the facing normal; the same
vector is obtained from the geometric normal and from its opposite, because the code
reflects about the unflipped normal; the sampler state is left as it was. -/
theorem specular_reflects_about_facing_normal {F : Type} [LinearOrderedField F]
    (m : MathOps F) (prims : List (ScenePrimative F)) (mats : List (Material F))
    (st : PathState F) (mat : Material F)
    (h : SampleLightHit m prims mats st = some mat) (hty : mat.materialType = .SPECULAR)
    (hd : st.depth + 1 ≤ 7) :
    ∃ st', SampleLightBody m prims mats st = .next st' ∧
      st'.r.origin = (ClosestIntersection m st.r prims).1.intersectionPosition ∧
      st'.r.direction = st.r.direction.sub
        ((facingNormal (ClosestIntersection m st.r prims).1 st.r).scale
          (2 * st.r.direction.Dot (facingNormal (ClosestIntersection m st.r prims).1 st.r))) ∧
      st'.r.direction = st.r.direction.sub
        ((ClosestIntersection m st.r prims).1.normal.scale
          (2 * st.r.direction.Dot (ClosestIntersection m st.r prims).1.normal)) ∧
      st'.r.direction = st.r.direction.sub
        (((ClosestIntersection m st.r prims).1.normal.scale (-1)).scale
          (2 * st.r.direction.Dot ((ClosestIntersection m st.r prims).1.normal.scale (-1)))) ∧
      st'.seed = st.seed := by
  refine ⟨_, SampleLightBody_specular m prims mats st mat h hty hd, rfl, ?_, ?_, ?_, rfl⟩
  · simp only [reflectedRay, facingNormal]
    split_ifs <;>
      simp only [Vector3f.sub, Vector3f.scale, Vector3f.Dot, Vector3f.mk.injEq] <;>
      refine ⟨by ring, by ring, by ring⟩
  · simp only [reflectedRay, Vector3f.sub, Vector3f.scale, Vector3f.Dot, Vector3f.mk.injEq]
    refine ⟨by ring, by ring, by ring⟩
  · simp only [reflectedRay, Vector3f.sub, Vector3f.scale, Vector3f.Dot, Vector3f.mk.injEq]
    refine ⟨by ring, by ring, by ring⟩

/-- Witness for C11: the head-on ray at a mirror ball is sent straight back. -/
theorem specular_reflects_about_facing_normal_witness :
    ∃ st', SampleLightBody realMath [⟨⟨1, ⟨0, 0, 0⟩⟩, 0⟩]
        [⟨⟨0, 0, 0⟩, ⟨1, 1, 1⟩, .SPECULAR⟩]
        (SampleLightInit ⟨⟨0, 0, -3⟩, ⟨0, 0, 1⟩⟩ ⟨3, 4⟩) = .next st' ∧
      st'.r = ⟨⟨0, 0, -1⟩, ⟨0, 0, -1⟩⟩ := by
  obtain ⟨st', h1, h2, _, h3, _, _⟩ := specular_reflects_about_facing_normal realMath
    [⟨⟨1, ⟨0, 0, 0⟩⟩, 0⟩] [⟨⟨0, 0, 0⟩, ⟨1, 1, 1⟩, .SPECULAR⟩]
    (SampleLightInit ⟨⟨0, 0, -3⟩, ⟨0, 0, 1⟩⟩ ⟨3, 4⟩) ⟨⟨0, 0, 0⟩, ⟨1, 1, 1⟩, .SPECULAR⟩
    (headOn_hit _ _ rfl) rfl (by simp [SampleLightInit])
  refine ⟨st', h1, ?_⟩
  have hr : (SampleLightInit (⟨⟨0, 0, -3⟩, ⟨0, 0, 1⟩⟩ : Ray ℝ) ⟨3, 4⟩).r =
      ⟨⟨0, 0, -3⟩, ⟨0, 0, 1⟩⟩ := rfl
  rw [hr, headOn_closest] at h2 h3
  cases hst : st'.r with
  | mk o d =>
    rw [hst] at h2 h3
    simp only at h2 h3
    rw [h2, h3]
    norm_num [Vector3f.sub, Vector3f.scale, Vector3f.Dot]

/-! ## Claim C12 -/

/-- C12: on a refractive hit with `cos2t = 1 - nnt^2 (1 - (d.n_f)^2) < 0`, where `nnt` is
`1/1.5` when entering and `1.5/1` when leaving and `n_f` is the facing normal, the next
ray is the mirror ray from the hit position, the reflectance is multiplied by the albedo
only, and the sampler state is left as it was. -/
theorem refraction_total_internal_reflection {F : Type} [LinearOrderedField F]
    (m : MathOps F) (prims : List (ScenePrimative F)) (mats : List (Material F))
    (st : PathState F) (mat : Material F)
    (h : SampleLightHit m prims mats st = some mat) (hty : mat.materialType = .REFRACTION)
    (hd : st.depth + 1 ≤ 7)
    (htir : refractCos2t (ClosestIntersection m st.r prims).1 st.r < 0) :
    SampleLightBody m prims mats st = .next
      ⟨⟨(ClosestIntersection m st.r prims).1.intersectionPosition,
          st.r.direction.sub (((ClosestIntersection m st.r prims).1.normal.scale 2).scale
            ((ClosestIntersection m st.r prims).1.normal.Dot st.r.direction))⟩,
        st.depth + 1,
        st.accumulatedColor.add (st.accumulatedReflectance.Multiply mat.emission),
        st.accumulatedReflectance.Multiply mat.color, st.seed⟩ ∧
    refractCos2t (ClosestIntersection m st.r prims).1 st.r =
      1 - refractNnt (ClosestIntersection m st.r prims).1 st.r *
          refractNnt (ClosestIntersection m st.r prims).1 st.r *
        (1 - st.r.direction.Dot (facingNormal (ClosestIntersection m st.r prims).1 st.r) *
          st.r.direction.Dot (facingNormal (ClosestIntersection m st.r prims).1 st.r)) ∧
    (refractInto (ClosestIntersection m st.r prims).1 st.r = true →
      refractNnt (ClosestIntersection m st.r prims).1 st.r = 1 / (15 / 10)) ∧
    (refractInto (ClosestIntersection m st.r prims).1 st.r = false →
      refractNnt (ClosestIntersection m st.r prims).1 st.r = 15 / 10 / 1) := by
  refine ⟨?_, rfl, ?_, ?_⟩
  · rw [SampleLightBody_refraction m prims mats st mat h hty hd, if_pos htir]
    rfl
  · intro hin
    simp only [refractNnt, hin, if_true]
  · intro hout
    simp only [refractNnt, hout, Bool.false_eq_true, if_false]

/-- Witness for C12: the grazing ray inside a glass ball is totally reflected. -/
theorem refraction_total_internal_reflection_witness :
    SampleLightBody realMath [⟨⟨1, ⟨0, 0, 0⟩⟩, 0⟩]
        [⟨⟨0, 0, 0⟩, ⟨1 / 2, 1 / 2, 1 / 2⟩, .REFRACTION⟩]
        (SampleLightInit ⟨⟨0, 4 / 5, 0⟩, ⟨1, 0, 0⟩⟩ ⟨3, 4⟩) = .next
      ⟨⟨⟨3 / 5, 4 / 5, 0⟩, ⟨7 / 25, -24 / 25, 0⟩⟩, 1, ⟨0, 0, 0⟩, ⟨1 / 2, 1 / 2, 1 / 2⟩,
        ⟨3, 4⟩⟩ := by
  have hr : (SampleLightInit (⟨⟨0, 4 / 5, 0⟩, ⟨1, 0, 0⟩⟩ : Ray ℝ) ⟨3, 4⟩).r =
      ⟨⟨0, 4 / 5, 0⟩, ⟨1, 0, 0⟩⟩ := rfl
  have h := (refraction_total_internal_reflection realMath [⟨⟨1, ⟨0, 0, 0⟩⟩, 0⟩]
    [⟨⟨0, 0, 0⟩, ⟨1 / 2, 1 / 2, 1 / 2⟩, .REFRACTION⟩]
    (SampleLightInit ⟨⟨0, 4 / 5, 0⟩, ⟨1, 0, 0⟩⟩ ⟨3, 4⟩)
    ⟨⟨0, 0, 0⟩, ⟨1 / 2, 1 / 2, 1 / 2⟩, .REFRACTION⟩
    (grazing_hit _ _ rfl) rfl (by simp [SampleLightInit])
    (by
      rw [hr, grazing_closest]
      norm_num [refractCos2t, refractNnt, refractInto, refractDdn, facingNormal,
        Vector3f.Dot, Vector3f.scale])).1
  rw [h, hr, grazing_closest]
  norm_num [SampleLightInit, Vector3f.sub, Vector3f.scale, Vector3f.Dot, Vector3f.add,
    Vector3f.Multiply]

/-! ## The refractive branch for unit vectors -/

section RefractionLemmas

/-- Cauchy-Schwarz for two unit vectors. -/
theorem dot_sq_le_one (d n : Vector3f ℝ) (hd : d.Dot d = 1) (hn : n.Dot n = 1) :
    d.Dot n * d.Dot n ≤ 1 := by
  simp only [Vector3f.Dot] at hd hn ⊢
  have h : (d.x * n.x + d.y * n.y + d.z * n.z) * (d.x * n.x + d.y * n.y + d.z * n.z) =
      (d.x * d.x + d.y * d.y + d.z * d.z) * (n.x * n.x + n.y * n.y + n.z * n.z) -
        ((d.y * n.z - d.z * n.y) ^ 2 + (d.z * n.x - d.x * n.z) ^ 2 +
          (d.x * n.y - d.y * n.x) ^ 2) := by ring
  rw [h, hd, hn]
  nlinarith [sq_nonneg (d.y * n.z - d.z * n.y), sq_nonneg (d.z * n.x - d.x * n.z),
    sq_nonneg (d.x * n.y - d.y * n.x)]

/-- The two orientations of a unit normal: either the ray enters (`n.d < 0`, the facing
normal is `n`, `ddn = d.n`, `nnt = 1/1.5`) or it leaves (`n.d >= 0`, the facing normal is
`-n`, `ddn = -(d.n)`, `nnt = 1.5`). -/
theorem refract_cases (I : Intersection ℝ) (r : Ray ℝ)
    (hn : I.normal.Dot I.normal = 1) :
    (I.normal.Dot r.direction < 0 ∧ facingNormal I r = I.normal ∧
      refractInto I r = true ∧ refractNnt I r = 1 / (15 / 10) ∧
      refractDdn I r = r.direction.Dot I.normal) ∨
    (0 ≤ I.normal.Dot r.direction ∧ facingNormal I r = I.normal.scale (-1) ∧
      refractInto I r = false ∧ refractNnt I r = 15 / 10 / 1 ∧
      refractDdn I r = -(r.direction.Dot I.normal)) := by
  by_cases h : I.normal.Dot r.direction < 0
  · left
    have hf : facingNormal I r = I.normal := by simp only [facingNormal, if_pos h]
    have hi : refractInto I r = true := by
      simp only [refractInto, hf, hn]
      norm_num
    refine ⟨h, hf, hi, ?_, ?_⟩
    · simp only [refractNnt, hi, if_true]
    · simp only [refractDdn, hf]
  · right
    have hf : facingNormal I r = I.normal.scale (-1) := by
      simp only [facingNormal, if_neg h]
    have hi : refractInto I r = false := by
      have : I.normal.Dot (I.normal.scale (-1)) = -1 := by
        simp only [Vector3f.Dot, Vector3f.scale] at hn ⊢
        linear_combination -hn
      simp only [refractInto, hf, this]
      norm_num
    refine ⟨not_lt.mp h, hf, hi, ?_, ?_⟩
    · simp only [refractNnt, hi, Bool.false_eq_true, if_false]
    · simp only [refractDdn, hf, Vector3f.Dot, Vector3f.scale]
      ring

/-- For unit vectors `ddn` lies in `[-1, 0]`. -/
theorem refractDdn_range (I : Intersection ℝ) (r : Ray ℝ)
    (hd : r.direction.Dot r.direction = 1) (hn : I.normal.Dot I.normal = 1) :
    -1 ≤ refractDdn I r ∧ refractDdn I r ≤ 0 := by
  have hcs := dot_sq_le_one r.direction I.normal hd hn
  have hcomm : I.normal.Dot r.direction = r.direction.Dot I.normal := by
    simp only [Vector3f.Dot]; ring
  rcases refract_cases I r hn with ⟨h1, _, _, _, h5⟩ | ⟨h1, _, _, _, h5⟩
  · rw [h5]
    rw [hcomm] at h1
    constructor
    · nlinarith
    · exact h1.le
  · rw [h5]
    rw [hcomm] at h1
    constructor
    · nlinarith
    · linarith

/-- Snell's law in vector form: for unit `d` and `n`, a sign `sg`, an index ratio `k` and
`s` with `s^2 = 1 - k^2 (1 - (d.n)^2)`, the vector `k d - sg (sg (d.n) k + s) n` has
length one and its dot product with `n` is `-sg s`. -/
theorem snell_algebra (d n : Vector3f ℝ) (sg k s : ℝ) (hd : d.Dot d = 1) (hn : n.Dot n = 1)
    (hsg : sg * sg = 1)
    (hs : s * s = 1 - k * k * (1 - (sg * d.Dot n) * (sg * d.Dot n))) :
    ((d.scale k).sub (n.scale (sg * (sg * d.Dot n * k + s)))).Dot
        ((d.scale k).sub (n.scale (sg * (sg * d.Dot n * k + s)))) = 1 ∧
    ((d.scale k).sub (n.scale (sg * (sg * d.Dot n * k + s)))).Dot n = -sg * s := by
  simp only [Vector3f.Dot, Vector3f.scale, Vector3f.sub] at hd hn hs ⊢
  constructor
  · linear_combination k ^ 2 * hd
      + (sg * (sg * (d.x * n.x + d.y * n.y + d.z * n.z) * k + s)) ^ 2 * hn + hs
      + (sg * (d.x * n.x + d.y * n.y + d.z * n.z) * k + s) ^ 2 * hsg
  · linear_combination (-(sg * (sg * (d.x * n.x + d.y * n.y + d.z * n.z) * k + s))) * hn
      - (d.x * n.x + d.y * n.y + d.z * n.z) * k * hsg

/-- Without total internal reflection and for unit vectors, the vector normalised into
`tdir` already has length one, so `tdir` is that vector, and its dot product with the
geometric normal is `-sqrt(cos2t)` when entering and `sqrt(cos2t)` when leaving. -/
theorem refractSample_unit (I : Intersection ℝ) (r : Ray ℝ)
    (hd : r.direction.Dot r.direction = 1) (hn : I.normal.Dot I.normal = 1)
    (hnt : ¬ refractCos2t I r < 0) :
    (refractSample realMath I r).Dot (refractSample realMath I r) = 1 ∧
    refractTdir realMath I r = refractSample realMath I r ∧
    (refractTdir realMath I r).Dot I.normal =
      (if refractInto I r then -Real.sqrt (refractCos2t I r)
        else Real.sqrt (refractCos2t I r)) := by
  have hs := Real.mul_self_sqrt (not_lt.mp hnt)
  have hcos : refractCos2t I r = 1 - refractNnt I r * refractNnt I r *
      (1 - refractDdn I r * refractDdn I r) := rfl
  have key : (refractSample realMath I r).Dot (refractSample realMath I r) = 1 ∧
      (refractSample realMath I r).Dot I.normal =
        (if refractInto I r then -Real.sqrt (refractCos2t I r)
          else Real.sqrt (refractCos2t I r)) := by
    rcases refract_cases I r hn with ⟨_, _, h3, h4, h5⟩ | ⟨_, _, h3, h4, h5⟩
    · have hs' : Real.sqrt (refractCos2t I r) * Real.sqrt (refractCos2t I r) =
          1 - 1 / (15 / 10) * (1 / (15 / 10)) *
            (1 - (1 * r.direction.Dot I.normal) * (1 * r.direction.Dot I.normal)) := by
        rw [hs, hcos, h4, h5]; ring
      obtain ⟨a1, a2⟩ := snell_algebra r.direction I.normal 1 (1 / (15 / 10))
        (Real.sqrt (refractCos2t I r)) hd hn (by norm_num) hs'
      have hv : refractSample realMath I r = (r.direction.scale (1 / (15 / 10))).sub
          (I.normal.scale (1 * (1 * r.direction.Dot I.normal * (1 / (15 / 10)) +
            Real.sqrt (refractCos2t I r)))) := by
        simp only [refractSample, h3, h4, h5, realMath, if_true, one_mul]
      rw [hv, a1, a2, h3]
      simp
    · have hs' : Real.sqrt (refractCos2t I r) * Real.sqrt (refractCos2t I r) =
          1 - 15 / 10 / 1 * (15 / 10 / 1) *
            (1 - (-1 * r.direction.Dot I.normal) * (-1 * r.direction.Dot I.normal)) := by
        rw [hs, hcos, h4, h5]; ring
      obtain ⟨a1, a2⟩ := snell_algebra r.direction I.normal (-1) (15 / 10 / 1)
        (Real.sqrt (refractCos2t I r)) hd hn (by norm_num) hs'
      have hv : refractSample realMath I r = (r.direction.scale (15 / 10 / 1)).sub
          (I.normal.scale (-1 * (-1 * r.direction.Dot I.normal * (15 / 10 / 1) +
            Real.sqrt (refractCos2t I r)))) := by
        simp only [refractSample, h3, h4, h5, realMath, Bool.false_eq_true, if_false,
          neg_one_mul, neg_mul, one_mul]
      rw [hv, a1, a2, h3]
      simp
  obtain ⟨k1, k2⟩ := key
  have ht : refractTdir realMath I r = refractSample realMath I r := by
    rw [refractTdir]
    generalize refractSample realMath I r = v at k1
    have hlen : v.Length realMath = 1 := by
      simp only [Vector3f.Dot] at k1
      simp only [Vector3f.Length, realMath, k1, Real.sqrt_one]
    rw [Vector3f.Normalize, hlen]
    simp [Vector3f.scale]
  exact ⟨k1, ht, by rw [ht]; exact k2⟩

/-- The constant `R0` is `0.04`. -/
theorem schlickR0_value : (schlickR0 : ℝ) = 4 / 100 := by
  norm_num [schlickR0]

/-- Without total internal reflection and for unit vectors: `c` lies in `[0,1]`, the
Schlick reflectance in `[0.04, 1]` and the reflection probability in `[0.27, 0.75]`. -/
theorem schlick_range (I : Intersection ℝ) (r : Ray ℝ)
    (hd : r.direction.Dot r.direction = 1) (hn : I.normal.Dot I.normal = 1)
    (hnt : ¬ refractCos2t I r < 0) :
    0 ≤ schlickC realMath I r ∧ schlickC realMath I r ≤ 1 ∧
    4 / 100 ≤ schlickRe realMath I r ∧ schlickRe realMath I r ≤ 1 ∧
    27 / 100 ≤ reflectP realMath I r ∧ reflectP realMath I r ≤ 75 / 100 := by
  obtain ⟨_, _, htn⟩ := refractSample_unit I r hd hn hnt
  obtain ⟨hd1, hd2⟩ := refractDdn_range I r hd hn
  have hc : 0 ≤ schlickC realMath I r ∧ schlickC realMath I r ≤ 1 := by
    rcases refract_cases I r hn with ⟨_, _, h3, _, _⟩ | ⟨_, _, h3, h4, _⟩
    · simp only [schlickC, h3, if_true]
      constructor <;> linarith
    · rw [h3] at htn
      simp only [Bool.false_eq_true, if_false] at htn
      simp only [schlickC, h3, Bool.false_eq_true, if_false, htn]
      have hs0 := Real.sqrt_nonneg (refractCos2t I r)
      have hle : refractCos2t I r ≤ 1 := by
        have hcos : refractCos2t I r = 1 - refractNnt I r * refractNnt I r *
            (1 - refractDdn I r * refractDdn I r) := rfl
        rw [hcos, h4]
        nlinarith
      have hs1 : Real.sqrt (refractCos2t I r) ≤ 1 := by
        rw [← Real.sqrt_one]
        exact Real.sqrt_le_sqrt hle
      constructor <;> linarith
  obtain ⟨hc0, hc1⟩ := hc
  have hre : schlickRe realMath I r = 4 / 100 + 96 / 100 * schlickC realMath I r ^ 5 := by
    simp only [schlickRe, schlickR0_value]
    ring
  have hp0 : 0 ≤ schlickC realMath I r ^ 5 := pow_nonneg hc0 5
  have hp1 : schlickC realMath I r ^ 5 ≤ 1 := pow_le_one₀ hc0 hc1
  have hP : reflectP realMath I r = 25 / 100 + 5 / 10 * schlickRe realMath I r := rfl
  refine ⟨hc0, hc1, ?_, ?_, ?_, ?_⟩ <;> (try rw [hP]) <;> rw [hre] <;> linarith

end RefractionLemmas

/-! ## Claim C13 -/

/-- C13: in the refractive branch without total internal reflection the mirror ray is
taken exactly when the draw is below `P`, and the reflectance is then multiplied by
`Re/P`; otherwise the transmitted ray is taken and the reflectance is multiplied by
`(1-Re)/(1-P)`; one draw is consumed either way.  For a unit incoming direction and a
unit normal, `P * (Re/P) = Re`, `(1-P) * ((1-Re)/(1-P)) = 1 - Re`, and the two
probability-weighted weights sum to one. -/
theorem refraction_importance_weights (prims : List (ScenePrimative ℝ))
    (mats : List (Material ℝ)) (st : PathState ℝ) (mat : Material ℝ)
    (h : SampleLightHit realMath prims mats st = some mat)
    (hty : mat.materialType = .REFRACTION) (hd : st.depth + 1 ≤ 7)
    (hnt : ¬ refractCos2t (ClosestIntersection realMath st.r prims).1 st.r < 0) :
    ((GetRandom st.seed : ℝ × RenderRandomSeed).1 <
        reflectP realMath (ClosestIntersection realMath st.r prims).1 st.r →
      SampleLightBody realMath prims mats st = .next
        ⟨reflectedRay (ClosestIntersection realMath st.r prims).1 st.r, st.depth + 1,
          st.accumulatedColor.add (st.accumulatedReflectance.Multiply mat.emission),
          (st.accumulatedReflectance.Multiply mat.color).scale
            (schlickRe realMath (ClosestIntersection realMath st.r prims).1 st.r /
              reflectP realMath (ClosestIntersection realMath st.r prims).1 st.r),
          (GetRandom st.seed : ℝ × RenderRandomSeed).2⟩) ∧
    (¬ (GetRandom st.seed : ℝ × RenderRandomSeed).1 <
        reflectP realMath (ClosestIntersection realMath st.r prims).1 st.r →
      SampleLightBody realMath prims mats st = .next
        ⟨⟨(ClosestIntersection realMath st.r prims).1.intersectionPosition,
            refractTdir realMath (ClosestIntersection realMath st.r prims).1 st.r⟩,
          st.depth + 1,
          st.accumulatedColor.add (st.accumulatedReflectance.Multiply mat.emission),
          (st.accumulatedReflectance.Multiply mat.color).scale
            ((1 - schlickRe realMath (ClosestIntersection realMath st.r prims).1 st.r) /
              (1 - reflectP realMath (ClosestIntersection realMath st.r prims).1 st.r)),
          (GetRandom st.seed : ℝ × RenderRandomSeed).2⟩) ∧
    (st.r.direction.Dot st.r.direction = 1 →
      (ClosestIntersection realMath st.r prims).1.normal.Dot
        (ClosestIntersection realMath st.r prims).1.normal = 1 →
      reflectP realMath (ClosestIntersection realMath st.r prims).1 st.r *
          (schlickRe realMath (ClosestIntersection realMath st.r prims).1 st.r /
            reflectP realMath (ClosestIntersection realMath st.r prims).1 st.r) =
        schlickRe realMath (ClosestIntersection realMath st.r prims).1 st.r ∧
      (1 - reflectP realMath (ClosestIntersection realMath st.r prims).1 st.r) *
          ((1 - schlickRe realMath (ClosestIntersection realMath st.r prims).1 st.r) /
            (1 - reflectP realMath (ClosestIntersection realMath st.r prims).1 st.r)) =
        1 - schlickRe realMath (ClosestIntersection realMath st.r prims).1 st.r ∧
      reflectP realMath (ClosestIntersection realMath st.r prims).1 st.r *
          (schlickRe realMath (ClosestIntersection realMath st.r prims).1 st.r /
            reflectP realMath (ClosestIntersection realMath st.r prims).1 st.r) +
        (1 - reflectP realMath (ClosestIntersection realMath st.r prims).1 st.r) *
          ((1 - schlickRe realMath (ClosestIntersection realMath st.r prims).1 st.r) /
            (1 - reflectP realMath (ClosestIntersection realMath st.r prims).1 st.r)) =
        1) := by
  have hb := SampleLightBody_refraction realMath prims mats st mat h hty hd
  rw [if_neg hnt] at hb
  refine ⟨fun hlt => by rw [hb, if_pos hlt], fun hge => by rw [hb, if_neg hge], ?_⟩
  intro hdu hnu
  obtain ⟨_, _, _, _, hP0, hP1⟩ :=
    schlick_range (ClosestIntersection realMath st.r prims).1 st.r hdu hnu hnt
  generalize reflectP realMath (ClosestIntersection realMath st.r prims).1 st.r = P
    at hP0 hP1 ⊢
  generalize schlickRe realMath (ClosestIntersection realMath st.r prims).1 st.r = Re
  have h1 : P ≠ 0 := by intro h0; rw [h0] at hP0; norm_num at hP0
  have h2 : 1 - P ≠ 0 := by intro h0; linarith
  have e1 : P * (Re / P) = Re := by field_simp
  have e2 : (1 - P) * ((1 - Re) / (1 - P)) = 1 - Re := by field_simp
  exact ⟨e1, e2, by rw [e1, e2]; ring⟩

/-- Witness for C13: the head-on ray at a glass ball enters without total internal
reflection. -/
theorem refraction_importance_weights_witness :
    reflectP realMath ⟨.fin 2, ⟨0, 0, -1⟩, ⟨0, 0, -1⟩⟩ ⟨⟨0, 0, -3⟩, ⟨0, 0, 1⟩⟩ *
        (schlickRe realMath ⟨.fin 2, ⟨0, 0, -1⟩, ⟨0, 0, -1⟩⟩ ⟨⟨0, 0, -3⟩, ⟨0, 0, 1⟩⟩ /
          reflectP realMath ⟨.fin 2, ⟨0, 0, -1⟩, ⟨0, 0, -1⟩⟩ ⟨⟨0, 0, -3⟩, ⟨0, 0, 1⟩⟩) =
      schlickRe realMath ⟨.fin 2, ⟨0, 0, -1⟩, ⟨0, 0, -1⟩⟩ ⟨⟨0, 0, -3⟩, ⟨0, 0, 1⟩⟩ := by
  have hr : (SampleLightInit (⟨⟨0, 0, -3⟩, ⟨0, 0, 1⟩⟩ : Ray ℝ) ⟨3, 4⟩).r =
      ⟨⟨0, 0, -3⟩, ⟨0, 0, 1⟩⟩ := rfl
  have h := (refraction_importance_weights [⟨⟨1, ⟨0, 0, 0⟩⟩, 0⟩]
    [⟨⟨0, 0, 0⟩, ⟨1, 1, 1⟩, .REFRACTION⟩]
    (SampleLightInit ⟨⟨0, 0, -3⟩, ⟨0, 0, 1⟩⟩ ⟨3, 4⟩) ⟨⟨0, 0, 0⟩, ⟨1, 1, 1⟩, .REFRACTION⟩
    (headOn_hit _ _ rfl) rfl (by simp [SampleLightInit])
    (by
      rw [hr, headOn_closest]
      norm_num [refractCos2t, refractNnt, refractInto, refractDdn, facingNormal,
        Vector3f.Dot])).2.2
    (by rw [hr]; norm_num [Vector3f.Dot])
    (by rw [hr, headOn_closest]; norm_num [Vector3f.Dot])
  rw [hr, headOn_closest] at h
  exact h.1

/-! ## Claim C14 -/

/-- C14: for a unit incoming direction and a unit normal, without total internal
reflection, `R0 = ((1.5-1)/(1.5+1))^2 = 0.04`, the cosine term `c` lies in `[0,1]`, the
Schlick reflectance `Re` in `[0.04, 1]` and the reflection probability
`P = 0.25 + 0.5 Re` in `[0.27, 0.75]`; so `1 - P >= 0.25` and neither `P` nor `1 - P` is
zero. -/
theorem schlick_reflectance_bounds (I : Intersection ℝ) (r : Ray ℝ)
    (hd : r.direction.Dot r.direction = 1) (hn : I.normal.Dot I.normal = 1)
    (hnt : ¬ refractCos2t I r < 0) :
    (schlickR0 : ℝ) = ((15 / 10 - 1) / (15 / 10 + 1)) ^ 2 ∧ (schlickR0 : ℝ) = 4 / 100 ∧
    0 ≤ schlickC realMath I r ∧ schlickC realMath I r ≤ 1 ∧
    4 / 100 ≤ schlickRe realMath I r ∧ schlickRe realMath I r ≤ 1 ∧
    reflectP realMath I r = 25 / 100 + 5 / 10 * schlickRe realMath I r ∧
    27 / 100 ≤ reflectP realMath I r ∧ reflectP realMath I r ≤ 75 / 100 ∧
    25 / 100 ≤ 1 - reflectP realMath I r ∧
    reflectP realMath I r ≠ 0 ∧ 1 - reflectP realMath I r ≠ 0 := by
  obtain ⟨h1, h2, h3, h4, h5, h6⟩ := schlick_range I r hd hn hnt
  refine ⟨by rw [schlickR0_value]; norm_num, schlickR0_value, h1, h2, h3, h4, rfl, h5, h6,
    by linarith, ?_, ?_⟩
  · intro h0; rw [h0] at h5; norm_num at h5
  · intro h0; linarith

/-- Witness for C14: the head-on ray at a glass ball. -/
theorem schlick_reflectance_bounds_witness :
    4 / 100 ≤ schlickRe realMath ⟨.fin 2, ⟨0, 0, -1⟩, ⟨0, 0, -1⟩⟩
      ⟨⟨0, 0, -3⟩, ⟨0, 0, 1⟩⟩ :=
  (schlick_reflectance_bounds ⟨.fin 2, ⟨0, 0, -1⟩, ⟨0, 0, -1⟩⟩ ⟨⟨0, 0, -3⟩, ⟨0, 0, 1⟩⟩
    (by norm_num [Vector3f.Dot]) (by norm_num [Vector3f.Dot])
    (by norm_num [refractCos2t, refractNnt, refractInto, refractDdn, facingNormal,
      Vector3f.Dot])).2.2.2.2.1

/-! ## Claim C15 -/

/-- C15: for 32-bit state words `s1`, `s2`, `GetRandom` leaves the state
`s1' = 36969*(s1 & 65535) + (s1 >> 16)`, `s2' = 18000*(s2 & 65535) + (s2 >> 16)` (both
again 32-bit words) and returns `m / 2^23`, where `m` is the low 23 bits of
`((s1' << 16) + s2') mod 2^32`; hence `0 <= r < 1`. -/
theorem GetRandom_spec {F : Type} [LinearOrderedField F] (seed : RenderRandomSeed)
    (h1 : seed.s1 < 2 ^ 32) (h2 : seed.s2 < 2 ^ 32) :
    (GetRandom seed : F × RenderRandomSeed).2 =
      ⟨36969 * (seed.s1 &&& 65535) + (seed.s1 >>> 16),
        18000 * (seed.s2 &&& 65535) + (seed.s2 >>> 16)⟩ ∧
    36969 * (seed.s1 &&& 65535) + (seed.s1 >>> 16) < 2 ^ 32 ∧
    18000 * (seed.s2 &&& 65535) + (seed.s2 >>> 16) < 2 ^ 32 ∧
    (GetRandom seed : F × RenderRandomSeed).1 =
      (((((36969 * (seed.s1 &&& 65535) + (seed.s1 >>> 16)) <<< 16) +
        (18000 * (seed.s2 &&& 65535) + (seed.s2 >>> 16))) % 2 ^ 32 % 2 ^ 23 : Nat) : F) /
          2 ^ 23 ∧
    (((36969 * (seed.s1 &&& 65535) + (seed.s1 >>> 16)) <<< 16) +
        (18000 * (seed.s2 &&& 65535) + (seed.s2 >>> 16))) % 2 ^ 32 % 2 ^ 23 =
      (((36969 * (seed.s1 &&& 65535) + (seed.s1 >>> 16)) <<< 16) +
        (18000 * (seed.s2 &&& 65535) + (seed.s2 >>> 16))) % 2 ^ 32 &&& 0x007fffff ∧
    0 ≤ (GetRandom seed : F × RenderRandomSeed).1 ∧
    (GetRandom seed : F × RenderRandomSeed).1 < 1 := by
  have a1 : seed.s1 &&& 65535 ≤ 65535 := Nat.and_le_right
  have a2 : seed.s2 &&& 65535 ≤ 65535 := Nat.and_le_right
  have b1 : seed.s1 >>> 16 < 65536 := by
    rw [Nat.shiftRight_eq_div_pow]; omega
  have b2 : seed.s2 >>> 16 < 65536 := by
    rw [Nat.shiftRight_eq_div_pow]; omega
  have c1 : 36969 * (seed.s1 &&& 65535) + (seed.s1 >>> 16) < 2 ^ 32 := by omega
  have c2 : 18000 * (seed.s2 &&& 65535) + (seed.s2 >>> 16) < 2 ^ 32 := by omega
  have hmask : ∀ y : Nat, y &&& 0x007fffff = y % 2 ^ 23 := by
    intro y
    exact Nat.and_pow_two_sub_one_eq_mod y 23
  have hr : 0 ≤ (GetRandom seed : F × RenderRandomSeed).1 ∧
      (GetRandom seed : F × RenderRandomSeed).1 < 1 := GetRandom_range seed
  refine ⟨?_, c1, c2, ?_, (hmask _).symm, hr.1, hr.2⟩
  · simp only [GetRandom, Nat.mod_eq_of_lt c1, Nat.mod_eq_of_lt c2]
  · simp only [GetRandom, Nat.mod_eq_of_lt c1, Nat.mod_eq_of_lt c2]
    rw [floatOfBits_two _ (Nat.and_lt_two_pow _ (by norm_num)), hmask]
    ring

/-- Witness for C15: the state of pixel `(3, 4)`. -/
theorem GetRandom_spec_witness :
    (GetRandom ⟨3, 4⟩ : ℚ × RenderRandomSeed).2 = ⟨110907, 72000⟩ := by
  have h := (@GetRandom_spec ℚ _ ⟨3, 4⟩ (by norm_num) (by norm_num)).1
  rw [h]
  decide

/-! ## Unit vectors -/

section UnitLemmas

/-- A vector other than the zero vector has a positive dot product with itself. -/
theorem dot_self_pos (v : Vector3f ℝ) (h : v ≠ ⟨0, 0, 0⟩) : 0 < v.Dot v := by
  by_contra hneg
  apply h
  simp only [Vector3f.Dot] at hneg
  have hsum : v.x * v.x + v.y * v.y + v.z * v.z ≤ 0 := not_lt.mp hneg
  have hx : v.x * v.x = 0 :=
    le_antisymm (by nlinarith [mul_self_nonneg v.y, mul_self_nonneg v.z])
      (mul_self_nonneg v.x)
  have hy : v.y * v.y = 0 :=
    le_antisymm (by nlinarith [mul_self_nonneg v.x, mul_self_nonneg v.z])
      (mul_self_nonneg v.y)
  have hz : v.z * v.z = 0 :=
    le_antisymm (by nlinarith [mul_self_nonneg v.x, mul_self_nonneg v.y])
      (mul_self_nonneg v.z)
  cases v
  simp only [mul_self_eq_zero] at hx hy hz
  rw [hx, hy, hz]

/-- A vector whose dot product with itself is one has length one. -/
theorem length_of_dot_one (v : Vector3f ℝ) (h : v.Dot v = 1) : v.Length realMath = 1 := by
  simp only [Vector3f.Dot] at h
  simp only [Vector3f.Length, realMath, h, Real.sqrt_one]

/-- Normalising a vector other than the zero vector gives a unit vector, a positive
multiple of the vector. -/
theorem normalize_unit (v : Vector3f ℝ) (h : 0 < v.Dot v) :
    (v.Normalize realMath).Dot (v.Normalize realMath) = 1 ∧
    ∀ a : Vector3f ℝ, v.Dot a = 0 → (v.Normalize realMath).Dot a = 0 := by
  simp only [Vector3f.Normalize, Vector3f.Length, realMath, Vector3f.scale, Vector3f.Dot]
    at h ⊢
  have hs := Real.mul_self_sqrt h.le
  have hpos : 0 < Real.sqrt (v.x * v.x + v.y * v.y + v.z * v.z) := Real.sqrt_pos.mpr h
  generalize Real.sqrt (v.x * v.x + v.y * v.y + v.z * v.z) = L at hs hpos
  have hL : L ≠ 0 := hpos.ne'
  constructor
  · field_simp
    linarith
  · intro a ha
    have : v.x * (1 / L) * a.x + v.y * (1 / L) * a.y + v.z * (1 / L) * a.z =
        (v.x * a.x + v.y * a.y + v.z * a.z) * (1 / L) := by ring
    rw [this, ha, zero_mul]

/-- Normalising a unit vector changes nothing. -/
theorem normalize_of_unit (v : Vector3f ℝ) (h : v.Dot v = 1) : v.Normalize realMath = v := by
  rw [Vector3f.Normalize, length_of_dot_one v h]
  simp [Vector3f.scale]

end UnitLemmas

/-! ## Claim C16 -/

/-- C16: for 32-bit `width, height >= 2` the ray origin is
`eye - w*focalLength + u*px + v*py` with `px = left + x/(width-1) * (right-left)` and
`py = bottom + y/(height-1) * (top-bottom)`; pixel `(0,0)` gets the offsets
`(left, bottom)` and pixel `(width-1, height-1)` the offsets `(right, top)`; the
direction is the normalised difference of origin and eye. -/
theorem GenerateLookForPixel_origin {F : Type} [LinearOrderedField F] (m : MathOps F)
    (cam : Camera F) (x y width height : Nat) (hw : 2 ≤ width) (hw' : width < 2 ^ 32)
    (hh : 2 ≤ height) (hh' : height < 2 ^ 32) :
    (cam.GenerateLookForPixel m x y width height).origin =
      ((cam.eye.sub ((cam.frameW m).scale cam.focalLength)).add
        ((cam.frameU m).scale
          (cam.left + (x : F) / ((width : F) - 1) * (cam.right - cam.left)))).add
        ((cam.frameV m).scale
          (cam.bottom + (y : F) / ((height : F) - 1) * (cam.top - cam.bottom))) ∧
    (cam.GenerateLookForPixel m 0 0 width height).origin =
      ((cam.eye.sub ((cam.frameW m).scale cam.focalLength)).add
        ((cam.frameU m).scale cam.left)).add ((cam.frameV m).scale cam.bottom) ∧
    (cam.GenerateLookForPixel m (width - 1) (height - 1) width height).origin =
      ((cam.eye.sub ((cam.frameW m).scale cam.focalLength)).add
        ((cam.frameU m).scale cam.right)).add ((cam.frameV m).scale cam.top) ∧
    (cam.GenerateLookForPixel m x y width height).direction =
      ((cam.GenerateLookForPixel m x y width height).origin.sub cam.eye).Normalize m := by
  have e1 : (((width + 2 ^ 32 - 1) % 2 ^ 32 : Nat) : F) = (width : F) - 1 := by
    have : (width + 2 ^ 32 - 1) % 2 ^ 32 = width - 1 := by omega
    rw [this, Nat.cast_sub (by omega), Nat.cast_one]
  have e2 : (((height + 2 ^ 32 - 1) % 2 ^ 32 : Nat) : F) = (height : F) - 1 := by
    have : (height + 2 ^ 32 - 1) % 2 ^ 32 = height - 1 := by omega
    rw [this, Nat.cast_sub (by omega), Nat.cast_one]
  have hwF : (width : F) - 1 ≠ 0 := by
    have : (2 : F) ≤ (width : F) := by exact_mod_cast hw
    linarith
  have hhF : (height : F) - 1 ≠ 0 := by
    have : (2 : F) ≤ (height : F) := by exact_mod_cast hh
    linarith
  have gen : ∀ a b : Nat, (cam.GenerateLookForPixel m a b width height).origin =
      ((cam.eye.sub ((cam.frameW m).scale cam.focalLength)).add
        ((cam.frameU m).scale
          (cam.left + (a : F) / ((width : F) - 1) * (cam.right - cam.left)))).add
        ((cam.frameV m).scale
          (cam.bottom + (b : F) / ((height : F) - 1) * (cam.top - cam.bottom))) := by
    intro a b
    simp only [Camera.GenerateLookForPixel, Camera.frameW, Camera.frameU, Camera.frameV,
      e1, e2]
    rw [add_comm ((a : F) / ((width : F) - 1) * (cam.right - cam.left)) cam.left,
      add_comm ((b : F) / ((height : F) - 1) * (cam.top - cam.bottom)) cam.bottom]
  refine ⟨gen x y, ?_, ?_, rfl⟩
  · rw [gen 0 0]
    simp
  · rw [gen (width - 1) (height - 1), Nat.cast_sub (by omega), Nat.cast_sub (by omega),
      Nat.cast_one, div_self hwF, div_self hhF]
    simp

/-- Witness for C16: the corner pixel `(0, 0)` of a 3x2 image. -/
theorem GenerateLookForPixel_origin_witness :
    (Camera.GenerateLookForPixel realMath
      ⟨⟨0, 1, 0⟩, ⟨0, 0, 0⟩, ⟨0, 0, 4⟩, 1, -1, -1, 1, 1⟩ 0 0 3 2).origin =
      (((⟨0, 0, 4⟩ : Vector3f ℝ).sub
        ((Camera.frameW realMath ⟨⟨0, 1, 0⟩, ⟨0, 0, 0⟩, ⟨0, 0, 4⟩, 1, -1, -1, 1, 1⟩).scale 1)).add
        ((Camera.frameU realMath ⟨⟨0, 1, 0⟩, ⟨0, 0, 0⟩, ⟨0, 0, 4⟩, 1, -1, -1, 1, 1⟩).scale
          (-1))).add
        ((Camera.frameV realMath ⟨⟨0, 1, 0⟩, ⟨0, 0, 0⟩, ⟨0, 0, 4⟩, 1, -1, -1, 1, 1⟩).scale
          (-1)) :=
  (GenerateLookForPixel_origin realMath ⟨⟨0, 1, 0⟩, ⟨0, 0, 0⟩, ⟨0, 0, 4⟩, 1, -1, -1, 1, 1⟩
    0 0 3 2 (by norm_num) (by norm_num) (by norm_num) (by norm_num)).2.1

/-! ## Claim C17 -/

/-- C17: when `eye` differs from `look` and `up` is not parallel to `eye - look` (their
cross product is not the zero vector), the frame vectors `w`, `u`, `v` of
`GenerateLookForPixel` have length one and are pairwise perpendicular, and the `v` that
is used, `normalize(w x u)`, equals `w x u`. -/
theorem camera_frame_orthonormal (cam : Camera ℝ) (heye : cam.eye ≠ cam.look)
    (hup : cam.up.Cross (cam.eye.sub cam.look) ≠ ⟨0, 0, 0⟩) :
    (cam.frameW realMath).Length realMath = 1 ∧ (cam.frameU realMath).Length realMath = 1 ∧
    (cam.frameV realMath).Length realMath = 1 ∧
    (cam.frameU realMath).Dot (cam.frameW realMath) = 0 ∧
    (cam.frameV realMath).Dot (cam.frameW realMath) = 0 ∧
    (cam.frameU realMath).Dot (cam.frameV realMath) = 0 ∧
    cam.frameV realMath = (cam.frameW realMath).Cross (cam.frameU realMath) := by
  have he : cam.eye.sub cam.look ≠ ⟨0, 0, 0⟩ := by
    intro h
    apply heye
    cases hE : cam.eye with
    | mk a b c =>
      cases hL : cam.look with
      | mk a' b' c' =>
        rw [hE, hL] at h
        simp only [Vector3f.sub, Vector3f.mk.injEq] at h
        obtain ⟨h1, h2, h3⟩ := h
        rw [sub_eq_zero.mp h1, sub_eq_zero.mp h2, sub_eq_zero.mp h3]
  have hepos := dot_self_pos _ he
  obtain ⟨hW, _⟩ := normalize_unit _ hepos
  have hW' : (cam.frameW realMath).Dot (cam.frameW realMath) = 1 := hW
  have hcross : cam.up.Cross (cam.frameW realMath) ≠ ⟨0, 0, 0⟩ := by
    intro h
    apply hup
    have hL : 0 < (cam.eye.sub cam.look).Length realMath := by
      simp only [Vector3f.Length, realMath]
      exact Real.sqrt_pos.mpr hepos
    simp only [Camera.frameW, Vector3f.Normalize, Vector3f.Cross, Vector3f.scale,
      Vector3f.mk.injEq] at h ⊢
    generalize (cam.eye.sub cam.look).Length realMath = L at hL h
    have hL' : 1 / L ≠ 0 := one_div_ne_zero hL.ne'
    obtain ⟨h1, h2, h3⟩ := h
    refine ⟨?_, ?_, ?_⟩
    · have : (cam.up.y * (cam.eye.sub cam.look).z - cam.up.z * (cam.eye.sub cam.look).y) *
          (1 / L) = 0 := by linear_combination h1
      exact (mul_eq_zero.mp this).resolve_right hL'
    · have : (cam.up.z * (cam.eye.sub cam.look).x - cam.up.x * (cam.eye.sub cam.look).z) *
          (1 / L) = 0 := by linear_combination h2
      exact (mul_eq_zero.mp this).resolve_right hL'
    · have : (cam.up.x * (cam.eye.sub cam.look).y - cam.up.y * (cam.eye.sub cam.look).x) *
          (1 / L) = 0 := by linear_combination h3
      exact (mul_eq_zero.mp this).resolve_right hL'
  obtain ⟨hU, hUperp⟩ := normalize_unit _ (dot_self_pos _ hcross)
  have hU' : (cam.frameU realMath).Dot (cam.frameU realMath) = 1 := hU
  have hUW : (cam.frameU realMath).Dot (cam.frameW realMath) = 0 := by
    apply hUperp
    simp only [Vector3f.Cross, Vector3f.Dot]
    ring
  have hWU : ((cam.frameW realMath).Cross (cam.frameU realMath)).Dot
      ((cam.frameW realMath).Cross (cam.frameU realMath)) = 1 := by
    generalize cam.frameW realMath = w at hW' hUW ⊢
    generalize cam.frameU realMath = u at hU' hUW ⊢
    simp only [Vector3f.Cross, Vector3f.Dot] at hW' hU' hUW ⊢
    linear_combination (u.x * u.x + u.y * u.y + u.z * u.z) * hW' + hU' -
      (u.x * w.x + u.y * w.y + u.z * w.z) * hUW
  have hV : cam.frameV realMath = (cam.frameW realMath).Cross (cam.frameU realMath) :=
    normalize_of_unit _ hWU
  refine ⟨length_of_dot_one _ hW', length_of_dot_one _ hU', ?_, hUW, ?_, ?_, hV⟩
  · rw [hV]; exact length_of_dot_one _ hWU
  · rw [hV]
    simp only [Vector3f.Cross, Vector3f.Dot]
    ring
  · rw [hV]
    simp only [Vector3f.Cross, Vector3f.Dot]
    ring

/-- Witness for C17: a camera at `(0,0,4)` looking at the origin with `up = (0,1,0)`. -/
theorem camera_frame_orthonormal_witness :
    (Camera.frameV realMath ⟨⟨0, 1, 0⟩, ⟨0, 0, 0⟩, ⟨0, 0, 4⟩, 1, -1, -1, 1, 1⟩).Length
      realMath = 1 :=
  (camera_frame_orthonormal ⟨⟨0, 1, 0⟩, ⟨0, 0, 0⟩, ⟨0, 0, 4⟩, 1, -1, -1, 1, 1⟩
    (by simp) (by norm_num [Vector3f.Cross, Vector3f.sub])).2.2.1

/-! ## Claim C18 -/

section UnitRayLemmas

/-- The facing normal of a unit normal is a unit vector. -/
theorem facingNormal_unit (I : Intersection ℝ) (r : Ray ℝ)
    (hn : I.normal.Dot I.normal = 1) :
    (facingNormal I r).Dot (facingNormal I r) = 1 := by
  simp only [facingNormal]
  split_ifs
  · exact hn
  · simp only [Vector3f.Dot, Vector3f.scale] at hn ⊢
    linear_combination hn

/-- The mirror image of a unit direction about a unit normal is a unit vector. -/
theorem reflectedRay_unit (I : Intersection ℝ) (r : Ray ℝ)
    (hd : r.direction.Dot r.direction = 1) (hn : I.normal.Dot I.normal = 1) :
    (reflectedRay I r).direction.Dot (reflectedRay I r).direction = 1 := by
  simp only [reflectedRay, Vector3f.Dot, Vector3f.sub, Vector3f.scale] at hd hn ⊢
  linear_combination hd + 4 * (I.normal.x * r.direction.x + I.normal.y * r.direction.y +
    I.normal.z * r.direction.z) ^ 2 * hn

/-- The direction sampled by the diffuse branch around a unit normal is a unit vector. -/
theorem diffuseDirection_unit (n : Vector3f ℝ) (hn : n.Dot n = 1) (seed : RenderRandomSeed) :
    (diffuseDirection realMath n (GetRandom seed : ℝ × RenderRandomSeed).1
      (GetRandom (GetRandom seed : ℝ × RenderRandomSeed).2 : ℝ × RenderRandomSeed).1).Dot
      (diffuseDirection realMath n (GetRandom seed : ℝ × RenderRandomSeed).1
        (GetRandom (GetRandom seed : ℝ × RenderRandomSeed).2 :
          ℝ × RenderRandomSeed).1) = 1 := by
  have hg : 0 ≤ (GetRandom (GetRandom seed : ℝ × RenderRandomSeed).2 :
      ℝ × RenderRandomSeed).1 ∧
      (GetRandom (GetRandom seed : ℝ × RenderRandomSeed).2 : ℝ × RenderRandomSeed).1 < 1 :=
    GetRandom_range _
  obtain ⟨_, h2⟩ := diffuseSample_dot n hn (GetRandom seed : ℝ × RenderRandomSeed).1
    (GetRandom (GetRandom seed : ℝ × RenderRandomSeed).2 : ℝ × RenderRandomSeed).1
    hg.1 hg.2.le
  rw [diffuseDirection, normalize_of_unit _ h2]
  exact h2

/-- Every ray with which the loop of `SampleLight` continues from a unit direction and a
unit normal has a unit direction. -/
theorem SampleLightBody_next_unit (prims : List (ScenePrimative ℝ))
    (mats : List (Material ℝ)) (st st' : PathState ℝ)
    (hd : st.r.direction.Dot st.r.direction = 1)
    (hn : (ClosestIntersection realMath st.r prims).1.normal.Dot
      (ClosestIntersection realMath st.r prims).1.normal = 1)
    (hb : SampleLightBody realMath prims mats st = .next st') :
    st'.r.direction.Dot st'.r.direction = 1 := by
  obtain ⟨hdepth, _, mat, hmat⟩ := SampleLightBody_next realMath prims mats st st' hb
  have hrefl := reflectedRay_unit (ClosestIntersection realMath st.r prims).1 st.r hd hn
  cases hty : mat.materialType with
  | DIFFUSE =>
    rw [SampleLightBody_diffuse realMath prims mats st mat hmat hty hdepth] at hb
    simp only [LoopStep.next.injEq] at hb
    rw [← hb]
    exact diffuseDirection_unit _ (facingNormal_unit _ _ hn) st.seed
  | SPECULAR =>
    rw [SampleLightBody_specular realMath prims mats st mat hmat hty hdepth] at hb
    simp only [LoopStep.next.injEq] at hb
    rw [← hb]
    exact hrefl
  | REFRACTION =>
    rw [SampleLightBody_refraction realMath prims mats st mat hmat hty hdepth] at hb
    split_ifs at hb with h1 h2
    · simp only [LoopStep.next.injEq] at hb
      rw [← hb]
      exact hrefl
    · simp only [LoopStep.next.injEq] at hb
      rw [← hb]
      exact hrefl
    · simp only [LoopStep.next.injEq] at hb
      rw [← hb]
      obtain ⟨k1, k2, _⟩ :=
        refractSample_unit (ClosestIntersection realMath st.r prims).1 st.r hd hn h1
      show (refractTdir realMath (ClosestIntersection realMath st.r prims).1 st.r).Dot
        (refractTdir realMath (ClosestIntersection realMath st.r prims).1 st.r) = 1
      rw [k2]
      exact k1

end UnitRayLemmas

/-- C18: the rays that are traced have directions of length one: the camera ray whenever
its origin differs from the eye, and, for a unit incoming direction and a unit surface
normal, the ray with which `SampleLight` continues, in each branch: the diffuse
direction, the mirror direction (specular hits, total internal reflection and the
reflection choice of the refractive branch) and the transmitted direction. -/
theorem traced_rays_have_unit_direction :
    (∀ (cam : Camera ℝ) (x y width height : Nat),
      (cam.GenerateLookForPixel realMath x y width height).origin ≠ cam.eye →
      (cam.GenerateLookForPixel realMath x y width height).direction.Length realMath = 1) ∧
    (∀ (prims : List (ScenePrimative ℝ)) (mats : List (Material ℝ)) (st st' : PathState ℝ),
      st.r.direction.Dot st.r.direction = 1 →
      (ClosestIntersection realMath st.r prims).1.normal.Dot
        (ClosestIntersection realMath st.r prims).1.normal = 1 →
      SampleLightBody realMath prims mats st = .next st' →
      st'.r.direction.Length realMath = 1) ∧
    (∀ (I : Intersection ℝ) (r : Ray ℝ) (seed : RenderRandomSeed),
      r.direction.Dot r.direction = 1 → I.normal.Dot I.normal = 1 →
      (diffuseDirection realMath (facingNormal I r) (GetRandom seed : ℝ × RenderRandomSeed).1
        (GetRandom (GetRandom seed : ℝ × RenderRandomSeed).2 :
          ℝ × RenderRandomSeed).1).Length realMath = 1 ∧
      (reflectedRay I r).direction.Length realMath = 1 ∧
      (¬ refractCos2t I r < 0 → (refractTdir realMath I r).Length realMath = 1)) := by
  refine ⟨?_, ?_, ?_⟩
  · intro cam x y w h hne
    have hsub : (cam.GenerateLookForPixel realMath x y w h).origin.sub cam.eye ≠
        ⟨0, 0, 0⟩ := by
      intro h0
      apply hne
      cases hO : (cam.GenerateLookForPixel realMath x y w h).origin with
      | mk a b c =>
        cases hE : cam.eye with
        | mk a' b' c' =>
          rw [hO, hE] at h0
          simp only [Vector3f.sub, Vector3f.mk.injEq] at h0
          obtain ⟨h1, h2, h3⟩ := h0
          rw [sub_eq_zero.mp h1, sub_eq_zero.mp h2, sub_eq_zero.mp h3]
    exact length_of_dot_one _ (normalize_unit _ (dot_self_pos _ hsub)).1
  · intro prims mats st st' hd hn hb
    exact length_of_dot_one _ (SampleLightBody_next_unit prims mats st st' hd hn hb)
  · intro I r seed hd hn
    refine ⟨length_of_dot_one _ (diffuseDirection_unit _ (facingNormal_unit I r hn) seed),
      length_of_dot_one _ (reflectedRay_unit I r hd hn), ?_⟩
    intro hnt
    obtain ⟨k1, k2, _⟩ := refractSample_unit I r hd hn hnt
    rw [k2]
    exact length_of_dot_one _ k1

/-- Witness for C18: the mirror ray of the head-on ray at the unit ball. -/
theorem traced_rays_have_unit_direction_witness :
    (reflectedRay (⟨.fin 2, ⟨0, 0, -1⟩, ⟨0, 0, -1⟩⟩ : Intersection ℝ)
      ⟨⟨0, 0, -3⟩, ⟨0, 0, 1⟩⟩).direction.Length realMath = 1 :=
  (traced_rays_have_unit_direction.2.2 ⟨.fin 2, ⟨0, 0, -1⟩, ⟨0, 0, -1⟩⟩
    ⟨⟨0, 0, -3⟩, ⟨0, 0, 1⟩⟩ ⟨3, 4⟩ (by norm_num [Vector3f.Dot])
    (by norm_num [Vector3f.Dot])).2.1

/-! ## Claim C19 -/

section KernelLemmas

variable {F : Type} [LinearOrderedField F]

/-- The sample loop of the kernel: the estimates are taken one after the other, each from
the sampler state left by the one before, and each adds its `1/samplesPerPixel`-th to
the accumulator. -/
theorem SampleLoop_chain (m : MathOps F) (fuel : Nat) (hf : 8 ≤ fuel) (ray : Ray F)
    (prims : List (ScenePrimative F)) (mats : List (Material F)) (n : Nat) :
    ∀ (remaining : Nat) (acc : Color F) (seed : RenderRandomSeed),
      ∃ l : List (Color F × RenderRandomSeed), l.length = remaining ∧
        (∀ k, k < remaining →
          SampleLight m fuel ray prims mats
            (if k = 0 then seed else (l.getD (k - 1) (⟨0, 0, 0⟩, ⟨0, 0⟩)).2) =
              some (l.getD k (⟨0, 0, 0⟩, ⟨0, 0⟩))) ∧
        SampleLoop m fuel ray prims mats n remaining acc seed = some
          (⟨acc.x + 1 / (n : F) * (l.map (fun e => e.1.x)).sum,
            acc.y + 1 / (n : F) * (l.map (fun e => e.1.y)).sum,
            acc.z + 1 / (n : F) * (l.map (fun e => e.1.z)).sum⟩,
            if remaining = 0 then seed
            else (l.getD (remaining - 1) (⟨0, 0, 0⟩, ⟨0, 0⟩)).2) := by
  intro remaining
  induction remaining with
  | zero =>
    intro acc seed
    refine ⟨[], rfl, fun k hk => absurd hk (Nat.not_lt_zero k), ?_⟩
    simp [SampleLoop]
  | succ remaining ih =>
    intro acc seed
    obtain ⟨res, hres⟩ := SampleLightLoop_returns m prims mats fuel
      (SampleLightInit ray seed) (by omega) (by omega)
    have hres' : SampleLight m fuel ray prims mats seed = some (res.1, res.2) := hres
    obtain ⟨l, hlen, hchain, hloop⟩ := ih (acc.add (res.1.scale (1 / (n : F)))) res.2
    refine ⟨(res.1, res.2) :: l, by simp [hlen], ?_, ?_⟩
    · intro k hk
      cases k with
      | zero => simpa using hres'
      | succ k =>
        have := hchain k (by omega)
        cases k with
        | zero => simpa using this
        | succ k => simpa using this
    · simp only [SampleLoop, hres', hloop]
      refine congrArg some (Prod.ext ?_ ?_)
      · simp only [Vector3f.add, Vector3f.scale, List.map_cons, List.sum_cons,
          Vector3f.mk.injEq]
        refine ⟨by ring, by ring, by ring⟩
      · cases remaining with
        | zero => simp
        | succ r => simp

end KernelLemmas

/-- C19: with `samplesPerPixel = n >= 1` the kernel takes `n` estimates of `SampleLight`,
all for the camera ray of the pixel, the first from the sampler state `(x, y)` and each
further one from the state left by the one before; the colour handed to the pixel
conversion is `1/n` times the sum of the estimates. -/
theorem pixel_is_mean_of_estimates {F : Type} [LinearOrderedField F] [FloorRing F]
    (m : MathOps F) (fuel : Nat) (prims : List (ScenePrimative F))
    (mats : List (Material F)) (cam : Camera F) (n width height threadId : Nat)
    (hn : 1 ≤ n) (hf : 8 ≤ fuel) :
    ∃ l : List (Color F × RenderRandomSeed), l.length = n ∧
      (∀ k, k < n →
        SampleLight m fuel
          (cam.GenerateLookForPixel m (threadId % width) (threadId / width) width height)
          prims mats
          (if k = 0 then ⟨threadId % width, threadId / width⟩
            else (l.getD (k - 1) (⟨0, 0, 0⟩, ⟨0, 0⟩)).2) =
          some (l.getD k (⟨0, 0, 0⟩, ⟨0, 0⟩))) ∧
      SampleLoop m fuel
          (cam.GenerateLookForPixel m (threadId % width) (threadId / width) width height)
          prims mats n n ⟨0, 0, 0⟩ ⟨threadId % width, threadId / width⟩ = some
        (⟨1 / (n : F) * (l.map (fun e => e.1.x)).sum,
          1 / (n : F) * (l.map (fun e => e.1.y)).sum,
          1 / (n : F) * (l.map (fun e => e.1.z)).sum⟩,
          (l.getD (n - 1) (⟨0, 0, 0⟩, ⟨0, 0⟩)).2) ∧
      RenderKernel m fuel prims mats cam n width height threadId = some
        (threadId / width * width + threadId % width,
          (Pixel.ofColor (⟨1 / (n : F) * (l.map (fun e => e.1.x)).sum,
            1 / (n : F) * (l.map (fun e => e.1.y)).sum,
            1 / (n : F) * (l.map (fun e => e.1.z)).sum⟩ : Color F)).GammaCorrect m) := by
  obtain ⟨l, hlen, hchain, hloop⟩ := SampleLoop_chain m fuel hf
    (cam.GenerateLookForPixel m (threadId % width) (threadId / width) width height)
    prims mats n n ⟨0, 0, 0⟩ ⟨threadId % width, threadId / width⟩
  have hn0 : n ≠ 0 := by omega
  simp only [zero_add, if_neg hn0] at hloop
  refine ⟨l, hlen, hchain, hloop, ?_⟩
  simp only [RenderKernel, hloop]

/-- Witness for C19: two samples for work item five of a 4x2 image of the empty scene. -/
theorem pixel_is_mean_of_estimates_witness :
    ∃ p, RenderKernel realMath 8 [] []
      ⟨⟨0, 1, 0⟩, ⟨0, 0, 0⟩, ⟨0, 0, 4⟩, 1, -1, -1, 1, 1⟩ 2 4 2 5 = some (5, p) := by
  obtain ⟨l, _, _, _, h⟩ := pixel_is_mean_of_estimates realMath 8 [] []
    ⟨⟨0, 1, 0⟩, ⟨0, 0, 0⟩, ⟨0, 0, 4⟩, 1, -1, -1, 1, 1⟩ 2 4 2 5 (by norm_num) (le_refl 8)
  exact ⟨_, h⟩

/-! ## Claim C20 -/

section DispatchLemmas

variable {F : Type} [LinearOrderedField F] [FloorRing F]

/-- With eight units of fuel every work item produces a pixel for the slot
`y*width + x`, which is its own id. -/
theorem RenderKernel_slot (m : MathOps F) (fuel : Nat) (hf : 8 ≤ fuel)
    (prims : List (ScenePrimative F)) (mats : List (Material F)) (cam : Camera F)
    (n width height threadId : Nat) :
    ∃ p, RenderKernel m fuel prims mats cam n width height threadId = some (threadId, p) := by
  obtain ⟨l, _, _, hloop⟩ := SampleLoop_chain m fuel hf
    (cam.GenerateLookForPixel m (threadId % width) (threadId / width) width height)
    prims mats n n ⟨0, 0, 0⟩ ⟨threadId % width, threadId / width⟩
  cases hk : RenderKernel m fuel prims mats cam n width height threadId with
  | none => simp [RenderKernel, hloop] at hk
  | some sp =>
    simp only [RenderKernel, hloop, Option.some.injEq] at hk
    refine ⟨sp.2, ?_⟩
    rw [← hk, Nat.div_add_mod' threadId width]

/-- The work items `id, ..., id + count - 1` fill the slots `id, ..., id + count - 1`
of the buffer, each with the pixel of its own work item, and leave the slots below `id`
as they were. -/
theorem RenderItems_slots (m : MathOps F) (fuel : Nat) (hf : 8 ≤ fuel)
    (prims : List (ScenePrimative F)) (mats : List (Material F)) (cam : Camera F)
    (n width height : Nat) :
    ∀ (count id : Nat) (pixels : List Pixel), id + count ≤ pixels.length →
      ∃ out, RenderItems m fuel prims mats cam n width height count id pixels = some out ∧
        out.length = pixels.length ∧
        (∀ i, id ≤ i → i < id + count →
          ∃ p, RenderKernel m fuel prims mats cam n width height i = some (i, p) ∧
            out[i]? = some p) ∧
        (∀ i, i < id → out[i]? = pixels[i]?) := by
  intro count
  induction count with
  | zero =>
    intro id pixels _
    exact ⟨pixels, rfl, rfl, fun i h1 h2 => by omega, fun i _ => rfl⟩
  | succ count ih =>
    intro id pixels hlen
    obtain ⟨p, hp⟩ := RenderKernel_slot m fuel hf prims mats cam n width height id
    obtain ⟨out, h1, h2, h3, h4⟩ := ih (id + 1) (pixels.set id p)
      (by rw [List.length_set]; omega)
    refine ⟨out, by simp only [RenderItems, hp, h1], by rw [h2, List.length_set], ?_, ?_⟩
    · intro i hi1 hi2
      by_cases hi : i = id
      · subst hi
        refine ⟨p, hp, ?_⟩
        rw [h4 i (by omega), List.getElem?_set_self (by omega)]
      · exact h3 i (by omega) (by omega)
    · intro i hi
      rw [h4 i (by omega), List.getElem?_set_ne (by omega)]

end DispatchLemmas

/-- C20: for `width >= 1` and every work-item id below `width*height`, with
`x = id mod width` and `y = id div width`, the slot `y*width + x` is `id`, `x < width`
and `y < height`; distinct work items write distinct slots, every slot is the slot of
exactly one work item, and after the dispatch every slot of the buffer holds the pixel
computed by the work item of that id. -/
theorem work_items_own_their_slots {F : Type} [LinearOrderedField F] [FloorRing F]
    (m : MathOps F) (fuel : Nat) (prims : List (ScenePrimative F))
    (mats : List (Material F)) (cam : Camera F) (n width height : Nat)
    (hw : 1 ≤ width) (hf : 8 ≤ fuel) :
    (∀ id, id < width * height →
      id / width * width + id % width = id ∧ id % width < width ∧ id / width < height) ∧
    (∀ id slot p, RenderKernel m fuel prims mats cam n width height id = some (slot, p) →
      slot = id / width * width + id % width ∧ slot = id) ∧
    (∀ id id', id < width * height → id' < width * height → id ≠ id' →
      id / width * width + id % width ≠ id' / width * width + id' % width) ∧
    (∀ slot, slot < width * height →
      ∃ id, (id < width * height ∧ id / width * width + id % width = slot) ∧
        ∀ id', id' < width * height ∧ id' / width * width + id' % width = slot →
          id' = id) ∧
    (∃ img, RenderScene m fuel prims mats cam n width height = some img ∧
      img.data.length = width * height % 2 ^ 32 ∧
      ∀ i, i < width * height % 2 ^ 32 →
        ∃ p, RenderKernel m fuel prims mats cam n width height i = some (i, p) ∧
          img.data[i]? = some p) := by
  have hslot : ∀ id, id / width * width + id % width = id :=
    fun id => Nat.div_add_mod' id width
  refine ⟨?_, ?_, ?_, ?_, ?_⟩
  · intro id hid
    refine ⟨hslot id, Nat.mod_lt _ (by omega), ?_⟩
    exact Nat.div_lt_of_lt_mul hid
  · intro id slot p hk
    obtain ⟨p', hp'⟩ := RenderKernel_slot m fuel hf prims mats cam n width height id
    rw [hp'] at hk
    simp only [Option.some.injEq, Prod.mk.injEq] at hk
    rw [hslot id]
    exact ⟨hk.1.symm, hk.1.symm⟩
  · intro id id' _ _ hne
    rw [hslot id, hslot id']
    exact hne
  · intro slot hs
    refine ⟨slot, ⟨hs, hslot slot⟩, ?_⟩
    rintro id' ⟨_, h2⟩
    rw [hslot id'] at h2
    exact h2
  · obtain ⟨out, h1, h2, h3, _⟩ := RenderItems_slots m fuel hf prims mats cam n width height
      (width * height % 2 ^ 32) 0 (Image.new width height).data
      (by simp [Image.new])
    refine ⟨⟨width, height, out⟩, ?_, ?_, ?_⟩
    · simp only [RenderScene, RenderSceneInto]
      rw [show (Image.new width height).width = width from rfl,
        show (Image.new width height).height = height from rfl, h1]
    · rw [h2]
      simp [Image.new]
    · intro i hi
      exact h3 i (Nat.zero_le i) (by omega)

/-- Witness for C20: work item five of a 4x2 image is pixel `(1, 1)` and owns slot five. -/
theorem work_items_own_their_slots_witness :
    5 / 4 * 4 + 5 % 4 = 5 ∧ 5 % 4 < 4 ∧ 5 / 4 < 2 :=
  (work_items_own_their_slots realMath 8 [] []
    ⟨⟨0, 1, 0⟩, ⟨0, 0, 0⟩, ⟨0, 0, 4⟩, 1, -1, -1, 1, 1⟩ 1 4 2 (by norm_num)
    (le_refl 8)).1 5 (by norm_num)

/-! ## Claim C25 -/

/-- C25: for every geometric normal `n` and incoming direction `d`, the facing normal
used by `SampleLight` is `n` when `n.d < 0` and `-n` otherwise, and its dot product with
`d` is never positive. -/
theorem facing_normal_against_ray {F : Type} [LinearOrderedField F]
    (I : Intersection F) (r : Ray F) :
    (I.normal.Dot r.direction < 0 → facingNormal I r = I.normal) ∧
    (¬ I.normal.Dot r.direction < 0 →
      facingNormal I r = ⟨-I.normal.x, -I.normal.y, -I.normal.z⟩) ∧
    (facingNormal I r).Dot r.direction ≤ 0 := by
  refine ⟨fun h => if_pos h, fun h => ?_, ?_⟩
  · rw [facingNormal, if_neg h]
    simp [Vector3f.scale]
  · unfold facingNormal
    split_ifs with h
    · exact le_of_lt h
    · simp only [Vector3f.Dot, Vector3f.scale] at h ⊢
      linarith

/-- Witness for C25: the normal `(0,0,1)` met by the direction `(0,0,1)` is flipped. -/
theorem facing_normal_against_ray_witness :
    facingNormal (⟨.fin 1, ⟨0, 0, 1⟩, ⟨0, 0, 0⟩⟩ : Intersection ℚ) ⟨⟨0, 0, -1⟩, ⟨0, 0, 1⟩⟩ =
      ⟨-0, -0, -1⟩ :=
  (facing_normal_against_ray (⟨.fin 1, ⟨0, 0, 1⟩, ⟨0, 0, 0⟩⟩ : Intersection ℚ)
    ⟨⟨0, 0, -1⟩, ⟨0, 0, 1⟩⟩).2.1 (by norm_num [Vector3f.Dot])

/-! ## Claim C26 -/

/-- C26: a scattering step of `SampleLight` (a hit at depth below seven) leaves the
sampler after exactly two `GetRandom` draws for a diffuse hit, none for a specular hit
(whose next ray is the mirror ray, built from the hit position, the normal and the
direction alone), none for a refractive hit with total internal reflection and one for
a refractive hit without it. -/
theorem scattering_step_draws {F : Type} [LinearOrderedField F] (m : MathOps F)
    (prims : List (ScenePrimative F)) (mats : List (Material F)) (st : PathState F)
    (mat : Material F) (h : SampleLightHit m prims mats st = some mat)
    (hd : st.depth + 1 ≤ 7) :
    ∃ st', SampleLightBody m prims mats st = .next st' ∧
      (mat.materialType = .DIFFUSE →
        st'.seed = Nat.iterate (fun s => (GetRandom s : F × RenderRandomSeed).2) 2 st.seed) ∧
      (mat.materialType = .SPECULAR →
        st'.seed = Nat.iterate (fun s => (GetRandom s : F × RenderRandomSeed).2) 0 st.seed ∧
        st'.seed = st.seed ∧
        st'.r.origin = (ClosestIntersection m st.r prims).1.intersectionPosition ∧
        st'.r.direction = st.r.direction.sub
          (((ClosestIntersection m st.r prims).1.normal.scale 2).scale
            ((ClosestIntersection m st.r prims).1.normal.Dot st.r.direction))) ∧
      (mat.materialType = .REFRACTION →
        refractCos2t (ClosestIntersection m st.r prims).1 st.r < 0 →
        st'.seed = Nat.iterate (fun s => (GetRandom s : F × RenderRandomSeed).2) 0 st.seed ∧
        st'.seed = st.seed) ∧
      (mat.materialType = .REFRACTION →
        ¬ refractCos2t (ClosestIntersection m st.r prims).1 st.r < 0 →
        st'.seed = Nat.iterate (fun s => (GetRandom s : F × RenderRandomSeed).2) 1 st.seed) := by
  cases hty : mat.materialType with
  | DIFFUSE =>
    refine ⟨_, SampleLightBody_diffuse m prims mats st mat h hty hd, fun _ => rfl,
      fun hc => absurd hc (by simp), fun hc => absurd hc (by simp),
      fun hc => absurd hc (by simp)⟩
  | SPECULAR =>
    refine ⟨_, SampleLightBody_specular m prims mats st mat h hty hd,
      fun hc => absurd hc (by simp), fun _ => ⟨rfl, rfl, rfl, rfl⟩,
      fun hc => absurd hc (by simp), fun hc => absurd hc (by simp)⟩
  | REFRACTION =>
    have hb := SampleLightBody_refraction m prims mats st mat h hty hd
    by_cases hc : refractCos2t (ClosestIntersection m st.r prims).1 st.r < 0
    · rw [if_pos hc] at hb
      exact ⟨_, hb, fun hx => absurd hx (by simp), fun hx => absurd hx (by simp),
        fun _ _ => ⟨rfl, rfl⟩, fun _ hn => absurd hc hn⟩
    · rw [if_neg hc] at hb
      by_cases hp : (GetRandom st.seed : F × RenderRandomSeed).1 <
          reflectP m (ClosestIntersection m st.r prims).1 st.r
      · rw [if_pos hp] at hb
        exact ⟨_, hb, fun hx => absurd hx (by simp), fun hx => absurd hx (by simp),
          fun _ hn => absurd hn hc, fun _ _ => rfl⟩
      · rw [if_neg hp] at hb
        exact ⟨_, hb, fun hx => absurd hx (by simp), fun hx => absurd hx (by simp),
          fun _ hn => absurd hn hc, fun _ _ => rfl⟩

/-- Witness for C26: a diffuse hit of the head-on ray at the unit ball, from the sampler
state `(3, 4)`. -/
theorem scattering_step_draws_witness :
    ∃ st', SampleLightBody realMath [⟨⟨1, ⟨0, 0, 0⟩⟩, 0⟩] [⟨⟨0, 0, 0⟩, ⟨1, 1, 1⟩, .DIFFUSE⟩]
        ⟨⟨⟨0, 0, -3⟩, ⟨0, 0, 1⟩⟩, 0, ⟨0, 0, 0⟩, ⟨1, 1, 1⟩, ⟨3, 4⟩⟩ = .next st' ∧
      st'.seed = Nat.iterate (fun s => (GetRandom s : ℝ × RenderRandomSeed).2) 2 ⟨3, 4⟩ := by
  obtain ⟨st', h1, h2, _⟩ := scattering_step_draws realMath [⟨⟨1, ⟨0, 0, 0⟩⟩, 0⟩]
    [⟨⟨0, 0, 0⟩, ⟨1, 1, 1⟩, .DIFFUSE⟩]
    ⟨⟨⟨0, 0, -3⟩, ⟨0, 0, 1⟩⟩, 0, ⟨0, 0, 0⟩, ⟨1, 1, 1⟩, ⟨3, 4⟩⟩ ⟨⟨0, 0, 0⟩, ⟨1, 1, 1⟩, .DIFFUSE⟩
    (headOn_hit _ _ rfl) (by norm_num)
  exact ⟨st', h1, h2 rfl⟩


/-! ## Claim C30 -/

/-- C30: for a `MaterialManager` holding `n` materials, `n` a 32-bit id,
`AddMaterial(m)` returns `n`, leaves the materials at the indices below `n` as they
were, and afterwards `GetMaterial(n) = m` and `GetMaterials().size() = n + 1`; on the
empty manager the returned id is `0`. -/
theorem AddMaterial_appends {F : Type} [LinearOrderedField F] (mm : MaterialManager F)
    (material : Material F) (n : Nat) (hn : mm.GetMaterials.length = n) (h32 : n < 2 ^ 32) :
    (mm.AddMaterial material).1 = n ∧
    (∀ i, i < n → (mm.AddMaterial material).2.GetMaterial i = mm.GetMaterial i) ∧
    (∀ i, i < n → (mm.AddMaterial material).2.GetMaterials[i]? = mm.GetMaterials[i]?) ∧
    (mm.AddMaterial material).2.GetMaterial n = material ∧
    (mm.AddMaterial material).2.GetMaterials.length = n + 1 ∧
    ((MaterialManager.empty : MaterialManager F).AddMaterial material).1 = 0 := by
  simp only [MaterialManager.GetMaterials] at hn
  refine ⟨?_, ?_, ?_, ?_, ?_, rfl⟩
  · simp only [MaterialManager.AddMaterial, hn]
    exact Nat.mod_eq_of_lt h32
  · intro i hi
    simp only [MaterialManager.AddMaterial, MaterialManager.GetMaterial, List.getD_eq_getElem?_getD]
    rw [List.getElem?_append_left (by omega)]
  · intro i hi
    simp only [MaterialManager.AddMaterial, MaterialManager.GetMaterials]
    rw [List.getElem?_append_left (by omega)]
  · simp only [MaterialManager.AddMaterial, MaterialManager.GetMaterial, List.getD_eq_getElem?_getD]
    rw [List.getElem?_append_right (by omega)]
    simp [hn]
  · simp [MaterialManager.AddMaterial, MaterialManager.GetMaterials, hn]

/-- Witness for C30: the second material added to a manager gets the id one. -/
theorem AddMaterial_appends_witness :
    ((⟨[Material.default], []⟩ : MaterialManager ℚ).AddMaterial
      ⟨⟨0, 0, 0⟩, ⟨1, 1, 1⟩, .SPECULAR⟩).1 = 1 :=
  (AddMaterial_appends (⟨[Material.default], []⟩ : MaterialManager ℚ)
    ⟨⟨0, 0, 0⟩, ⟨1, 1, 1⟩, .SPECULAR⟩ 1 rfl (by norm_num)).1


/-! ## Claim C22 -/

/-- C22 as stated fails: `AddPrimative(sphere, materialId)` stores the id unchecked, so
on the empty scene, whose indices are valid, `AddPrimative(sphere, 0)` gives a scene
with a primitive whose material index `0` is not below the number of materials `0`. -/
theorem AddPrimative_unchecked_counterexample :
    (Scene.empty : Scene ℚ).IndicesValid ∧
    ((Scene.empty : Scene ℚ).AddPrimative ⟨1, ⟨0, 0, 0⟩⟩ 0).GetPrimatives.length = 1 ∧
    ((Scene.empty : Scene ℚ).AddPrimative ⟨1, ⟨0, 0, 0⟩⟩ 0).GetMaterialManager.GetMaterials.length
      = 0 ∧
    ¬ ((Scene.empty : Scene ℚ).AddPrimative ⟨1, ⟨0, 0, 0⟩⟩ 0).IndicesValid := by
  refine ⟨?_, rfl, rfl, ?_⟩
  · intro p hp
    simp [Scene.empty] at hp
  · intro h
    have := h ⟨⟨1, ⟨0, 0, 0⟩⟩, 0⟩ (by simp [Scene.AddPrimative, Scene.empty])
    simp [Scene.AddPrimative, Scene.empty, MaterialManager.empty] at this

/-- C22, amended: the empty scene has valid material indices; on a scene with valid
indices `AddPrimative(sphere, material)` and `AddMaterial` on the scene's manager keep
them valid, and `AddPrimative(sphere, materialId)` keeps them valid exactly when
`materialId` is below the number of materials in the store. -/
theorem Scene_indices_valid {F : Type} [LinearOrderedField F] (s : Scene F)
    (sphere : Sphere F) (material : Material F) (materialId : Nat) (h : s.IndicesValid) :
    (Scene.empty : Scene F).IndicesValid ∧
    (s.AddPrimativeMaterial sphere material).IndicesValid ∧
    (⟨s.scenePrimatives, (s.materialManager.AddMaterial material).2⟩ : Scene F).IndicesValid ∧
    ((s.AddPrimative sphere materialId).IndicesValid ↔
      materialId < s.GetMaterialManager.GetMaterials.length) := by
  refine ⟨?_, ?_, ?_, ?_⟩
  · intro p hp
    simp [Scene.empty] at hp
  · intro p hp
    simp only [Scene.AddPrimativeMaterial, MaterialManager.AddMaterial, List.mem_append,
      List.mem_singleton, List.length_append, List.length_singleton] at hp ⊢
    rcases hp with hp | rfl
    · exact Nat.lt_succ_of_lt (h p hp)
    · exact Nat.lt_succ_of_le (Nat.mod_le _ _)
  · intro p hp
    simp only [MaterialManager.AddMaterial, List.length_append, List.length_singleton] at hp ⊢
    exact Nat.lt_succ_of_lt (h p hp)
  · constructor
    · intro hv
      exact hv ⟨sphere, materialId⟩ (by simp [Scene.AddPrimative])
    · intro hlt p hp
      simp only [Scene.AddPrimative, List.mem_append, List.mem_singleton] at hp ⊢
      rcases hp with hp | rfl
      · exact h p hp
      · exact hlt

/-- Witness for C22: the two additions of `SceneTest.cpp`, a sphere with a material and
then a sphere with the id `0`, give a scene with valid indices. -/
theorem Scene_indices_valid_witness :
    (((Scene.empty : Scene ℚ).AddPrimativeMaterial ⟨2, ⟨1, 1, 1⟩⟩ Material.default).AddPrimative
      ⟨2, ⟨2, 2, 2⟩⟩ 0).IndicesValid :=
  (Scene_indices_valid ((Scene.empty : Scene ℚ).AddPrimativeMaterial ⟨2, ⟨1, 1, 1⟩⟩
    Material.default) ⟨2, ⟨2, 2, 2⟩⟩ Material.default 0
    (by
      intro p hp
      simp only [Scene.AddPrimativeMaterial, Scene.empty, MaterialManager.empty,
        MaterialManager.AddMaterial, List.nil_append, List.mem_singleton] at hp ⊢
      subst hp
      simp)).2.2.2.2 (by
        simp [Scene.GetMaterialManager, MaterialManager.GetMaterials, Scene.AddPrimativeMaterial,
          MaterialManager.AddMaterial, Scene.empty, MaterialManager.empty])


/-! ## Claim C29 -/

/-- The row-major index of an in-bounds coordinate is below `width*height`. -/
theorem rowMajor_lt (w h x y : Nat) (hx : x < w) (hy : y < h) : y * w + x < w * h := by
  have h1 : (y + 1) * w ≤ h * w := Nat.mul_le_mul_right w hy
  have h2 : (y + 1) * w = y * w + w := by ring
  have h3 : h * w = w * h := Nat.mul_comm h w
  omega

/-- The row-major index determines the coordinate when the column is below the width. -/
theorem rowMajor_injective (w x y x' y' : Nat) (hx : x < w) (hx' : x' < w)
    (h : y' * w + x' = y * w + x) : x' = x ∧ y' = y := by
  have hw : 0 < w := by omega
  have e1 : (x' + y' * w) % w = x' := by
    rw [Nat.add_mul_mod_self_right, Nat.mod_eq_of_lt hx']
  have e2 : (x + y * w) % w = x := by
    rw [Nat.add_mul_mod_self_right, Nat.mod_eq_of_lt hx]
  have e3 : (x' + y' * w) / w = y' := by
    rw [Nat.add_mul_div_right _ _ hw, Nat.div_eq_of_lt hx', Nat.zero_add]
  have e4 : (x + y * w) / w = y := by
    rw [Nat.add_mul_div_right _ _ hw, Nat.div_eq_of_lt hx, Nat.zero_add]
  have e : x' + y' * w = x + y * w := by omega
  rw [e] at e1 e3
  exact ⟨by omega, by omega⟩

/-- C29 as stated fails: the product `width_ * height_` and the index `y*width_+x` are
32-bit unsigned.  The image of width 65536 and height 65537 has `GetDataSize() = 65536`,
not `65536 * 65537`, and `(0, 65536)` is in bounds and has the index `0` of `(0, 0)`, so
`SetPixel(0, 65536, p)` changes `GetPixel(0, 0)`. -/
theorem Image_index_wraps_counterexample :
    (Image.new 65536 65537).GetDataSize = 65536 ∧
    (Image.new 65536 65537).GetDataSize ≠ 65536 * 65537 ∧
    (0 < (Image.new 65536 65537).GetWidth ∧ 65536 < (Image.new 65536 65537).GetHeight) ∧
    (Image.new 65536 65537).GetPixel 0 0 = ⟨0, 0, 0⟩ ∧
    ((Image.new 65536 65537).SetPixel 0 65536 ⟨1, 1, 1⟩).GetPixel 0 0 = ⟨1, 1, 1⟩ := by
  refine ⟨by norm_num [Image.GetDataSize, Image.new],
    by norm_num [Image.GetDataSize, Image.new],
    by norm_num [Image.GetWidth, Image.GetHeight, Image.new], ?_, ?_⟩
  · show (List.replicate (65536 * 65537 % 2 ^ 32) (⟨0, 0, 0⟩ : Pixel)).getD
      ((0 * 65536 + 0) % 2 ^ 32) ⟨0, 0, 0⟩ = ⟨0, 0, 0⟩
    rw [List.getD_eq_getElem?_getD, List.getElem?_replicate]
    split_ifs <;> rfl
  · show ((List.replicate (65536 * 65537 % 2 ^ 32) (⟨0, 0, 0⟩ : Pixel)).set
      ((65536 * 65536 + 0) % 2 ^ 32) ⟨1, 1, 1⟩).getD ((0 * 65536 + 0) % 2 ^ 32) ⟨0, 0, 0⟩ =
        ⟨1, 1, 1⟩
    have h1 : (65536 * 65536 + 0) % 2 ^ 32 = 0 := by norm_num
    have h2 : (0 * 65536 + 0) % 2 ^ 32 = 0 := by norm_num
    have h3 : 65536 * 65537 % 2 ^ 32 = 65536 := by norm_num
    rw [h1, h2, h3, List.getD_eq_getElem?_getD,
      List.getElem?_set_self (by rw [List.length_replicate]; norm_num)]
    rfl

/-- C29, amended: for an image whose buffer has `GetDataSize()` pixels, as the
constructor makes it, and whose `width*height` is below `2^32`: `GetDataSize()` is
`width*height`; for in-bounds `(x, y)`, after `SetPixel(x, y, p)` the pixel at `(x, y)`
is `p` and the pixel at every other in-bounds coordinate is as before, the row-major
index being injective on in-bounds coordinates; width, height and buffer size are as
before. -/
theorem Image_SetPixel_GetPixel (img : Image) (x y : Nat) (p : Pixel)
    (hdata : img.data.length = img.GetDataSize) (hsz : img.width * img.height < 2 ^ 32)
    (hx : x < img.width) (hy : y < img.height) :
    img.GetDataSize = img.width * img.height ∧
    (img.SetPixel x y p).GetPixel x y = p ∧
    (∀ x' y', x' < img.width → y' < img.height → (x', y') ≠ (x, y) →
      (img.SetPixel x y p).GetPixel x' y' = img.GetPixel x' y') ∧
    (∀ x' y', x' < img.width → y' < img.height →
      y' * img.width + x' = y * img.width + x → x' = x ∧ y' = y) ∧
    (img.SetPixel x y p).GetWidth = img.GetWidth ∧
    (img.SetPixel x y p).GetHeight = img.GetHeight ∧
    (img.SetPixel x y p).GetDataSize = img.GetDataSize ∧
    (img.SetPixel x y p).data.length = (img.SetPixel x y p).GetDataSize := by
  have hds : img.GetDataSize = img.width * img.height := Nat.mod_eq_of_lt hsz
  have hidx : ∀ a b, a < img.width → b < img.height →
      (b * img.width + a) % 2 ^ 32 = b * img.width + a := by
    intro a b ha hb
    exact Nat.mod_eq_of_lt (lt_trans (rowMajor_lt _ _ a b ha hb) hsz)
  refine ⟨hds, ?_, ?_, fun x' y' hx' _ h => rowMajor_injective _ x y x' y' hx hx' h,
    rfl, rfl, rfl, ?_⟩
  · simp only [Image.GetPixel, Image.SetPixel, List.getD_eq_getElem?_getD]
    rw [List.getElem?_set_self (by
      rw [hidx x y hx hy, hdata, hds]
      exact rowMajor_lt _ _ x y hx hy)]
    rfl
  · intro x' y' hx' hy' hne
    simp only [Image.GetPixel, Image.SetPixel, List.getD_eq_getElem?_getD]
    rw [List.getElem?_set_ne]
    rw [hidx x y hx hy, hidx x' y' hx' hy']
    intro h
    obtain ⟨h1, h2⟩ := rowMajor_injective _ x y x' y' hx hx' h.symm
    exact hne (by rw [h1, h2])
  · simp only [Image.SetPixel, List.length_set]
    exact hdata

/-- Witness for C29: the 10x10 image of `ImageTest.cpp` after `SetPixel(0, 1, p)`. -/
theorem Image_SetPixel_GetPixel_witness :
    (Image.new 10 10).GetDataSize = 10 * 10 ∧
    ((Image.new 10 10).SetPixel 0 1 ⟨1, 1, 1⟩).GetPixel 0 1 = ⟨1, 1, 1⟩ :=
  ⟨(Image_SetPixel_GetPixel (Image.new 10 10) 0 1 ⟨1, 1, 1⟩ rfl (by norm_num [Image.new])
      (by norm_num [Image.new]) (by norm_num [Image.new])).1,
    (Image_SetPixel_GetPixel (Image.new 10 10) 0 1 ⟨1, 1, 1⟩ rfl (by norm_num [Image.new])
      (by norm_num [Image.new]) (by norm_num [Image.new])).2.1⟩


/-! ## Claims C24, C27, C28: the 8-bit conversion and the gamma curve -/

section PixelLemmas

/-- On an 8-bit value the lambda `gamma` is the floor of `255 (c/255)^(1/2.2) + 0.5`,
which is at most 255. -/
theorem gamma_floor (q : Nat) (hq : q ≤ 255) :
    gamma realMath q = ⌊255 * ((q : ℝ) / 255) ^ ((1 : ℝ) / (22 / 10)) + 5 / 10⌋₊ ∧
    gamma realMath q ≤ 255 := by
  have hx0 : (0 : ℝ) ≤ (q : ℝ) / 255 := by positivity
  have hx1 : (q : ℝ) / 255 ≤ 1 := by
    rw [div_le_one (by norm_num)]
    exact_mod_cast hq
  have hp0 : 0 ≤ ((q : ℝ) / 255) ^ ((1 : ℝ) / (22 / 10)) := Real.rpow_nonneg hx0 _
  have hp1 : ((q : ℝ) / 255) ^ ((1 : ℝ) / (22 / 10)) ≤ 1 :=
    Real.rpow_le_one hx0 hx1 (by norm_num)
  have hfl : ⌊255 * ((q : ℝ) / 255) ^ ((1 : ℝ) / (22 / 10)) + 5 / 10⌋₊ < 256 := by
    rw [Nat.floor_lt (by positivity)]
    push_cast
    linarith
  have hg : gamma realMath q = ⌊255 * ((q : ℝ) / 255) ^ ((1 : ℝ) / (22 / 10)) + 5 / 10⌋₊ := by
    simp only [gamma, realMath, toUint8]
    exact Nat.mod_eq_of_lt hfl
  exact ⟨hg, by rw [hg]; omega⟩

/-- The value of the lambda `gamma` at an 8-bit value, from two comparisons of rational
powers: the exponent `1/2.2` is `5/11`. -/
theorem gamma_eval (q k : Nat) (hq : q ≤ 255)
    (h1 : ((2 * (k : ℝ) - 1) / 510) ^ 11 ≤ ((q : ℝ) / 255) ^ 5)
    (h2 : ((q : ℝ) / 255) ^ 5 < ((2 * (k : ℝ) + 1) / 510) ^ 11) (hk : 1 ≤ k) :
    gamma realMath q = k := by
  have hx0 : (0 : ℝ) ≤ (q : ℝ) / 255 := by positivity
  have hy0 : 0 ≤ ((q : ℝ) / 255) ^ ((1 : ℝ) / (22 / 10)) := Real.rpow_nonneg hx0 _
  have hy : (((q : ℝ) / 255) ^ ((1 : ℝ) / (22 / 10))) ^ 11 = ((q : ℝ) / 255) ^ 5 := by
    rw [← Real.rpow_natCast, ← Real.rpow_mul hx0, ← Real.rpow_natCast]
    norm_num
  have hk1 : (1 : ℝ) ≤ (k : ℝ) := by exact_mod_cast hk
  rw [← hy] at h1 h2
  have hlo : (2 * (k : ℝ) - 1) / 510 ≤ ((q : ℝ) / 255) ^ ((1 : ℝ) / (22 / 10)) :=
    le_of_pow_le_pow_left₀ (by norm_num) hy0 h1
  have hhi : ((q : ℝ) / 255) ^ ((1 : ℝ) / (22 / 10)) < (2 * (k : ℝ) + 1) / 510 :=
    lt_of_pow_lt_pow_left₀ 11 (by positivity) h2
  rw [(gamma_floor q hq).1, Nat.floor_eq_iff (by positivity)]
  constructor
  · linarith
  · linarith

/-- A channel that is at least one is written as 255. -/
theorem channel_white (v : ℝ) (h : 1 ≤ v) :
    gamma realMath (toUint8 (CLAMP_0_1 v * 255)) = 255 := by
  have hc : CLAMP_0_1 v = 1 := by
    unfold CLAMP_0_1
    split_ifs with h1 h2
    · linarith
    · rfl
    · linarith
  have h1 : toUint8 (CLAMP_0_1 v * 255) = 255 := by
    rw [hc]
    norm_num [toUint8]
  rw [h1]
  exact gamma_eval 255 255 (le_refl 255) (by norm_num) (by norm_num) (by norm_num)

/-- A channel that is at most zero is written as 0. -/
theorem channel_black (v : ℝ) (h : v ≤ 0) :
    gamma realMath (toUint8 (CLAMP_0_1 v * 255)) = 0 := by
  have hc : CLAMP_0_1 v = 0 := by
    unfold CLAMP_0_1
    split_ifs with h1 h2
    · rfl
    · linarith
    · linarith
  have h1 : toUint8 (CLAMP_0_1 v * 255) = 0 := by
    rw [hc]
    norm_num [toUint8]
  rw [h1]
  simp only [gamma, realMath, toUint8, Nat.cast_zero, zero_div]
  rw [Real.zero_rpow (by norm_num), mul_zero, zero_add, Nat.floor_eq_zero.mpr (by norm_num)]

end PixelLemmas

/-- C24: `Pixel(Color).GammaCorrect()` writes every channel whose linear value is at
least `1.0` as 255 and every channel whose linear value is at most `0.0` as 0. -/
theorem GammaCorrect_saturates (c : Color ℝ) :
    (1 ≤ c.x → ((Pixel.ofColor c).GammaCorrect realMath).r = 255) ∧
    (1 ≤ c.y → ((Pixel.ofColor c).GammaCorrect realMath).g = 255) ∧
    (1 ≤ c.z → ((Pixel.ofColor c).GammaCorrect realMath).b = 255) ∧
    (c.x ≤ 0 → ((Pixel.ofColor c).GammaCorrect realMath).r = 0) ∧
    (c.y ≤ 0 → ((Pixel.ofColor c).GammaCorrect realMath).g = 0) ∧
    (c.z ≤ 0 → ((Pixel.ofColor c).GammaCorrect realMath).b = 0) :=
  ⟨fun h => channel_white c.x h, fun h => channel_white c.y h, fun h => channel_white c.z h,
    fun h => channel_black c.x h, fun h => channel_black c.y h, fun h => channel_black c.z h⟩

/-- Witness for C24: the colour `(1, 0, 2)` is written as `Pixel(255, 0, 255)`. -/
theorem GammaCorrect_saturates_witness :
    ((Pixel.ofColor (⟨1, 0, 2⟩ : Color ℝ)).GammaCorrect realMath).r = 255 ∧
    ((Pixel.ofColor (⟨1, 0, 2⟩ : Color ℝ)).GammaCorrect realMath).g = 0 ∧
    ((Pixel.ofColor (⟨1, 0, 2⟩ : Color ℝ)).GammaCorrect realMath).b = 255 :=
  ⟨(GammaCorrect_saturates ⟨1, 0, 2⟩).1 (le_refl 1),
    (GammaCorrect_saturates ⟨1, 0, 2⟩).2.2.2.2.1 (le_refl 0),
    (GammaCorrect_saturates ⟨1, 0, 2⟩).2.2.1 (by norm_num)⟩

/-- C28: for every 8-bit channel value `c` the lambda of `Pixel::GammaCorrect` gives
the floor of `255 (c/255)^(1/2.2) + 0.5`, which is the nearest integer to
`255 (c/255)^(1/2.2)` and lies in `[0, 255]`, so that the 8-bit store does not wrap;
`Pixel(50,100,200)` becomes `Pixel(122,167,228)`. -/
theorem GammaCorrect_rounds (c : Nat) (hc : c ≤ 255) :
    gamma realMath c = ⌊255 * ((c : ℝ) / 255) ^ ((1 : ℝ) / (22 / 10)) + 5 / 10⌋₊ ∧
    ((gamma realMath c : Nat) : ℤ) =
      round (255 * ((c : ℝ) / 255) ^ ((1 : ℝ) / (22 / 10))) ∧
    gamma realMath c ≤ 255 ∧
    ⌊255 * ((c : ℝ) / 255) ^ ((1 : ℝ) / (22 / 10)) + 5 / 10⌋₊ < 256 ∧
    Pixel.GammaCorrect realMath ⟨50, 100, 200⟩ = ⟨122, 167, 228⟩ := by
  obtain ⟨hg, hle⟩ := gamma_floor c hc
  refine ⟨hg, ?_, hle, by rw [← hg]; omega, ?_⟩
  · rw [hg, round_eq, show (1 : ℝ) / 2 = 5 / 10 by norm_num]
    exact Int.natCast_floor_eq_floor (by positivity)
  · have h50 : gamma realMath 50 = 122 :=
      gamma_eval 50 122 (by norm_num) (by norm_num) (by norm_num) (by norm_num)
    have h100 : gamma realMath 100 = 167 :=
      gamma_eval 100 167 (by norm_num) (by norm_num) (by norm_num) (by norm_num)
    have h200 : gamma realMath 200 = 228 :=
      gamma_eval 200 228 (by norm_num) (by norm_num) (by norm_num) (by norm_num)
    simp only [Pixel.GammaCorrect, h50, h100, h200]

/-- Witness for C28: the channel value 50. -/
theorem GammaCorrect_rounds_witness :
    gamma realMath 50 = ⌊255 * (((50 : Nat) : ℝ) / 255) ^ ((1 : ℝ) / (22 / 10)) + 5 / 10⌋₊ :=
  (GammaCorrect_rounds 50 (by norm_num)).1


/-! ## Claim C21 -/

section ScheduleLemmas

variable {F : Type} [LinearOrderedField F] [FloorRing F]

/-- The kernel as a function of its inputs: the sample loop is run for the camera ray of
the pixel `(x, y) = (id mod width, id div width)` from the sampler state `(x, y)`, and
its mean is converted and written to the slot `y*width + x`. -/
theorem RenderKernel_eq (m : MathOps F) (fuel : Nat) (prims : List (ScenePrimative F))
    (mats : List (Material F)) (cam : Camera F) (n width height threadId : Nat) :
    RenderKernel m fuel prims mats cam n width height threadId =
      (SampleLoop m fuel
        (cam.GenerateLookForPixel m (threadId % width) (threadId / width) width height)
        prims mats n n ⟨0, 0, 0⟩ ⟨threadId % width, threadId / width⟩).map
        (fun res => (threadId / width * width + threadId % width,
          (Pixel.ofColor res.1).GammaCorrect m)) := by
  unfold RenderKernel
  dsimp only
  cases SampleLoop m fuel
    (cam.GenerateLookForPixel m (threadId % width) (threadId / width) width height)
    prims mats n n ⟨0, 0, 0⟩ ⟨threadId % width, threadId / width⟩ <;> rfl

/-- Whatever the order in which work items run, and whatever the buffer held before,
every slot whose work item has run holds the pixel of that work item and every other
slot is as it was. -/
theorem RenderSchedule_slots (m : MathOps F) (fuel : Nat) (hf : 8 ≤ fuel)
    (prims : List (ScenePrimative F)) (mats : List (Material F)) (cam : Camera F)
    (n width height : Nat) :
    ∀ (order : List Nat) (pixels : List Pixel), (∀ id ∈ order, id < pixels.length) →
      ∃ out, RenderSchedule m fuel prims mats cam n width height order pixels = some out ∧
        out.length = pixels.length ∧
        (∀ i, i ∈ order →
          ∃ p, RenderKernel m fuel prims mats cam n width height i = some (i, p) ∧
            out[i]? = some p) ∧
        (∀ i, i ∉ order → out[i]? = pixels[i]?) := by
  intro order
  induction order with
  | nil =>
    intro pixels _
    exact ⟨pixels, rfl, rfl, fun i hi => absurd hi (List.not_mem_nil i), fun i _ => rfl⟩
  | cons id rest ih =>
    intro pixels hlen
    obtain ⟨p, hp⟩ := RenderKernel_slot m fuel hf prims mats cam n width height id
    have hid : id < pixels.length := hlen id (List.mem_cons_self id rest)
    obtain ⟨out, h1, h2, h3, h4⟩ := ih (pixels.set id p) (by
      intro j hj
      rw [List.length_set]
      exact hlen j (List.mem_cons_of_mem id hj))
    refine ⟨out, by simp only [RenderSchedule, hp, h1], by rw [h2, List.length_set], ?_, ?_⟩
    · intro i hi
      by_cases hr : i ∈ rest
      · exact h3 i hr
      · have hi' : i = id := by
          rcases List.mem_cons.mp hi with h | h
          · exact h
          · exact absurd h hr
        subst hi'
        refine ⟨p, hp, ?_⟩
        rw [h4 i hr, List.getElem?_set_self hid]
    · intro i hi
      have hne : id ≠ i := fun h => hi (h ▸ List.mem_cons_self id rest)
      have hr : i ∉ rest := fun h => hi (List.mem_cons_of_mem id h)
      rw [h4 i hr, List.getElem?_set_ne hne]

end ScheduleLemmas

/-- C21: the pixel a work item writes is a function of the primitives, the materials,
the camera, `samplesPerPixel`, the width, the height and the pixel `(x, y)` alone, its
sampler starting from `(s1, s2) = (x, y)`; and in whatever order the work items of the
dispatch run, the pixel buffer they leave is the one `RenderScene` returns. -/
theorem render_is_order_independent {F : Type} [LinearOrderedField F] [FloorRing F]
    (m : MathOps F) (fuel : Nat) (prims : List (ScenePrimative F))
    (mats : List (Material F)) (cam : Camera F) (n width height : Nat) (hf : 8 ≤ fuel) :
    (∀ threadId, RenderKernel m fuel prims mats cam n width height threadId =
      (SampleLoop m fuel
        (cam.GenerateLookForPixel m (threadId % width) (threadId / width) width height)
        prims mats n n ⟨0, 0, 0⟩ ⟨threadId % width, threadId / width⟩).map
        (fun res => (threadId / width * width + threadId % width,
          (Pixel.ofColor res.1).GammaCorrect m))) ∧
    (∃ img, RenderScene m fuel prims mats cam n width height = some img ∧
      ∀ order : List Nat, order.Perm (List.range (width * height % 2 ^ 32)) →
        RenderSchedule m fuel prims mats cam n width height order
          (Image.new width height).data = some img.data) := by
  refine ⟨fun threadId => RenderKernel_eq m fuel prims mats cam n width height threadId, ?_⟩
  have hlen0 : (Image.new width height).data.length = width * height % 2 ^ 32 := by
    simp [Image.new]
  obtain ⟨out, h1, h2, h3, _⟩ := RenderItems_slots m fuel hf prims mats cam n width height
    (width * height % 2 ^ 32) 0 (Image.new width height).data (by rw [hlen0]; omega)
  refine ⟨⟨width, height, out⟩, ?_, ?_⟩
  · simp only [RenderScene, RenderSceneInto]
    rw [show (Image.new width height).width = width from rfl,
      show (Image.new width height).height = height from rfl, h1]
  · intro order hperm
    have hmem : ∀ i, i ∈ order ↔ i < width * height % 2 ^ 32 := by
      intro i
      rw [hperm.mem_iff, List.mem_range]
    obtain ⟨out', g1, g2, g3, g4⟩ := RenderSchedule_slots m fuel hf prims mats cam n width
      height order (Image.new width height).data (by
        intro id hid
        rw [hlen0]
        exact (hmem id).mp hid)
    rw [g1]
    refine congrArg some (List.ext_getElem? ?_)
    intro i
    by_cases hi : i < width * height % 2 ^ 32
    · obtain ⟨p, hp, hout⟩ := h3 i (Nat.zero_le i) (by omega)
      obtain ⟨p', hp', hout'⟩ := g3 i ((hmem i).mpr hi)
      rw [hp] at hp'
      simp only [Option.some.injEq, Prod.mk.injEq, true_and] at hp'
      rw [hout, hout', hp']
    · rw [List.getElem?_eq_none (by rw [g2, hlen0]; omega),
        List.getElem?_eq_none (by rw [h2, hlen0]; omega)]

/-- Witness for C21: the two work items of a 2x1 image of the empty scene, run in the
order 1, 0. -/
theorem render_is_order_independent_witness :
    ∃ img, RenderScene realMath 8 [] [] ⟨⟨0, 1, 0⟩, ⟨0, 0, 0⟩, ⟨0, 0, 4⟩, 1, -1, -1, 1, 1⟩
        1 2 1 = some img ∧
      RenderSchedule realMath 8 [] [] ⟨⟨0, 1, 0⟩, ⟨0, 0, 0⟩, ⟨0, 0, 4⟩, 1, -1, -1, 1, 1⟩
        1 2 1 [1, 0] (Image.new 2 1).data = some img.data := by
  obtain ⟨img, h1, h2⟩ := (render_is_order_independent realMath 8 [] []
    ⟨⟨0, 1, 0⟩, ⟨0, 0, 0⟩, ⟨0, 0, 4⟩, 1, -1, -1, 1, 1⟩ 1 2 1 (le_refl 8)).2
  exact ⟨img, h1, h2 [1, 0] (by decide)⟩


/-! ## Claim C23 -/

section EmitterLemmas

/-- A normalised vector has length one or is the zero vector. -/
theorem normalize_unit_or_zero (v : Vector3f ℝ) :
    (v.Normalize realMath).Dot (v.Normalize realMath) = 1 ∨
      v.Normalize realMath = ⟨0, 0, 0⟩ := by
  by_cases h : 0 < v.Dot v
  · exact Or.inl (normalize_unit v h).1
  · right
    simp only [Vector3f.Dot] at h
    have hx : v.x = 0 := by nlinarith [mul_self_nonneg v.x, mul_self_nonneg v.y, mul_self_nonneg v.z]
    have hy : v.y = 0 := by nlinarith [mul_self_nonneg v.x, mul_self_nonneg v.y, mul_self_nonneg v.z]
    have hz : v.z = 0 := by nlinarith [mul_self_nonneg v.x, mul_self_nonneg v.y, mul_self_nonneg v.z]
    simp [Vector3f.Normalize, Vector3f.scale, hx, hy, hz]

/-- The normal of whatever `Sphere::Intersect` returns has length one or is the zero
vector. -/
theorem Sphere_Intersect_normal_unit_or_zero (s : Sphere ℝ) (ray : Ray ℝ) :
    (s.Intersect realMath ray).normal.Dot (s.Intersect realMath ray).normal = 1 ∨
      (s.Intersect realMath ray).normal = ⟨0, 0, 0⟩ := by
  unfold Sphere.Intersect
  dsimp only
  split_ifs
  · exact Or.inr rfl
  · exact normalize_unit_or_zero _
  · exact normalize_unit_or_zero _
  · exact Or.inr rfl

/-- With a single primitive the closest-intersection query leaves the index `0` and
returns the sentinel or the intersection with that primitive. -/
theorem ClosestIntersection_single {F : Type} [LinearOrderedField F] (m : MathOps F)
    (r : Ray F) (p : ScenePrimative F) :
    (ClosestIntersection m r [p]).2 = 0 ∧
    ((ClosestIntersection m r [p]).1 = Intersection.NO_INTERSECTION ∨
      (ClosestIntersection m r [p]).1 = p.sphere.Intersect m r) := by
  simp only [ClosestIntersection, ClosestIntersectionLoop, ScenePrimative.Intersect]
  split_ifs
  · exact ⟨rfl, Or.inr rfl⟩
  · exact ⟨rfl, Or.inl rfl⟩

/-- The mirror image of a direction that is a unit vector or zero, about a normal that
is a unit vector or zero, is a unit vector or zero. -/
theorem reflectedRay_unit_or_zero (I : Intersection ℝ) (r : Ray ℝ)
    (hn : I.normal.Dot I.normal = 1 ∨ I.normal = ⟨0, 0, 0⟩)
    (hd : r.direction.Dot r.direction = 1 ∨ r.direction = ⟨0, 0, 0⟩) :
    (reflectedRay I r).direction.Dot (reflectedRay I r).direction = 1 ∨
      (reflectedRay I r).direction = ⟨0, 0, 0⟩ := by
  rcases hn with hn | hn
  · rcases hd with hd | hd
    · exact Or.inl (reflectedRay_unit I r hd hn)
    · right
      simp [reflectedRay, hd, Vector3f.sub, Vector3f.scale, Vector3f.Dot]
  · have e : (reflectedRay I r).direction = r.direction := by
      simp [reflectedRay, hn, Vector3f.sub, Vector3f.scale, Vector3f.Dot]
    rw [e]
    exact hd

/-- A refractive hit with a zero normal or a zero direction is a total internal
reflection. -/
theorem refract_degenerate (I : Intersection ℝ) (r : Ray ℝ)
    (hn : I.normal.Dot I.normal = 1 ∨ I.normal = ⟨0, 0, 0⟩)
    (hd : r.direction.Dot r.direction = 1 ∨ r.direction = ⟨0, 0, 0⟩)
    (hnt : ¬ refractCos2t I r < 0) :
    I.normal.Dot I.normal = 1 ∧ r.direction.Dot r.direction = 1 := by
  rcases hn with hn | hn
  · rcases hd with hd | hd
    · exact ⟨hn, hd⟩
    · exfalso
      apply hnt
      rcases refract_cases I r hn with ⟨h1, _, _, _, _⟩ | ⟨_, _, _, h4, h5⟩
      · simp [hd, Vector3f.Dot] at h1
      · simp only [refractCos2t, h4, h5, hd, Vector3f.Dot]
        norm_num
  · exfalso
    apply hnt
    simp only [refractCos2t, refractNnt, refractInto, refractDdn, facingNormal, hn,
      Vector3f.Dot, Vector3f.scale]
    norm_num


/-- In a scene of one sphere whose material has emission `(1,1,1)` and a non-negative
albedo, a scattering step adds the reflectance to the colour, keeps the reflectance
non-negative and keeps the direction a unit vector or zero. -/
theorem emitter_step (p : ScenePrimative ℝ) (mats : List (Material ℝ)) (mat : Material ℝ)
    (hmat : mats.getD p.materialId Material.default = mat)
    (hemit : mat.emission = ⟨1, 1, 1⟩)
    (hcol : 0 ≤ mat.color.x ∧ 0 ≤ mat.color.y ∧ 0 ≤ mat.color.z)
    (st st' : PathState ℝ)
    (hR : 0 ≤ st.accumulatedReflectance.x ∧ 0 ≤ st.accumulatedReflectance.y ∧
      0 ≤ st.accumulatedReflectance.z)
    (hd : st.r.direction.Dot st.r.direction = 1 ∨ st.r.direction = ⟨0, 0, 0⟩)
    (hb : SampleLightBody realMath [p] mats st = .next st') :
    (st'.accumulatedColor.x = st.accumulatedColor.x + st.accumulatedReflectance.x ∧
      st'.accumulatedColor.y = st.accumulatedColor.y + st.accumulatedReflectance.y ∧
      st'.accumulatedColor.z = st.accumulatedColor.z + st.accumulatedReflectance.z) ∧
    (0 ≤ st'.accumulatedReflectance.x ∧ 0 ≤ st'.accumulatedReflectance.y ∧
      0 ≤ st'.accumulatedReflectance.z) ∧
    (st'.r.direction.Dot st'.r.direction = 1 ∨ st'.r.direction = ⟨0, 0, 0⟩) := by
  obtain ⟨hdepth, _, mat', hhit⟩ := SampleLightBody_next realMath [p] mats st st' hb
  obtain ⟨hidx, hfound⟩ := ClosestIntersection_single realMath st.r p
  have hmat' : mat' = mat := by
    unfold SampleLightHit at hhit
    dsimp only at hhit
    split_ifs at hhit
    simp only [Option.some.injEq] at hhit
    rw [← hhit, hidx]
    exact hmat
  subst hmat'
  have hn : (ClosestIntersection realMath st.r [p]).1.normal.Dot
      (ClosestIntersection realMath st.r [p]).1.normal = 1 ∨
      (ClosestIntersection realMath st.r [p]).1.normal = ⟨0, 0, 0⟩ := by
    rcases hfound with h | h
    · rw [h]
      exact Or.inr rfl
    · rw [h]
      exact Sphere_Intersect_normal_unit_or_zero _ _
  have hrefl := reflectedRay_unit_or_zero (ClosestIntersection realMath st.r [p]).1 st.r hn hd
  obtain ⟨hRx, hRy, hRz⟩ := hR
  obtain ⟨hcx, hcy, hcz⟩ := hcol
  have hmx := mul_nonneg hRx hcx
  have hmy := mul_nonneg hRy hcy
  have hmz := mul_nonneg hRz hcz
  cases hty : mat'.materialType with
  | DIFFUSE =>
    rw [SampleLightBody_diffuse realMath [p] mats st mat' hhit hty hdepth] at hb
    simp only [LoopStep.next.injEq] at hb
    rw [← hb]
    refine ⟨⟨?_, ?_, ?_⟩, ⟨hmx, hmy, hmz⟩, normalize_unit_or_zero _⟩ <;>
      simp [Vector3f.add, Vector3f.Multiply, hemit]
  | SPECULAR =>
    rw [SampleLightBody_specular realMath [p] mats st mat' hhit hty hdepth] at hb
    simp only [LoopStep.next.injEq] at hb
    rw [← hb]
    refine ⟨⟨?_, ?_, ?_⟩, ⟨hmx, hmy, hmz⟩, hrefl⟩ <;>
      simp [Vector3f.add, Vector3f.Multiply, hemit]
  | REFRACTION =>
    rw [SampleLightBody_refraction realMath [p] mats st mat' hhit hty hdepth] at hb
    by_cases hc : refractCos2t (ClosestIntersection realMath st.r [p]).1 st.r < 0
    · rw [if_pos hc] at hb
      simp only [LoopStep.next.injEq] at hb
      rw [← hb]
      refine ⟨⟨?_, ?_, ?_⟩, ⟨hmx, hmy, hmz⟩, hrefl⟩ <;>
        simp [Vector3f.add, Vector3f.Multiply, hemit]
    · rw [if_neg hc] at hb
      obtain ⟨hn1, hd1⟩ := refract_degenerate _ _ hn hd hc
      obtain ⟨_, _, hre0, hre1, hp0, hp1⟩ :=
        schlick_range (ClosestIntersection realMath st.r [p]).1 st.r hd1 hn1 hc
      have hRP : 0 ≤ schlickRe realMath (ClosestIntersection realMath st.r [p]).1 st.r /
          reflectP realMath (ClosestIntersection realMath st.r [p]).1 st.r :=
        div_nonneg (by linarith) (by linarith)
      have hTP : 0 ≤ (1 - schlickRe realMath (ClosestIntersection realMath st.r [p]).1 st.r) /
          (1 - reflectP realMath (ClosestIntersection realMath st.r [p]).1 st.r) :=
        div_nonneg (by linarith) (by linarith)
      by_cases hp : (GetRandom st.seed : ℝ × RenderRandomSeed).1 <
          reflectP realMath (ClosestIntersection realMath st.r [p]).1 st.r
      · rw [if_pos hp] at hb
        simp only [LoopStep.next.injEq] at hb
        rw [← hb]
        refine ⟨⟨?_, ?_, ?_⟩,
          ⟨mul_nonneg hmx hRP, mul_nonneg hmy hRP, mul_nonneg hmz hRP⟩, hrefl⟩ <;>
          simp [Vector3f.add, Vector3f.Multiply, hemit]
      · rw [if_neg hp] at hb
        simp only [LoopStep.next.injEq] at hb
        rw [← hb]
        refine ⟨⟨?_, ?_, ?_⟩,
          ⟨mul_nonneg hmx hTP, mul_nonneg hmy hTP, mul_nonneg hmz hTP⟩,
          normalize_unit_or_zero _⟩ <;>
          simp [Vector3f.add, Vector3f.Multiply, hemit]

/-- In such a scene the loop of `SampleLight`, entered with a non-negative reflectance
and a colour that is at least one in every channel, returns a colour that is at least
one in every channel. -/
theorem emitter_loop (p : ScenePrimative ℝ) (mats : List (Material ℝ)) (mat : Material ℝ)
    (hmat : mats.getD p.materialId Material.default = mat)
    (hemit : mat.emission = ⟨1, 1, 1⟩)
    (hcol : 0 ≤ mat.color.x ∧ 0 ≤ mat.color.y ∧ 0 ≤ mat.color.z) :
    ∀ (fuel : Nat) (st : PathState ℝ) (res : Color ℝ × RenderRandomSeed),
      (0 ≤ st.accumulatedReflectance.x ∧ 0 ≤ st.accumulatedReflectance.y ∧
        0 ≤ st.accumulatedReflectance.z) →
      (st.r.direction.Dot st.r.direction = 1 ∨ st.r.direction = ⟨0, 0, 0⟩) →
      (1 ≤ st.accumulatedColor.x ∧ 1 ≤ st.accumulatedColor.y ∧ 1 ≤ st.accumulatedColor.z) →
      SampleLightLoop realMath [p] mats fuel st = some res →
      1 ≤ res.1.x ∧ 1 ≤ res.1.y ∧ 1 ≤ res.1.z := by
  intro fuel
  induction fuel with
  | zero =>
    intro st res _ _ _ h
    simp [SampleLightLoop] at h
  | succ fuel ih =>
    intro st res hR hd hC h
    cases hb : SampleLightBody realMath [p] mats st with
    | ret c seed =>
      have hret := SampleLightBody_ret realMath [p] mats st c seed hb
      simp only [SampleLightLoop, hb, Option.some.injEq] at h
      rw [← h]
      rw [hret.1]
      exact hC
    | next st' =>
      simp only [SampleLightLoop, hb] at h
      obtain ⟨hC', hR', hd'⟩ := emitter_step p mats mat hmat hemit hcol st st' hR hd hb
      refine ih st' res hR' hd' ?_ h
      rw [hC'.1, hC'.2.1, hC'.2.2]
      exact ⟨by linarith [hR.1], by linarith [hR.2.1], by linarith [hR.2.2]⟩

end EmitterLemmas

/-- The camera at `(0,0,-4)` looking at `(0,0,-3)`, with the image plane `[0,1] x [0,1]`
at focal length one: the ray of pixel `(0, 0)` of a 2x2 image is the head-on ray. -/
theorem headOn_camera :
    Camera.GenerateLookForPixel realMath
      ⟨⟨0, 1, 0⟩, ⟨0, 0, -3⟩, ⟨0, 0, -4⟩, 1, 0, 0, 1, 1⟩ 0 0 2 2 =
      ⟨⟨0, 0, -3⟩, ⟨0, 0, 1⟩⟩ := by
  norm_num [Camera.GenerateLookForPixel, Vector3f.Normalize, Vector3f.Length, Vector3f.Cross,
    Vector3f.sub, Vector3f.add, Vector3f.scale, realMath]

/-- C23: in a scene whose only primitive is a sphere whose material has emission
`(1,1,1)` and a non-negative albedo, with `samplesPerPixel = 1` every work item whose
camera ray hits the sphere writes `Pixel(255,255,255)`, whatever the width and the
height. -/
theorem emitter_renders_white (sphere : Sphere ℝ) (materialId : Nat)
    (mats : List (Material ℝ)) (mat : Material ℝ) (cam : Camera ℝ)
    (fuel width height threadId : Nat) (hf : 8 ≤ fuel)
    (hmat : mats[materialId]? = some mat) (hemit : mat.emission = ⟨1, 1, 1⟩)
    (hcol : 0 ≤ mat.color.x ∧ 0 ≤ mat.color.y ∧ 0 ≤ mat.color.z)
    (hhit : (ClosestIntersection realMath
      (cam.GenerateLookForPixel realMath (threadId % width) (threadId / width) width height)
      [⟨sphere, materialId⟩]).1.eq Intersection.NO_INTERSECTION = false) :
    RenderKernel realMath fuel [⟨sphere, materialId⟩] mats cam 1 width height threadId =
      some (threadId, ⟨255, 255, 255⟩) := by
  have hget : mats.getD (⟨sphere, materialId⟩ : ScenePrimative ℝ).materialId
      Material.default = mat := by
    simp [List.getD_eq_getElem?_getD, hmat]
  have hdir : (cam.GenerateLookForPixel realMath (threadId % width) (threadId / width) width
      height).direction.Dot (cam.GenerateLookForPixel realMath (threadId % width)
        (threadId / width) width height).direction = 1 ∨
      (cam.GenerateLookForPixel realMath (threadId % width) (threadId / width) width
        height).direction = ⟨0, 0, 0⟩ := normalize_unit_or_zero _
  rw [RenderKernel_eq]
  generalize cam.GenerateLookForPixel realMath (threadId % width) (threadId / width) width
    height = ray at hhit hdir ⊢
  obtain ⟨fuel', rfl⟩ : ∃ k, fuel = k + 1 := ⟨fuel - 1, by omega⟩
  obtain ⟨res, hres⟩ := SampleLightLoop_returns realMath [⟨sphere, materialId⟩] mats
    (fuel' + 1) (SampleLightInit ray ⟨threadId % width, threadId / width⟩) (by omega)
    (by omega)
  have hH : SampleLightHit realMath [⟨sphere, materialId⟩] mats
      (SampleLightInit ray ⟨threadId % width, threadId / width⟩) = some mat := by
    unfold SampleLightHit
    dsimp only
    rw [show (SampleLightInit ray ⟨threadId % width, threadId / width⟩).r = ray from rfl, hhit,
      (ClosestIntersection_single realMath ray ⟨sphere, materialId⟩).1]
    simp only [Bool.false_eq_true, if_false, Option.some.injEq]
    exact hget
  obtain ⟨st1, hb, _, _, _⟩ := SampleLightBody_hit realMath [⟨sphere, materialId⟩] mats
    (SampleLightInit ray ⟨threadId % width, threadId / width⟩) mat hH (by
      simp [SampleLightInit])
  obtain ⟨hC, hR, hd1⟩ := emitter_step ⟨sphere, materialId⟩ mats mat hget hemit hcol
    (SampleLightInit ray ⟨threadId % width, threadId / width⟩) st1
    (by simp [SampleLightInit]) hdir hb
  have hloop : SampleLightLoop realMath [⟨sphere, materialId⟩] mats fuel' st1 = some res := by
    rw [← hres]
    simp only [SampleLightLoop, hb]
  obtain ⟨hx, hy, hz⟩ := emitter_loop ⟨sphere, materialId⟩ mats mat hget hemit hcol fuel' st1
    res hR hd1 (by
      rw [hC.1, hC.2.1, hC.2.2]
      simp [SampleLightInit]) hloop
  have hS : SampleLoop realMath (fuel' + 1) ray [⟨sphere, materialId⟩] mats 1 1 ⟨0, 0, 0⟩
      ⟨threadId % width, threadId / width⟩ =
      some ((⟨0, 0, 0⟩ : Color ℝ).add (res.1.scale (1 / ((1 : Nat) : ℝ))), res.2) := by
    have hSL : SampleLight realMath (fuel' + 1) ray [⟨sphere, materialId⟩] mats
        ⟨threadId % width, threadId / width⟩ = some (res.1, res.2) := hres
    simp only [SampleLoop, hSL]
  rw [hS]
  simp only [Option.map_some', Nat.div_add_mod', Option.some.injEq, Prod.mk.injEq, true_and]
  have e : ∀ v : ℝ, 1 ≤ v → gamma realMath (toUint8 (CLAMP_0_1 (0 + v * (1 / ((1 : Nat) : ℝ)))
      * 255)) = 255 := by
    intro v hv
    exact channel_white _ (by simpa using hv)
  simp only [Pixel.ofColor, Pixel.GammaCorrect, Vector3f.Clamp, Vector3f.add, Vector3f.scale,
    e res.1.x hx, e res.1.y hy, e res.1.z hz]

/-- Witness for C23: the unit ball of emission `(1,1,1)` and albedo `(1/2,1/2,1/2)`, seen
head-on by pixel `(0, 0)` of a 2x2 image. -/
theorem emitter_renders_white_witness :
    RenderKernel realMath 8 [⟨⟨1, ⟨0, 0, 0⟩⟩, 0⟩]
      [⟨⟨1, 1, 1⟩, ⟨1 / 2, 1 / 2, 1 / 2⟩, .DIFFUSE⟩]
      ⟨⟨0, 1, 0⟩, ⟨0, 0, -3⟩, ⟨0, 0, -4⟩, 1, 0, 0, 1, 1⟩ 1 2 2 0 =
      some (0, ⟨255, 255, 255⟩) :=
  emitter_renders_white ⟨1, ⟨0, 0, 0⟩⟩ 0 [⟨⟨1, 1, 1⟩, ⟨1 / 2, 1 / 2, 1 / 2⟩, .DIFFUSE⟩]
    ⟨⟨1, 1, 1⟩, ⟨1 / 2, 1 / 2, 1 / 2⟩, .DIFFUSE⟩
    ⟨⟨0, 1, 0⟩, ⟨0, 0, -3⟩, ⟨0, 0, -4⟩, 1, 0, 0, 1, 1⟩ 8 2 2 0 (le_refl 8) rfl rfl
    (by norm_num)
    (by
      rw [show (0 % 2) = 0 from rfl, show (0 / 2) = 0 from rfl, headOn_camera, headOn_closest]
      simp [Intersection.eq, ExtFloat.isinf, ExtFloat.FLOAT_EQ,
        Intersection.NO_INTERSECTION])


/-! ## Claim C35 -/

/-- C35: a sampler state word that is 0 is 0 again after `GetRandom`, so the state
`(0, 0)` of pixel `(0, 0)` never changes and every draw from it is exactly 0; from a
state `(0, s2)`, the state of a pixel in column `x = 0`, the first word stays 0 and the
draw is computed from the updated second word alone. -/
theorem sampler_zero_is_fixed {F : Type} [LinearOrderedField F] :
    (∀ seed : RenderRandomSeed, seed.s1 = 0 →
      (GetRandom seed : F × RenderRandomSeed).2.s1 = 0) ∧
    (∀ seed : RenderRandomSeed, seed.s2 = 0 →
      (GetRandom seed : F × RenderRandomSeed).2.s2 = 0) ∧
    (GetRandom ⟨0, 0⟩ : F × RenderRandomSeed) = (0, ⟨0, 0⟩) ∧
    (∀ k : Nat, Nat.iterate (fun s => (GetRandom s : F × RenderRandomSeed).2) k ⟨0, 0⟩ =
        ⟨0, 0⟩ ∧
      (GetRandom (Nat.iterate (fun s => (GetRandom s : F × RenderRandomSeed).2) k ⟨0, 0⟩) :
        F × RenderRandomSeed).1 = 0) ∧
    (∀ s2 : Nat, (GetRandom ⟨0, s2⟩ : F × RenderRandomSeed) =
      ((floatOfBits ((((18000 * (s2 &&& 65535) + (s2 >>> 16)) % 2 ^ 32) &&& 0x007fffff) |||
          0x40000000) - 2) / 2,
        ⟨0, (18000 * (s2 &&& 65535) + (s2 >>> 16)) % 2 ^ 32⟩)) ∧
    (∀ (k s2 : Nat),
      (Nat.iterate (fun s => (GetRandom s : F × RenderRandomSeed).2) k ⟨0, s2⟩).s1 = 0) := by
  have hs1 : ∀ seed : RenderRandomSeed, seed.s1 = 0 →
      (GetRandom seed : F × RenderRandomSeed).2.s1 = 0 := by
    intro seed h
    simp [GetRandom, h]
  have hs2 : ∀ seed : RenderRandomSeed, seed.s2 = 0 →
      (GetRandom seed : F × RenderRandomSeed).2.s2 = 0 := by
    intro seed h
    simp [GetRandom, h]
  have h00 : (GetRandom ⟨0, 0⟩ : F × RenderRandomSeed) = (0, ⟨0, 0⟩) := by
    have hf : (floatOfBits (0 ||| 0x40000000) : F) = 2 * (1 + ((0 : Nat) : F) / 2 ^ 23) :=
      floatOfBits_two 0 (by norm_num)
    simp only [Nat.zero_or, Nat.cast_zero, zero_div, add_zero, mul_one] at hf
    simp [GetRandom, hf]
  have hcol : ∀ s2 : Nat, (GetRandom ⟨0, s2⟩ : F × RenderRandomSeed) =
      ((floatOfBits ((((18000 * (s2 &&& 65535) + (s2 >>> 16)) % 2 ^ 32) &&& 0x007fffff) |||
          0x40000000) - 2) / 2,
        ⟨0, (18000 * (s2 &&& 65535) + (s2 >>> 16)) % 2 ^ 32⟩) := by
    intro s2
    simp [GetRandom]
  have hit : ∀ k : Nat,
      Nat.iterate (fun s => (GetRandom s : F × RenderRandomSeed).2) k ⟨0, 0⟩ = ⟨0, 0⟩ := by
    intro k
    induction k with
    | zero => rfl
    | succ k ih =>
      rw [Function.iterate_succ_apply', ih, h00]
  refine ⟨hs1, hs2, h00, fun k => ⟨hit k, by rw [hit k, h00]⟩, hcol, ?_⟩
  intro k s2
  induction k with
  | zero => rfl
  | succ k ih =>
    rw [Function.iterate_succ_apply']
    exact hs1 _ ih

/-- Witness for C35: the first word of the state `(0, 7)` after one draw. -/
theorem sampler_zero_is_fixed_witness :
    (GetRandom ⟨0, 7⟩ : ℚ × RenderRandomSeed).2.s1 = 0 :=
  (@sampler_zero_is_fixed ℚ _).1 ⟨0, 7⟩ rfl

/-! ## Claim C36 -/

/-- C36: for 32-bit state words the sums `36969*(s1 & 65535) + (s1 >> 16)` and
`18000*(s2 & 65535) + (s2 >> 16)` are below `2^32` as exact integers (at most
`36970 * 65535`), so the 32-bit state update of `GetRandom` does not wrap: the new state
words are these sums themselves. -/
theorem sampler_update_never_wraps {F : Type} [LinearOrderedField F]
    (seed : RenderRandomSeed) (h1 : seed.s1 < 2 ^ 32) (h2 : seed.s2 < 2 ^ 32) :
    36969 * (seed.s1 &&& 65535) + (seed.s1 >>> 16) ≤ 36970 * 65535 ∧
    18000 * (seed.s2 &&& 65535) + (seed.s2 >>> 16) ≤ 18001 * 65535 ∧
    36969 * (seed.s1 &&& 65535) + (seed.s1 >>> 16) < 2 ^ 32 ∧
    18000 * (seed.s2 &&& 65535) + (seed.s2 >>> 16) < 2 ^ 32 ∧
    (GetRandom seed : F × RenderRandomSeed).2.s1 =
      36969 * (seed.s1 &&& 65535) + (seed.s1 >>> 16) ∧
    (GetRandom seed : F × RenderRandomSeed).2.s2 =
      18000 * (seed.s2 &&& 65535) + (seed.s2 >>> 16) := by
  have a1 : seed.s1 &&& 65535 ≤ 65535 := Nat.and_le_right
  have a2 : seed.s2 &&& 65535 ≤ 65535 := Nat.and_le_right
  have b1 : seed.s1 >>> 16 < 65536 := by
    rw [Nat.shiftRight_eq_div_pow]; omega
  have b2 : seed.s2 >>> 16 < 65536 := by
    rw [Nat.shiftRight_eq_div_pow]; omega
  have c1 : 36969 * (seed.s1 &&& 65535) + (seed.s1 >>> 16) < 2 ^ 32 := by omega
  have c2 : 18000 * (seed.s2 &&& 65535) + (seed.s2 >>> 16) < 2 ^ 32 := by omega
  refine ⟨by omega, by omega, c1, c2, ?_, ?_⟩
  · simp only [GetRandom, Nat.mod_eq_of_lt c1]
  · simp only [GetRandom, Nat.mod_eq_of_lt c2]

/-- Witness for C36: the largest 32-bit state words. -/
theorem sampler_update_never_wraps_witness :
    36969 * (4294967295 &&& 65535) + (4294967295 >>> 16) < 2 ^ 32 :=
  (@sampler_update_never_wraps ℚ _ ⟨4294967295, 4294967295⟩ (by norm_num)
    (by norm_num)).2.2.1

/-! ## Claim C37 -/

/-- C37: when the ray enters the dielectric (`into` is true, so `nnt = 1/1.5`) the value
`cos2t = 1 - nnt^2 (1 - ddn^2)` is at least `5/9`, so the test `cos2t < 0` of the
total-internal-reflection branch fails; that branch is taken only with `into` false,
that is when the ray leaves the dielectric. -/
theorem entering_is_never_total_reflection {F : Type} [LinearOrderedField F]
    (I : Intersection F) (r : Ray F) :
    (refractInto I r = true →
      refractNnt I r = 1 / (15 / 10) ∧ 5 / 9 ≤ refractCos2t I r ∧
        ¬ refractCos2t I r < 0) ∧
    (refractCos2t I r < 0 → refractInto I r = false ∧ refractNnt I r = 15 / 10 / 1) := by
  have key : refractInto I r = true →
      refractNnt I r = 1 / (15 / 10) ∧ 5 / 9 ≤ refractCos2t I r := by
    intro h
    have hn : refractNnt I r = 1 / (15 / 10) := by
      simp only [refractNnt, h, if_true]
    refine ⟨hn, ?_⟩
    rw [refractCos2t, hn]
    nlinarith [mul_self_nonneg (refractDdn I r)]
  refine ⟨fun h => ⟨(key h).1, (key h).2, ?_⟩, fun h => ?_⟩
  · have := (key h).2
    intro hneg
    linarith
  · cases hi : refractInto I r with
    | true =>
      have := (key hi).2
      exfalso
      linarith
    | false =>
      refine ⟨rfl, ?_⟩
      simp only [refractNnt, hi, Bool.false_eq_true, if_false]

/-- Witness for C37: the head-on ray entering the unit ball. -/
theorem entering_is_never_total_reflection_witness :
    (5 : ℚ) / 9 ≤ refractCos2t (⟨.fin 2, ⟨0, 0, -1⟩, ⟨0, 0, -1⟩⟩ : Intersection ℚ)
      ⟨⟨0, 0, -3⟩, ⟨0, 0, 1⟩⟩ :=
  ((entering_is_never_total_reflection (⟨.fin 2, ⟨0, 0, -1⟩, ⟨0, 0, -1⟩⟩ : Intersection ℚ)
    ⟨⟨0, 0, -3⟩, ⟨0, 0, 1⟩⟩).1 (by
      norm_num [refractInto, facingNormal, Vector3f.Dot])).2.1

/-! ## Claim C38 -/

/-- C38: for a unit direction `d`, a unit normal and `cos2t >= 0`, the transmitted
vector `d*nnt - n*((into ? 1 : -1)*(ddn*nnt + sqrt(cos2t)))` has length one before it is
normalised, so `tdir` is that vector; its dot product with the facing normal is
`-sqrt(cos2t) <= 0`; and its component tangential to the surface is `nnt` times that of
`d`. -/
theorem transmitted_vector_is_unit (I : Intersection ℝ) (r : Ray ℝ)
    (hd : r.direction.Dot r.direction = 1) (hn : I.normal.Dot I.normal = 1)
    (hnt : 0 ≤ refractCos2t I r) :
    (refractSample realMath I r).Dot (refractSample realMath I r) = 1 ∧
    (refractSample realMath I r).Length realMath = 1 ∧
    refractTdir realMath I r = refractSample realMath I r ∧
    (refractSample realMath I r).Dot (facingNormal I r) = -Real.sqrt (refractCos2t I r) ∧
    (refractSample realMath I r).Dot (facingNormal I r) ≤ 0 ∧
    (refractSample realMath I r).sub ((facingNormal I r).scale
        ((refractSample realMath I r).Dot (facingNormal I r))) =
      (r.direction.sub ((facingNormal I r).scale
        (r.direction.Dot (facingNormal I r)))).scale (refractNnt I r) := by
  obtain ⟨h1, h2, h3⟩ := refractSample_unit I r hd hn (not_lt.mpr hnt)
  have hdot : (refractSample realMath I r).Dot (facingNormal I r) =
      -Real.sqrt (refractCos2t I r) := by
    rw [h2] at h3
    rcases refract_cases I r hn with ⟨_, hf, hi, _, _⟩ | ⟨_, hf, hi, _, _⟩
    · rw [hf, h3, hi]
      simp
    · rw [hi] at h3
      simp only [Bool.false_eq_true, if_false] at h3
      rw [hf, ← h3]
      simp only [Vector3f.Dot, Vector3f.scale]
      ring
  refine ⟨h1, length_of_dot_one _ h1, h2, hdot, ?_, ?_⟩
  · rw [hdot]
    linarith [Real.sqrt_nonneg (refractCos2t I r)]
  · rw [hdot]
    rcases refract_cases I r hn with ⟨_, hf, hi, _, hddn⟩ | ⟨_, hf, hi, _, hddn⟩
    · simp only [refractSample, hi, if_true, hf, Vector3f.sub, Vector3f.scale, Vector3f.Dot,
        realMath, Vector3f.mk.injEq, hddn]
      simp only [Vector3f.Dot, Vector3f.scale] at hn
      refine ⟨?_, ?_, ?_⟩ <;> ring
    · simp only [refractSample, hi, Bool.false_eq_true, if_false, hf, Vector3f.sub,
        Vector3f.scale, Vector3f.Dot, realMath, Vector3f.mk.injEq, hddn]
      refine ⟨?_, ?_, ?_⟩ <;> ring

/-- Witness for C38: the head-on ray entering the unit ball. -/
theorem transmitted_vector_is_unit_witness :
    (refractSample realMath ⟨.fin 2, ⟨0, 0, -1⟩, ⟨0, 0, -1⟩⟩ ⟨⟨0, 0, -3⟩, ⟨0, 0, 1⟩⟩).Dot
      (refractSample realMath ⟨.fin 2, ⟨0, 0, -1⟩, ⟨0, 0, -1⟩⟩ ⟨⟨0, 0, -3⟩, ⟨0, 0, 1⟩⟩) = 1 :=
  (transmitted_vector_is_unit ⟨.fin 2, ⟨0, 0, -1⟩, ⟨0, 0, -1⟩⟩ ⟨⟨0, 0, -3⟩, ⟨0, 0, 1⟩⟩
    (by norm_num [Vector3f.Dot]) (by norm_num [Vector3f.Dot])
    (by
      norm_num [refractCos2t, refractNnt, refractInto, refractDdn, facingNormal,
        Vector3f.Dot])).1


/-! ## Equality of vectors, in exact arithmetic -/

section VectorEqLemmas

variable {F : Type} [LinearOrderedField F]

/-- The template `FLOAT_EQ` holds exactly when the arguments differ by less than the value
of `0.0001F` in absolute value. -/
theorem FLOAT_EQ_iff (a b : F) :
    FLOAT_EQ a b = true ↔ |a - b| < 13743895 / 137438953472 := by
  simp only [FLOAT_EQ, decide_eq_true_eq]
  split_ifs with h
  · rw [abs_of_pos (sub_pos.mpr h)]
  · rw [abs_of_nonpos (sub_nonpos.mpr (not_lt.mp h)), neg_sub]

/-- The loop of `operator==` returns true exactly when the comparison holds for every
pair of corresponding components. -/
theorem Vector_eq_iff {T : Type} (componentEq : T → T → Bool) :
    ∀ (a b : List T), a.length = b.length →
      (Vector.eq componentEq a b = true ↔
        ∀ (i : Nat) (x y : T), a[i]? = some x → b[i]? = some y → componentEq x y = true) := by
  intro a
  induction a with
  | nil =>
    intro b _
    simp [Vector.eq]
  | cons x xs ih =>
    intro b hlen
    cases b with
    | nil => simp at hlen
    | cons y ys =>
      have hlen' : xs.length = ys.length := by simpa using hlen
      simp only [Vector.eq]
      constructor
      · intro h i u v hu hv
        cases hc : componentEq x y with
        | false => simp [hc] at h
        | true =>
          simp only [hc, Bool.not_true, Bool.false_eq_true, if_false] at h
          cases i with
          | zero =>
            simp only [List.getElem?_cons_zero, Option.some.injEq] at hu hv
            rw [← hu, ← hv]
            exact hc
          | succ i =>
            simp only [List.getElem?_cons_succ] at hu hv
            exact (ih ys hlen').mp h i u v hu hv
      · intro h
        have hc : componentEq x y = true :=
          h 0 x y (List.getElem?_cons_zero) (List.getElem?_cons_zero)
        simp only [hc, Bool.not_true, Bool.false_eq_true, if_false]
        exact (ih ys hlen').mpr (fun i u v hu hv =>
          h (i + 1) u v (by rw [List.getElem?_cons_succ]; exact hu)
            (by rw [List.getElem?_cons_succ]; exact hv))

end VectorEqLemmas

/-- In exact arithmetic, for float vectors of equal size `a == b` holds exactly when every
pair of corresponding components differs by less than the value of the literal `0.0001F`
(so also for `Vector3f`); for vectors of any other element type it holds exactly when all
components are equal; and `a != b` is the negation of `a == b`. -/
theorem Vector_eq_spec {F : Type} [LinearOrderedField F] :
    (∀ a b : List F, a.length = b.length →
      (Vector.eqFloat a b = true ↔
        ∀ (i : Nat) (x y : F), a[i]? = some x → b[i]? = some y →
          |x - y| < 13743895 / 137438953472)) ∧
    (∀ a b : Vector3f F, a.eq b = true ↔
      |a.x - b.x| < 13743895 / 137438953472 ∧ |a.y - b.y| < 13743895 / 137438953472 ∧
        |a.z - b.z| < 13743895 / 137438953472) ∧
    (∀ a b : Vector3f F, a.eq b = Vector.eqFloat [a.x, a.y, a.z] [b.x, b.y, b.z]) ∧
    (∀ a b : List Int, a.length = b.length → (Vector.eqExact a b = true ↔ a = b)) ∧
    (∀ a b : List Nat, a.length = b.length → (Vector.eqExact a b = true ↔ a = b)) ∧
    (∀ a b : List F, Vector.neFloat a b = !(Vector.eqFloat a b)) ∧
    (∀ a b : List Int, Vector.neExact a b = !(Vector.eqExact a b)) ∧
    (∀ a b : Vector3f F, a.ne b = !(a.eq b)) := by
  have hexact : ∀ (T : Type) [DecidableEq T] (a b : List T), a.length = b.length →
      (Vector.eqExact a b = true ↔ a = b) := by
    intro T _ a b hlen
    rw [Vector.eqExact, Vector_eq_iff _ a b hlen]
    constructor
    · intro h
      apply List.ext_getElem?
      intro i
      by_cases hi : i < a.length
      · have hi' : i < b.length := hlen ▸ hi
        have := h i a[i] b[i] (List.getElem?_eq_getElem hi) (List.getElem?_eq_getElem hi')
        rw [List.getElem?_eq_getElem hi, List.getElem?_eq_getElem hi']
        simpa using this
      · rw [List.getElem?_eq_none (by omega), List.getElem?_eq_none (by omega)]
    · intro h i x y hx hy
      rw [h, hy] at hx
      simpa using hx.symm
  refine ⟨?_, ?_, ?_, hexact Int, hexact Nat, fun _ _ => rfl, fun _ _ => rfl, fun _ _ => rfl⟩
  · intro a b hlen
    rw [Vector.eqFloat, Vector_eq_iff _ a b hlen]
    constructor
    · intro h i x y hx hy
      exact (FLOAT_EQ_iff x y).mp (h i x y hx hy)
    · intro h i x y hx hy
      exact (FLOAT_EQ_iff x y).mpr (h i x y hx hy)
  · intro a b
    simp only [Vector3f.eq, Bool.and_eq_true, FLOAT_EQ_iff, and_assoc]
  · intro a b
    simp only [Vector3f.eq, Vector.eqFloat, Vector.eq]
    cases FLOAT_EQ a.x b.x <;> cases FLOAT_EQ a.y b.y <;> cases FLOAT_EQ a.z b.z <;> rfl

/-- Example in exact arithmetic: `Vector3f(1.000001) == Vector3f(1)`, as in
`VectorTest.cpp`, and an integer vector equal to itself. -/
theorem Vector_eq_spec_witness :
    (⟨1000001 / 1000000, 1000001 / 1000000, 1000001 / 1000000⟩ : Vector3f ℚ).eq ⟨1, 1, 1⟩ = true ∧
    Vector.eqExact [(1 : Int), 2] [1, 2] = true :=
  ⟨((@Vector_eq_spec ℚ _).2.1 _ _).mpr (by norm_num [abs_lt]),
    ((@Vector_eq_spec ℚ _).2.2.2.1 [1, 2] [1, 2] rfl).mpr rfl⟩


/-! ## The material-file reader, block by block -/

section ReaderLemmas

variable {F : Type}

/-- A line other than a `newmtl` line, when it is read without an exception, leaves the
list of materials, the count and the name as they were and sets exactly the field it
gives. -/
theorem ReadMaterialLine_field (ops : StreamOps F) (st st' : ReadState F)
    (line : List String) (hn : isNewmtl line = false)
    (h : ReadMaterialLine ops st line = .ok st') :
    st'.materials = st.materials ∧ st'.materialCount = st.materialCount ∧
    st'.currentMaterial.name = st.currentMaterial.name ∧
    st'.currentMaterial.material.emission =
      (lineColor ops "Ke" line).getD st.currentMaterial.material.emission ∧
    st'.currentMaterial.diffuse = (lineColor ops "Kd" line).getD st.currentMaterial.diffuse ∧
    st'.currentMaterial.specular =
      (lineColor ops "Ks" line).getD st.currentMaterial.specular ∧
    (∀ n, lineIllum ops line = some n →
      illumType n = some st'.currentMaterial.material.materialType) ∧
    (lineIllum ops line = none →
      st'.currentMaterial.material.materialType =
        st.currentMaterial.material.materialType) := by
  cases line with
  | nil =>
    simp only [ReadMaterialLine, Except.ok.injEq] at h
    subst h
    simp [lineColor, lineIllum]
  | cons type rest =>
    have hne : ¬ type = "newmtl" := by simpa [isNewmtl] using hn
    simp only [ReadMaterialLine, hne, if_false] at h
    by_cases h1 : type = "#"
    · subst h1
      simp only [if_true, Except.ok.injEq] at h
      subst h
      simp [lineColor, lineIllum]
    rw [if_neg h1] at h
    by_cases h2 : type = "Ns"
    · subst h2
      simp only [if_true, Except.ok.injEq] at h
      subst h
      simp [lineColor, lineIllum]
    rw [if_neg h2] at h
    by_cases h3 : type = "Ka"
    · subst h3
      simp only [if_true, Except.ok.injEq] at h
      subst h
      simp [lineColor, lineIllum]
    rw [if_neg h3] at h
    by_cases h4 : type = "Kd"
    · subst h4
      rw [if_pos rfl] at h
      cases hc : readColor ops rest with
      | none => simp [hc] at h
      | some c =>
        simp only [hc, Except.ok.injEq] at h
        subst h
        simp [lineColor, lineIllum, hc]
    rw [if_neg h4] at h
    by_cases h5 : type = "Ks"
    · subst h5
      rw [if_pos rfl] at h
      cases hc : readColor ops rest with
      | none => simp [hc] at h
      | some c =>
        simp only [hc, Except.ok.injEq] at h
        subst h
        simp [lineColor, lineIllum, hc]
    rw [if_neg h5] at h
    by_cases h6 : type = "Ke"
    · subst h6
      rw [if_pos rfl] at h
      cases hc : readColor ops rest with
      | none => simp [hc] at h
      | some c =>
        simp only [hc, Except.ok.injEq] at h
        subst h
        simp [lineColor, lineIllum, hc]
    rw [if_neg h6] at h
    by_cases h7 : type = "Ni"
    · subst h7
      simp only [if_true, Except.ok.injEq] at h
      subst h
      simp [lineColor, lineIllum]
    rw [if_neg h7] at h
    by_cases h8 : type = "d"
    · subst h8
      simp only [if_true, Except.ok.injEq] at h
      subst h
      simp [lineColor, lineIllum]
    rw [if_neg h8] at h
    by_cases h9 : type = "illum"
    · subst h9
      rw [if_pos rfl] at h
      cases rest with
      | nil => simp at h
      | cons field rest' =>
        cases hr : ops.readInt field with
        | none => simp [hr] at h
        | some n =>
          simp only [hr] at h
          by_cases g1 : n = 0 ∨ n = 1 ∨ n = 2
          · rw [if_pos g1] at h
            simp only [Except.ok.injEq] at h
            subst h
            refine ⟨rfl, rfl, rfl, by simp [lineColor], by simp [lineColor], by simp [lineColor],
              ?_, ?_⟩
            · intro m hm
              simp only [lineIllum, if_true, hr, Option.some.injEq] at hm
              subst hm
              rw [illumType, if_pos g1]
            · intro hm
              simp [lineIllum, hr] at hm
          rw [if_neg g1] at h
          by_cases g2 : n = 3
          · rw [if_pos g2] at h
            simp only [Except.ok.injEq] at h
            subst h
            refine ⟨rfl, rfl, rfl, by simp [lineColor], by simp [lineColor], by simp [lineColor],
              ?_, ?_⟩
            · intro m hm
              simp only [lineIllum, if_true, hr, Option.some.injEq] at hm
              subst hm
              rw [illumType, if_neg g1, if_pos g2]
            · intro hm
              simp [lineIllum, hr] at hm
          rw [if_neg g2] at h
          by_cases g3 : n = 4
          · rw [if_pos g3] at h
            simp only [Except.ok.injEq] at h
            subst h
            refine ⟨rfl, rfl, rfl, by simp [lineColor], by simp [lineColor], by simp [lineColor],
              ?_, ?_⟩
            · intro m hm
              simp only [lineIllum, if_true, hr, Option.some.injEq] at hm
              subst hm
              rw [illumType, if_neg g1, if_neg g2, if_pos g3]
            · intro hm
              simp [lineIllum, hr] at hm
          rw [if_neg g3] at h
          simp at h
    rw [if_neg h9] at h
    simp at h


/-- The loop, split at a point of the file. -/
theorem ReadMaterialLines_append (ops : StreamOps F) :
    ∀ (l1 l2 : List (List String)) (st : ReadState F),
      ReadMaterialLines ops (l1 ++ l2) st =
        match ReadMaterialLines ops l1 st with
        | .error e => .error e
        | .ok st' => ReadMaterialLines ops l2 st' := by
  intro l1
  induction l1 with
  | nil => intro l2 st; rfl
  | cons l ls ih =>
    intro l2 st
    simp only [List.cons_append, ReadMaterialLines]
    cases ReadMaterialLine ops st l with
    | error e => rfl
    | ok st1 => exact ih l2 st1

/-- Lines without a `newmtl` line, read without an exception from a state in which the
fields already hold the values accumulated so far, leave the materials, the count and the
name as they were and every field at the value of the last line that gives one. -/
theorem ReadMaterialLines_fields (ops : StreamOps F) :
    ∀ (body : List (List String)) (st st' : ReadState F)
      (accE accD accS : Option (Color F)) (accI : Option Int),
      (∀ l ∈ body, isNewmtl l = false) → ReadMaterialLines ops body st = .ok st' →
      (∀ e, accE = some e → st.currentMaterial.material.emission = e) →
      (∀ d, accD = some d → st.currentMaterial.diffuse = d) →
      (∀ s, accS = some s → st.currentMaterial.specular = s) →
      (∀ n, accI = some n → illumType n = some st.currentMaterial.material.materialType) →
      st'.materials = st.materials ∧ st'.materialCount = st.materialCount ∧
      st'.currentMaterial.name = st.currentMaterial.name ∧
      (∀ e, body.foldl (fun acc line => lineColor ops "Ke" line <|> acc) accE = some e → st'.currentMaterial.material.emission = e) ∧
      (∀ d, body.foldl (fun acc line => lineColor ops "Kd" line <|> acc) accD = some d → st'.currentMaterial.diffuse = d) ∧
      (∀ s, body.foldl (fun acc line => lineColor ops "Ks" line <|> acc) accS = some s → st'.currentMaterial.specular = s) ∧
      (∀ n, body.foldl (fun acc line => lineIllum ops line <|> acc) accI = some n →
        illumType n = some st'.currentMaterial.material.materialType) := by
  intro body
  induction body with
  | nil =>
    intro st st' accE accD accS accI _ h hE hD hS hI
    simp only [ReadMaterialLines, Except.ok.injEq] at h
    subst h
    exact ⟨rfl, rfl, rfl, hE, hD, hS, hI⟩
  | cons l ls ih =>
    intro st st' accE accD accS accI hfree h hE hD hS hI
    simp only [ReadMaterialLines] at h
    cases h1 : ReadMaterialLine ops st l with
    | error e => simp [h1] at h
    | ok st1 =>
      simp only [h1] at h
      obtain ⟨f1, f2, f3, f4, f5, f6, f7, f8⟩ := ReadMaterialLine_field ops st st1 l
        (hfree l (List.mem_cons_self l ls)) h1
      obtain ⟨g1, g2, g3, g4, g5, g6, g7⟩ := ih st1 st'
        (lineColor ops "Ke" l <|> accE)
        (lineColor ops "Kd" l <|> accD)
        (lineColor ops "Ks" l <|> accS)
        (lineIllum ops l <|> accI)
        (fun x hx => hfree x (List.mem_cons_of_mem l hx)) h
        (by
          intro e he
          rw [f4]
          cases hc : lineColor ops "Ke" l with
          | none =>
            simp only [hc, Option.none_orElse] at he
            simpa using hE e he
          | some v =>
            simp only [hc, Option.some_orElse, Option.some.injEq] at he
            simpa using he)
        (by
          intro e he
          rw [f5]
          cases hc : lineColor ops "Kd" l with
          | none =>
            simp only [hc, Option.none_orElse] at he
            simpa using hD e he
          | some v =>
            simp only [hc, Option.some_orElse, Option.some.injEq] at he
            simpa using he)
        (by
          intro e he
          rw [f6]
          cases hc : lineColor ops "Ks" l with
          | none =>
            simp only [hc, Option.none_orElse] at he
            simpa using hS e he
          | some v =>
            simp only [hc, Option.some_orElse, Option.some.injEq] at he
            simpa using he)
        (by
          intro n hn
          cases hc : lineIllum ops l with
          | none =>
            simp only [hc, Option.none_orElse] at hn
            rw [f8 hc]
            exact hI n hn
          | some v =>
            simp only [hc, Option.some_orElse, Option.some.injEq] at hn
            subst hn
            exact f7 v hc)
      exact ⟨g1.trans f1, g2.trans f2, g3.trans f3, g4, g5, g6, g7⟩


/-- One block, read without an exception from a state in which either nothing was found
yet or one material is pending: the pending material, if any, is committed, the count
grows by one, and the new pending material is described by the block. -/
theorem ReadMaterialLines_block (ops : StreamOps F) (b : MaterialBlock)
    (st st' : ReadState F)
    (hinv : (st.materialCount = 0 ∧ st.materials = []) ∨
      st.materialCount = st.materials.length + 1)
    (h32 : st.materialCount + 1 < 2 ^ 32)
    (hfree : ∀ l ∈ b.body, isNewmtl l = false)
    (h : ReadMaterialLines ops b.lines st = .ok st') :
    st'.materialCount = st.materialCount + 1 ∧
    st'.materialCount = st'.materials.length + 1 ∧
    st'.materials =
      (if st.materialCount > 0 then (addMaterial st).materials else st.materials) ∧
    b.Describes ops (addMaterial st').currentMaterial ∧
    (addMaterial st').materials = st'.materials ++ [(addMaterial st').currentMaterial] := by
  simp only [MaterialBlock.lines, ReadMaterialLines] at h
  cases h1 : ReadMaterialLine ops st ("newmtl" :: b.name :: b.trailing) with
  | error e => simp [h1] at h
  | ok st1 =>
    simp only [h1] at h
    have hne : ¬ ("newmtl" = "#") := by decide
    simp only [ReadMaterialLine, hne, if_false, if_true, Except.ok.injEq] at h1
    obtain ⟨g1, g2, g3, g4, g5, g6, g7⟩ := ReadMaterialLines_fields ops b.body st1 st'
      none none none none hfree h (by simp) (by simp) (by simp) (by simp)
    have hc1 : st1.materialCount = st.materialCount + 1 := by
      rw [← h1]
      dsimp only
      split_ifs
      · simp only [addMaterial]
        exact Nat.mod_eq_of_lt h32
      · exact Nat.mod_eq_of_lt h32
    have hm1 : st1.materials =
        (if st.materialCount > 0 then (addMaterial st).materials else st.materials) := by
      rw [← h1]
      dsimp only
      split_ifs <;> rfl
    have hn1 : st1.currentMaterial.name = b.name := by
      rw [← h1]
    have hlen : st1.materials.length + 1 = st.materialCount + 1 := by
      rw [hm1]
      rcases hinv with ⟨h0, hnil⟩ | hp
      · simp [h0, hnil]
      · rw [if_pos (by omega)]
        simp [addMaterial]
        omega
    refine ⟨g2.trans hc1, ?_, g1.trans hm1, ?_, rfl⟩
    · rw [g2, g1, hc1]
      omega
    · refine ⟨?_, ?_, ?_, ?_, ?_, ?_⟩
      · simp only [addMaterial]
        rw [g3, hn1]
      · intro e he
        exact g4 e he
      · intro d hd
        exact g5 d hd
      · intro s hs
        exact g6 s hs
      · intro n hn
        exact g7 n hn
      · simp only [addMaterial]


/-- The blocks of a file, read without an exception: the materials committed by the end,
the pending one included, are those committed before followed by one material for each
block, in order, each described by its block. -/
theorem ReadMaterialLines_blocks (ops : StreamOps F) :
    ∀ (blocks : List MaterialBlock) (st st' : ReadState F),
      ((st.materialCount = 0 ∧ st.materials = []) ∨
        st.materialCount = st.materials.length + 1) →
      st.materialCount + blocks.length < 2 ^ 32 →
      (∀ b ∈ blocks, ∀ l ∈ b.body, isNewmtl l = false) →
      ReadMaterialLines ops (blocks.map MaterialBlock.lines).flatten st = .ok st' →
      ((st'.materialCount = 0 ∧ st'.materials = []) ∨
        st'.materialCount = st'.materials.length + 1) ∧
      ∃ infos : List (MaterialFileReadInfo F), infos.length = blocks.length ∧
        (if st'.materialCount > 0 then (addMaterial st').materials else st'.materials) =
          (if st.materialCount > 0 then (addMaterial st).materials else st.materials) ++
            infos ∧
        ∀ (i : Nat) (b : MaterialBlock) (info : MaterialFileReadInfo F),
          blocks[i]? = some b → infos[i]? = some info → b.Describes ops info := by
  intro blocks
  induction blocks with
  | nil =>
    intro st st' hinv _ _ h
    simp only [List.map_nil, List.flatten_nil, ReadMaterialLines, Except.ok.injEq] at h
    subst h
    exact ⟨hinv, [], rfl, by simp, fun i b info hb => by simp at hb⟩
  | cons b rest ih =>
    intro st st' hinv h32 hfree h
    simp only [List.map_cons, List.flatten_cons] at h
    rw [ReadMaterialLines_append] at h
    cases h1 : ReadMaterialLines ops b.lines st with
    | error e => simp [h1] at h
    | ok st1 =>
      simp only [h1] at h
      simp only [List.length_cons] at h32
      obtain ⟨c1, c2, c3, c4, c5⟩ := ReadMaterialLines_block ops b st st1 hinv (by omega)
        (hfree b (List.mem_cons_self b rest)) h1
      obtain ⟨hinv', infos, hlen, hG, hfacts⟩ := ih st1 st' (Or.inr c2) (by omega)
        (fun x hx => hfree x (List.mem_cons_of_mem b hx)) h
      refine ⟨hinv', (addMaterial st1).currentMaterial :: infos, by simp [hlen], ?_, ?_⟩
      · rw [hG, if_pos (by omega), c5, c3]
        simp
      · intro i b' info hb hi
        cases i with
        | zero =>
          simp only [List.getElem?_cons_zero, Option.some.injEq] at hb hi
          rw [← hb, ← hi]
          exact c4
        | succ i =>
          simp only [List.getElem?_cons_succ] at hb hi
          exact hfacts i b' info hb hi

/-- A file that is read without an exception and consists of some lines without a
`newmtl` line followed by blocks: one material is returned for each block, in order,
each described by its block. -/
theorem ReadMaterialFile_blocks [LinearOrderedField F] (ops : StreamOps F)
    (files : String → Option (List (List String))) (filename : String)
    (preamble : List (List String)) (blocks : List MaterialBlock)
    (materials : List (MaterialFileReadInfo F))
    (hfile : files filename = some (preamble ++ (blocks.map MaterialBlock.lines).flatten))
    (hpre : ∀ l ∈ preamble, isNewmtl l = false)
    (hfree : ∀ b ∈ blocks, ∀ l ∈ b.body, isNewmtl l = false)
    (h32 : blocks.length < 2 ^ 32)
    (h : ReadMaterialFile ops files filename = .ok materials) :
    materials.length = blocks.length ∧
    ∀ (i : Nat) (b : MaterialBlock) (info : MaterialFileReadInfo F),
      blocks[i]? = some b → materials[i]? = some info → b.Describes ops info := by
  simp only [ReadMaterialFile, hfile] at h
  rw [ReadMaterialLines_append] at h
  cases h0 : ReadMaterialLines ops preamble ReadState.init with
  | error e => simp [h0] at h
  | ok st0 =>
    simp only [h0] at h
    obtain ⟨p1, p2, _⟩ := ReadMaterialLines_fields ops preamble ReadState.init st0
      none none none none hpre h0 (by simp) (by simp) (by simp) (by simp)
    have hinv0 : (st0.materialCount = 0 ∧ st0.materials = []) ∨
        st0.materialCount = st0.materials.length + 1 := by
      left
      rw [p1, p2]
      exact ⟨rfl, rfl⟩
    cases h1 : ReadMaterialLines ops (blocks.map MaterialBlock.lines).flatten st0 with
    | error e => simp [h1] at h
    | ok st1 =>
      simp only [h1] at h
      obtain ⟨hinv1, infos, hlen, hG, hfacts⟩ := ReadMaterialLines_blocks ops blocks st0 st1
        hinv0 (by rw [p2]; simpa [ReadState.init] using h32) hfree h1
      have hG0 : (if st0.materialCount > 0 then (addMaterial st0).materials
          else st0.materials) = [] := by
        rw [p1, p2]
        rfl
      rw [hG0, List.nil_append] at hG
      have hres : materials = infos := by
        rw [← hG]
        rcases hinv1 with ⟨q1, q2⟩ | q
        · rw [q1, q2] at h
          simp only [List.length_nil, ne_eq, not_true_eq_false, if_false,
            Except.ok.injEq] at h
          rw [q1, q2, ← h]
          rfl
        · rw [if_pos (by omega : st1.materialCount ≠ st1.materials.length)] at h
          simp only [Except.ok.injEq] at h
          rw [if_pos (by omega), h]
      rw [hres]
      exact ⟨hlen, hfacts⟩

end ReaderLemmas

/-! ## Claim C33 -/

/-- C33: for a material file that is read without an exception, one material is parsed
for each `newmtl` block, in file order; when the block gives `Ke`, `Kd`, `Ks` and `illum`
the material has the name of the block, emission its `Ke`, type `DIFFUSE` for `illum` 0,
1 or 2, `SPECULAR` for 3 and `REFRACTION` for 4, and colour its `Kd` when the type is
`DIFFUSE` and its `Ks` otherwise.  Lines `Ns`, `Ka`, `Ni` and `d` change nothing, and an
`illum` line with any other number ends the reading with `ParseException`. -/
theorem parsed_material_fields {F : Type} [LinearOrderedField F] (ops : StreamOps F)
    (files : String → Option (List (List String))) (filename : String)
    (preamble : List (List String)) (blocks : List MaterialBlock)
    (materials : List (MaterialFileReadInfo F))
    (hfile : files filename = some (preamble ++ (blocks.map MaterialBlock.lines).flatten))
    (hpre : ∀ l ∈ preamble, isNewmtl l = false)
    (hfree : ∀ b ∈ blocks, ∀ l ∈ b.body, isNewmtl l = false)
    (h32 : blocks.length < 2 ^ 32)
    (h : ReadMaterialFile ops files filename = .ok materials) :
    materials.length = blocks.length ∧
    (∀ (i : Nat) (b : MaterialBlock) (info : MaterialFileReadInfo F) (e d s : Color F)
      (n : Int), blocks[i]? = some b → materials[i]? = some info →
      blockField (lineColor ops "Ke") b.body = some e →
      blockField (lineColor ops "Kd") b.body = some d →
      blockField (lineColor ops "Ks") b.body = some s →
      blockField (lineIllum ops) b.body = some n →
      info.name = b.name ∧ info.material.emission = e ∧
      (n = 0 ∨ n = 1 ∨ n = 2 ∨ n = 3 ∨ n = 4) ∧
      (n = 0 ∨ n = 1 ∨ n = 2 →
        info.material.materialType = .DIFFUSE ∧ info.material.color = d) ∧
      (n = 3 → info.material.materialType = .SPECULAR ∧ info.material.color = s) ∧
      (n = 4 → info.material.materialType = .REFRACTION ∧ info.material.color = s)) ∧
    (∀ (st : ReadState F) (type : String) (rest : List String),
      type = "Ns" ∨ type = "Ka" ∨ type = "Ni" ∨ type = "d" →
      ReadMaterialLine ops st (type :: rest) = .ok st) ∧
    (∀ (st : ReadState F) (field : String) (rest : List String) (n : Int),
      ops.readInt field = some n → ¬ (n = 0 ∨ n = 1 ∨ n = 2 ∨ n = 3 ∨ n = 4) →
      ReadMaterialLine ops st ("illum" :: field :: rest) = .error .ParseException) ∧
    (∀ (before after : List (List String)) (st : ReadState F) (field : String)
      (rest : List String) (n : Int) (name : String),
      ReadMaterialLines ops before ReadState.init = .ok st →
      ops.readInt field = some n → ¬ (n = 0 ∨ n = 1 ∨ n = 2 ∨ n = 3 ∨ n = 4) →
      files name = some (before ++ ("illum" :: field :: rest) :: after) →
      ReadMaterialFile ops files name = .error .ParseException) := by
  obtain ⟨hlen, hdesc⟩ := ReadMaterialFile_blocks ops files filename preamble blocks materials
    hfile hpre hfree h32 h
  have hbad : ∀ (st : ReadState F) (field : String) (rest : List String) (n : Int),
      ops.readInt field = some n → ¬ (n = 0 ∨ n = 1 ∨ n = 2 ∨ n = 3 ∨ n = 4) →
      ReadMaterialLine ops st ("illum" :: field :: rest) = .error .ParseException := by
    intro st field rest n hr hn
    have g1 : ¬ (n = 0 ∨ n = 1 ∨ n = 2) := fun g => hn (by tauto)
    have g2 : ¬ n = 3 := fun g => hn (by tauto)
    have g3 : ¬ n = 4 := fun g => hn (by tauto)
    have d1 : ¬ ("illum" = "#") := by decide
    have d2 : ¬ ("illum" = "newmtl") := by decide
    have d3 : ¬ ("illum" = "Ns") := by decide
    have d4 : ¬ ("illum" = "Ka") := by decide
    have d5 : ¬ ("illum" = "Kd") := by decide
    have d6 : ¬ ("illum" = "Ks") := by decide
    have d7 : ¬ ("illum" = "Ke") := by decide
    have d8 : ¬ ("illum" = "Ni") := by decide
    have d9 : ¬ ("illum" = "d") := by decide
    simp only [ReadMaterialLine, d1, d2, d3, d4, d5, d6, d7, d8, d9, if_false, if_true, hr,
      g1, g2, g3]
  refine ⟨hlen, ?_, ?_, hbad, ?_⟩
  · intro i b info e d s n hb hi hE hD hS hI
    obtain ⟨k1, k2, k3, k4, k5, k6⟩ := hdesc i b info hb hi
    have hty := k5 n hI
    have hd := k3 d hD
    have hs := k4 s hS
    refine ⟨k1, k2 e hE, ?_, ?_, ?_, ?_⟩
    · by_contra hn
      have g1 : ¬ (n = 0 ∨ n = 1 ∨ n = 2) := fun g => hn (by tauto)
      have g2 : ¬ n = 3 := fun g => hn (by tauto)
      have g3 : ¬ n = 4 := fun g => hn (by tauto)
      simp [illumType, g1, g2, g3] at hty
    · intro g
      rw [illumType, if_pos g, Option.some.injEq] at hty
      rw [k6, ← hty, if_pos rfl, hd]
      exact ⟨rfl, rfl⟩
    · intro g
      subst g
      have hty' : MaterialType.SPECULAR = info.material.materialType := by
        simpa [illumType] using hty
      rw [k6, ← hty', if_neg (by decide), hs]
      exact ⟨rfl, rfl⟩
    · intro g
      subst g
      have hty' : MaterialType.REFRACTION = info.material.materialType := by
        simpa [illumType] using hty
      rw [k6, ← hty', if_neg (by decide), hs]
      exact ⟨rfl, rfl⟩
  · intro st type rest ht
    rcases ht with rfl | rfl | rfl | rfl <;> simp [ReadMaterialLine]
  · intro before after st field rest n name hb hr hn hf
    simp only [ReadMaterialFile, hf]
    rw [ReadMaterialLines_append]
    simp only [hb, ReadMaterialLines, hbad st field rest n hr hn]

/-- Witness for C33: a file of one block that gives all four fields, with `illum 3`. -/
theorem parsed_material_fields_witness :
    ∃ info : MaterialFileReadInfo ℚ,
      ReadMaterialFile digitStream
        (fun f => if f = "f" then some [["newmtl", "A"], ["Kd", "1", "2", "3"],
          ["Ks", "4", "5", "6"], ["Ns", "9"], ["Ke", "7", "8", "9"], ["illum", "3"]]
          else none) "f" = .ok [info] ∧
      info.material.materialType = .SPECULAR ∧ info.material.color = ⟨4, 5, 6⟩ := by
  have hread : ReadMaterialFile (digitStream : StreamOps ℚ)
      (fun f => if f = "f" then some [["newmtl", "A"], ["Kd", "1", "2", "3"],
        ["Ks", "4", "5", "6"], ["Ns", "9"], ["Ke", "7", "8", "9"], ["illum", "3"]]
        else none) "f" =
      .ok [⟨"A", ⟨⟨7, 8, 9⟩, ⟨4, 5, 6⟩, .SPECULAR⟩, ⟨1, 2, 3⟩, ⟨4, 5, 6⟩⟩] := by
    simp [ReadMaterialFile, ReadMaterialLines, ReadMaterialLine, ReadState.init, addMaterial,
      readColor, digitStream, Material.default, List.indexOf?, List.findIdx?]
  refine ⟨_, hread, ?_⟩
  exact ((parsed_material_fields (digitStream : StreamOps ℚ) _ "f" []
    [⟨"A", [], [["Kd", "1", "2", "3"], ["Ks", "4", "5", "6"], ["Ns", "9"],
      ["Ke", "7", "8", "9"], ["illum", "3"]]⟩] _ (by simp [MaterialBlock.lines])
    (by simp) (by simp [isNewmtl]) (by norm_num) hread).2.1 0 _ _ ⟨7, 8, 9⟩ ⟨1, 2, 3⟩
    ⟨4, 5, 6⟩ 3 rfl rfl
    (by simp [blockField, lineColor, readColor, digitStream, List.indexOf?, List.findIdx?])
    (by simp [blockField, lineColor, readColor, digitStream, List.indexOf?, List.findIdx?])
    (by simp [blockField, lineColor, readColor, digitStream, List.indexOf?, List.findIdx?])
    (by simp [blockField, lineIllum, digitStream, List.indexOf?, List.findIdx?])).2.2.2.2.1 rfl

/-! ## Claim C40 -/

/-- C40 fails on the code: `currentMaterial` is declared before the loop and is not reset
at a `newmtl` line.  For the file `newmtl A / Ke 1 1 1 / Ks 2 2 2 / illum 3 / newmtl B`
the material `B`, whose block is empty, is parsed with the emission `(1,1,1)`, the colour
`(2,2,2)` and the type `SPECULAR` of `A`, not with zero colours and the type `DIFFUSE`. -/
theorem ReadMaterialFile_block_inherits :
    ReadMaterialFile (digitStream : StreamOps ℚ)
      (fun f => if f = "f" then some [["newmtl", "A"], ["Ke", "1", "1", "1"],
        ["Ks", "2", "2", "2"], ["illum", "3"], ["newmtl", "B"]] else none) "f" =
      .ok [⟨"A", ⟨⟨1, 1, 1⟩, ⟨2, 2, 2⟩, .SPECULAR⟩, ⟨0, 0, 0⟩, ⟨2, 2, 2⟩⟩,
        ⟨"B", ⟨⟨1, 1, 1⟩, ⟨2, 2, 2⟩, .SPECULAR⟩, ⟨0, 0, 0⟩, ⟨2, 2, 2⟩⟩] ∧
    ReadMaterialFile (digitStream : StreamOps ℚ)
      (fun f => if f = "f" then some [["newmtl", "B"]] else none) "f" =
      .ok [⟨"B", ⟨⟨0, 0, 0⟩, ⟨0, 0, 0⟩, .DIFFUSE⟩, ⟨0, 0, 0⟩, ⟨0, 0, 0⟩⟩] := by
  constructor <;>
    simp [ReadMaterialFile, ReadMaterialLines, ReadMaterialLine, ReadState.init, addMaterial,
      readColor, digitStream, Material.default, List.indexOf?, List.findIdx?]

/-! ## The named materials of the manager -/

section ManagerLemmas

variable {F : Type}

/-- The unique name determines the material name once the file is fixed. -/
theorem GetUniqueMaterialName_injective (file a b : String)
    (h : GetUniqueMaterialName file a = GetUniqueMaterialName file b) : a = b := by
  have h1 := congrArg String.data h
  simp only [GetUniqueMaterialName, String.data_append, List.append_assoc] at h1
  exact String.ext (List.append_cancel_left (List.append_cancel_left h1))

/-- Removing the bindings of one name from the map does not change what another name is
bound to. -/
theorem lookup_filter_ne (key k : String) (hne : key ≠ k) :
    ∀ l : List (String × Nat),
      (l.filter (fun e => !(e.1 == k))).lookup key = l.lookup key := by
  intro l
  induction l with
  | nil => rfl
  | cons e es ih =>
    obtain ⟨k', v⟩ := e
    by_cases hk : k' = k
    · subst hk
      have h1 : (key == k') = false := by simpa using hne
      simp [List.filter_cons, List.lookup_cons, h1, ih]
    · have h2 : (k' == k) = false := by simpa using hk
      simp only [List.filter_cons, h2, Bool.not_false, if_true, List.lookup_cons, ih]

/-- The name map after `AddMaterial(material, file, materialName)`. -/
theorem AddMaterialNamed_lookup (mm : MaterialManager F) (material : Material F)
    (file name key : String) :
    (mm.AddMaterialNamed material file name).2.materialMap.lookup key =
      if key = GetUniqueMaterialName file name then some (mm.materialList.length % 2 ^ 32)
      else mm.materialMap.lookup key := by
  by_cases hk : key = GetUniqueMaterialName file name
  · subst hk
    simp [MaterialManager.AddMaterialNamed, MaterialManager.AddMaterial, List.lookup_cons]
  · have h1 : (key == GetUniqueMaterialName file name) = false := by simpa using hk
    simp only [MaterialManager.AddMaterialNamed, MaterialManager.AddMaterial, List.lookup_cons,
      h1, if_neg hk]
    exact lookup_filter_ne key _ hk _

/-- The manager after the loop of `LoadMaterialFile`: the materials are appended in
order; a name that no new material has keeps its binding; and the name of a new material
that no later new material has is bound to the id of that material. -/
theorem LoadMaterialFile_fold (file : String) :
    ∀ (infos : List (MaterialFileReadInfo F)) (mm : MaterialManager F),
      (infos.foldl (fun acc newMaterial =>
        (acc.AddMaterialNamed newMaterial.material file newMaterial.name).2) mm).materialList =
        mm.materialList ++ infos.map (fun info => info.material) ∧
      (∀ key : String, (∀ info ∈ infos, GetUniqueMaterialName file info.name ≠ key) →
        (infos.foldl (fun acc newMaterial =>
          (acc.AddMaterialNamed newMaterial.material file newMaterial.name).2)
            mm).materialMap.lookup key = mm.materialMap.lookup key) ∧
      (∀ (i : Nat) (info : MaterialFileReadInfo F), infos[i]? = some info →
        (∀ (j : Nat) (info' : MaterialFileReadInfo F), i < j → infos[j]? = some info' →
          info'.name ≠ info.name) →
        (infos.foldl (fun acc newMaterial =>
          (acc.AddMaterialNamed newMaterial.material file newMaterial.name).2)
            mm).materialMap.lookup (GetUniqueMaterialName file info.name) =
          some ((mm.materialList.length + i) % 2 ^ 32)) := by
  intro infos
  induction infos with
  | nil =>
    intro mm
    refine ⟨by simp, fun key _ => rfl, fun i info hi => by simp at hi⟩
  | cons a rest ih =>
    intro mm
    obtain ⟨h1, h2, h3⟩ := ih (mm.AddMaterialNamed a.material file a.name).2
    have hlist : (mm.AddMaterialNamed a.material file a.name).2.materialList =
        mm.materialList ++ [a.material] := rfl
    simp only [List.foldl_cons]
    refine ⟨?_, ?_, ?_⟩
    · rw [h1, hlist]
      simp
    · intro key hkey
      rw [h2 key (fun info hinfo => hkey info (List.mem_cons_of_mem a hinfo)),
        AddMaterialNamed_lookup, if_neg (fun h => hkey a (List.mem_cons_self a rest) h.symm)]
    · intro i info hi hlast
      cases i with
      | zero =>
        simp only [List.getElem?_cons_zero, Option.some.injEq] at hi
        subst hi
        rw [h2 _ (fun info' hinfo' heq => by
          obtain ⟨j, hj⟩ := List.getElem?_of_mem hinfo'
          exact hlast (j + 1) info' (by omega) (by simpa using hj)
            (GetUniqueMaterialName_injective file _ _ heq)),
          AddMaterialNamed_lookup, if_pos rfl]
        rfl
      | succ i =>
        simp only [List.getElem?_cons_succ] at hi
        rw [h3 i info hi (fun j info' hij hj =>
          hlast (j + 1) info' (by omega) (by simpa using hj)), hlist]
        simp only [List.length_append, List.length_singleton]
        congr 2
        omega

end ManagerLemmas

/-! ## Claim C31 -/

/-- C31: loading a material file that is read without an exception and has `k >= 1`
blocks into a manager holding `n` materials (`n + k` within the 32-bit range of an id)
appends one material for each block, so that the block `i` gets the id `n + i`;
afterwards `GetMaterial(file, name)` returns, for the name of the block `i` (the last
block of that name), the id `n + i` and changes nothing, in whatever order the names are
asked for, also when the first such request is what loads the file; and
`GetMaterial(file)` with the name omitted loads the file and returns `n`, the id of the
material of the first block. -/
theorem loaded_materials_get_consecutive_ids {F : Type} [LinearOrderedField F]
    (ops : StreamOps F) (files : String → Option (List (List String)))
    (mm : MaterialManager F) (file : String) (preamble : List (List String))
    (blocks : List MaterialBlock) (materials : List (MaterialFileReadInfo F))
    (hfile : files file = some (preamble ++ (blocks.map MaterialBlock.lines).flatten))
    (hpre : ∀ l ∈ preamble, isNewmtl l = false)
    (hfree : ∀ b ∈ blocks, ∀ l ∈ b.body, isNewmtl l = false)
    (hk : 1 ≤ blocks.length)
    (h32 : mm.GetMaterials.length + blocks.length < 2 ^ 32)
    (hread : ReadMaterialFile ops files file = .ok materials) :
    materials.length = blocks.length ∧
    ∃ loaded : MaterialManager F,
      mm.LoadMaterialFile ops files file = .ok (mm.GetMaterials.length, loaded) ∧
      loaded.GetMaterials.length = mm.GetMaterials.length + blocks.length ∧
      (∀ i, i < mm.GetMaterials.length → loaded.GetMaterials[i]? = mm.GetMaterials[i]?) ∧
      (∀ (i : Nat) (b : MaterialBlock) (info : MaterialFileReadInfo F),
        blocks[i]? = some b → materials[i]? = some info →
        info.name = b.name ∧
          loaded.GetMaterial (mm.GetMaterials.length + i) = info.material) ∧
      (∀ (i : Nat) (b : MaterialBlock), blocks[i]? = some b →
        (∀ (j : Nat) (b' : MaterialBlock), i < j → blocks[j]? = some b' →
          b'.name ≠ b.name) →
        loaded.GetMaterialNamed ops files file b.name =
          (.ok (mm.GetMaterials.length + i), loaded) ∧
        (b.name ≠ "" → mm.materialMap.lookup (GetUniqueMaterialName file b.name) = none →
          mm.GetMaterialNamed ops files file b.name =
            (.ok (mm.GetMaterials.length + i), loaded))) ∧
      (mm.materialMap.lookup (GetUniqueMaterialName file "") = none →
        mm.GetMaterialNamed ops files file "" = (.ok mm.GetMaterials.length, loaded)) := by
  simp only [MaterialManager.GetMaterials] at h32 ⊢
  obtain ⟨hlen, hdesc⟩ := ReadMaterialFile_blocks ops files file preamble blocks materials
    hfile hpre hfree (by omega) hread
  obtain ⟨f1, f2, f3⟩ := LoadMaterialFile_fold file materials mm
  have hload : mm.LoadMaterialFile ops files file = .ok (mm.materialList.length,
      materials.foldl (fun acc newMaterial =>
        (acc.AddMaterialNamed newMaterial.material file newMaterial.name).2) mm) := by
    simp only [MaterialManager.LoadMaterialFile, hread]
    rw [if_neg (by omega), Nat.mod_eq_of_lt (by omega)]
  refine ⟨hlen, _, hload, ?_, ?_, ?_, ?_, ?_⟩
  · rw [f1]
    simp [hlen]
  · intro i hi
    rw [f1, List.getElem?_append_left hi]
  · intro i b info hb hi
    refine ⟨(hdesc i b info hb hi).1, ?_⟩
    simp only [MaterialManager.GetMaterial, List.getD_eq_getElem?_getD]
    rw [f1, List.getElem?_append_right (by omega)]
    simp [hi]
  · intro i b hb hlast
    have hib : i < blocks.length := (List.getElem?_eq_some.mp hb).1
    obtain ⟨info, hi⟩ : ∃ info, materials[i]? = some info :=
      ⟨materials[i], List.getElem?_eq_getElem (by omega)⟩
    have hname : info.name = b.name := (hdesc i b info hb hi).1
    have hlook := f3 i info hi (by
      intro j info' hij hj
      have hjb : j < blocks.length := by
        have := (List.getElem?_eq_some.mp hj).1
        omega
      have hb' : blocks[j]? = some blocks[j] := List.getElem?_eq_getElem hjb
      rw [(hdesc j blocks[j] info' hb' hj).1, hname]
      exact hlast j blocks[j] hij hb')
    rw [hname, Nat.mod_eq_of_lt (by omega)] at hlook
    constructor
    · simp only [MaterialManager.GetMaterialNamed, hlook]
    · intro hne hkey
      simp only [MaterialManager.GetMaterialNamed, hkey, hload, if_neg hne, hlook]
  · intro hkey
    simp only [MaterialManager.GetMaterialNamed, hkey, hload, if_true]

/-- Witness for C31: of the two materials `A`, `B` of a file loaded into the empty
manager, `B` is asked for first and gets the id 1. -/
theorem loaded_materials_get_consecutive_ids_witness :
    ((MaterialManager.empty : MaterialManager ℚ).GetMaterialNamed digitStream
      (fun f => if f = "f" then some [["newmtl", "A"], ["illum", "3"], ["newmtl", "B"]]
        else none) "f" "B").1 = .ok 1 := by
  have hread : ReadMaterialFile (digitStream : StreamOps ℚ)
      (fun f => if f = "f" then some [["newmtl", "A"], ["illum", "3"], ["newmtl", "B"]]
        else none) "f" =
      .ok [⟨"A", ⟨⟨0, 0, 0⟩, ⟨0, 0, 0⟩, .SPECULAR⟩, ⟨0, 0, 0⟩, ⟨0, 0, 0⟩⟩,
        ⟨"B", ⟨⟨0, 0, 0⟩, ⟨0, 0, 0⟩, .SPECULAR⟩, ⟨0, 0, 0⟩, ⟨0, 0, 0⟩⟩] := by
    simp [ReadMaterialFile, ReadMaterialLines, ReadMaterialLine, ReadState.init, addMaterial,
      readColor, digitStream, Material.default, List.indexOf?, List.findIdx?]
  obtain ⟨_, loaded, _, _, _, _, hnamed, _⟩ := loaded_materials_get_consecutive_ids
    (digitStream : StreamOps ℚ) _ MaterialManager.empty "f" []
    [⟨"A", [], [["illum", "3"]]⟩, ⟨"B", [], []⟩] _ (by simp [MaterialBlock.lines])
    (by simp) (by simp [isNewmtl]) (by simp)
    (by simp [MaterialManager.GetMaterials, MaterialManager.empty]) hread
  have h := (hnamed 1 ⟨"B", [], []⟩ rfl (by
    intro j b' hj hb
    have := (List.getElem?_eq_some.mp hb).1
    simp at this
    omega)).2 (by decide) rfl
  rw [h]
  simp [MaterialManager.GetMaterials, MaterialManager.empty]


/-! ## Claim C32 -/

/-- C32: for a file that is read without an exception and a name that is not bound in the
name map, `GetMaterial(file, name)` with a non-empty name that no material of the file
has throws `MaterialNotFoundException`; and when the file defines no material, as a file
of blank and comment lines does, `GetMaterial(file, name)` throws
`MaterialNotFoundException` for every name, the omitted one included, and leaves the
manager as it was. -/
theorem missing_material_is_not_found {F : Type} [LinearOrderedField F]
    (ops : StreamOps F) (files : String → Option (List (List String)))
    (mm : MaterialManager F) (file name : String)
    (materials : List (MaterialFileReadInfo F))
    (hread : ReadMaterialFile ops files file = .ok materials)
    (hkey : mm.materialMap.lookup (GetUniqueMaterialName file name) = none) :
    (name ≠ "" → (∀ info ∈ materials, info.name ≠ name) →
      (mm.GetMaterialNamed ops files file name).1 = .error .MaterialNotFoundException) ∧
    (materials = [] →
      mm.GetMaterialNamed ops files file name = (.error .MaterialNotFoundException, mm)) ∧
    (∀ lines : List (List String), files file = some lines →
      (∀ l ∈ lines, l = [] ∨ l.head? = some "#") → materials = []) := by
  refine ⟨?_, ?_, ?_⟩
  · intro hne hnone
    by_cases hlen : materials.length = 0
    · simp [MaterialManager.GetMaterialNamed, hkey, MaterialManager.LoadMaterialFile, hread,
        hlen]
    · obtain ⟨_, f2, _⟩ := LoadMaterialFile_fold file materials mm
      have hlook := f2 (GetUniqueMaterialName file name) (fun info hinfo heq =>
        hnone info hinfo (GetUniqueMaterialName_injective file _ _ heq))
      simp only [MaterialManager.GetMaterialNamed, hkey, MaterialManager.LoadMaterialFile,
        hread, if_neg hlen, if_neg hne, hlook]
  · intro hnil
    subst hnil
    simp [MaterialManager.GetMaterialNamed, hkey, MaterialManager.LoadMaterialFile, hread]
  · intro lines hfile hlines
    have hskip : ∀ (ls : List (List String)) (st : ReadState F),
        (∀ l ∈ ls, l = [] ∨ l.head? = some "#") → ReadMaterialLines ops ls st = .ok st := by
      intro ls
      induction ls with
      | nil => intro st _; rfl
      | cons l rest ih =>
        intro st hl
        have h1 : ReadMaterialLine ops st l = .ok st := by
          rcases hl l (List.mem_cons_self l rest) with h | h
          · subst h
            rfl
          · cases l with
            | nil => rfl
            | cons type tail =>
              simp only [List.head?_cons, Option.some.injEq] at h
              subst h
              simp [ReadMaterialLine]
        simp only [ReadMaterialLines, h1]
        exact ih st (fun x hx => hl x (List.mem_cons_of_mem l hx))
    simp only [ReadMaterialFile, hfile, hskip lines ReadState.init hlines] at hread
    simpa [ReadState.init] using hread.symm

/-- Witness for C32: the file of one comment line of `MaterialManagerTest.cpp`, asked for
its first material. -/
theorem missing_material_is_not_found_witness :
    (MaterialManager.empty : MaterialManager ℚ).GetMaterialNamed digitStream
      (fun f => if f = "e" then some [["#", "this", "has", "no", "materials"]] else none)
      "e" "" = (.error .MaterialNotFoundException, MaterialManager.empty) :=
  (missing_material_is_not_found (digitStream : StreamOps ℚ) _ MaterialManager.empty "e" ""
    [] (by
      simp [ReadMaterialFile, ReadMaterialLines, ReadMaterialLine, ReadState.init])
    rfl).2.1 rfl

/-! ## Claim C39 -/

section LookupLemmas

/-- A second `GetMaterial(file, name)` with a non-empty name, after one that returned an
id, returns the same id and leaves the manager as the first one left it. -/
theorem GetMaterialNamed_again {F : Type} [LinearOrderedField F] (ops : StreamOps F)
    (files : String → Option (List (List String))) (mm mm' : MaterialManager F)
    (file name : String) (id : Nat) (hne : name ≠ "")
    (h : mm.GetMaterialNamed ops files file name = (.ok id, mm')) :
    mm'.GetMaterialNamed ops files file name = (.ok id, mm') := by
  have hfound : mm'.materialMap.lookup (GetUniqueMaterialName file name) = some id := by
    simp only [MaterialManager.GetMaterialNamed] at h
    cases h1 : mm.materialMap.lookup (GetUniqueMaterialName file name) with
    | some x =>
      simp only [h1, Prod.mk.injEq, Except.ok.injEq] at h
      rw [← h.2, h1, h.1]
    | none =>
      simp only [h1] at h
      cases h2 : mm.LoadMaterialFile ops files file with
      | error e => simp [h2] at h
      | ok res =>
        obtain ⟨firstId, loaded⟩ := res
        simp only [h2, if_neg hne] at h
        cases h3 : loaded.materialMap.lookup (GetUniqueMaterialName file name) with
        | none => simp [h3] at h
        | some x =>
          simp only [h3, Prod.mk.injEq, Except.ok.injEq] at h
          rw [← h.2, h3, h.1]
  simp only [MaterialManager.GetMaterialNamed, hfound]

end LookupLemmas

/-- C39 fails on the code for the omitted name: `GetMaterial(file)` never binds the name
it looks up, so it loads the file again on every call.  For a file with the one material
`A` and the empty manager, the first `GetMaterial(file)` returns 0 and leaves one
material, with `A` bound to 0; the second returns 1 and leaves two materials, with `A`
bound to 1. -/
theorem GetMaterial_omitted_name_reloads :
    ((MaterialManager.empty : MaterialManager ℚ).GetMaterialNamed digitStream
      (fun f => if f = "f" then some [["newmtl", "A"]] else none) "f" "") =
      (.ok 0, ⟨[Material.default], [("f:A", 0)]⟩) ∧
    ((⟨[Material.default], [("f:A", 0)]⟩ : MaterialManager ℚ).GetMaterialNamed digitStream
      (fun f => if f = "f" then some [["newmtl", "A"]] else none) "f" "") =
      (.ok 1, ⟨[Material.default, Material.default], [("f:A", 1)]⟩) := by
  have hread : ReadMaterialFile (digitStream : StreamOps ℚ)
      (fun f => if f = "f" then some [["newmtl", "A"]] else none) "f" =
      .ok [⟨"A", Material.default, ⟨0, 0, 0⟩, ⟨0, 0, 0⟩⟩] := by
    simp [ReadMaterialFile, ReadMaterialLines, ReadMaterialLine, ReadState.init, addMaterial,
      Material.default]
  constructor
  · simp [MaterialManager.GetMaterialNamed, MaterialManager.LoadMaterialFile, hread,
      MaterialManager.empty, MaterialManager.AddMaterialNamed, MaterialManager.AddMaterial,
      GetUniqueMaterialName, List.lookup]
  · simp [MaterialManager.GetMaterialNamed, MaterialManager.LoadMaterialFile, hread,
      MaterialManager.AddMaterialNamed, MaterialManager.AddMaterial,
      GetUniqueMaterialName, List.lookup]

/-! ## Binary32: sign and special values -/

/-- Subtraction is addition of the negated operand. -/
theorem F32_sub_def (x y : F32) : x - y = F32.add x (F32.neg y) := rfl

/-- The negation of a float is NaN only for NaN. -/
theorem F32_neg_fin (neg : Bool) (m : Nat) (e : Int) :
    ∃ neg' m' e', F32.neg (.fin neg m e) = .fin neg' m' e' ∧
      ∀ q, F32.aligned neg' m' e' q = - F32.aligned neg m e q := by
  by_cases hm : m = 0
  · refine ⟨false, 0, 0, by simp [F32.neg, hm], ?_⟩
    intro q
    simp [F32.aligned, hm]
  · refine ⟨!neg, m, e, by simp [F32.neg, hm], ?_⟩
    intro q
    cases neg <;> simp [F32.aligned]

/-- A NaN operand makes a comparison false. -/
theorem F32_lt_nan_left (y : F32) : F32.lt .nan y = false := by
  cases y <;> rfl

/-- A NaN operand makes a comparison false. -/
theorem F32_lt_nan_right (x : F32) : F32.lt x .nan = false := by
  cases x <;> rfl

/-- The difference of NaN and anything is NaN. -/
theorem F32_sub_nan_left (y : F32) : (F32.nan - y : F32) = .nan := by
  rw [F32_sub_def]
  cases h : F32.neg y <;> rfl

/-- The difference of anything and NaN is NaN. -/
theorem F32_sub_nan_right (x : F32) : (x - F32.nan : F32) = .nan := by
  cases x <;> rfl

/-- Rounding the exact value zero gives zero. -/
theorem F32_round_zero (neg : Bool) (d : Nat) (s : Int) : F32.round neg 0 d s = F32.zero := by
  simp [F32.round]

/-- The difference of a finite float and itself is zero. -/
theorem F32_sub_self (neg : Bool) (m : Nat) (e : Int) :
    (F32.fin neg m e - F32.fin neg m e : F32) = F32.zero := by
  rw [F32_sub_def]
  obtain ⟨neg', m', e', h1, h2⟩ := F32_neg_fin neg m e
  rw [h1]
  simp only [F32.add, h2, add_neg_cancel]
  exact F32_round_zero _ _ _

/-- The template `FLOAT_EQ` is false when an argument is NaN. -/
theorem FLOAT_EQ32_nan (x : F32) : FLOAT_EQ32 .nan x = false ∧ FLOAT_EQ32 x .nan = false := by
  constructor
  · simp only [FLOAT_EQ32, F32_lt_nan_right, F32_sub_nan_right, F32_lt_nan_left,
      Bool.false_eq_true, if_false]
  · simp only [FLOAT_EQ32, F32_lt_nan_left, F32_sub_nan_right, F32_sub_nan_left,
      Bool.false_eq_true, if_false]

/-- Shifting a number that has digits beyond the `k`-th right by `k` removes `k` digits. -/
theorem size_shiftRight_add (n k : Nat) (h : n >>> k ≠ 0) :
    n.size = (n >>> k).size + k := by
  rw [Nat.shiftRight_eq_div_pow] at h ⊢
  have hpos : 0 < (n / 2 ^ k).size := Nat.size_pos.mpr (Nat.pos_of_ne_zero h)
  apply le_antisymm
  · rw [Nat.size_le, pow_add]
    exact (Nat.div_lt_iff_lt_mul (by positivity)).mp (Nat.lt_size_self _)
  · have h1 : 2 ^ ((n / 2 ^ k).size - 1) ≤ n / 2 ^ k := Nat.lt_size.mp (by omega)
    have h2 : 2 ^ ((n / 2 ^ k).size - 1) * 2 ^ k ≤ n :=
      (Nat.le_div_iff_mul_le (by positivity)).mp h1
    have h3 : (n / 2 ^ k).size + k - 1 < n.size := by
      rw [Nat.lt_size]
      calc 2 ^ ((n / 2 ^ k).size + k - 1) = 2 ^ ((n / 2 ^ k).size - 1) * 2 ^ k := by
            rw [← pow_add]
            congr 1
            omega
        _ ≤ n := h2
    omega

/-- The search for the number of binary digits finds it, when every shift it tries is at
most one more than the sum of the shifts still to try. -/
theorem bitLengthAux_size : ∀ (steps : List Nat) (n acc : Nat),
    (∀ i, i < steps.length → steps.getD i 0 ≤ (steps.drop (i + 1)).sum + 1) →
    n < 2 ^ (steps.sum + 1) → bitLengthAux steps n acc = acc + n.size := by
  intro steps
  induction steps with
  | nil =>
    intro n acc _ hn
    simp only [List.sum_nil, zero_add, pow_one] at hn
    interval_cases n
    · simp [bitLengthAux]
    · simp [bitLengthAux]
  | cons k rest ih =>
    intro n acc hsteps hn
    have hk : k ≤ rest.sum + 1 := by
      have := hsteps 0 (by simp)
      simpa using this
    have hrest : ∀ i, i < rest.length → rest.getD i 0 ≤ (rest.drop (i + 1)).sum + 1 := by
      intro i hi
      have := hsteps (i + 1) (by simpa using hi)
      simpa using this
    simp only [bitLengthAux]
    split_ifs with hshift
    · have hlt : n >>> k < 2 ^ (rest.sum + 1) := by
        rw [Nat.shiftRight_eq_div_pow]
        apply Nat.div_lt_of_lt_mul
        rw [← pow_add]
        simpa [add_assoc] using hn
      rw [ih (n >>> k) (acc + k) hrest hlt, size_shiftRight_add n k hshift]
      omega
    · have hz : n >>> k = 0 := by simpa using hshift
      have hlt : n < 2 ^ (rest.sum + 1) := by
        rw [Nat.shiftRight_eq_div_pow] at hz
        have h1 : n < 2 ^ k := by
          by_contra hc
          have : 1 ≤ n / 2 ^ k := (Nat.le_div_iff_mul_le (by positivity)).mpr (by simpa using hc)
          omega
        exact lt_of_lt_of_le h1 (Nat.pow_le_pow_right (by norm_num) hk)
      exact ih n acc hrest hlt

/-- The number of binary digits, for numbers of at most 512 digits. -/
theorem bitLength_eq_size (n : Nat) (hn : n.size ≤ 512) : bitLength n = n.size := by
  have h := bitLengthAux_size [256, 128, 64, 32, 16, 8, 4, 2, 1] n 0 (by decide)
    (Nat.size_le.mp hn)
  rw [bitLength, h, zero_add]

/-- A number that is not zero has a binary digit. -/
theorem bitLengthAux_pos : ∀ (steps : List Nat) (n acc : Nat), n ≠ 0 →
    acc + 1 ≤ bitLengthAux steps n acc := by
  intro steps
  induction steps with
  | nil =>
    intro n acc hn
    simp [bitLengthAux, hn]
  | cons k rest ih =>
    intro n acc hn
    simp only [bitLengthAux]
    split_ifs with hshift
    · have := ih (n >>> k) (acc + k) hshift
      omega
    · exact ih n acc hn

/-- A number that is not zero has a binary digit. -/
theorem bitLength_pos (n : Nat) (hn : n ≠ 0) : 1 ≤ bitLength n := by
  have := bitLengthAux_pos [256, 128, 64, 32, 16, 8, 4, 2, 1] n 0 hn
  simpa [bitLength] using this

/-- The exponent found for `n/d` lies between the difference of the numbers of digits and
one less. -/
theorem F32_exponent_bounds (n d : Nat) :
    (bitLength n : Int) - bitLength d - 1 ≤ F32.exponent n d ∧
    F32.exponent n d ≤ (bitLength n : Int) - bitLength d := by
  simp only [F32.exponent]
  split_ifs <;> constructor <;> omega

/-- A significand packed at an exponent below the largest is finite. -/
theorem F32_pack_finite (neg : Bool) (k : Nat) (q : Int) (hq : q ≤ 103) :
    (F32.pack neg k q).isFinite = true := by
  simp only [F32.pack]
  split_ifs <;> first | rfl | omega

/-- A rounded value is finite when the exponent found for it is below the largest. -/
theorem F32_round_finite (neg : Bool) (n d : Nat) (s : Int)
    (h : F32.exponent n d + s ≤ 126) : (F32.round neg n d s).isFinite = true := by
  simp only [F32.round]
  split_ifs <;> first | rfl | (apply F32_pack_finite; omega)

/-- The significand to which a quotient of at least one is rounded is not zero. -/
theorem roundNearestEven_pos (num den : Nat) (hden : 0 < den) (h : den ≤ num) :
    roundNearestEven num den ≠ 0 := by
  have : 1 ≤ num / den := (Nat.le_div_iff_mul_le hden).mpr (by simpa using h)
  simp only [roundNearestEven]
  split_ifs <;> omega

/-- The conversion of an unsigned 32-bit integer that is not zero gives a positive finite
float with an exponent of at least `-24`. -/
theorem F32_ofNat_pos (n : Nat) (h1 : 1 ≤ n) (h2 : n < 2 ^ 32) :
    ∃ m ex, F32.ofNat n = .fin false m ex ∧ m ≠ 0 ∧ -24 ≤ ex := by
  have hsize : n.size ≤ 32 := Nat.size_le.mpr h2
  have hbn : bitLength n = n.size := bitLength_eq_size n (by omega)
  have hpos : 1 ≤ n.size := Nat.size_pos.mpr (by omega)
  have hlow : 2 ^ (n.size - 1) ≤ n := Nat.lt_size.mp (by omega)
  have hb1 : bitLength 1 = 1 := by decide
  obtain ⟨he1, he2⟩ := F32_exponent_bounds n 1
  rw [hbn, hb1] at he1 he2
  have hn0 : n ≠ 0 := by omega
  simp only [F32.ofNat, F32.round, if_neg hn0]
  generalize hq : max (F32.exponent n 1 + 0 - 23) (-149) = q
  have hq1 : -24 ≤ q := by omega
  have hq2 : q ≤ (n.size : Int) - 24 := by omega
  have hk : roundNearestEven (if 0 - q ≥ 0 then n <<< (0 - q).toNat else n)
      (if 0 - q ≥ 0 then 1 else 1 <<< (-(0 - q)).toNat) ≠ 0 := by
    split_ifs with hsh
    · apply roundNearestEven_pos _ _ (by norm_num)
      rw [Nat.shiftLeft_eq]
      exact Nat.one_le_iff_ne_zero.mpr (by positivity)
    · apply roundNearestEven_pos
      · rw [Nat.shiftLeft_eq, one_mul]
        positivity
      · rw [Nat.shiftLeft_eq, one_mul]
        refine le_trans (Nat.pow_le_pow_right (by norm_num) ?_) hlow
        omega
  generalize roundNearestEven (if 0 - q ≥ 0 then n <<< (0 - q).toNat else n)
      (if 0 - q ≥ 0 then 1 else 1 <<< (-(0 - q)).toNat) = k at hk
  have hq3 : q ≤ 8 := by omega
  by_cases hk24 : k = 2 ^ 24
  · refine ⟨2 ^ 23, q + 1, ?_, by norm_num, by omega⟩
    simp only [F32.pack, if_pos hk24]
    rw [if_neg (by norm_num), if_neg (by omega)]
  · refine ⟨k, q, ?_, hk, hq1⟩
    simp only [F32.pack, if_neg hk24]
    rw [if_neg hk, if_neg (by omega)]

/-- The reciprocal `1.F/n` of an unsigned 32-bit integer that is not zero is finite. -/
theorem F32_inv_ofNat_finite (n : Nat) (h1 : 1 ≤ n) (h2 : n < 2 ^ 32) :
    ((1 : F32) / F32.ofNat n).isFinite = true := by
  obtain ⟨m, ex, h, hm, hex⟩ := F32_ofNat_pos n h1 h2
  have hone : (1 : F32) = .fin false 8388608 (-23) := by decide
  rw [h, hone]
  show (F32.div (.fin false 8388608 (-23)) (.fin false m ex)).isFinite = true
  simp only [F32.div, if_neg hm]
  apply F32_round_finite
  obtain ⟨_, he2⟩ := F32_exponent_bounds 8388608 m
  have hb : bitLength 8388608 = 24 := by decide
  have hbm := bitLength_pos m hm
  rw [hb] at he2
  omega

/-! ## Binary32: the value of a rounded result -/

/-- The value of a finite float from its significand aligned at an exponent `q <= e`. -/
theorem F32_aligned_toRat (n : Bool) (m : Nat) (e q : Int) (hq : q ≤ e) :
    ((F32.aligned n m e q : Int) : ℚ) * (2 : ℚ) ^ q = (F32.fin n m e).toRat := by
  have h2 : (2 : ℚ) ≠ 0 := by norm_num
  have hsplit : (2 : ℚ) ^ e = (2 : ℚ) ^ ((e - q).toNat : Int) * 2 ^ q := by
    rw [← zpow_add₀ h2]
    congr 1
    omega
  simp only [F32.aligned, F32.toRat, Nat.shiftLeft_eq]
  rw [hsplit, zpow_natCast]
  push_cast
  cases n <;> simp <;> ring

/-- The comparison of two finite floats is the comparison of their values. -/
theorem F32_lt_iff (n1 : Bool) (m1 : Nat) (e1 : Int) (n2 : Bool) (m2 : Nat) (e2 : Int) :
    F32.lt (.fin n1 m1 e1) (.fin n2 m2 e2) = true ↔
      (F32.fin n1 m1 e1).toRat < (F32.fin n2 m2 e2).toRat := by
  have hpos : (0 : ℚ) < (2 : ℚ) ^ (min e1 e2) := zpow_pos (by norm_num) _
  rw [← F32_aligned_toRat n1 m1 e1 (min e1 e2) (min_le_left _ _),
    ← F32_aligned_toRat n2 m2 e2 (min e1 e2) (min_le_right _ _)]
  simp only [F32.lt, decide_eq_true_eq]
  rw [mul_lt_mul_right hpos]
  exact Int.cast_lt.symm

/-- Rounding to the nearest integer does not pass an integer bound from below. -/
theorem roundNearestEven_le (num den T : Nat) (hden : 0 < den) (h : num ≤ T * den) :
    roundNearestEven num den ≤ T := by
  have hdm := Nat.div_add_mod num den
  have hr := Nat.mod_lt num hden
  have hq : num / den ≤ T := by
    by_contra hc
    have h1 : (T + 1) * den ≤ num / den * den := Nat.mul_le_mul_right _ (by omega)
    have h2 : num / den * den ≤ num := Nat.div_mul_le_self _ _
    have h3 : (T + 1) * den = T * den + den := by ring
    omega
  simp only [roundNearestEven]
  split_ifs with hup
  · by_contra hc
    have hqT : num / den = T := by omega
    have h1 : den * (num / den) = T * den := by rw [hqT, Nat.mul_comm]
    have hr0 : num % den = 0 := by omega
    rcases hup with h | ⟨h, _⟩ <;> omega
  · exact hq

/-- Rounding to the nearest integer does not pass an integer bound from above. -/
theorem le_roundNearestEven (num den T : Nat) (hden : 0 < den) (h : T * den ≤ num) :
    T ≤ roundNearestEven num den := by
  have hq : T ≤ num / den := (Nat.le_div_iff_mul_le hden).mpr h
  simp only [roundNearestEven]
  split_ifs <;> omega

/-- Rounding to the nearest integer, ties to even, stays at or below an even integer `T`
exactly when the quotient is at most `T + 1/2`. -/
theorem roundNearestEven_le_even (num den T : Nat) (hden : 0 < den) (hT : T % 2 = 0) :
    roundNearestEven num den ≤ T ↔ 2 * num ≤ (2 * T + 1) * den := by
  have hdm := Nat.div_add_mod num den
  have hr := Nat.mod_lt num hden
  have hexp : (2 * T + 1) * den = 2 * (T * den) + den := by ring
  rcases Nat.lt_trichotomy (num / den) T with hlt | heq | hgt
  · have h1 : (num / den + 1) * den ≤ T * den := Nat.mul_le_mul_right _ (by omega)
    have h2 : (num / den + 1) * den = den * (num / den) + den := by ring
    constructor
    · intro _
      omega
    · intro _
      simp only [roundNearestEven]
      split_ifs <;> omega
  · have h1 : den * (num / den) = T * den := by rw [heq, Nat.mul_comm]
    simp only [roundNearestEven]
    split_ifs with hup
    · constructor
      · intro h
        omega
      · intro h
        rcases hup with h' | ⟨h', hodd⟩
        · omega
        · omega
    · constructor
      · intro _
        have h2 : ¬ (2 * (num % den) > den) := fun hc => hup (Or.inl hc)
        omega
      · intro _
        omega
  · have h1 : (T + 1) * den ≤ num / den * den := Nat.mul_le_mul_right _ (by omega)
    have h2 : (T + 1) * den = T * den + den := by ring
    have h3 : num / den * den = den * (num / den) := Nat.mul_comm _ _
    constructor
    · intro h
      simp only [roundNearestEven] at h
      split_ifs at h <;> omega
    · intro h
      omega

/-- The exponent found for an integer is one less than its number of binary digits. -/
theorem F32_exponent_one (N : Nat) (hN : N ≠ 0) (hs : N.size ≤ 512) :
    F32.exponent N 1 = (N.size : Int) - 1 := by
  have hbn : bitLength N = N.size := bitLength_eq_size N hs
  have hb1 : bitLength 1 = 1 := by decide
  have hpos : 1 ≤ N.size := Nat.size_pos.mpr (Nat.pos_of_ne_zero hN)
  have hlow : 2 ^ (N.size - 1) ≤ N := Nat.lt_size.mp (by omega)
  simp only [F32.exponent, hbn, hb1]
  have hge : (if 1 ≥ N.size then decide (N <<< (1 - N.size) ≥ 1)
      else decide (N ≥ 1 <<< (N.size - 1))) = true := by
    split_ifs with h1
    · have : N.size = 1 := by omega
      simp only [this, Nat.sub_self, Nat.shiftLeft_zero, decide_eq_true_eq]
      omega
    · simp only [Nat.shiftLeft_eq, one_mul, decide_eq_true_eq]
      exact hlow
  rw [hge]
  simp

/-- An integer lies between the powers of two given by its number of binary digits. -/
theorem size_bounds_rat (N : Nat) (hN : N ≠ 0) :
    (2 : ℚ) ^ ((N.size : Int) - 1) ≤ (N : ℚ) ∧ (N : ℚ) < (2 : ℚ) ^ (N.size : Int) := by
  have hpos : 1 ≤ N.size := Nat.size_pos.mpr (Nat.pos_of_ne_zero hN)
  have hlow : 2 ^ (N.size - 1) ≤ N := Nat.lt_size.mp (by omega)
  have hup : N < 2 ^ N.size := Nat.lt_size_self N
  constructor
  · have : ((N.size : Int) - 1) = ((N.size - 1 : Nat) : Int) := by omega
    rw [this, zpow_natCast]
    exact_mod_cast hlow
  · rw [zpow_natCast]
    exact_mod_cast hup

/-- Powers of two grow with the exponent. -/
theorem two_zpow_le (a b : Int) (h : a ≤ b) : (2 : ℚ) ^ a ≤ (2 : ℚ) ^ b :=
  zpow_le_zpow_right₀ (by norm_num) h

/-- The three shapes of a packed positive significand. -/
theorem F32_pack_false (k : Nat) (q : Int) :
    (k = 0 ∧ F32.pack false k q = F32.zero) ∨
    (k ≠ 0 ∧ (if k = 2 ^ 24 then q + 1 else q) > 104 ∧ F32.pack false k q = .pinf) ∨
    (k ≠ 0 ∧ (if k = 2 ^ 24 then q + 1 else q) ≤ 104 ∧
      F32.pack false k q = .fin false (if k = 2 ^ 24 then 2 ^ 23 else k)
        (if k = 2 ^ 24 then q + 1 else q)) := by
  by_cases hk : k = 0
  · exact Or.inl ⟨hk, by simp [F32.pack, hk]⟩
  · have hm : (if k = 2 ^ 24 then 2 ^ 23 else k) ≠ 0 := by
      split_ifs
      · norm_num
      · exact hk
    by_cases hov : (if k = 2 ^ 24 then q + 1 else q) > 104
    · refine Or.inr (Or.inl ⟨hk, hov, ?_⟩)
      simp only [F32.pack]
      rw [if_neg hm, if_pos hov]
      rfl
    · refine Or.inr (Or.inr ⟨hk, by omega, ?_⟩)
      simp only [F32.pack]
      rw [if_neg hm, if_neg hov]

/-- The value of the packed form of a significand. -/
theorem F32_pack_value (k : Nat) (q : Int) :
    (((if k = 2 ^ 24 then 2 ^ 23 else k : Nat) : ℚ)) *
      (2 : ℚ) ^ (if k = 2 ^ 24 then q + 1 else q) = (k : ℚ) * 2 ^ q := by
  have h2 : (2 : ℚ) ≠ 0 := by norm_num
  split_ifs with h24
  · rw [h24, zpow_add₀ h2]
    push_cast
    ring
  · rfl

/-- A packed positive significand is below a positive finite float only if its value is. -/
theorem F32_lt_pack_imp (k : Nat) (q : Int) (mL : Nat) (eL : Int)
    (h : F32.lt (F32.pack false k q) (.fin false mL eL) = true) :
    (k : ℚ) * 2 ^ q < (mL : ℚ) * 2 ^ eL := by
  rcases F32_pack_false k q with ⟨hk, hp⟩ | ⟨_, _, hp⟩ | ⟨_, _, hp⟩
  · rw [hp, F32.zero, F32_lt_iff] at h
    simpa [F32.toRat, hk] using h
  · rw [hp] at h
    simp [F32.lt] at h
  · rw [hp, F32_lt_iff] at h
    simp only [F32.toRat, Bool.false_eq_true, if_false, one_mul] at h
    rw [F32_pack_value] at h
    exact h

/-- A packed positive significand that does not overflow is below a positive finite float
if its value is. -/
theorem F32_lt_pack_of (k : Nat) (q : Int) (mL : Nat) (eL : Int) (hq : q ≤ 103)
    (h : (k : ℚ) * 2 ^ q < (mL : ℚ) * 2 ^ eL) :
    F32.lt (F32.pack false k q) (.fin false mL eL) = true := by
  rcases F32_pack_false k q with ⟨hk, hp⟩ | ⟨_, hov, _⟩ | ⟨_, _, hp⟩
  · rw [hp, F32.zero, F32_lt_iff]
    simpa [F32.toRat, hk] using h
  · split_ifs at hov <;> omega
  · rw [hp, F32_lt_iff]
    simp only [F32.toRat, Bool.false_eq_true, if_false, one_mul]
    rw [F32_pack_value]
    exact h

/-- The rounding of a positive integer multiple of a power of two: the significand is the
quotient `num/den = N * 2^s / 2^q` rounded to the nearest integer, at the exponent `q` that
is 23 below the exponent of the value and not below `-149`. -/
theorem F32_round_one (neg : Bool) (N : Nat) (s : Int) (hN : N ≠ 0) (hs : N.size ≤ 512) :
    ∃ num den : Nat, 0 < den ∧
      F32.round neg N 1 s = F32.pack neg (roundNearestEven num den)
        (max ((N.size : Int) - 1 + s - 23) (-149)) ∧
      (num : ℚ) = (N : ℚ) * 2 ^ s / 2 ^ (max ((N.size : Int) - 1 + s - 23) (-149)) * den := by
  have h2 : (2 : ℚ) ≠ 0 := by norm_num
  simp only [F32.round, if_neg hN, F32_exponent_one N hN hs]
  generalize max ((N.size : Int) - 1 + s - 23) (-149) = q
  have hqpos : (0 : ℚ) < (2 : ℚ) ^ q := zpow_pos (by norm_num) _
  by_cases hsh : s - q ≥ 0
  · refine ⟨N <<< (s - q).toNat, 1, by norm_num, ?_, ?_⟩
    · rw [if_pos hsh, if_pos hsh]
    · rw [Nat.shiftLeft_eq]
      push_cast
      rw [← zpow_natCast, Int.toNat_of_nonneg hsh, zpow_sub₀ h2]
      ring
  · refine ⟨N, 1 <<< (-(s - q)).toNat, ?_, ?_, ?_⟩
    · rw [Nat.shiftLeft_eq, one_mul]
      positivity
    · rw [if_neg hsh, if_neg hsh]
    · rw [Nat.shiftLeft_eq, one_mul]
      push_cast
      rw [← zpow_natCast, Int.toNat_of_nonneg (by omega)]
      have : (2 : ℚ) ^ (-(s - q)) = 2 ^ q / 2 ^ s := by
        rw [← zpow_sub₀ h2]
        congr 1
        omega
      rw [this]
      have hspos : (0 : ℚ) < (2 : ℚ) ^ s := zpow_pos (by norm_num) _
      field_simp

/-- The comparison `fl(v) < 0.0001F` for a value `v = N * 2^s >= 0` rounded to binary32:
it holds exactly when `v` is at most half a unit in the last place below `0.0001F`, that
is `v <= 27487789 * 2^-38`. -/
theorem F32_round_lt_bound (N : Nat) (s : Int) (hs : N.size ≤ 512) :
    F32.lt (F32.round false N 1 s) (.fin false 13743895 (-37)) = true ↔
      (N : ℚ) * 2 ^ s ≤ 27487789 / 274877906944 := by
  have h2 : (2 : ℚ) ≠ 0 := by norm_num
  by_cases hN : N = 0
  · subst hN
    rw [F32_round_zero]
    constructor
    · intro _
      norm_num
    · intro _
      decide
  obtain ⟨num, den, hden, hround, hnum⟩ := F32_round_one false N s hN hs
  obtain ⟨hlo, hhi⟩ := size_bounds_rat N hN
  rw [hround]
  generalize he : (N.size : Int) - 1 + s = e at hnum ⊢
  generalize hq : max (e - 23) (-149) = q at hnum ⊢
  have hspos : (0 : ℚ) < (2 : ℚ) ^ s := zpow_pos (by norm_num) _
  have hqpos : (0 : ℚ) < (2 : ℚ) ^ q := zpow_pos (by norm_num) _
  have hdenq : (0 : ℚ) < (den : ℚ) := by exact_mod_cast hden
  have hv1 : (2 : ℚ) ^ e ≤ (N : ℚ) * 2 ^ s := by
    have : (2 : ℚ) ^ e = 2 ^ ((N.size : Int) - 1) * 2 ^ s := by
      rw [← zpow_add₀ h2, he]
    rw [this]
    exact mul_le_mul_of_nonneg_right hlo hspos.le
  have hv2 : (N : ℚ) * 2 ^ s < (2 : ℚ) ^ (e + 1) := by
    have : (2 : ℚ) ^ (e + 1) = 2 ^ (N.size : Int) * 2 ^ s := by
      rw [← zpow_add₀ h2]
      congr 1
      omega
    rw [this]
    exact mul_lt_mul_of_pos_right hhi hspos
  generalize (N : ℚ) * 2 ^ s = v at hnum hv1 hv2 ⊢
  have hL : (13743895 : ℚ) * 2 ^ (-37 : Int) = 13743895 / 137438953472 := by norm_num
  rcases lt_trichotomy e (-14) with hlt | heq | hgt
  · -- the value is below `2^-14`
    have hq38 : q ≤ -38 := by omega
    have hv14 : v ≤ (2 : ℚ) ^ (-14 : Int) :=
      le_trans hv2.le (two_zpow_le _ _ (by omega))
    have hT : num ≤ 2 ^ (-14 - q).toNat * den := by
      have hcast : ((2 ^ (-14 - q).toNat : Nat) : ℚ) = (2 : ℚ) ^ (-14 : Int) / 2 ^ q := by
        push_cast
        rw [← zpow_natCast, Int.toNat_of_nonneg (by omega), zpow_sub₀ h2]
      have h : (num : ℚ) ≤ ((2 ^ (-14 - q).toNat : Nat) : ℚ) * den := by
        rw [hnum, hcast]
        exact mul_le_mul_of_nonneg_right (div_le_div_of_nonneg_right hv14 hqpos.le) hdenq.le
      exact_mod_cast h
    have hk := roundNearestEven_le num den _ hden hT
    have hkq : ((roundNearestEven num den : Nat) : ℚ) * 2 ^ q ≤ (2 : ℚ) ^ (-14 : Int) := by
      have h1 : ((roundNearestEven num den : Nat) : ℚ) ≤ ((2 ^ (-14 - q).toNat : Nat) : ℚ) := by
        exact_mod_cast hk
      have h3 : ((2 ^ (-14 - q).toNat : Nat) : ℚ) * 2 ^ q = (2 : ℚ) ^ (-14 : Int) := by
        push_cast
        rw [← zpow_natCast, Int.toNat_of_nonneg (by omega), ← zpow_add₀ h2]
        congr 1
        omega
      calc ((roundNearestEven num den : Nat) : ℚ) * 2 ^ q
          ≤ ((2 ^ (-14 - q).toNat : Nat) : ℚ) * 2 ^ q :=
            mul_le_mul_of_nonneg_right h1 hqpos.le
        _ = (2 : ℚ) ^ (-14 : Int) := h3
    have h14 : (2 : ℚ) ^ (-14 : Int) = 1 / 16384 := by norm_num
    constructor
    · intro _
      rw [h14] at hv14
      linarith
    · intro _
      apply F32_lt_pack_of _ _ _ _ (by omega)
      push_cast
      rw [hL]
      rw [h14] at hkq
      have : (1 : ℚ) / 16384 < 13743895 / 137438953472 := by norm_num
      linarith
  · -- the value is in the binade of `0.0001F`
    have hq37 : q = -37 := by omega
    subst hq37
    have hiff := roundNearestEven_le_even num den 13743894 hden (by norm_num)
    have h37 : (2 : ℚ) ^ (-37 : Int) = 1 / 137438953472 := by norm_num
    have hnum' : (num : ℚ) = v * 137438953472 * den := by
      rw [hnum, h37]
      field_simp
    have hmid : (2 * num ≤ (2 * 13743894 + 1) * den) ↔ v ≤ 27487789 / 274877906944 := by
      have hc : (2 * num ≤ (2 * 13743894 + 1) * den) ↔
          (2 * (num : ℚ) ≤ (2 * 13743894 + 1) * (den : ℚ)) := by
        constructor
        · intro h
          exact_mod_cast h
        · intro h
          exact_mod_cast h
      rw [hc, hnum']
      constructor
      · intro h
        have h' : 2 * (v * 137438953472) * (den : ℚ) ≤ (2 * 13743894 + 1) * (den : ℚ) := by
          linarith
        have := le_of_mul_le_mul_right h' hdenq
        linarith
      · intro h
        have : 2 * (v * 137438953472) ≤ (2 * 13743894 + 1) := by linarith
        have := mul_le_mul_of_nonneg_right this hdenq.le
        linarith
    rw [← hmid, ← hiff]
    constructor
    · intro h
      have := F32_lt_pack_imp _ _ _ _ h
      push_cast at this
      rw [h37] at this
      have h' : ((roundNearestEven num den : Nat) : ℚ) < 13743895 := by linarith
      have h'' : roundNearestEven num den < 13743895 := by exact_mod_cast h'
      omega
    · intro h
      apply F32_lt_pack_of _ _ _ _ (by norm_num)
      push_cast
      rw [h37]
      have h' : ((roundNearestEven num den : Nat) : ℚ) ≤ 13743894 := by exact_mod_cast h
      linarith
  · -- the value is at least `2^-13`
    have hq23 : q = e - 23 := by omega
    have hv13 : (2 : ℚ) ^ (-13 : Int) ≤ v := le_trans (two_zpow_le _ _ (by omega)) hv1
    have h13 : (2 : ℚ) ^ (-13 : Int) = 1 / 8192 := by norm_num
    have hT : 2 ^ 23 * den ≤ num := by
      have hcast : (2 : ℚ) ^ e / 2 ^ q = 2 ^ (23 : Nat) := by
        rw [← zpow_sub₀ h2, ← zpow_natCast]
        congr 1
        omega
      have hc2 : ((2 ^ 23 : Nat) : ℚ) = (2 : ℚ) ^ e / 2 ^ q := by
        rw [hcast]
        norm_num
      have h : ((2 ^ 23 : Nat) : ℚ) * den ≤ (num : ℚ) := by
        rw [hnum, hc2]
        exact mul_le_mul_of_nonneg_right (div_le_div_of_nonneg_right hv1 hqpos.le) hdenq.le
      exact_mod_cast h
    have hk := le_roundNearestEven num den _ hden hT
    have hkq : (2 : ℚ) ^ e ≤ ((roundNearestEven num den : Nat) : ℚ) * 2 ^ q := by
      have h1 : ((2 ^ 23 : Nat) : ℚ) ≤ ((roundNearestEven num den : Nat) : ℚ) := by
        exact_mod_cast hk
      have h3 : ((2 ^ 23 : Nat) : ℚ) * 2 ^ q = (2 : ℚ) ^ e := by
        have h4 : ((2 ^ 23 : Nat) : ℚ) = (2 : ℚ) ^ (23 : Int) := by norm_num
        rw [h4, ← zpow_add₀ h2]
        congr 1
        omega
      rw [← h3]
      exact mul_le_mul_of_nonneg_right h1 hqpos.le
    constructor
    · intro h
      have := F32_lt_pack_imp _ _ _ _ h
      push_cast at this
      rw [hL] at this
      have h' : (2 : ℚ) ^ (-13 : Int) ≤ (2 : ℚ) ^ e := two_zpow_le _ _ (by omega)
      rw [h13] at h'
      have : (1 : ℚ) / 8192 < 13743895 / 137438953472 := by linarith
      norm_num at this
    · intro h
      rw [h13] at hv13
      have : (1 : ℚ) / 8192 ≤ 27487789 / 274877906944 := by linarith
      norm_num at this

/-- The negation of a stored finite float is a stored finite float of the opposite value. -/
theorem F32_neg_stored (n : Bool) (m : Nat) (e : Int) (hm : m < 2 ^ 24)
    (he : -149 ≤ e ∧ e ≤ 104) :
    ∃ n' m' e', F32.neg (.fin n m e) = .fin n' m' e' ∧ m' < 2 ^ 24 ∧ -149 ≤ e' ∧ e' ≤ 104 ∧
      (F32.fin n' m' e').toRat = - (F32.fin n m e).toRat := by
  by_cases h0 : m = 0
  · refine ⟨false, 0, 0, by simp [F32.neg, h0], by norm_num, by norm_num, by norm_num, ?_⟩
    simp [F32.toRat, h0]
  · refine ⟨!n, m, e, by simp [F32.neg, h0], hm, he.1, he.2, ?_⟩
    cases n <;> simp [F32.toRat]

/-- The size of the aligned significand of a stored float. -/
theorem F32_aligned_natAbs (n : Bool) (m : Nat) (e q : Int) (hm : m < 2 ^ 24)
    (hq : e - q ≤ 253) : (F32.aligned n m e q).natAbs < 2 ^ 277 := by
  have hk : (e - q).toNat ≤ 253 := by omega
  have h1 : m <<< (e - q).toNat < 2 ^ 277 := by
    rw [Nat.shiftLeft_eq]
    calc m * 2 ^ (e - q).toNat < 2 ^ 24 * 2 ^ (e - q).toNat :=
          Nat.mul_lt_mul_of_pos_right hm (by positivity)
      _ ≤ 2 ^ 24 * 2 ^ 253 := Nat.mul_le_mul_left _ (Nat.pow_le_pow_right (by norm_num) hk)
      _ = 2 ^ 277 := by rw [← pow_add]
  unfold F32.aligned
  generalize m <<< (e - q).toNat = x at h1
  cases n
  · simp only [Bool.false_eq_true, if_false, one_mul, Int.natAbs_ofNat]
    exact h1
  · simp only [if_true, neg_mul, one_mul, Int.natAbs_neg, Int.natAbs_ofNat]
    exact h1

/-- The difference of two stored finite floats is their exact difference, an integer
multiple `S * 2^q` of a power of two, rounded. -/
theorem F32_sub_stored (n1 : Bool) (m1 : Nat) (e1 : Int) (n2 : Bool) (m2 : Nat) (e2 : Int)
    (h1 : m1 < 2 ^ 24) (he1 : -149 ≤ e1 ∧ e1 ≤ 104) (h2 : m2 < 2 ^ 24)
    (he2 : -149 ≤ e2 ∧ e2 ≤ 104) :
    ∃ (S q : Int), (F32.fin n1 m1 e1 - F32.fin n2 m2 e2 : F32) =
        F32.round (decide (S < 0)) S.natAbs 1 q ∧
      (S : ℚ) * 2 ^ q = (F32.fin n1 m1 e1).toRat - (F32.fin n2 m2 e2).toRat ∧
      S.natAbs.size ≤ 512 := by
  obtain ⟨n', m', e', hneg, hm', he'1, he'2, hval⟩ := F32_neg_stored n2 m2 e2 h2 he2
  refine ⟨F32.aligned n1 m1 e1 (min e1 e') + F32.aligned n' m' e' (min e1 e'), min e1 e', ?_, ?_,
    ?_⟩
  · rw [F32_sub_def, hneg]
    rfl
  · push_cast
    rw [add_mul, F32_aligned_toRat n1 m1 e1 _ (min_le_left _ _),
      F32_aligned_toRat n' m' e' _ (min_le_right _ _), hval]
    ring
  · have ha := F32_aligned_natAbs n1 m1 e1 (min e1 e') h1 (by omega)
    have hb := F32_aligned_natAbs n' m' e' (min e1 e') hm' (by omega)
    have hadd := Int.natAbs_add_le (F32.aligned n1 m1 e1 (min e1 e'))
      (F32.aligned n' m' e' (min e1 e'))
    have hlt : (F32.aligned n1 m1 e1 (min e1 e') + F32.aligned n' m' e' (min e1 e')).natAbs <
        2 ^ 278 := by
      have : (2 : Nat) ^ 278 = 2 ^ 277 + 2 ^ 277 := by norm_num
      omega
    have := Nat.size_le.mpr hlt
    omega

/-- The magnitude test on a finite float, as a statement about its value. -/
theorem F32_atMostOne_iff (n : Bool) (m : Nat) (e : Int) :
    (F32.fin n m e).atMostOne = true ↔ m < 2 ^ 24 ∧ (m : ℚ) * 2 ^ e ≤ 1 := by
  have h2 : (2 : ℚ) ≠ 0 := by norm_num
  simp only [F32.atMostOne, decide_eq_true_eq, Nat.shiftLeft_eq, one_mul]
  apply and_congr_right
  intro _
  have hcast : (m * 2 ^ e.toNat ≤ 2 ^ (-e).toNat) ↔
      ((m : ℚ) * 2 ^ e.toNat ≤ 2 ^ (-e).toNat) := by
    constructor
    · intro h
      exact_mod_cast h
    · intro h
      exact_mod_cast h
  rw [hcast]
  rcases le_or_lt 0 e with he | he
  · have h1 : (-e).toNat = 0 := by omega
    rw [h1, pow_zero, ← zpow_natCast, Int.toNat_of_nonneg he]
  · have h1 : e.toNat = 0 := by omega
    rw [h1, pow_zero, mul_one, ← zpow_natCast, Int.toNat_of_nonneg (by omega)]
    rw [zpow_neg, inv_eq_one_div, le_div_iff₀ (zpow_pos (by norm_num) _)]

/-- A float of magnitude at most one is finite. -/
theorem F32_atMostOne_finite (x : F32) (h : x.atMostOne = true) : x.isFinite = true := by
  cases x with
  | nan => simp [F32.atMostOne] at h
  | ninf => simp [F32.atMostOne] at h
  | pinf => simp [F32.atMostOne] at h
  | fin n m e => rfl

/-- The shapes of a packed significand of either sign. -/
theorem F32_pack_cases (neg : Bool) (k : Nat) (q : Int) (hq : q ≤ 103) :
    (k = 0 ∧ F32.pack neg k q = F32.zero) ∨
    (k ≠ 0 ∧ F32.pack neg k q = .fin neg (if k = 2 ^ 24 then 2 ^ 23 else k)
        (if k = 2 ^ 24 then q + 1 else q)) := by
  by_cases hk : k = 0
  · exact Or.inl ⟨hk, by simp [F32.pack, hk]⟩
  · have hm : (if k = 2 ^ 24 then 2 ^ 23 else k) ≠ 0 := by
      split_ifs
      · norm_num
      · exact hk
    have hov : ¬ (if k = 2 ^ 24 then q + 1 else q) > 104 := by
      split_ifs <;> omega
    refine Or.inr ⟨hk, ?_⟩
    simp only [F32.pack]
    rw [if_neg hm, if_neg hov]

/-- The product of two floats of magnitude at most one is of magnitude at most one: it
neither overflows nor leaves the interval by rounding. -/
theorem F32_mul_atMostOne (x y : F32) (hx : x.atMostOne = true) (hy : y.atMostOne = true) :
    (x * y).atMostOne = true := by
  have h2 : (2 : ℚ) ≠ 0 := by norm_num
  cases x with
  | nan => simp [F32.atMostOne] at hx
  | ninf => simp [F32.atMostOne] at hx
  | pinf => simp [F32.atMostOne] at hx
  | fin n1 m1 e1 =>
    cases y with
    | nan => simp [F32.atMostOne] at hy
    | ninf => simp [F32.atMostOne] at hy
    | pinf => simp [F32.atMostOne] at hy
    | fin n2 m2 e2 =>
      rw [F32_atMostOne_iff] at hx hy
      show (F32.mul (.fin n1 m1 e1) (.fin n2 m2 e2)).atMostOne = true
      simp only [F32.mul]
      by_cases hN : m1 * m2 = 0
      · rw [hN, F32_round_zero]
        decide
      have hsize : (m1 * m2).size ≤ 512 := by
        have : m1 * m2 < 2 ^ 48 := by
          calc m1 * m2 < 2 ^ 24 * 2 ^ 24 := Nat.mul_lt_mul'' hx.1 hy.1
            _ = 2 ^ 48 := by norm_num
        have := Nat.size_le.mpr this
        omega
      obtain ⟨num, den, hden, hround, hnum⟩ := F32_round_one (n1 != n2) (m1 * m2) (e1 + e2) hN hsize
      obtain ⟨hlo, hhi⟩ := size_bounds_rat (m1 * m2) hN
      rw [hround]
      generalize he : ((m1 * m2).size : Int) - 1 + (e1 + e2) = e at hnum ⊢
      generalize hq : max (e - 23) (-149) = q at hnum ⊢
      have hspos : (0 : ℚ) < (2 : ℚ) ^ (e1 + e2) := zpow_pos (by norm_num) _
      have hqpos : (0 : ℚ) < (2 : ℚ) ^ q := zpow_pos (by norm_num) _
      have hdenq : (0 : ℚ) < (den : ℚ) := by exact_mod_cast hden
      have hv1 : (2 : ℚ) ^ e ≤ ((m1 * m2 : Nat) : ℚ) * 2 ^ (e1 + e2) := by
        have : (2 : ℚ) ^ e = 2 ^ (((m1 * m2).size : Int) - 1) * 2 ^ (e1 + e2) := by
          rw [← zpow_add₀ h2, he]
        rw [this]
        exact mul_le_mul_of_nonneg_right hlo hspos.le
      have hv2 : ((m1 * m2 : Nat) : ℚ) * 2 ^ (e1 + e2) < (2 : ℚ) ^ (e + 1) := by
        have : (2 : ℚ) ^ (e + 1) = 2 ^ ((m1 * m2).size : Int) * 2 ^ (e1 + e2) := by
          rw [← zpow_add₀ h2]
          congr 1
          omega
        rw [this]
        exact mul_lt_mul_of_pos_right hhi hspos
      have hv3 : ((m1 * m2 : Nat) : ℚ) * 2 ^ (e1 + e2) ≤ 1 := by
        have h1 : (0 : ℚ) ≤ (m1 : ℚ) * 2 ^ e1 :=
          mul_nonneg (Nat.cast_nonneg _) (zpow_pos (by norm_num) _).le
        have h3 : (0 : ℚ) ≤ (m2 : ℚ) * 2 ^ e2 :=
          mul_nonneg (Nat.cast_nonneg _) (zpow_pos (by norm_num) _).le
        have : ((m1 * m2 : Nat) : ℚ) * 2 ^ (e1 + e2) =
            ((m1 : ℚ) * 2 ^ e1) * ((m2 : ℚ) * 2 ^ e2) := by
          rw [zpow_add₀ h2]
          push_cast
          ring
        rw [this]
        calc ((m1 : ℚ) * 2 ^ e1) * ((m2 : ℚ) * 2 ^ e2) ≤ 1 * 1 :=
              mul_le_mul hx.2 hy.2 h3 (by norm_num)
          _ = 1 := by norm_num
      generalize ((m1 * m2 : Nat) : ℚ) * 2 ^ (e1 + e2) = v at hnum hv1 hv2 hv3
      have he0 : e ≤ 0 := by
        by_contra hc
        have h1 : (2 : ℚ) ^ (1 : Int) ≤ (2 : ℚ) ^ e := two_zpow_le _ _ (by omega)
        have h3 : (2 : ℚ) ^ (1 : Int) = 2 := by norm_num
        linarith
      have hq23 : q ≤ -23 := by omega
      have hqe : e - 23 ≤ q := by omega
      -- the rounded significand is at most `2^(-q)` and at most `2^24`
      have hT1 : num ≤ 2 ^ (-q).toNat * den := by
        have hcast : ((2 ^ (-q).toNat : Nat) : ℚ) = 1 / 2 ^ q := by
          push_cast
          rw [← zpow_natCast, Int.toNat_of_nonneg (by omega), zpow_neg, inv_eq_one_div]
        have h : (num : ℚ) ≤ ((2 ^ (-q).toNat : Nat) : ℚ) * den := by
          rw [hnum, hcast]
          exact mul_le_mul_of_nonneg_right (div_le_div_of_nonneg_right hv3 hqpos.le) hdenq.le
        exact_mod_cast h
      have hT2 : num ≤ 2 ^ 24 * den := by
        have hcast : ((2 ^ 24 : Nat) : ℚ) = (2 : ℚ) ^ (24 : Int) := by norm_num
        have hle : v / 2 ^ q ≤ (2 : ℚ) ^ (24 : Int) := by
          rw [div_le_iff₀ hqpos, ← zpow_add₀ h2]
          exact le_trans hv2.le (two_zpow_le _ _ (by omega))
        have h : (num : ℚ) ≤ ((2 ^ 24 : Nat) : ℚ) * den := by
          rw [hnum, hcast]
          exact mul_le_mul_of_nonneg_right hle hdenq.le
        exact_mod_cast h
      have hk1 := roundNearestEven_le num den _ hden hT1
      have hk2 := roundNearestEven_le num den _ hden hT2
      generalize roundNearestEven num den = k at hk1 hk2
      have hkq : (k : ℚ) * 2 ^ q ≤ 1 := by
        have h1 : (k : ℚ) ≤ ((2 ^ (-q).toNat : Nat) : ℚ) := by exact_mod_cast hk1
        have h3 : ((2 ^ (-q).toNat : Nat) : ℚ) * 2 ^ q = 1 := by
          push_cast
          rw [← zpow_natCast, Int.toNat_of_nonneg (by omega), ← zpow_add₀ h2]
          simp
        calc (k : ℚ) * 2 ^ q ≤ ((2 ^ (-q).toNat : Nat) : ℚ) * 2 ^ q :=
              mul_le_mul_of_nonneg_right h1 hqpos.le
          _ = 1 := h3
      rcases F32_pack_cases (n1 != n2) k q (by omega) with ⟨_, hp⟩ | ⟨_, hp⟩
      · rw [hp]
        decide
      · rw [hp, F32_atMostOne_iff]
        constructor
        · split_ifs with h24
          · norm_num
          · omega
        · have := F32_pack_value k q
          push_cast at this ⊢
          rw [this]
          exact hkq

/-! ## Binary32: the error of a rounding -/

/-- The exponent found for `n/d`: `2^E <= n/d < 2^(E+1)`. -/
theorem F32_exponent_spec (n d : Nat) (hn : n ≠ 0) (hd : d ≠ 0) (hsn : n.size ≤ 512)
    (hsd : d.size ≤ 512) :
    (2 : ℚ) ^ F32.exponent n d ≤ (n : ℚ) / d ∧ (n : ℚ) / d < (2 : ℚ) ^ (F32.exponent n d + 1) := by
  have h2 : (2 : ℚ) ≠ 0 := by norm_num
  have hbn : bitLength n = n.size := bitLength_eq_size n hsn
  have hbd : bitLength d = d.size := bitLength_eq_size d hsd
  obtain ⟨hnlo, hnhi⟩ := size_bounds_rat n hn
  obtain ⟨hdlo, hdhi⟩ := size_bounds_rat d hd
  have hdpos : (0 : ℚ) < (d : ℚ) := by exact_mod_cast Nat.pos_of_ne_zero hd
  have hnpos : (0 : ℚ) < (n : ℚ) := by exact_mod_cast Nat.pos_of_ne_zero hn
  -- the comparison of the scaled numbers is the comparison of `n/d` with `2^(bn - bd)`
  have hge : (if d.size ≥ n.size then decide (n <<< (d.size - n.size) ≥ d)
      else decide (n ≥ d <<< (n.size - d.size))) = true ↔
      (2 : ℚ) ^ ((n.size : Int) - d.size) ≤ (n : ℚ) / d := by
    rw [le_div_iff₀ hdpos]
    split_ifs with hcmp
    · simp only [decide_eq_true_eq, Nat.shiftLeft_eq, ge_iff_le]
      have hc : (d ≤ n * 2 ^ (d.size - n.size)) ↔
          ((d : ℚ) ≤ (n : ℚ) * 2 ^ (d.size - n.size)) := by
        constructor
        · intro h
          exact_mod_cast h
        · intro h
          exact_mod_cast h
      rw [hc]
      have hpow : (2 : ℚ) ^ ((n.size : Int) - d.size) = 1 / 2 ^ (d.size - n.size) := by
        rw [← zpow_natCast, one_div, ← zpow_neg]
        congr 1
        omega
      rw [hpow]
      have hp : (0 : ℚ) < 2 ^ (d.size - n.size) := by positivity
      rw [one_div, inv_mul_le_iff₀ hp]
      constructor
      · intro h
        linarith
      · intro h
        linarith
    · simp only [decide_eq_true_eq, Nat.shiftLeft_eq, ge_iff_le]
      have hc : (d * 2 ^ (n.size - d.size) ≤ n) ↔
          ((d : ℚ) * 2 ^ (n.size - d.size) ≤ (n : ℚ)) := by
        constructor
        · intro h
          exact_mod_cast h
        · intro h
          exact_mod_cast h
      rw [hc]
      have hpow : (2 : ℚ) ^ ((n.size : Int) - d.size) = 2 ^ (n.size - d.size) := by
        rw [← zpow_natCast]
        congr 1
        omega
      rw [hpow, mul_comm]
  simp only [F32.exponent, hbn, hbd]
  by_cases hg : (if d.size ≥ n.size then decide (n <<< (d.size - n.size) ≥ d)
      else decide (n ≥ d <<< (n.size - d.size))) = true
  · rw [hg]
    simp only [if_true, sub_zero]
    refine ⟨hge.mp hg, ?_⟩
    rw [div_lt_iff₀ hdpos]
    have hsplit : (2 : ℚ) ^ ((n.size : Int) - d.size + 1) * 2 ^ ((d.size : Int) - 1) =
        2 ^ (n.size : Int) := by
      rw [← zpow_add₀ h2]
      congr 1
      omega
    calc (n : ℚ) < 2 ^ (n.size : Int) := hnhi
      _ = (2 : ℚ) ^ ((n.size : Int) - d.size + 1) * 2 ^ ((d.size : Int) - 1) := hsplit.symm
      _ ≤ (2 : ℚ) ^ ((n.size : Int) - d.size + 1) * d :=
        mul_le_mul_of_nonneg_left hdlo (zpow_pos (by norm_num) _).le
  · have hg' : (if d.size ≥ n.size then decide (n <<< (d.size - n.size) ≥ d)
        else decide (n ≥ d <<< (n.size - d.size))) = false := Bool.eq_false_iff.mpr hg
    rw [hg']
    simp only [Bool.false_eq_true, if_false]
    have hnot : ¬ (2 : ℚ) ^ ((n.size : Int) - d.size) ≤ (n : ℚ) / d := fun h => hg (hge.mpr h)
    constructor
    · rw [le_div_iff₀ hdpos]
      have hsplit : (2 : ℚ) ^ ((n.size : Int) - d.size - 1) * 2 ^ (d.size : Int) =
          2 ^ ((n.size : Int) - 1) := by
        rw [← zpow_add₀ h2]
        congr 1
        omega
      calc (2 : ℚ) ^ ((n.size : Int) - d.size - 1) * d
          ≤ (2 : ℚ) ^ ((n.size : Int) - d.size - 1) * 2 ^ (d.size : Int) :=
            mul_le_mul_of_nonneg_left hdhi.le (zpow_pos (by norm_num) _).le
        _ = 2 ^ ((n.size : Int) - 1) := hsplit
        _ ≤ n := hnlo
    · have : (n.size : Int) - d.size - 1 + 1 = (n.size : Int) - d.size := by omega
      rw [this]
      exact not_le.mp hnot

/-- The rounding of a positive quotient times a power of two: the significand is the
quotient `num/den = (n/d) * 2^s / 2^q` rounded to the nearest integer, at the exponent `q`
that is 23 below the exponent of the value and not below `-149`. -/
theorem F32_round_general (neg : Bool) (n d : Nat) (s : Int) (hn : n ≠ 0) (hd : d ≠ 0) :
    ∃ num den : Nat, 0 < den ∧
      F32.round neg n d s = F32.pack neg (roundNearestEven num den)
        (max (F32.exponent n d + s - 23) (-149)) ∧
      (num : ℚ) = (n : ℚ) / d * 2 ^ s / 2 ^ (max (F32.exponent n d + s - 23) (-149)) * den := by
  have h2 : (2 : ℚ) ≠ 0 := by norm_num
  have hdpos : (0 : ℚ) < (d : ℚ) := by exact_mod_cast Nat.pos_of_ne_zero hd
  simp only [F32.round, if_neg hn]
  generalize max (F32.exponent n d + s - 23) (-149) = q
  have hqpos : (0 : ℚ) < (2 : ℚ) ^ q := zpow_pos (by norm_num) _
  by_cases hsh : s - q ≥ 0
  · refine ⟨n <<< (s - q).toNat, d, Nat.pos_of_ne_zero hd, ?_, ?_⟩
    · rw [if_pos hsh, if_pos hsh]
    · rw [Nat.shiftLeft_eq]
      push_cast
      rw [← zpow_natCast, Int.toNat_of_nonneg hsh, zpow_sub₀ h2]
      field_simp
      ring
  · refine ⟨n, d <<< (-(s - q)).toNat, ?_, ?_, ?_⟩
    · rw [Nat.shiftLeft_eq]
      exact Nat.mul_pos (Nat.pos_of_ne_zero hd) (by positivity)
    · rw [if_neg hsh, if_neg hsh]
    · rw [Nat.shiftLeft_eq]
      push_cast
      rw [← zpow_natCast, Int.toNat_of_nonneg (by omega)]
      have : (2 : ℚ) ^ (-(s - q)) = 2 ^ q / 2 ^ s := by
        rw [← zpow_sub₀ h2]
        congr 1
        omega
      rw [this]
      have hspos : (0 : ℚ) < (2 : ℚ) ^ s := zpow_pos (by norm_num) _
      field_simp

/-- Rounding to the nearest integer moves the quotient by at most one half. -/
theorem roundNearestEven_err (num den : Nat) (hden : 0 < den) :
    |((roundNearestEven num den : Nat) : ℚ) * den - num| * 2 ≤ den := by
  have hdm := Nat.div_add_mod num den
  have hr := Nat.mod_lt num hden
  simp only [roundNearestEven]
  split_ifs with hup
  · have h1 : 2 * (num % den) ≥ den := by
      rcases hup with h | ⟨h, _⟩ <;> omega
    have hval : (((num / den + 1 : Nat) : ℚ)) * den - num = (den : ℚ) - (num % den : Nat) := by
      have : (num : ℚ) = (den : ℚ) * (num / den : Nat) + (num % den : Nat) := by
        exact_mod_cast hdm.symm
      rw [this]
      push_cast
      ring
    rw [hval]
    have h3 : (0 : ℚ) ≤ (den : ℚ) - (num % den : Nat) := by
      have : ((num % den : Nat) : ℚ) ≤ (den : ℚ) := by exact_mod_cast hr.le
      linarith
    rw [abs_of_nonneg h3]
    have : (den : ℚ) ≤ 2 * (num % den : Nat) := by exact_mod_cast h1
    linarith
  · have h1 : 2 * (num % den) ≤ den := by
      by_contra hc
      exact hup (Or.inl (by omega))
    have hval : (((num / den : Nat) : ℚ)) * den - num = - ((num % den : Nat) : ℚ) := by
      have : (num : ℚ) = (den : ℚ) * (num / den : Nat) + (num % den : Nat) := by
        exact_mod_cast hdm.symm
      rw [this]
      ring
    rw [hval, abs_neg, abs_of_nonneg (Nat.cast_nonneg _)]
    have : (2 : ℚ) * (num % den : Nat) ≤ (den : ℚ) := by exact_mod_cast h1
    linarith

/-- The exponent of a power of two that lies below another. -/
theorem two_zpow_lt_imp (a b : Int) (h : (2 : ℚ) ^ a < (2 : ℚ) ^ b) : a < b := by
  by_contra hc
  have := two_zpow_le b a (by omega)
  linarith

/-- The rounding of a value in the normal range: the result is a stored finite float that
is not zero, within the fraction `2^-24` of the value. -/
theorem F32_round_error (neg : Bool) (n d : Nat) (s : Int) (hn : n ≠ 0) (hd : d ≠ 0)
    (hsn : n.size ≤ 512) (hsd : d.size ≤ 512)
    (hlo : (2 : ℚ) ^ (-126 : Int) ≤ (n : ℚ) / d * 2 ^ s)
    (hhi : (n : ℚ) / d * 2 ^ s < (2 : ℚ) ^ (127 : Int)) :
    ∃ m ex, F32.round neg n d s = .fin neg m ex ∧ m ≠ 0 ∧ m < 2 ^ 24 ∧ -149 ≤ ex ∧ ex ≤ 104 ∧
      |(m : ℚ) * 2 ^ ex - (n : ℚ) / d * 2 ^ s| ≤ (n : ℚ) / d * 2 ^ s / 2 ^ 24 := by
  have h2 : (2 : ℚ) ≠ 0 := by norm_num
  obtain ⟨hE1, hE2⟩ := F32_exponent_spec n d hn hd hsn hsd
  obtain ⟨num, den, hden, hround, hnum⟩ := F32_round_general neg n d s hn hd
  have hspos : (0 : ℚ) < (2 : ℚ) ^ s := zpow_pos (by norm_num) _
  have hv1 : (2 : ℚ) ^ (F32.exponent n d + s) ≤ (n : ℚ) / d * 2 ^ s := by
    rw [zpow_add₀ h2]
    exact mul_le_mul_of_nonneg_right hE1 hspos.le
  have hv2 : (n : ℚ) / d * 2 ^ s < (2 : ℚ) ^ (F32.exponent n d + s + 1) := by
    have : (2 : ℚ) ^ (F32.exponent n d + s + 1) = 2 ^ (F32.exponent n d + 1) * 2 ^ s := by
      rw [← zpow_add₀ h2]
      congr 1
      omega
    rw [this]
    exact mul_lt_mul_of_pos_right hE2 hspos
  rw [hround]
  generalize F32.exponent n d + s = e at hnum hv1 hv2 ⊢
  generalize (n : ℚ) / d * 2 ^ s = v at hnum hv1 hv2 hlo hhi ⊢
  have he1 : -126 ≤ e := by
    have := two_zpow_lt_imp _ _ (lt_of_le_of_lt hlo hv2)
    omega
  have he2 : e ≤ 126 := by
    have := two_zpow_lt_imp _ _ (lt_of_le_of_lt hv1 hhi)
    omega
  have hq : max (e - 23) (-149) = e - 23 := by omega
  rw [hq] at hnum ⊢
  have hqpos : (0 : ℚ) < (2 : ℚ) ^ (e - 23) := zpow_pos (by norm_num) _
  have hdenq : (0 : ℚ) < (den : ℚ) := by exact_mod_cast hden
  have hT1 : 2 ^ 23 * den ≤ num := by
    have hc : ((2 ^ 23 : Nat) : ℚ) = (2 : ℚ) ^ e / 2 ^ (e - 23) := by
      rw [← zpow_sub₀ h2]
      have : e - (e - 23) = (23 : Int) := by omega
      rw [this]
      norm_num
    have h : ((2 ^ 23 : Nat) : ℚ) * den ≤ (num : ℚ) := by
      rw [hnum, hc]
      exact mul_le_mul_of_nonneg_right (div_le_div_of_nonneg_right hv1 hqpos.le) hdenq.le
    exact_mod_cast h
  have hT2 : num ≤ 2 ^ 24 * den := by
    have hc : ((2 ^ 24 : Nat) : ℚ) = (2 : ℚ) ^ (e + 1) / 2 ^ (e - 23) := by
      rw [← zpow_sub₀ h2]
      have : e + 1 - (e - 23) = (24 : Int) := by omega
      rw [this]
      norm_num
    have h : (num : ℚ) ≤ ((2 ^ 24 : Nat) : ℚ) * den := by
      rw [hnum, hc]
      exact mul_le_mul_of_nonneg_right (div_le_div_of_nonneg_right hv2.le hqpos.le) hdenq.le
    exact_mod_cast h
  have hk1 := le_roundNearestEven num den _ hden hT1
  have hk2 := roundNearestEven_le num den _ hden hT2
  have herr := roundNearestEven_err num den hden
  generalize roundNearestEven num den = k at hk1 hk2 herr
  have hk0 : k ≠ 0 := by
    have : 0 < 2 ^ 23 := by norm_num
    omega
  rcases F32_pack_cases neg k (e - 23) (by omega) with ⟨h0, _⟩ | ⟨_, hp⟩
  · exact absurd h0 hk0
  · refine ⟨_, _, hp, ?_, ?_, ?_, ?_, ?_⟩
    · split_ifs
      · norm_num
      · exact hk0
    · split_ifs with h24
      · norm_num
      · omega
    · split_ifs <;> omega
    · split_ifs <;> omega
    · have hval := F32_pack_value k (e - 23)
      rw [hval]
      -- the error is at most half a unit of the last place
      have hx : v = (num : ℚ) / den * 2 ^ (e - 23) := by
        rw [hnum]
        field_simp
        ring
      have hdiff : (k : ℚ) * 2 ^ (e - 23) - v =
          ((k : ℚ) * den - num) / den * 2 ^ (e - 23) := by
        rw [hx]
        field_simp
        ring
      rw [hdiff, abs_mul, abs_div, abs_of_pos hdenq, abs_of_pos hqpos]
      have h1 : |(k : ℚ) * den - num| / den ≤ 1 / 2 := by
        rw [div_le_iff₀ hdenq]
        linarith
      have h3 : (2 : ℚ) ^ (e - 23) = 2 ^ e / 2 ^ (23 : Nat) := by
        rw [zpow_sub₀ h2]
        norm_num
      calc |(k : ℚ) * den - num| / den * 2 ^ (e - 23)
          ≤ 1 / 2 * 2 ^ (e - 23) := mul_le_mul_of_nonneg_right h1 hqpos.le
        _ = 2 ^ e / 2 ^ 24 := by
            rw [h3]
            ring
        _ ≤ v / 2 ^ 24 := div_le_div_of_nonneg_right hv1 (by positivity)

/-- The rounding of a signed value that is zero or in the normal range: the result is a
stored finite float within the fraction `2^-24` of the value. -/
theorem F32_round_value (neg : Bool) (n d : Nat) (s : Int) (hd : d ≠ 0)
    (hsn : n.size ≤ 512) (hsd : d.size ≤ 512)
    (hr : n = 0 ∨ ((2 : ℚ) ^ (-126 : Int) ≤ (n : ℚ) / d * 2 ^ s ∧
      (n : ℚ) / d * 2 ^ s < (2 : ℚ) ^ (127 : Int))) :
    (F32.round neg n d s).isStored = true ∧
    |(F32.round neg n d s).toRat - (if neg then -1 else 1) * ((n : ℚ) / d * 2 ^ s)| ≤
      (n : ℚ) / d * 2 ^ s / 2 ^ 24 := by
  by_cases hn : n = 0
  · subst hn
    rw [F32_round_zero]
    refine ⟨by decide, ?_⟩
    simp [F32.toRat, F32.zero]
  · rcases hr with h0 | ⟨hlo, hhi⟩
    · exact absurd h0 hn
    · obtain ⟨m, ex, hround, _, hm, hex1, hex2, herr⟩ :=
        F32_round_error neg n d s hn hd hsn hsd hlo hhi
      rw [hround]
      refine ⟨by simp only [F32.isStored, decide_eq_true_eq]; exact ⟨hm, hex1, hex2⟩, ?_⟩
      have : (F32.fin neg m ex).toRat - (if neg then -1 else 1) * ((n : ℚ) / d * 2 ^ s) =
          (if neg then -1 else 1) * ((m : ℚ) * 2 ^ ex - (n : ℚ) / d * 2 ^ s) := by
        simp only [F32.toRat]
        ring
      rw [this, abs_mul]
      have hs : |(if neg then (-1 : ℚ) else 1)| = 1 := by
        cases neg <;> simp
      rw [hs, one_mul]
      exact herr

/-- The value of a stored finite float, as sign and magnitude. -/
theorem F32_toRat_abs (n : Bool) (m : Nat) (e : Int) :
    |(F32.fin n m e).toRat| = (m : ℚ) * 2 ^ e := by
  have hpos : (0 : ℚ) < (2 : ℚ) ^ e := zpow_pos (by norm_num) _
  have hm : (0 : ℚ) ≤ (m : ℚ) := Nat.cast_nonneg m
  simp only [F32.toRat]
  cases n
  · simp only [Bool.false_eq_true, if_false, one_mul]
    exact abs_of_nonneg (mul_nonneg hm hpos.le)
  · simp only [if_true, neg_mul, one_mul, abs_neg]
    exact abs_of_nonneg (mul_nonneg hm hpos.le)

/-- The product of two stored floats whose exact product is zero or in the normal range is
a stored float within the fraction `2^-24` of the exact product. -/
theorem F32_mul_error (x y : F32) (hx : x.isStored = true) (hy : y.isStored = true)
    (hr : x.toRat * y.toRat = 0 ∨ ((2 : ℚ) ^ (-126 : Int) ≤ |x.toRat * y.toRat| ∧
      |x.toRat * y.toRat| < (2 : ℚ) ^ (127 : Int))) :
    (x * y).isStored = true ∧
    |(x * y).toRat - x.toRat * y.toRat| ≤ |x.toRat * y.toRat| / 2 ^ 24 := by
  have h2 : (2 : ℚ) ≠ 0 := by norm_num
  cases x with
  | fin n1 m1 e1 =>
    cases y with
    | fin n2 m2 e2 =>
      simp only [F32.isStored, decide_eq_true_eq] at hx hy
      have hmag : |(F32.fin n1 m1 e1).toRat * (F32.fin n2 m2 e2).toRat| =
          ((m1 * m2 : Nat) : ℚ) / (1 : Nat) * 2 ^ (e1 + e2) := by
        rw [abs_mul, F32_toRat_abs, F32_toRat_abs, zpow_add₀ h2]
        push_cast
        ring
      have hval : (F32.fin n1 m1 e1).toRat * (F32.fin n2 m2 e2).toRat =
          (if (n1 != n2) = true then -1 else 1) *
            (((m1 * m2 : Nat) : ℚ) / (1 : Nat) * 2 ^ (e1 + e2)) := by
        simp only [F32.toRat]
        rw [zpow_add₀ h2]
        push_cast
        cases n1 <;> cases n2 <;> simp <;> ring
      have hsz : (m1 * m2).size ≤ 512 := by
        have : m1 * m2 < 2 ^ 48 := by
          have h := Nat.mul_lt_mul_of_lt_of_lt hx.1 hy.1
          have e : (2 : Nat) ^ 24 * 2 ^ 24 = 2 ^ 48 := by norm_num
          omega
        have := Nat.size_le.mpr this
        omega
      have hr' : m1 * m2 = 0 ∨ ((2 : ℚ) ^ (-126 : Int) ≤
          ((m1 * m2 : Nat) : ℚ) / (1 : Nat) * 2 ^ (e1 + e2) ∧
          ((m1 * m2 : Nat) : ℚ) / (1 : Nat) * 2 ^ (e1 + e2) < (2 : ℚ) ^ (127 : Int)) := by
        rcases hr with h0 | h
        · left
          rw [← abs_eq_zero, hmag] at h0
          have hpos : (0 : ℚ) < (2 : ℚ) ^ (e1 + e2) := zpow_pos (by norm_num) _
          have : ((m1 * m2 : Nat) : ℚ) = 0 := by
            rcases mul_eq_zero.mp h0 with h | h
            · simpa using h
            · exact absurd h hpos.ne'
          exact_mod_cast this
        · right
          rw [hmag] at h
          exact h
      have h := F32_round_value (n1 != n2) (m1 * m2) 1 (e1 + e2) (by norm_num) hsz
        (Nat.size_le.mpr (by norm_num)) hr'
      show (F32.mul (.fin n1 m1 e1) (.fin n2 m2 e2)).isStored = true ∧
        |(F32.mul (.fin n1 m1 e1) (.fin n2 m2 e2)).toRat - _| ≤ _
      rw [hmag, hval]
      exact h
    | nan => simp [F32.isStored] at hy
    | ninf => simp [F32.isStored] at hy
    | pinf => simp [F32.isStored] at hy
  | nan => simp [F32.isStored] at hx
  | ninf => simp [F32.isStored] at hx
  | pinf => simp [F32.isStored] at hx

/-- The quotient of two stored floats, the divisor not zero, whose exact quotient is zero or
in the normal range is a stored float within the fraction `2^-24` of the exact quotient. -/
theorem F32_div_error (x y : F32) (hx : x.isStored = true) (hy : y.isStored = true)
    (hy0 : y.toRat ≠ 0)
    (hr : x.toRat / y.toRat = 0 ∨ ((2 : ℚ) ^ (-126 : Int) ≤ |x.toRat / y.toRat| ∧
      |x.toRat / y.toRat| < (2 : ℚ) ^ (127 : Int))) :
    (x / y).isStored = true ∧
    |(x / y).toRat - x.toRat / y.toRat| ≤ |x.toRat / y.toRat| / 2 ^ 24 := by
  have h2 : (2 : ℚ) ≠ 0 := by norm_num
  cases x with
  | fin n1 m1 e1 =>
    cases y with
    | fin n2 m2 e2 =>
      simp only [F32.isStored, decide_eq_true_eq] at hx hy
      have hm2 : m2 ≠ 0 := by
        intro h
        apply hy0
        simp [F32.toRat, h]
      have hm2q : (m2 : ℚ) ≠ 0 := by exact_mod_cast hm2
      have hp2 : (2 : ℚ) ^ e2 ≠ 0 := (zpow_pos (by norm_num) _).ne'
      have hmag : |(F32.fin n1 m1 e1).toRat / (F32.fin n2 m2 e2).toRat| =
          (m1 : ℚ) / m2 * 2 ^ (e1 - e2) := by
        rw [abs_div, F32_toRat_abs, F32_toRat_abs, zpow_sub₀ h2]
        field_simp
      have hval : (F32.fin n1 m1 e1).toRat / (F32.fin n2 m2 e2).toRat =
          (if (n1 != n2) = true then -1 else 1) * ((m1 : ℚ) / m2 * 2 ^ (e1 - e2)) := by
        simp only [F32.toRat]
        rw [zpow_sub₀ h2]
        cases n1 <;> cases n2 <;> simp <;> field_simp
      have hs1 : m1.size ≤ 512 := by
        have := Nat.size_le.mpr hx.1
        omega
      have hs2 : m2.size ≤ 512 := by
        have := Nat.size_le.mpr hy.1
        omega
      have hr' : m1 = 0 ∨ ((2 : ℚ) ^ (-126 : Int) ≤ (m1 : ℚ) / m2 * 2 ^ (e1 - e2) ∧
          (m1 : ℚ) / m2 * 2 ^ (e1 - e2) < (2 : ℚ) ^ (127 : Int)) := by
        rcases hr with h0 | h
        · left
          rw [← abs_eq_zero, hmag] at h0
          have hpos : (0 : ℚ) < (2 : ℚ) ^ (e1 - e2) := zpow_pos (by norm_num) _
          rcases mul_eq_zero.mp h0 with h | h
          · rcases div_eq_zero_iff.mp h with h | h
            · exact_mod_cast h
            · exact absurd h hm2q
          · exact absurd h hpos.ne'
        · right
          rw [hmag] at h
          exact h
      have h := F32_round_value (n1 != n2) m1 m2 (e1 - e2) hm2 hs1 hs2 hr'
      show (F32.div (.fin n1 m1 e1) (.fin n2 m2 e2)).isStored = true ∧
        |(F32.div (.fin n1 m1 e1) (.fin n2 m2 e2)).toRat - _| ≤ _
      rw [hmag, hval]
      simp only [F32.div, if_neg hm2]
      exact h
    | nan => simp [F32.isStored] at hy
    | ninf => simp [F32.isStored] at hy
    | pinf => simp [F32.isStored] at hy
  | nan => simp [F32.isStored] at hx
  | ninf => simp [F32.isStored] at hx
  | pinf => simp [F32.isStored] at hx

/-- The sum of two stored floats whose exact sum is zero or in the normal range is a stored
float within the fraction `2^-24` of the exact sum. -/
theorem F32_add_error (x y : F32) (hx : x.isStored = true) (hy : y.isStored = true)
    (hr : x.toRat + y.toRat = 0 ∨ ((2 : ℚ) ^ (-126 : Int) ≤ |x.toRat + y.toRat| ∧
      |x.toRat + y.toRat| < (2 : ℚ) ^ (127 : Int))) :
    (x + y).isStored = true ∧
    |(x + y).toRat - (x.toRat + y.toRat)| ≤ |x.toRat + y.toRat| / 2 ^ 24 := by
  cases x with
  | fin n1 m1 e1 =>
    cases y with
    | fin n2 m2 e2 =>
      simp only [F32.isStored, decide_eq_true_eq] at hx hy
      have hq : (0 : ℚ) < (2 : ℚ) ^ (min e1 e2) := zpow_pos (by norm_num) _
      have hS : ((F32.aligned n1 m1 e1 (min e1 e2) + F32.aligned n2 m2 e2 (min e1 e2) : Int) : ℚ)
          * 2 ^ (min e1 e2) = (F32.fin n1 m1 e1).toRat + (F32.fin n2 m2 e2).toRat := by
        push_cast
        rw [add_mul, F32_aligned_toRat n1 m1 e1 _ (min_le_left _ _),
          F32_aligned_toRat n2 m2 e2 _ (min_le_right _ _)]
      have hsz : (F32.aligned n1 m1 e1 (min e1 e2) +
          F32.aligned n2 m2 e2 (min e1 e2)).natAbs.size ≤ 512 := by
        have ha := F32_aligned_natAbs n1 m1 e1 (min e1 e2) hx.1 (by omega)
        have hb := F32_aligned_natAbs n2 m2 e2 (min e1 e2) hy.1 (by omega)
        have hadd := Int.natAbs_add_le (F32.aligned n1 m1 e1 (min e1 e2))
          (F32.aligned n2 m2 e2 (min e1 e2))
        have hlt : (F32.aligned n1 m1 e1 (min e1 e2) +
            F32.aligned n2 m2 e2 (min e1 e2)).natAbs < 2 ^ 278 := by
          have : (2 : Nat) ^ 278 = 2 ^ 277 + 2 ^ 277 := by norm_num
          omega
        have := Nat.size_le.mpr hlt
        omega
      show (F32.round _ _ 1 (min e1 e2)).isStored = true ∧
        |(F32.round _ _ 1 (min e1 e2)).toRat - _| ≤ _
      generalize F32.aligned n1 m1 e1 (min e1 e2) + F32.aligned n2 m2 e2 (min e1 e2) = S
        at hS hsz
      generalize min e1 e2 = q at hS hq
      have hcast : ((S.natAbs : Nat) : ℚ) = |(S : ℚ)| := by
        rw [Nat.cast_natAbs, Int.cast_abs]
      have hmag : |(F32.fin n1 m1 e1).toRat + (F32.fin n2 m2 e2).toRat| =
          ((S.natAbs : Nat) : ℚ) / (1 : Nat) * 2 ^ q := by
        rw [← hS, abs_mul, abs_of_pos hq, hcast]
        simp
      have hval : (F32.fin n1 m1 e1).toRat + (F32.fin n2 m2 e2).toRat =
          (if decide (S < 0) = true then -1 else 1) *
            (((S.natAbs : Nat) : ℚ) / (1 : Nat) * 2 ^ q) := by
        rw [← hS, hcast]
        by_cases hneg : S < 0
        · have : (S : ℚ) < 0 := by exact_mod_cast hneg
          simp only [hneg, decide_True, if_true, abs_of_neg this]
          simp
        · have : (0 : ℚ) ≤ (S : ℚ) := by exact_mod_cast (not_lt.mp hneg)
          simp only [hneg, decide_False, Bool.false_eq_true, if_false, abs_of_nonneg this]
          simp
      have hr' : S.natAbs = 0 ∨ ((2 : ℚ) ^ (-126 : Int) ≤
          ((S.natAbs : Nat) : ℚ) / (1 : Nat) * 2 ^ q ∧
          ((S.natAbs : Nat) : ℚ) / (1 : Nat) * 2 ^ q < (2 : ℚ) ^ (127 : Int)) := by
        rcases hr with h0 | h
        · left
          rw [← hS] at h0
          rcases mul_eq_zero.mp h0 with h | h
          · have : S = 0 := by exact_mod_cast h
            simp [this]
          · exact absurd h hq.ne'
        · right
          rw [hmag] at h
          exact h
      have h := F32_round_value (decide (S < 0)) S.natAbs 1 q (by norm_num) hsz
        (Nat.size_le.mpr (by norm_num)) hr'
      rw [hmag, hval]
      exact h
    | nan => simp [F32.isStored] at hy
    | ninf => simp [F32.isStored] at hy
    | pinf => simp [F32.isStored] at hy
  | nan => simp [F32.isStored] at hx
  | ninf => simp [F32.isStored] at hx
  | pinf => simp [F32.isStored] at hx

/-! ## Binary32: the length of a normalized vector -/

/-- A value within the fraction `2^-24` of a non-negative one lies between its multiples by
`1 - 2^-24` and `1 + 2^-24`. -/
theorem rel_err_bounds (a v : ℚ) (hv : 0 ≤ v) (h : |a - v| ≤ |v| / 2 ^ 24) :
    v * (1 - 1 / 2 ^ 24) ≤ a ∧ a ≤ v * (1 + 1 / 2 ^ 24) := by
  rw [abs_of_nonneg hv] at h
  have := abs_le.mp h
  constructor <;> linarith [this.1, this.2]

/-- The square of a value within the fraction `2^-24` of another. -/
theorem rel_err_sq (a v : ℚ) (h : |a - v| ≤ |v| / 2 ^ 24) :
    v ^ 2 * (1 - 1 / 2 ^ 24) ^ 2 ≤ a ^ 2 ∧ a ^ 2 ≤ v ^ 2 * (1 + 1 / 2 ^ 24) ^ 2 := by
  have hv : 0 ≤ |v| := abs_nonneg v
  have h1 : |v| - |a| ≤ |a - v| := by
    rw [abs_sub_comm a v]
    exact abs_sub_abs_le_abs_sub v a
  have h2 : |a| - |v| ≤ |a - v| := abs_sub_abs_le_abs_sub a v
  have hlo : |v| * (1 - 1 / 2 ^ 24) ≤ |a| := by linarith
  have hhi : |a| ≤ |v| * (1 + 1 / 2 ^ 24) := by linarith
  have hlo0 : 0 ≤ |v| * (1 - 1 / 2 ^ 24) := mul_nonneg hv (by norm_num)
  have s1 := pow_le_pow_left₀ hlo0 hlo 2
  have s2 := pow_le_pow_left₀ (abs_nonneg a) hhi 2
  rw [mul_pow, sq_abs] at s1 s2
  rw [sq_abs] at s1 s2
  exact ⟨s1, s2⟩

/-- The error analysis of `Normalize` in exact terms: with each operation within the
fraction `2^-24` of its exact result and the square of the root within `2^-20` of its
argument, the squared length of the result is within `2^-19` of one. -/
theorem normalize_error_bound (X Y Z P1 P2 P3 A1 A2 T L R N1 N2 N3 : ℚ)
    (hP1 : |P1 - X * X| ≤ |X * X| / 2 ^ 24) (hP2 : |P2 - Y * Y| ≤ |Y * Y| / 2 ^ 24)
    (hP3 : |P3 - Z * Z| ≤ |Z * Z| / 2 ^ 24)
    (hA1 : |A1 - (0 + P1)| ≤ |0 + P1| / 2 ^ 24) (hA2 : |A2 - (A1 + P2)| ≤ |A1 + P2| / 2 ^ 24)
    (hT : |T - (A2 + P3)| ≤ |A2 + P3| / 2 ^ 24)
    (hLpos : 0 < L) (hL : |L ^ 2 - T| ≤ T / 2 ^ 20)
    (hR : |R - 1 / L| ≤ |1 / L| / 2 ^ 24)
    (hN1 : |N1 - X * R| ≤ |X * R| / 2 ^ 24) (hN2 : |N2 - Y * R| ≤ |Y * R| / 2 ^ 24)
    (hN3 : |N3 - Z * R| ≤ |Z * R| / 2 ^ 24) :
    |N1 ^ 2 + N2 ^ 2 + N3 ^ 2 - 1| ≤ 1 / 2 ^ 19 := by
  have hX : 0 ≤ X * X := mul_self_nonneg X
  have hY : 0 ≤ Y * Y := mul_self_nonneg Y
  have hZ : 0 ≤ Z * Z := mul_self_nonneg Z
  obtain ⟨p1l, p1h⟩ := rel_err_bounds P1 (X * X) hX hP1
  obtain ⟨p2l, p2h⟩ := rel_err_bounds P2 (Y * Y) hY hP2
  obtain ⟨p3l, p3h⟩ := rel_err_bounds P3 (Z * Z) hZ hP3
  have hP1' : 0 ≤ 0 + P1 := by linarith
  obtain ⟨a1l, a1h⟩ := rel_err_bounds A1 (0 + P1) hP1' hA1
  have hA1' : 0 ≤ A1 + P2 := by linarith
  obtain ⟨a2l, a2h⟩ := rel_err_bounds A2 (A1 + P2) hA1' hA2
  have hA2' : 0 ≤ A2 + P3 := by linarith
  obtain ⟨tl, th⟩ := rel_err_bounds T (A2 + P3) hA2' hT
  -- the sum of the squares as computed
  have hTlo : (X * X + Y * Y + Z * Z) * (1 - 1 / 2 ^ 24) ^ 4 ≤ T := by linarith
  have hThi : T ≤ (X * X + Y * Y + Z * Z) * (1 + 1 / 2 ^ 24) ^ 4 := by linarith
  have hT0 : 0 ≤ T := by linarith
  have hL' := abs_le.mp hL
  have hL2lo : (X * X + Y * Y + Z * Z) * ((1 - 1 / 2 ^ 24) ^ 4 * (1 - 1 / 2 ^ 20)) ≤ L ^ 2 := by
    linarith [hL'.1]
  have hL2hi : L ^ 2 ≤ (X * X + Y * Y + Z * Z) * ((1 + 1 / 2 ^ 24) ^ 4 * (1 + 1 / 2 ^ 20)) := by
    linarith [hL'.2]
  have hL2pos : 0 < L ^ 2 := by positivity
  -- the squares of the components of the result
  obtain ⟨n1l, n1h⟩ := rel_err_sq N1 (X * R) hN1
  obtain ⟨n2l, n2h⟩ := rel_err_sq N2 (Y * R) hN2
  obtain ⟨n3l, n3h⟩ := rel_err_sq N3 (Z * R) hN3
  obtain ⟨rl, rh⟩ := rel_err_sq R (1 / L) hR
  have hS : 0 ≤ X * X + Y * Y + Z * Z := by linarith
  have hW1 : (X * X + Y * Y + Z * Z) / L ^ 2 *
      ((1 - 1 / 2 ^ 24) ^ 4 * (1 - 1 / 2 ^ 20)) ≤ 1 := by
    rw [div_mul_eq_mul_div, div_le_iff₀ hL2pos]
    linarith
  have hW2 : 1 ≤ (X * X + Y * Y + Z * Z) / L ^ 2 *
      ((1 + 1 / 2 ^ 24) ^ 4 * (1 + 1 / 2 ^ 20)) := by
    rw [div_mul_eq_mul_div, le_div_iff₀ hL2pos]
    linarith
  have hrS1 := mul_le_mul_of_nonneg_left rl hS
  have hrS2 := mul_le_mul_of_nonneg_left rh hS
  have hinv : (X * X + Y * Y + Z * Z) * ((1 / L) ^ 2 * (1 - 1 / 2 ^ 24) ^ 2) =
      (X * X + Y * Y + Z * Z) / L ^ 2 * (1 - 1 / 2 ^ 24) ^ 2 := by
    field_simp
  have hinv2 : (X * X + Y * Y + Z * Z) * ((1 / L) ^ 2 * (1 + 1 / 2 ^ 24) ^ 2) =
      (X * X + Y * Y + Z * Z) / L ^ 2 * (1 + 1 / 2 ^ 24) ^ 2 := by
    field_simp
  rw [hinv] at hrS1
  rw [hinv2] at hrS2
  generalize (X * X + Y * Y + Z * Z) / L ^ 2 = W at hW1 hW2 hrS1 hrS2
  have hsum : (X * R) ^ 2 + (Y * R) ^ 2 + (Z * R) ^ 2 = (X * X + Y * Y + Z * Z) * R ^ 2 := by
    ring
  generalize hQ : (X * X + Y * Y + Z * Z) * R ^ 2 = Q at hrS1 hrS2 hsum
  have hNlo : Q * (1 - 1 / 2 ^ 24) ^ 2 ≤ N1 ^ 2 + N2 ^ 2 + N3 ^ 2 := by
    rw [← hsum]
    linarith
  have hNhi : N1 ^ 2 + N2 ^ 2 + N3 ^ 2 ≤ Q * (1 + 1 / 2 ^ 24) ^ 2 := by
    rw [← hsum]
    linarith
  rw [abs_le]
  constructor <;> linarith

/-- The sum of three squares as `Dot` computes it: each operation within the fraction
`2^-24` of its exact result. -/
theorem dot_error_bound (X Y Z P1 P2 P3 A1 A2 T : ℚ)
    (hP1 : |P1 - X * X| ≤ |X * X| / 2 ^ 24) (hP2 : |P2 - Y * Y| ≤ |Y * Y| / 2 ^ 24)
    (hP3 : |P3 - Z * Z| ≤ |Z * Z| / 2 ^ 24)
    (hA1 : |A1 - (0 + P1)| ≤ |0 + P1| / 2 ^ 24) (hA2 : |A2 - (A1 + P2)| ≤ |A1 + P2| / 2 ^ 24)
    (hT : |T - (A2 + P3)| ≤ |A2 + P3| / 2 ^ 24) :
    (X * X + Y * Y + Z * Z) * (1 - 1 / 2 ^ 24) ^ 4 ≤ T ∧
    T ≤ (X * X + Y * Y + Z * Z) * (1 + 1 / 2 ^ 24) ^ 4 := by
  have hX : 0 ≤ X * X := mul_self_nonneg X
  have hY : 0 ≤ Y * Y := mul_self_nonneg Y
  have hZ : 0 ≤ Z * Z := mul_self_nonneg Z
  obtain ⟨p1l, p1h⟩ := rel_err_bounds P1 (X * X) hX hP1
  obtain ⟨p2l, p2h⟩ := rel_err_bounds P2 (Y * Y) hY hP2
  obtain ⟨p3l, p3h⟩ := rel_err_bounds P3 (Z * Z) hZ hP3
  have hP1' : 0 ≤ 0 + P1 := by linarith
  obtain ⟨a1l, a1h⟩ := rel_err_bounds A1 (0 + P1) hP1' hA1
  have hA1' : 0 ≤ A1 + P2 := by linarith
  obtain ⟨a2l, a2h⟩ := rel_err_bounds A2 (A1 + P2) hA1' hA2
  have hA2' : 0 ≤ A2 + P3 := by linarith
  obtain ⟨tl, th⟩ := rel_err_bounds T (A2 + P3) hA2' hT
  constructor <;> linarith

/-- The normal range of binary32 in plain fractions. -/
theorem normal_range (v : ℚ) (h1 : 1 / 2 ^ 126 ≤ v) (h2 : v ≤ 2 ^ 126) :
    (2 : ℚ) ^ (-126 : Int) ≤ v ∧ v < (2 : ℚ) ^ (127 : Int) := by
  have e1 : (2 : ℚ) ^ (-126 : Int) = 1 / 2 ^ 126 := by
    rw [zpow_neg, zpow_ofNat, one_div]
  have e2 : (2 : ℚ) ^ (127 : Int) = 2 ^ 127 := zpow_ofNat 2 127
  rw [e1, e2]
  constructor
  · exact h1
  · have : (2 : ℚ) ^ 126 < 2 ^ 127 := by norm_num
    linarith

/-- The range of a value within the fraction `2^-24` of a non-negative one that is zero or
at least `lo` and at most `hi`. -/
theorem rel_err_range (a v lo hi : ℚ) (hv : 0 ≤ v) (h : |a - v| ≤ |v| / 2 ^ 24)
    (hr : v = 0 ∨ lo ≤ v) (hhi : v ≤ hi) :
    0 ≤ a ∧ (a = 0 ∨ lo / 2 ≤ a) ∧ a ≤ 2 * hi := by
  obtain ⟨l, u⟩ := rel_err_bounds a v hv h
  refine ⟨by linarith, ?_, by linarith⟩
  rcases hr with h0 | hl
  · left
    rw [h0] at l u
    linarith
  · right
    linarith

/-- The square of a stored float that is zero or of magnitude from `2^-60` to `2^60`. -/
theorem F32_sq_error (c : F32) (hc : c.isStored = true)
    (hr : c.toRat = 0 ∨ (1 / 2 ^ 60 ≤ |c.toRat| ∧ |c.toRat| ≤ 2 ^ 60)) :
    (c * c).isStored = true ∧
    |(c * c).toRat - c.toRat * c.toRat| ≤ |c.toRat * c.toRat| / 2 ^ 24 ∧
    0 ≤ (c * c).toRat ∧ ((c * c).toRat = 0 ∨ 1 / 2 ^ 121 ≤ (c * c).toRat) ∧
    (c * c).toRat ≤ 2 ^ 121 ∧
    (c.toRat ≠ 0 → 1 / 2 ^ 120 ≤ c.toRat * c.toRat) ∧ c.toRat * c.toRat ≤ 2 ^ 120 := by
  have hsq : |c.toRat * c.toRat| = |c.toRat| * |c.toRat| := abs_mul _ _
  have hnn : 0 ≤ c.toRat * c.toRat := mul_self_nonneg _
  have hself : c.toRat * c.toRat = |c.toRat| * |c.toRat| := by
    rw [← hsq, abs_of_nonneg hnn]
  have hlow : c.toRat ≠ 0 → 1 / 2 ^ 120 ≤ c.toRat * c.toRat := by
    intro h0
    rcases hr with h | ⟨h1, _⟩
    · exact absurd h h0
    · rw [hself]
      have := mul_le_mul h1 h1 (by positivity) (abs_nonneg _)
      have e : (1 : ℚ) / 2 ^ 60 * (1 / 2 ^ 60) = 1 / 2 ^ 120 := by norm_num
      linarith
  have hup : c.toRat * c.toRat ≤ 2 ^ 120 := by
    rcases hr with h | ⟨_, h2⟩
    · rw [h]
      norm_num
    · rw [hself]
      have := mul_le_mul h2 h2 (abs_nonneg _) (by positivity)
      have e : (2 : ℚ) ^ 60 * 2 ^ 60 = 2 ^ 120 := by norm_num
      linarith
  have hrange : c.toRat * c.toRat = 0 ∨ ((2 : ℚ) ^ (-126 : Int) ≤ |c.toRat * c.toRat| ∧
      |c.toRat * c.toRat| < (2 : ℚ) ^ (127 : Int)) := by
    by_cases h0 : c.toRat = 0
    · left
      rw [h0]
      norm_num
    · right
      rw [abs_of_nonneg hnn]
      have := hlow h0
      exact normal_range _ (by linarith [show (1 : ℚ) / 2 ^ 126 ≤ 1 / 2 ^ 120 by norm_num])
        (by linarith [show (2 : ℚ) ^ 120 ≤ 2 ^ 126 by norm_num])
  obtain ⟨hs, he⟩ := F32_mul_error c c hc hc hrange
  have hr' : c.toRat * c.toRat = 0 ∨ 1 / 2 ^ 120 ≤ c.toRat * c.toRat := by
    by_cases h0 : c.toRat = 0
    · left
      rw [h0]
      norm_num
    · exact Or.inr (hlow h0)
  obtain ⟨r1, r2, r3⟩ := rel_err_range _ _ (1 / 2 ^ 120) (2 ^ 120) hnn he hr' hup
  refine ⟨hs, he, r1, ?_, ?_, hlow, hup⟩
  · rcases r2 with h | h
    · exact Or.inl h
    · right
      have e : (1 : ℚ) / 2 ^ 120 / 2 = 1 / 2 ^ 121 := by norm_num
      linarith
  · have e : (2 : ℚ) * 2 ^ 120 = 2 ^ 121 := by norm_num
    linarith

/-- The sum of two stored non-negative floats, each zero or at least `lo`, at most `hi`. -/
theorem F32_add_nonneg_error (a b : F32) (lo hi : ℚ) (ha : a.isStored = true)
    (hb : b.isStored = true) (hA : 0 ≤ a.toRat) (hB : 0 ≤ b.toRat)
    (hA1 : a.toRat = 0 ∨ lo ≤ a.toRat) (hB1 : b.toRat = 0 ∨ lo ≤ b.toRat)
    (hA2 : a.toRat ≤ hi) (hB2 : b.toRat ≤ hi) (hlo : 1 / 2 ^ 126 ≤ lo) (hhi : hi ≤ 2 ^ 125) :
    (a + b).isStored = true ∧
    |(a + b).toRat - (a.toRat + b.toRat)| ≤ |a.toRat + b.toRat| / 2 ^ 24 ∧
    0 ≤ (a + b).toRat ∧ ((a + b).toRat = 0 ∨ lo / 2 ≤ (a + b).toRat) ∧
    (a + b).toRat ≤ 4 * hi := by
  have hnn : 0 ≤ a.toRat + b.toRat := by linarith
  have hr' : a.toRat + b.toRat = 0 ∨ lo ≤ a.toRat + b.toRat := by
    rcases hA1 with h1 | h1
    · rcases hB1 with h2 | h2
      · left
        rw [h1, h2]
        norm_num
      · right
        linarith
    · right
      linarith
  have hrange : a.toRat + b.toRat = 0 ∨ ((2 : ℚ) ^ (-126 : Int) ≤ |a.toRat + b.toRat| ∧
      |a.toRat + b.toRat| < (2 : ℚ) ^ (127 : Int)) := by
    rcases hr' with h | h
    · exact Or.inl h
    · right
      rw [abs_of_nonneg hnn]
      have e : (2 : ℚ) * 2 ^ 125 = 2 ^ 126 := by norm_num
      exact normal_range _ (by linarith) (by linarith)
  obtain ⟨hs, he⟩ := F32_add_error a b ha hb hrange
  obtain ⟨r1, r2, r3⟩ := rel_err_range _ _ lo (2 * hi) hnn he hr' (by linarith)
  exact ⟨hs, he, r1, r2, by linarith⟩

/-- The float one. -/
theorem F32_one : F32.ofNat 1 = .fin false 8388608 (-23) := by decide

/-- The value of the float one. -/
theorem F32_one_toRat : (F32.ofNat 1).toRat = 1 := by
  rw [F32_one]
  simp only [F32.toRat, Bool.false_eq_true, if_false, one_mul]
  rw [zpow_neg, zpow_ofNat]
  norm_num

/-- The product of a stored float, zero or of magnitude from `2^-60` to `2^60`, and a
stored factor from `2^-63` to `2^62`. -/
theorem F32_scale_error (c r : F32) (hc : c.isStored = true) (hr : r.isStored = true)
    (hC : c.toRat = 0 ∨ (1 / 2 ^ 60 ≤ |c.toRat| ∧ |c.toRat| ≤ 2 ^ 60))
    (hR1 : 1 / 2 ^ 63 ≤ r.toRat) (hR2 : r.toRat ≤ 2 ^ 62) :
    (c * r).isStored = true ∧
    |(c * r).toRat - c.toRat * r.toRat| ≤ |c.toRat * r.toRat| / 2 ^ 24 := by
  have hRpos : 0 < r.toRat := by
    have : (0 : ℚ) < 1 / 2 ^ 63 := by positivity
    linarith
  apply F32_mul_error c r hc hr
  rcases hC with h0 | ⟨h1, h2⟩
  · left
    rw [h0]
    norm_num
  · right
    rw [abs_mul, abs_of_pos hRpos]
    have l := mul_le_mul h1 hR1 (by positivity) (abs_nonneg _)
    have u := mul_le_mul h2 hR2 hRpos.le (by positivity)
    have e1 : (1 : ℚ) / 2 ^ 60 * (1 / 2 ^ 63) = 1 / 2 ^ 123 := by norm_num
    have e2 : (2 : ℚ) ^ 60 * 2 ^ 62 = 2 ^ 122 := by norm_num
    exact normal_range _ (by linarith [show (1 : ℚ) / 2 ^ 126 ≤ 1 / 2 ^ 123 by norm_num])
      (by linarith [show (2 : ℚ) ^ 122 ≤ 2 ^ 126 by norm_num])

/-- Member `Normalize` in binary32 returns a vector of length one up to rounding: for a
vector whose components are stored floats, each zero or of magnitude from `2^-60` to `2^60`
and not all zero, and a square root that returns a stored positive float whose square is
within the fraction `2^-20` of its argument, the components of the result are stored floats
and the sum of their squares is within `2^-19` of one. -/
theorem Normalize32_unit (sqrt : F32 → F32) (w : Vector3f F32)
    (hx : w.x.isStored = true ∧
      (w.x.toRat = 0 ∨ (1 / 2 ^ 60 ≤ |w.x.toRat| ∧ |w.x.toRat| ≤ 2 ^ 60)))
    (hy : w.y.isStored = true ∧
      (w.y.toRat = 0 ∨ (1 / 2 ^ 60 ≤ |w.y.toRat| ∧ |w.y.toRat| ≤ 2 ^ 60)))
    (hz : w.z.isStored = true ∧
      (w.z.toRat = 0 ∨ (1 / 2 ^ 60 ≤ |w.z.toRat| ∧ |w.z.toRat| ≤ 2 ^ 60)))
    (hne : w.x.toRat ≠ 0 ∨ w.y.toRat ≠ 0 ∨ w.z.toRat ≠ 0)
    (hL : (w.Length32 sqrt).isStored = true) (hLpos : 0 < (w.Length32 sqrt).toRat)
    (hLerr : |(w.Length32 sqrt).toRat ^ 2 - (w.Dot32 w).toRat| ≤ (w.Dot32 w).toRat / 2 ^ 20) :
    (w.Normalize32 sqrt).x.isStored = true ∧ (w.Normalize32 sqrt).y.isStored = true ∧
    (w.Normalize32 sqrt).z.isStored = true ∧
    |(w.Normalize32 sqrt).x.toRat ^ 2 + (w.Normalize32 sqrt).y.toRat ^ 2 +
      (w.Normalize32 sqrt).z.toRat ^ 2 - 1| ≤ 1 / 2 ^ 19 := by
  obtain ⟨sx, ex, px0, px1, px2, lx, ux⟩ := F32_sq_error w.x hx.1 hx.2
  obtain ⟨sy, ey, py0, py1, py2, ly, uy⟩ := F32_sq_error w.y hy.1 hy.2
  obtain ⟨sz, ez, pz0, pz1, pz2, lz, uz⟩ := F32_sq_error w.z hz.1 hz.2
  have hz0 : F32.zero.toRat = 0 := by simp [F32.toRat, F32.zero]
  have hzs : F32.zero.isStored = true := by decide
  obtain ⟨s1, e1, a10, a11, a12⟩ := F32_add_nonneg_error F32.zero (w.x * w.x) (1 / 2 ^ 121)
    (2 ^ 121) hzs sx (by rw [hz0]) px0 (Or.inl hz0) px1 (by rw [hz0]; positivity) px2
    (by norm_num) (by norm_num)
  obtain ⟨s2, e2, a20, a21, a22⟩ := F32_add_nonneg_error (F32.zero + w.x * w.x) (w.y * w.y)
    (1 / 2 ^ 121 / 2) (4 * 2 ^ 121) s1 sy a10 py0 a11
    (by
      rcases py1 with h | h
      · exact Or.inl h
      · right
        have : (1 : ℚ) / 2 ^ 121 / 2 ≤ 1 / 2 ^ 121 := by norm_num
        linarith)
    a12 (by linarith) (by norm_num) (by norm_num)
  obtain ⟨s3, e3, a30, a31, a32⟩ := F32_add_nonneg_error (F32.zero + w.x * w.x + w.y * w.y)
    (w.z * w.z) (1 / 2 ^ 121 / 2 / 2) (4 * (4 * 2 ^ 121)) s2 sz a20 pz0 a21
    (by
      rcases pz1 with h | h
      · exact Or.inl h
      · right
        have : (1 : ℚ) / 2 ^ 121 / 2 / 2 ≤ 1 / 2 ^ 121 := by norm_num
        linarith)
    a22 (by linarith) (by norm_num) (by norm_num)
  rw [hz0] at e1
  have hdot : w.Dot32 w = F32.zero + w.x * w.x + w.y * w.y + w.z * w.z := rfl
  have hlen : w.Length32 sqrt = sqrt (w.Dot32 w) := rfl
  rw [hdot] at hLerr
  obtain ⟨tl, th⟩ := dot_error_bound _ _ _ _ _ _ _ _ _ ex ey ez e1 e2 e3
  -- the sum of the squares is at least `2^-120` and at most `3 * 2^120`
  have hSlo : 1 / 2 ^ 120 ≤ w.x.toRat * w.x.toRat + w.y.toRat * w.y.toRat +
      w.z.toRat * w.z.toRat := by
    have nx : 0 ≤ w.x.toRat * w.x.toRat := mul_self_nonneg _
    have ny : 0 ≤ w.y.toRat * w.y.toRat := mul_self_nonneg _
    have nz : 0 ≤ w.z.toRat * w.z.toRat := mul_self_nonneg _
    rcases hne with h | h | h
    · linarith [lx h]
    · linarith [ly h]
    · linarith [lz h]
  have hShi : w.x.toRat * w.x.toRat + w.y.toRat * w.y.toRat + w.z.toRat * w.z.toRat ≤
      3 * 2 ^ 120 := by linarith
  -- the computed sum of the squares and the square of the computed length
  have hTlo : 1 / 2 ^ 121 ≤ (F32.zero + w.x * w.x + w.y * w.y + w.z * w.z).toRat := by
    linarith
  have hThi : (F32.zero + w.x * w.x + w.y * w.y + w.z * w.z).toRat ≤ 2 ^ 122 := by
    linarith
  have hL' := abs_le.mp hLerr
  have hL2lo : 1 / 2 ^ 122 ≤ (w.Length32 sqrt).toRat ^ 2 := by linarith [hL'.1]
  have hL2hi : (w.Length32 sqrt).toRat ^ 2 ≤ 2 ^ 123 := by linarith [hL'.2]
  have hLlo : 1 / 2 ^ 61 ≤ (w.Length32 sqrt).toRat := by
    by_contra hc
    have hc' := not_le.mp hc
    have := mul_self_lt_mul_self hLpos.le hc'
    have e : (1 : ℚ) / 2 ^ 61 * (1 / 2 ^ 61) = 1 / 2 ^ 122 := by norm_num
    rw [pow_two] at hL2lo
    linarith
  have hLhi : (w.Length32 sqrt).toRat ≤ 2 ^ 62 := by
    by_contra hc
    have hc' := not_le.mp hc
    have := mul_self_lt_mul_self (by positivity) hc'
    have e : (2 : ℚ) ^ 62 * 2 ^ 62 = 2 ^ 124 := by norm_num
    have e' : (2 : ℚ) ^ 123 ≤ 2 ^ 124 := by norm_num
    rw [pow_two] at hL2hi
    linarith
  -- the factor `1/Length()`
  have hinvlo : 1 / 2 ^ 62 ≤ 1 / (w.Length32 sqrt).toRat :=
    one_div_le_one_div_of_le hLpos hLhi
  have hinvhi : 1 / (w.Length32 sqrt).toRat ≤ 2 ^ 61 := by
    have := one_div_le_one_div_of_le (by positivity) hLlo
    rw [one_div_one_div] at this
    exact this
  have hinvpos : 0 < 1 / (w.Length32 sqrt).toRat := by positivity
  have hrange : (F32.ofNat 1).toRat / (w.Length32 sqrt).toRat = 0 ∨
      ((2 : ℚ) ^ (-126 : Int) ≤ |(F32.ofNat 1).toRat / (w.Length32 sqrt).toRat| ∧
      |(F32.ofNat 1).toRat / (w.Length32 sqrt).toRat| < (2 : ℚ) ^ (127 : Int)) := by
    right
    rw [F32_one_toRat, abs_of_pos hinvpos]
    exact normal_range _ (by linarith [show (1 : ℚ) / 2 ^ 126 ≤ 1 / 2 ^ 62 by norm_num])
      (by linarith [show (2 : ℚ) ^ 61 ≤ 2 ^ 126 by norm_num])
  obtain ⟨sr, er⟩ := F32_div_error (F32.ofNat 1) (w.Length32 sqrt) (by decide) hL hLpos.ne'
    hrange
  rw [F32_one_toRat] at er
  obtain ⟨rl, rh⟩ := rel_err_bounds _ _ hinvpos.le er
  have hR1 : 1 / 2 ^ 63 ≤ (F32.ofNat 1 / w.Length32 sqrt).toRat := by linarith
  have hR2 : (F32.ofNat 1 / w.Length32 sqrt).toRat ≤ 2 ^ 62 := by linarith
  -- the three components
  obtain ⟨snx, enx⟩ := F32_scale_error w.x _ hx.1 sr hx.2 hR1 hR2
  obtain ⟨sny, eny⟩ := F32_scale_error w.y _ hy.1 sr hy.2 hR1 hR2
  obtain ⟨snz, enz⟩ := F32_scale_error w.z _ hz.1 sr hz.2 hR1 hR2
  exact ⟨snx, sny, snz, normalize_error_bound _ _ _ _ _ _ _ _ _ _ _ _ _ _ ex ey ez e1 e2 e3
    hLpos hLerr er enx eny enz⟩

/-! ## Binary32: the error of a rounding below the normal range -/

/-- The product of a float and an infinity is not finite. -/
theorem F32_mul_pinf (x : F32) : x * F32.pinf = .nan ∨ x * F32.pinf = .pinf ∨
    x * F32.pinf = .ninf := by
  show F32.mul x .pinf = .nan ∨ F32.mul x .pinf = .pinf ∨ F32.mul x .pinf = .ninf
  cases x with
  | nan => exact Or.inl rfl
  | ninf => exact Or.inr (Or.inr rfl)
  | pinf => exact Or.inr (Or.inl rfl)
  | fin n m e =>
    simp only [F32.mul]
    split_ifs <;> simp

/-- The sum of a float and a float that is not finite is not finite. -/
theorem F32_add_not_fin (x y : F32) (hy : y = .nan ∨ y = .pinf ∨ y = .ninf) :
    ∀ n m e, x + y ≠ .fin n m e := by
  intro n m e
  show F32.add x y ≠ .fin n m e
  rcases hy with h | h | h <;> subst h <;> cases x <;> simp [F32.add]

/-- A hit that `Sphere::Intersect` builds is never the sentinel: its distance is finite,
or its position is not. -/
theorem Intersect32_hit_ne_sentinel (sqrt : F32 → F32) (s : Sphere F32) (ray : Ray F32)
    (t : F32) (ht : F32.lt (.fin false 16106127 (-30)) t = true) :
    (⟨t, ((ray.origin.add32 (ray.direction.scale32 t)).sub32 s.position).Normalize32 sqrt,
      ray.origin.add32 (ray.direction.scale32 t)⟩ : Intersection32) ≠
      Intersection32.NO_INTERSECTION := by
  intro h
  simp only [Intersection32.NO_INTERSECTION, Intersection32.mk.injEq] at h
  obtain ⟨h1, _, h3⟩ := h
  subst h1
  have hx : ray.origin.x + ray.direction.x * F32.pinf = F32.zero := by
    have := congrArg Vector3f.x h3
    simpa [Vector3f.add32, Vector3f.scale32] using this
  exact F32_add_not_fin _ _ (F32_mul_pinf _) _ _ _ hx

/-- The float literal `1.5e-2F`. -/
theorem F32_epsilon : F32.ofRatio 15 1000 = .fin false 16106127 (-30) := by decide

/-- The three outcomes of `Sphere::Intersect` in binary32. -/
theorem Sphere_Intersect32_cases (sqrt : F32 → F32) (s : Sphere F32) (ray : Ray F32) :
    let op := s.position.sub32 ray.origin
    let b := op.Dot32 ray.direction
    let disc := b * b - op.Dot32 op + s.radius * s.radius
    let det := sqrt disc
    let eps : F32 := .fin false 16106127 (-30)
    let hit : F32 → Intersection32 := fun t =>
      ⟨t, ((ray.origin.add32 (ray.direction.scale32 t)).sub32 s.position).Normalize32 sqrt,
        ray.origin.add32 (ray.direction.scale32 t)⟩
    let I := s.Intersect32 sqrt ray
    ((F32.lt disc F32.zero = true ∨
        (F32.lt eps (b - det) = false ∧ F32.lt eps (b + det) = false)) ∧
      I = Intersection32.NO_INTERSECTION) ∨
    (F32.lt disc F32.zero = false ∧ F32.lt eps (b - det) = true ∧ I = hit (b - det)) ∨
    (F32.lt disc F32.zero = false ∧ F32.lt eps (b - det) = false ∧
      F32.lt eps (b + det) = true ∧ I = hit (b + det)) := by
  intro op b disc det eps hit I
  have hI : I = if F32.lt disc F32.zero then Intersection32.NO_INTERSECTION
      else if F32.lt eps (b - det) then hit (b - det)
      else if F32.lt eps (b + det) then hit (b + det)
      else Intersection32.NO_INTERSECTION := by
    show s.Intersect32 sqrt ray = _
    simp only [Sphere.Intersect32, F32_epsilon]
  cases h1 : F32.lt disc F32.zero with
  | true =>
    left
    refine ⟨Or.inl rfl, ?_⟩
    rw [hI, h1]
    rfl
  | false =>
    cases h2 : F32.lt eps (b - det) with
    | true =>
      right; left
      refine ⟨rfl, rfl, ?_⟩
      rw [hI, h1, h2]
      rfl
    | false =>
      cases h3 : F32.lt eps (b + det) with
      | true =>
        right; right
        refine ⟨rfl, rfl, rfl, ?_⟩
        rw [hI, h1, h2, h3]
        rfl
      | false =>
        left
        refine ⟨Or.inr ⟨rfl, rfl⟩, ?_⟩
        rw [hI, h1, h2, h3]
        rfl

/-! ## Claim C1 -/

/-- C1 as stated fails in binary32.  For the unit sphere at the origin and the ray from
`(1.25, 0, -8192.5)` along the unit vector `(0,0,1)` no `t` puts `o + t*d` on the sphere
(the ray passes at distance `1.25` from the centre), yet `Sphere::Intersect` returns the
distance `8191.5` with hit position `(1.25, 0, -1)`: the squares `8192.5^2` in `b*b` and in
`op.Dot(op)` round to the same float, so the discriminant computes to `r*r = 1`.  And for
the ray through the centre from `(0, 0, -2^27)`, with `k = 2^27 > r + 0.015`, the distance
returned is `2^27`, not `k - r = 2^27 - 1`. -/
theorem Sphere_Intersect32_cancellation_counterexample :
    (F32.ofRatio 5 4).toRat = 5 / 4 ∧ (F32.neg (F32.ofRatio 16385 2)).toRat = -(16385 / 2) ∧
    (¬ ∃ t : ℝ, 15 / 1000 < t ∧
      ((5 / 4 : ℝ) + t * 0 - 0) ^ 2 + (0 + t * 0 - 0) ^ 2 + (-(16385 / 2) + t * 1 - 0) ^ 2 =
        1 ^ 2) ∧
    Sphere.Intersect32 F32.sqrt ⟨1, ⟨0, 0, 0⟩⟩
        ⟨⟨F32.ofRatio 5 4, 0, F32.neg (F32.ofRatio 16385 2)⟩, ⟨0, 0, 1⟩⟩ ≠
      Intersection32.NO_INTERSECTION ∧
    (Sphere.Intersect32 F32.sqrt ⟨1, ⟨0, 0, 0⟩⟩
        ⟨⟨F32.ofRatio 5 4, 0, F32.neg (F32.ofRatio 16385 2)⟩, ⟨0, 0, 1⟩⟩).distance =
      F32.ofRatio 16383 2 ∧
    (Sphere.Intersect32 F32.sqrt ⟨1, ⟨0, 0, 0⟩⟩
        ⟨⟨F32.ofRatio 5 4, 0, F32.neg (F32.ofRatio 16385 2)⟩, ⟨0, 0, 1⟩⟩).intersectionPosition =
      ⟨F32.ofRatio 5 4, 0, F32.neg 1⟩ ∧
    (F32.neg (F32.ofNat (2 ^ 27))).toRat = -(2 ^ 27) ∧
    (Sphere.Intersect32 F32.sqrt ⟨1, ⟨0, 0, 0⟩⟩
        ⟨⟨0, 0, F32.neg (F32.ofNat (2 ^ 27))⟩, ⟨0, 0, 1⟩⟩).distance = F32.ofNat (2 ^ 27) ∧
    (F32.ofNat (2 ^ 27)).toRat ≠ 2 ^ 27 - 1 := by
  have h1 : F32.ofRatio 5 4 = .fin false 10485760 (-23) := by decide
  have h2 : F32.neg (F32.ofRatio 16385 2) = .fin true 8389120 (-10) := by decide
  have h3 : F32.ofNat (2 ^ 27) = .fin false 8388608 4 := by decide
  have h4 : F32.neg (F32.ofNat (2 ^ 27)) = .fin true 8388608 4 := by decide
  refine ⟨?_, ?_, ?_, by decide, by decide, by decide, ?_, by decide, ?_⟩
  · rw [h1]
    norm_num [F32.toRat]
  · rw [h2]
    norm_num [F32.toRat]
  · rintro ⟨t, _, ht⟩
    nlinarith [sq_nonneg (-(16385 / 2 : ℝ) + t * 1 - 0)]
  · rw [h4]
    norm_num [F32.toRat]
  · rw [h3]
    norm_num [F32.toRat]

/-- C1 (amended): in binary32, with `op = c - o`, `b = op.d`,
`disc = b*b - op.op + r*r` and `det = sqrt(disc)` as the code computes them,
`Sphere::Intersect` returns the sentinel exactly when `disc < 0` or neither `b - det` nor
`b + det` exceeds `0.015F`; otherwise it returns as distance `t` the root `b - det` if that
exceeds `0.015F` and else `b + det`, with hit position `o + d*t`; so every returned distance
is `+inf` or greater than `0.015F = 16106127 * 2^-30`, and never NaN. -/
theorem Sphere_Intersect32_contract (sqrt : F32 → F32) (s : Sphere F32) (ray : Ray F32) :
    let op := s.position.sub32 ray.origin
    let b := op.Dot32 ray.direction
    let disc := b * b - op.Dot32 op + s.radius * s.radius
    let det := sqrt disc
    let eps : F32 := .fin false 16106127 (-30)
    let I := s.Intersect32 sqrt ray
    F32.ofRatio 15 1000 = eps ∧
    (I = Intersection32.NO_INTERSECTION ↔
      (F32.lt disc F32.zero = true ∨
        (F32.lt eps (b - det) = false ∧ F32.lt eps (b + det) = false))) ∧
    (I ≠ Intersection32.NO_INTERSECTION →
      I.distance = (if F32.lt eps (b - det) then b - det else b + det) ∧
      I.intersectionPosition = ray.origin.add32 (ray.direction.scale32 I.distance) ∧
      F32.lt eps I.distance = true) ∧
    (I.distance = .pinf ∨ F32.lt eps I.distance = true) ∧
    I.distance ≠ .nan := by
  intro op b disc det eps I
  have hc := Sphere_Intersect32_cases sqrt s ray
  dsimp only at hc
  refine ⟨F32_epsilon, ?_⟩
  rcases hc with ⟨hcond, hI⟩ | ⟨h1, h2, hI⟩ | ⟨h1, h2, h3, hI⟩
  · have hI' : I = Intersection32.NO_INTERSECTION := hI
    refine ⟨⟨fun _ => hcond, fun _ => hI'⟩, fun h => absurd hI' h, ?_, ?_⟩
    · left
      rw [hI']
      rfl
    · rw [hI']
      simp [Intersection32.NO_INTERSECTION]
  · have h2' : F32.lt eps (b - det) = true := h2
    have hI' : I = ⟨b - det,
        ((ray.origin.add32 (ray.direction.scale32 (b - det))).sub32 s.position).Normalize32 sqrt,
        ray.origin.add32 (ray.direction.scale32 (b - det))⟩ := hI
    have hne : I ≠ Intersection32.NO_INTERSECTION := by
      rw [hI']
      exact Intersect32_hit_ne_sentinel sqrt s ray _ h2'
    have hd : I.distance = b - det := by rw [hI']
    refine ⟨⟨fun h => absurd h hne, ?_⟩, fun _ => ⟨?_, ?_, ?_⟩, ?_, ?_⟩
    · rintro (h | ⟨h, _⟩)
      · rw [h1] at h
        exact absurd h (by simp)
      · rw [h2'] at h
        exact absurd h (by simp)
    · rw [hd, h2']
      rfl
    · rw [hI']
    · rw [hd]
      exact h2'
    · right
      rw [hd]
      exact h2'
    · rw [hd]
      intro hn
      rw [hn] at h2'
      simp [F32.lt] at h2'
  · have h2' : F32.lt eps (b - det) = false := h2
    have h3' : F32.lt eps (b + det) = true := h3
    have hI' : I = ⟨b + det,
        ((ray.origin.add32 (ray.direction.scale32 (b + det))).sub32 s.position).Normalize32 sqrt,
        ray.origin.add32 (ray.direction.scale32 (b + det))⟩ := hI
    have hne : I ≠ Intersection32.NO_INTERSECTION := by
      rw [hI']
      exact Intersect32_hit_ne_sentinel sqrt s ray _ h3'
    have hd : I.distance = b + det := by rw [hI']
    refine ⟨⟨fun h => absurd h hne, ?_⟩, fun _ => ⟨?_, ?_, ?_⟩, ?_, ?_⟩
    · rintro (h | ⟨_, h⟩)
      · rw [h1] at h
        exact absurd h (by simp)
      · rw [h3'] at h
        exact absurd h (by simp)
    · rw [hd, h2']
      rfl
    · rw [hI']
    · rw [hd]
      exact h3'
    · right
      rw [hd]
      exact h3'
    · rw [hd]
      intro hn
      rw [hn] at h3'
      simp [F32.lt] at h3'

/-- Witness for C1: the unit sphere at the origin and the ray from `(0,0,-3)` along
`(0,0,1)`; the distance returned is `2`, at `(0,0,-1)`. -/
theorem Sphere_Intersect32_contract_witness :
    Sphere.Intersect32 F32.sqrt ⟨1, ⟨0, 0, 0⟩⟩ ⟨⟨0, 0, F32.neg 3⟩, ⟨0, 0, 1⟩⟩ ≠
      Intersection32.NO_INTERSECTION ∧
    (Sphere.Intersect32 F32.sqrt ⟨1, ⟨0, 0, 0⟩⟩ ⟨⟨0, 0, F32.neg 3⟩, ⟨0, 0, 1⟩⟩).distance = 2 ∧
    (Sphere.Intersect32 F32.sqrt ⟨1, ⟨0, 0, 0⟩⟩
      ⟨⟨0, 0, F32.neg 3⟩, ⟨0, 0, 1⟩⟩).intersectionPosition = ⟨0, 0, F32.neg 1⟩ ∧
    F32.lt (.fin false 16106127 (-30))
      (Sphere.Intersect32 F32.sqrt ⟨1, ⟨0, 0, 0⟩⟩ ⟨⟨0, 0, F32.neg 3⟩, ⟨0, 0, 1⟩⟩).distance = true :=
  ⟨by decide, by decide, by decide,
    ((Sphere_Intersect32_contract F32.sqrt ⟨1, ⟨0, 0, 0⟩⟩
      ⟨⟨0, 0, F32.neg 3⟩, ⟨0, 0, 1⟩⟩).2.2.1 (by decide)).2.2⟩

/-! ## Claim C8 -/

/-- C9 as stated fails in binary32.  For the unit sphere at the origin (`r = 1 > 0`) and
the ray from `(1.25, 0, -8192.5)` along the unit vector `(0,0,1)`, `Sphere::Intersect`
reports a hit at `(1.25, 0, -1)`, which is not on the sphere (`|hit - c|^2 = 2.5625`), and
the normal it returns is not `(hit - c)/r = (1.25, 0, -1)`; the sum of the squares of its
components is near one and not one.  For the
ray from `(0, 0, -2^27)` along `(0,0,1)` the hit reported is the centre and the normal is
`(NaN, NaN, NaN)`. -/
theorem Sphere_Intersect32_normal_counterexample :
    (⟨0, 0, 1⟩ : Vector3f F32).Dot32 ⟨0, 0, 1⟩ = 1 ∧
    Sphere.Intersect32 F32.sqrt ⟨1, ⟨0, 0, 0⟩⟩
        ⟨⟨F32.ofRatio 5 4, 0, F32.neg (F32.ofRatio 16385 2)⟩, ⟨0, 0, 1⟩⟩ =
      ⟨F32.ofRatio 16383 2, ⟨.fin false 13100805 (-24), 0, .fin true 10480644 (-24)⟩,
        ⟨F32.ofRatio 5 4, 0, F32.neg 1⟩⟩ ∧
    (F32.ofRatio 5 4).toRat ^ 2 + (0 : F32).toRat ^ 2 + (F32.neg 1).toRat ^ 2 = 41 / 16 ∧
    (⟨F32.ofRatio 5 4, 0, F32.neg 1⟩ : Vector3f F32).Dot32 ⟨F32.ofRatio 5 4, 0, F32.neg 1⟩ ≠
      1 * 1 ∧
    (⟨.fin false 13100805 (-24), 0, .fin true 10480644 (-24)⟩ : Vector3f F32) ≠
      ⟨F32.ofRatio 5 4 / 1, 0 / 1, F32.neg 1 / 1⟩ ∧
    (F32.fin false 13100805 (-24)).toRat ^ 2 + (0 : F32).toRat ^ 2 +
      (F32.fin true 10480644 (-24)).toRat ^ 2 ≠ 1 ∧
    Sphere.Intersect32 F32.sqrt ⟨1, ⟨0, 0, 0⟩⟩
        ⟨⟨0, 0, F32.neg (F32.ofNat (2 ^ 27))⟩, ⟨0, 0, 1⟩⟩ =
      ⟨F32.ofNat (2 ^ 27), ⟨.nan, .nan, .nan⟩, ⟨0, 0, 0⟩⟩ := by
  have h1 : F32.ofRatio 5 4 = .fin false 10485760 (-23) := by decide
  have h2 : F32.neg 1 = .fin true 8388608 (-23) := by decide
  have h3 : (0 : F32) = .fin false 0 0 := by decide
  refine ⟨by decide, by decide, ?_, by decide, by decide, ?_, by decide⟩
  · rw [h1, h2, h3]
    norm_num [F32.toRat]
  · rw [h3]
    norm_num [F32.toRat]

/-- C9 (amended): in binary32, on every hit that `Sphere::Intersect` reports, the hit
position is `o + d*t` and the normal is `Normalize(hit - centre)`, that is `hit - centre`
multiplied by `1/L` for the computed length `L` of `hit - centre`; it is
`(hit - centre) * (1/r)` when `L` computes to `r`, and `(NaN, NaN, NaN)` when the hit
computes to the centre.  The normal has unit length up to rounding: when the components of
`hit - centre` are stored floats, each zero or of magnitude from `2^-60` to `2^60` and not
all zero, and the library square root returns for their squared length a stored positive
float whose square is within the fraction `2^-20` of it, the sum of the squares of the
components of the normal is within `2^-19` of one. -/
theorem Sphere_Intersect32_normal (sqrt : F32 → F32) (s : Sphere F32) (ray : Ray F32)
    (hhit : s.Intersect32 sqrt ray ≠ Intersection32.NO_INTERSECTION) :
    let I := s.Intersect32 sqrt ray
    let v := I.intersectionPosition.sub32 s.position
    I.intersectionPosition = ray.origin.add32 (ray.direction.scale32 I.distance) ∧
    I.normal = v.scale32 (F32.ofNat 1 / v.Length32 sqrt) ∧
    (v.Length32 sqrt = s.radius → I.normal = v.scale32 (F32.ofNat 1 / s.radius)) ∧
    (v = ⟨F32.zero, F32.zero, F32.zero⟩ → sqrt F32.zero = F32.zero →
      I.normal = ⟨.nan, .nan, .nan⟩) ∧
    ((∀ c ∈ [v.x, v.y, v.z], c.isStored = true ∧
        (c.toRat = 0 ∨ (1 / 2 ^ 60 ≤ |c.toRat| ∧ |c.toRat| ≤ 2 ^ 60))) →
      (v.x.toRat ≠ 0 ∨ v.y.toRat ≠ 0 ∨ v.z.toRat ≠ 0) →
      (v.Length32 sqrt).isStored = true → 0 < (v.Length32 sqrt).toRat →
      |(v.Length32 sqrt).toRat ^ 2 - (v.Dot32 v).toRat| ≤ (v.Dot32 v).toRat / 2 ^ 20 →
      |I.normal.x.toRat ^ 2 + I.normal.y.toRat ^ 2 + I.normal.z.toRat ^ 2 - 1| ≤ 1 / 2 ^ 19) := by
  intro I v
  have hc := Sphere_Intersect32_cases sqrt s ray
  dsimp only at hc
  have key : I.intersectionPosition = ray.origin.add32 (ray.direction.scale32 I.distance) ∧
      I.normal = v.scale32 (F32.ofNat 1 / v.Length32 sqrt) := by
    rcases hc with ⟨_, hI⟩ | ⟨_, _, hI⟩ | ⟨_, _, _, hI⟩
    · exact absurd hI hhit
    · have hI' : I = ⟨_, _, _⟩ := hI
      have hv : v = I.intersectionPosition.sub32 s.position := rfl
      rw [hv, hI']
      exact ⟨rfl, rfl⟩
    · have hI' : I = ⟨_, _, _⟩ := hI
      have hv : v = I.intersectionPosition.sub32 s.position := rfl
      rw [hv, hI']
      exact ⟨rfl, rfl⟩
  refine ⟨key.1, key.2, fun h => ?_, fun h h0 => ?_, fun hcomp hne hL hLpos hLerr => ?_⟩
  · rw [key.2, h]
  · rw [key.2, h]
    have hL : (⟨F32.zero, F32.zero, F32.zero⟩ : Vector3f F32).Length32 sqrt = F32.zero := by
      have : F32.zero + F32.zero * F32.zero + F32.zero * F32.zero + F32.zero * F32.zero =
          F32.zero := by decide
      simp only [Vector3f.Length32, this, h0]
    rw [hL]
    decide
  · have hn : I.normal = v.Normalize32 sqrt := key.2
    rw [hn]
    exact (Normalize32_unit sqrt v (hcomp v.x (by simp)) (hcomp v.y (by simp))
      (hcomp v.z (by simp)) hne hL hLpos hLerr).2.2.2

/-- Witness for C9: the unit sphere at the origin.  The ray from `(0,0,-3)` along `(0,0,1)`
hits at `(0,0,-1)` with the normal `(0,0,-1)`.  The ray from `(0.5, 0.25, -3)` along
`(0,0,1)` hits with `hit - centre = (0.5, 0.25, -0.8291538)`, whose length computes to
`1 - 2^-24`; the normal is `(0.50000006, 0.25000003, -0.8291539)` and the sum of the squares
of its components is within `2^-19` of one. -/
theorem Sphere_Intersect32_normal_witness :
    (Sphere.Intersect32 F32.sqrt ⟨1, ⟨0, 0, 0⟩⟩ ⟨⟨0, 0, F32.neg 3⟩, ⟨0, 0, 1⟩⟩).normal =
      (⟨0, 0, F32.neg 1⟩ : Vector3f F32).scale32 (F32.ofNat 1 / 1) ∧
    (Sphere.Intersect32 F32.sqrt ⟨1, ⟨0, 0, 0⟩⟩ ⟨⟨0, 0, F32.neg 3⟩, ⟨0, 0, 1⟩⟩).normal =
      ⟨0, 0, F32.neg 1⟩ ∧
    (Sphere.Intersect32 F32.sqrt ⟨1, ⟨0, 0, 0⟩⟩
        ⟨⟨F32.ofRatio 1 2, F32.ofRatio 1 4, F32.neg 3⟩, ⟨0, 0, 1⟩⟩).normal =
      ⟨.fin false 8388609 (-24), .fin false 8388609 (-25), .fin true 13910934 (-24)⟩ ∧
    |(F32.fin false 8388609 (-24)).toRat ^ 2 + (F32.fin false 8388609 (-25)).toRat ^ 2 +
      (F32.fin true 13910934 (-24)).toRat ^ 2 - 1| ≤ 1 / 2 ^ 19 := by
  have hn : (Sphere.Intersect32 F32.sqrt ⟨1, ⟨0, 0, 0⟩⟩
      ⟨⟨F32.ofRatio 1 2, F32.ofRatio 1 4, F32.neg 3⟩, ⟨0, 0, 1⟩⟩).normal =
      ⟨.fin false 8388609 (-24), .fin false 8388609 (-25), .fin true 13910934 (-24)⟩ := by
    decide
  have hv : (Sphere.Intersect32 F32.sqrt ⟨1, ⟨0, 0, 0⟩⟩
      ⟨⟨F32.ofRatio 1 2, F32.ofRatio 1 4, F32.neg 3⟩, ⟨0, 0, 1⟩⟩).intersectionPosition.sub32
      (⟨0, 0, 0⟩ : Vector3f F32) =
      ⟨.fin false 8388608 (-24), .fin false 8388608 (-25), .fin true 13910932 (-24)⟩ := by
    decide
  have hlen : (⟨.fin false 8388608 (-24), .fin false 8388608 (-25),
      .fin true 13910932 (-24)⟩ : Vector3f F32).Length32 F32.sqrt =
      .fin false 16777215 (-24) := by decide
  have hdot : (⟨.fin false 8388608 (-24), .fin false 8388608 (-25),
      .fin true 13910932 (-24)⟩ : Vector3f F32).Dot32 ⟨.fin false 8388608 (-24),
      .fin false 8388608 (-25), .fin true 13910932 (-24)⟩ = .fin false 16777215 (-24) := by
    decide
  have h := (Sphere_Intersect32_normal F32.sqrt ⟨1, ⟨0, 0, 0⟩⟩
    ⟨⟨F32.ofRatio 1 2, F32.ofRatio 1 4, F32.neg 3⟩, ⟨0, 0, 1⟩⟩ (by decide)).2.2.2.2
  simp only [hv, hlen, hdot, hn] at h
  refine ⟨(Sphere_Intersect32_normal F32.sqrt ⟨1, ⟨0, 0, 0⟩⟩
    ⟨⟨0, 0, F32.neg 3⟩, ⟨0, 0, 1⟩⟩ (by decide)).2.2.1 (by decide), by decide, hn, ?_⟩
  apply h
  · intro c hc
    simp only [List.mem_cons, List.mem_singleton, List.not_mem_nil, or_false] at hc
    rcases hc with rfl | rfl | rfl
    · refine ⟨by decide, Or.inr ?_⟩
      rw [F32_toRat_abs]
      norm_num
    · refine ⟨by decide, Or.inr ?_⟩
      rw [F32_toRat_abs]
      norm_num
    · refine ⟨by decide, Or.inr ?_⟩
      rw [F32_toRat_abs]
      norm_num
  · left
    norm_num [F32.toRat]
  · decide
  · norm_num [F32.toRat]
  · rw [abs_le]
    constructor <;> norm_num [F32.toRat]

/-! ## Claim C34 -/

/-- The float literal `0.0001F`. -/
theorem F32_float_eq_bound : F32.ofRatio 1 10000 = .fin false 13743895 (-37) := by decide

/-- The template `FLOAT_EQ` is false when an argument is infinite. -/
theorem FLOAT_EQ32_inf (x y : F32) (h : x.isinf = true ∨ y.isinf = true) :
    FLOAT_EQ32 x y = false := by
  simp only [FLOAT_EQ32, F32_float_eq_bound, F32_sub_def]
  rcases h with h | h
  · cases x <;> simp [F32.isinf] at h <;> cases y <;>
      first
        | (simp [F32.lt, F32.add, F32.neg]; done)
        | (simp [F32.lt, F32.add, F32.neg]; split_ifs <;> simp [F32.add, F32.lt])
  · cases y <;> simp [F32.isinf] at h <;> cases x <;>
      first
        | (simp [F32.lt, F32.add, F32.neg]; done)
        | (simp [F32.lt, F32.add, F32.neg]; split_ifs <;> simp [F32.add, F32.lt])

/-- The template `FLOAT_EQ` holds of a finite float and itself. -/
theorem FLOAT_EQ32_self (neg : Bool) (m : Nat) (e : Int) :
    FLOAT_EQ32 (.fin neg m e) (.fin neg m e) = true := by
  have hlt : F32.lt (.fin neg m e) (.fin neg m e) = false := by
    simp [F32.lt]
  simp only [FLOAT_EQ32, hlt, Bool.false_eq_true, if_false, F32_sub_self]
  decide

/-- The template `FLOAT_EQ` holds only of two finite floats. -/
theorem FLOAT_EQ32_finite (x y : F32) (h : FLOAT_EQ32 x y = true) :
    (∃ n m e, x = .fin n m e) ∧ ∃ n m e, y = .fin n m e := by
  have hx : ∀ z : F32, z ≠ .nan → z.isinf = false → ∃ n m e, z = .fin n m e := by
    intro z h1 h2
    cases z with
    | nan => exact absurd rfl h1
    | ninf => simp [F32.isinf] at h2
    | pinf => simp [F32.isinf] at h2
    | fin n m e => exact ⟨n, m, e, rfl⟩
  have hnx : x ≠ .nan := by
    intro hn
    rw [hn, (FLOAT_EQ32_nan y).1] at h
    exact absurd h (by simp)
  have hny : y ≠ .nan := by
    intro hn
    rw [hn, (FLOAT_EQ32_nan x).2] at h
    exact absurd h (by simp)
  have hix : x.isinf = false := by
    cases hi : x.isinf with
    | false => rfl
    | true =>
      rw [FLOAT_EQ32_inf x y (Or.inl hi)] at h
      exact absurd h (by simp)
  have hiy : y.isinf = false := by
    cases hi : y.isinf with
    | false => rfl
    | true =>
      rw [FLOAT_EQ32_inf x y (Or.inr hi)] at h
      exact absurd h (by simp)
  exact ⟨hx x hnx hix, hx y hny hiy⟩

/-- The template `FLOAT_EQ` on stored finite floats: it holds exactly when the values
differ by at most `27487789 * 2^-38`, half a unit in the last place below `0.0001F`. -/
theorem FLOAT_EQ32_iff (x y : F32) (hx : x.isStored = true) (hy : y.isStored = true) :
    FLOAT_EQ32 x y = true ↔ |x.toRat - y.toRat| ≤ 27487789 / 274877906944 := by
  cases x with
  | nan => simp [F32.isStored] at hx
  | ninf => simp [F32.isStored] at hx
  | pinf => simp [F32.isStored] at hx
  | fin n1 m1 e1 =>
    cases y with
    | nan => simp [F32.isStored] at hy
    | ninf => simp [F32.isStored] at hy
    | pinf => simp [F32.isStored] at hy
    | fin n2 m2 e2 =>
      simp only [F32.isStored, decide_eq_true_eq] at hx hy
      simp only [FLOAT_EQ32, F32_float_eq_bound]
      by_cases hlt : F32.lt (.fin n2 m2 e2) (.fin n1 m1 e1) = true
      · rw [if_pos hlt]
        have hval := (F32_lt_iff _ _ _ _ _ _).mp hlt
        obtain ⟨S, q, hsub, hS, hsize⟩ := F32_sub_stored n1 m1 e1 n2 m2 e2 hx.1 hx.2 hy.1 hy.2
        have hqpos : (0 : ℚ) < (2 : ℚ) ^ q := zpow_pos (by norm_num) _
        have hSpos : 0 < S := by
          have : (0 : ℚ) < (S : ℚ) * 2 ^ q := by rw [hS]; linarith
          have := (mul_pos_iff_of_pos_right hqpos).mp this
          exact_mod_cast this
        have hd : decide (S < 0) = false := by simpa using hSpos.le
        have hnat : ((S.natAbs : Nat) : ℚ) = (S : ℚ) := by
          rw [← Int.cast_natCast, Int.natAbs_of_nonneg hSpos.le]
        rw [hsub, hd, F32_round_lt_bound _ _ hsize, hnat, hS, abs_of_pos (by linarith)]
      · rw [if_neg hlt]
        have hval : ¬ (F32.fin n2 m2 e2).toRat < (F32.fin n1 m1 e1).toRat :=
          fun h => hlt ((F32_lt_iff _ _ _ _ _ _).mpr h)
        obtain ⟨S, q, hsub, hS, hsize⟩ := F32_sub_stored n2 m2 e2 n1 m1 e1 hy.1 hy.2 hx.1 hx.2
        have hqpos : (0 : ℚ) < (2 : ℚ) ^ q := zpow_pos (by norm_num) _
        have hSnn : 0 ≤ S := by
          have : (0 : ℚ) ≤ (S : ℚ) * 2 ^ q := by rw [hS]; linarith
          have := nonneg_of_mul_nonneg_left this hqpos
          exact_mod_cast this
        have hd : decide (S < 0) = false := by simpa using hSnn
        have hnat : ((S.natAbs : Nat) : ℚ) = (S : ℚ) := by
          rw [← Int.cast_natCast, Int.natAbs_of_nonneg hSnn]
        rw [hsub, hd, F32_round_lt_bound _ _ hsize, hnat, hS, abs_sub_comm,
          abs_of_nonneg (by linarith)]

/-- C34 as stated fails for float vectors in binary32: the components of
`(0.0001F, 0, 0)` and `(0, 0, 0)` differ by `0.0001F = 13743895 * 2^-37`, `0` and `0`,
each less than `0.0001` in absolute value, yet `operator==` returns false, because the
bound of `FLOAT_EQ` is the float `0.0001F` itself. -/
theorem Vector_eq32_literal_counterexample :
    F32.ofRatio 1 10000 = .fin false 13743895 (-37) ∧
    |(F32.ofRatio 1 10000).toRat - (0 : F32).toRat| < 1 / 10000 ∧
    |(0 : F32).toRat - (0 : F32).toRat| < 1 / 10000 ∧
    Vector.eqFloat32 [F32.ofRatio 1 10000, 0, 0] [0, 0, 0] = false ∧
    Vector3f.eq32 ⟨F32.ofRatio 1 10000, 0, 0⟩ ⟨0, 0, 0⟩ = false := by
  have h1 := F32_float_eq_bound
  have h3 : (0 : F32) = .fin false 0 0 := by decide
  refine ⟨h1, ?_, ?_, by decide, by decide⟩
  · rw [h1, h3]
    norm_num [F32.toRat, abs_lt]
  · simp

/-- C34 (amended): in binary32, for float vectors of equal size `a == b` holds exactly
when for every pair of corresponding components the difference `(a>b ? a-b : b-a)`,
rounded to binary32, is less than the float `0.0001F = 13743895 * 2^-37`; for components
that are finite floats this is: the two values differ by at most `27487789 * 2^-38`, half
a unit in the last place below `0.0001F` (so also for `Vector3f`); a pair with a NaN or an
infinite component never compares equal; for vectors of any other element type `a == b`
holds exactly when all components are equal; and `a != b` is the negation of `a == b`. -/
theorem Vector_eq32_spec :
    (∀ a b : List F32, a.length = b.length →
      (Vector.eqFloat32 a b = true ↔
        ∀ (i : Nat) (x y : F32), a[i]? = some x → b[i]? = some y →
          F32.lt (if F32.lt y x then x - y else y - x) (.fin false 13743895 (-37)) = true)) ∧
    F32.ofRatio 1 10000 = .fin false 13743895 (-37) ∧
    (∀ a b : List F32, a.length = b.length →
      (∀ x ∈ a, x.isStored = true) → (∀ y ∈ b, y.isStored = true) →
      (Vector.eqFloat32 a b = true ↔
        ∀ (i : Nat) (x y : F32), a[i]? = some x → b[i]? = some y →
          |x.toRat - y.toRat| ≤ 27487789 / 274877906944)) ∧
    (∀ a b : List F32, a.length = b.length → Vector.eqFloat32 a b = true →
      ∀ (i : Nat) (x y : F32), a[i]? = some x → b[i]? = some y →
        (∃ n m e, x = .fin n m e) ∧ ∃ n m e, y = .fin n m e) ∧
    (∀ a b : Vector3f F32, a.eq32 b = Vector.eqFloat32 [a.x, a.y, a.z] [b.x, b.y, b.z]) ∧
    (∀ a b : List Int, a.length = b.length → (Vector.eqExact a b = true ↔ a = b)) ∧
    (∀ a b : List Nat, a.length = b.length → (Vector.eqExact a b = true ↔ a = b)) ∧
    (∀ a b : List F32, Vector.neFloat32 a b = !(Vector.eqFloat32 a b)) ∧
    (∀ a b : List Int, Vector.neExact a b = !(Vector.eqExact a b)) ∧
    (∀ a b : Vector3f F32, a.ne32 b = !(a.eq32 b)) := by
  have hlit := F32_float_eq_bound
  have hexact : ∀ (T : Type) [DecidableEq T] (a b : List T), a.length = b.length →
      (Vector.eqExact a b = true ↔ a = b) := by
    intro T _ a b hlen
    rw [Vector.eqExact, Vector_eq_iff _ a b hlen]
    constructor
    · intro h
      apply List.ext_getElem?
      intro i
      by_cases hi : i < a.length
      · have hi' : i < b.length := hlen ▸ hi
        have := h i a[i] b[i] (List.getElem?_eq_getElem hi) (List.getElem?_eq_getElem hi')
        rw [List.getElem?_eq_getElem hi, List.getElem?_eq_getElem hi']
        simpa using this
      · rw [List.getElem?_eq_none (by omega), List.getElem?_eq_none (by omega)]
    · intro h i x y hx hy
      rw [h, hy] at hx
      simpa using hx.symm
  refine ⟨?_, hlit, ?_, ?_, fun _ _ => rfl, hexact Int, hexact Nat,
    fun _ _ => rfl, fun _ _ => rfl, fun _ _ => rfl⟩
  · intro a b hlen
    rw [Vector.eqFloat32, Vector_eq_iff _ a b hlen]
    simp only [FLOAT_EQ32, hlit]
  · intro a b hlen ha hb
    rw [Vector.eqFloat32, Vector_eq_iff _ a b hlen]
    constructor
    · intro h i x y hx hy
      exact (FLOAT_EQ32_iff x y (ha x (List.getElem?_mem hx)) (hb y (List.getElem?_mem hy))).mp
        (h i x y hx hy)
    · intro h i x y hx hy
      exact (FLOAT_EQ32_iff x y (ha x (List.getElem?_mem hx)) (hb y (List.getElem?_mem hy))).mpr
        (h i x y hx hy)
  · intro a b hlen h i x y hx hy
    rw [Vector.eqFloat32, Vector_eq_iff _ a b hlen] at h
    exact FLOAT_EQ32_finite x y (h i x y hx hy)

/-- Witness for C34: `Vector3f(1.00001F, 1.00001F, 1.00001F) == Vector3f(1, 1, 1)` holds,
so the values of the first components differ by at most `27487789 * 2^-38`;
`Vector3f(1.001F, 1, 1) == Vector3f(1, 1, 1)` does not hold; integer vectors compare
exactly. -/
theorem Vector_eq32_spec_witness :
    |(F32.ofRatio 100001 100000).toRat - (1 : F32).toRat| ≤ 27487789 / 274877906944 ∧
    Vector.eqFloat32 [F32.ofRatio 1001 1000, 1, 1] [1, 1, 1] = false ∧
    (Vector.eqExact [(1 : Int), 2] [1, 2] = true) :=
  ⟨(Vector_eq32_spec.2.2.1 [F32.ofRatio 100001 100000, F32.ofRatio 100001 100000,
      F32.ofRatio 100001 100000] [1, 1, 1] rfl (by decide) (by decide)).mp (by decide) 0 _ _
        rfl rfl, by decide,
    (Vector_eq32_spec.2.2.2.2.2.1 [1, 2] [1, 2] rfl).mpr rfl⟩

/-! ## Renderer::SampleLight in binary32 -/

/-- The sentinel equals itself under `Intersection::operator==`. -/
theorem Intersection32_sentinel_eq :
    Intersection32.NO_INTERSECTION.eq Intersection32.NO_INTERSECTION = true := by decide

/-- The loop of `ClosestIntersection` leaves the pair it started from or the intersection
and the index of one of the primitives. -/
theorem ClosestIntersectionLoop32_cases (sqrt : F32 → F32) (r : Ray F32) :
    ∀ (prims : List (ScenePrimative F32)) (i : Nat) (best : Intersection32 × Nat),
      ClosestIntersectionLoop32 sqrt r prims i best = best ∨
      ∃ j p, prims[j]? = some p ∧
        ClosestIntersectionLoop32 sqrt r prims i best = (p.Intersect32 sqrt r, i + j) := by
  intro prims
  induction prims with
  | nil => intro i best; exact Or.inl rfl
  | cons q qs ih =>
    intro i best
    obtain ⟨bestIntersection, primativeId⟩ := best
    simp only [ClosestIntersectionLoop32]
    split_ifs with hlt
    · rcases ih (i + 1) (q.Intersect32 sqrt r, i) with h | ⟨j, p, hj, h⟩
      · exact Or.inr ⟨0, q, List.getElem?_cons_zero, by rw [h]; rfl⟩
      · exact Or.inr ⟨j + 1, p, by simpa using hj, by rw [h]; congr 1; omega⟩
    · rcases ih (i + 1) (bestIntersection, primativeId) with h | ⟨j, p, hj, h⟩
      · exact Or.inl h
      · exact Or.inr ⟨j + 1, p, by simpa using hj, by rw [h]; congr 1; omega⟩

/-- The query `ClosestIntersection` returns the sentinel with index `0` or the intersection
and the index of one of the primitives. -/
theorem ClosestIntersection32_cases (sqrt : F32 → F32) (r : Ray F32)
    (prims : List (ScenePrimative F32)) :
    ClosestIntersection32 sqrt r prims = (Intersection32.NO_INTERSECTION, 0) ∨
    ∃ j p, prims[j]? = some p ∧
      ClosestIntersection32 sqrt r prims = (p.Intersect32 sqrt r, j) := by
  rcases ClosestIntersectionLoop32_cases sqrt r prims 0 (Intersection32.NO_INTERSECTION, 0)
    with h | ⟨j, p, hj, h⟩
  · exact Or.inl h
  · exact Or.inr ⟨j, p, hj, by rw [ClosestIntersection32, h]; congr 1; omega⟩

/-- One iteration of the loop of `SampleLight` either returns the colour accumulated so
far, or continues one level deeper from a hit on one of the primitives, with the emission
of its material, weighted by the reflectance, added to the colour; unless the material
refracts, the reflectance is multiplied by its colour. -/
theorem SampleLightBody32_cases (m : MathOps32) (prims : List (ScenePrimative F32))
    (mats : List (Material F32)) (st : PathState F32) :
    SampleLightBody32 m prims mats st = .ret st.accumulatedColor st.seed ∨
    ∃ st' p, p ∈ prims ∧ SampleLightBody32 m prims mats st = .next st' ∧
      st.depth + 1 ≤ 7 ∧ st'.depth = st.depth + 1 ∧
      st'.accumulatedColor = st.accumulatedColor.add32
        (st.accumulatedReflectance.Multiply32
          (mats.getD p.materialId Material.default32).emission) ∧
      ((mats.getD p.materialId Material.default32).materialType ≠ .REFRACTION →
        st'.accumulatedReflectance = st.accumulatedReflectance.Multiply32
          (mats.getD p.materialId Material.default32).color) := by
  by_cases hmiss : (ClosestIntersection32 m.sqrt st.r prims).1.eq
      Intersection32.NO_INTERSECTION = true
  · left
    unfold SampleLightBody32
    dsimp only
    rw [if_pos hmiss]
  by_cases hdeep : st.depth + 1 > 7
  · left
    unfold SampleLightBody32
    dsimp only
    rw [if_neg hmiss, if_pos hdeep]
  right
  rcases ClosestIntersection32_cases m.sqrt st.r prims with h | ⟨j, p, hj, h⟩
  · rw [h] at hmiss
    exact absurd Intersection32_sentinel_eq hmiss
  · have hp : prims.getD (ClosestIntersection32 m.sqrt st.r prims).2
        ⟨⟨F32.zero, ⟨F32.zero, F32.zero, F32.zero⟩⟩, 0⟩ = p := by
      rw [h, List.getD_eq_getElem?_getD, hj]
      rfl
    have hmem : p ∈ prims := List.getElem?_mem hj
    have hd : st.depth + 1 ≤ 7 := by omega
    unfold SampleLightBody32
    dsimp only
    rw [if_neg hmiss, if_neg hdeep, hp]
    split
    · exact ⟨_, p, hmem, rfl, hd, rfl, rfl, fun _ => rfl⟩
    · exact ⟨_, p, hmem, rfl, hd, rfl, rfl, fun _ => rfl⟩
    · rename_i hty
      exact ⟨_, p, hmem, rfl, hd, rfl, rfl, fun hne => absurd hty hne⟩

/-- With at least one unit of fuel and `fuel + depth ≥ 8` the loop returns. -/
theorem SampleLightLoop32_returns (m : MathOps32) (prims : List (ScenePrimative F32))
    (mats : List (Material F32)) :
    ∀ (fuel : Nat) (st : PathState F32), 1 ≤ fuel → 8 ≤ fuel + st.depth →
      ∃ res, SampleLightLoop32 m prims mats fuel st = some res := by
  intro fuel
  induction fuel with
  | zero => intro st h; omega
  | succ fuel ih =>
    intro st _ h8
    rcases SampleLightBody32_cases m prims mats st with hb | ⟨st', p, _, hb, h1, h2, _⟩
    · exact ⟨(st.accumulatedColor, st.seed), by simp [SampleLightLoop32, hb]⟩
    · obtain ⟨res, hres⟩ := ih st' (by omega) (by omega)
      exact ⟨res, by simp [SampleLightLoop32, hb, hres]⟩

/-- The product of a finite float and zero is zero. -/
theorem F32_mul_zero (x : F32) (hx : x.isFinite = true) : x * F32.zero = F32.zero := by
  cases x with
  | fin n m e =>
    show F32.mul (.fin n m e) (.fin false 0 0) = F32.zero
    simp only [F32.mul, Nat.mul_zero]
    exact F32_round_zero _ _ _
  | nan => simp [F32.isFinite] at hx
  | ninf => simp [F32.isFinite] at hx
  | pinf => simp [F32.isFinite] at hx

/-- The product of zero and a finite float is zero. -/
theorem F32_zero_mul (x : F32) (hx : x.isFinite = true) : F32.zero * x = F32.zero := by
  cases x with
  | fin n m e =>
    show F32.mul (.fin false 0 0) (.fin n m e) = F32.zero
    simp only [F32.mul, Nat.zero_mul]
    exact F32_round_zero _ _ _
  | nan => simp [F32.isFinite] at hx
  | ninf => simp [F32.isFinite] at hx
  | pinf => simp [F32.isFinite] at hx

/-- Zero plus zero is zero. -/
theorem F32_zero_add_zero : F32.zero + F32.zero = F32.zero := by decide

/-- A colour that is black stays black when a finite reflectance times no emission is
added to it. -/
theorem black_add_finite_mul_black (refl : Color F32) (h : refl.isFinite32 = true) :
    (⟨F32.zero, F32.zero, F32.zero⟩ : Color F32).add32
      (refl.Multiply32 ⟨F32.zero, F32.zero, F32.zero⟩) = ⟨F32.zero, F32.zero, F32.zero⟩ := by
  simp only [Vector3f.isFinite32, Bool.and_eq_true] at h
  obtain ⟨⟨hx, hy⟩, hz⟩ := h
  simp only [Vector3f.add32, Vector3f.Multiply32, F32_mul_zero _ hx, F32_mul_zero _ hy,
    F32_mul_zero _ hz, F32_zero_add_zero]

/-- Without emission on the primitives' materials the accumulated colour stays black
through the loop as long as the reflectance is finite on entry to every iteration. -/
theorem SampleLightLoop32_black (m : MathOps32) (prims : List (ScenePrimative F32))
    (mats : List (Material F32))
    (hzero : ∀ p ∈ prims, (mats.getD p.materialId Material.default32).emission =
      ⟨F32.zero, F32.zero, F32.zero⟩) :
    ∀ (fuel : Nat) (st : PathState F32) (res : Color F32 × RenderRandomSeed),
      st.accumulatedColor = ⟨F32.zero, F32.zero, F32.zero⟩ →
      (∀ s ∈ SampleLightTrace32 m prims mats fuel st,
        s.accumulatedReflectance.isFinite32 = true) →
      SampleLightLoop32 m prims mats fuel st = some res →
      res.1 = ⟨F32.zero, F32.zero, F32.zero⟩ := by
  intro fuel
  induction fuel with
  | zero => intro st res _ _ h; simp [SampleLightLoop32] at h
  | succ fuel ih =>
    intro st res hacc hfin h
    rcases SampleLightBody32_cases m prims mats st with hb | ⟨st', p, hp, hb, _, _, h3, _⟩
    · simp only [SampleLightLoop32, hb, Option.some.injEq] at h
      rw [← h]
      exact hacc
    · simp only [SampleLightLoop32, hb] at h
      have htr : SampleLightTrace32 m prims mats (fuel + 1) st =
          st :: SampleLightTrace32 m prims mats fuel st' := by
        simp only [SampleLightTrace32, hb]
      rw [htr] at hfin
      apply ih st' res _ (fun s hs => hfin s (List.mem_cons_of_mem _ hs)) h
      rw [h3, hacc, hzero p hp]
      exact black_add_finite_mul_black _ (hfin st (List.mem_cons_self _ _))

/-- The sum of a black accumulator and a black sample scaled by a finite factor is black. -/
theorem black_add_black_scale (inv : F32) (h : inv.isFinite = true) :
    (⟨F32.zero, F32.zero, F32.zero⟩ : Color F32).add32
      ((⟨F32.zero, F32.zero, F32.zero⟩ : Color F32).scale32 inv) =
      ⟨F32.zero, F32.zero, F32.zero⟩ := by
  simp only [Vector3f.add32, Vector3f.scale32, F32_zero_mul _ h, F32_zero_add_zero]

/-- When every estimate is black, the sample loop of the kernel leaves a black accumulator
black. -/
theorem SampleLoop32_black (m : MathOps32) (prims : List (ScenePrimative F32))
    (mats : List (Material F32)) (fuel : Nat) (r : Ray F32) (spp : Nat)
    (hsl : ∀ seed, ∃ seed', SampleLight32 m fuel r prims mats seed =
      some (⟨F32.zero, F32.zero, F32.zero⟩, seed'))
    (hinv : ((1 : F32) / F32.ofNat spp).isFinite = true) :
    ∀ (remaining : Nat) (seed : RenderRandomSeed),
      ∃ seed', SampleLoop32 m fuel r prims mats spp remaining
        ⟨F32.zero, F32.zero, F32.zero⟩ seed = some (⟨F32.zero, F32.zero, F32.zero⟩, seed') := by
  intro remaining
  induction remaining with
  | zero => intro seed; exact ⟨seed, rfl⟩
  | succ remaining ih =>
    intro seed
    obtain ⟨seed1, h1⟩ := hsl seed
    obtain ⟨seed2, h2⟩ := ih seed1
    refine ⟨seed2, ?_⟩
    simp only [SampleLoop32, h1]
    rw [black_add_black_scale _ hinv, h2]

/-- The black colour is written as the black pixel, for a `pow` with `pow(0, 1/2.2F) = 0`. -/
theorem Pixel_black32 (pow : F32 → F32 → F32)
    (hpow : pow F32.zero (1 / F32.ofRatio 22 10) = F32.zero) :
    Pixel.ofColor32 ⟨F32.zero, F32.zero, F32.zero⟩ = some ⟨0, 0, 0⟩ ∧
    Pixel.GammaCorrect32 pow ⟨0, 0, 0⟩ = some ⟨0, 0, 0⟩ := by
  have h0 : F32.ofNat 0 / 255 = F32.zero := by decide
  have hg : gamma32 pow 0 = some 0 := by
    simp only [gamma32, h0, hpow]
    decide
  refine ⟨by decide, ?_⟩
  simp only [Pixel.GammaCorrect32, hg]

/-- When every estimate is black, every work item writes the black pixel. -/
theorem RenderKernel32_black (m : MathOps32) (prims : List (ScenePrimative F32))
    (mats : List (Material F32)) (fuel : Nat)
    (hsl : ∀ r seed, ∃ seed', SampleLight32 m fuel r prims mats seed =
      some (⟨F32.zero, F32.zero, F32.zero⟩, seed'))
    (hpow : m.pow F32.zero (1 / F32.ofRatio 22 10) = F32.zero)
    (cam : Camera F32) (spp w h : Nat) (hspp : spp < 2 ^ 32) (id : Nat) :
    ∃ slot, RenderKernel32 m fuel prims mats cam spp w h id = some (slot, ⟨0, 0, 0⟩) := by
  obtain ⟨hp1, hp2⟩ := Pixel_black32 m.pow hpow
  have hloop : ∃ seed', SampleLoop32 m fuel
      (cam.GenerateLookForPixel32 m.sqrt (id % w) (id / w) w h) prims mats spp spp
      ⟨F32.zero, F32.zero, F32.zero⟩ ⟨id % w, id / w⟩ =
        some (⟨F32.zero, F32.zero, F32.zero⟩, seed') := by
    rcases Nat.eq_zero_or_pos spp with h0 | hpos
    · subst h0
      exact ⟨_, rfl⟩
    · exact SampleLoop32_black m prims mats fuel _ spp (hsl _)
        (F32_inv_ofNat_finite spp hpos hspp) spp _
  obtain ⟨seed', hs⟩ := hloop
  refine ⟨id / w * w + id % w, ?_⟩
  simp only [RenderKernel32, hs, hp1, hp2]

/-- The work items keep an all-black buffer all-black when each writes a black pixel. -/
theorem RenderItems32_black (m : MathOps32) (fuel : Nat) (prims : List (ScenePrimative F32))
    (mats : List (Material F32)) (cam : Camera F32) (spp w h : Nat)
    (hk : ∀ id, ∃ slot, RenderKernel32 m fuel prims mats cam spp w h id =
      some (slot, ⟨0, 0, 0⟩)) :
    ∀ (count id : Nat) (pixels : List Pixel), (∀ p ∈ pixels, p = ⟨0, 0, 0⟩) →
      ∃ out, RenderItems32 m fuel prims mats cam spp w h count id pixels = some out ∧
        out.length = pixels.length ∧ ∀ p ∈ out, p = ⟨0, 0, 0⟩ := by
  intro count
  induction count with
  | zero => intro id pixels hp; exact ⟨pixels, rfl, rfl, hp⟩
  | succ count ih =>
    intro id pixels hp
    obtain ⟨slot, hslot⟩ := hk id
    obtain ⟨out, h1, h2, h3⟩ := ih (id + 1) (pixels.set slot ⟨0, 0, 0⟩) (by
      intro p hp'
      rcases List.mem_or_eq_of_mem_set hp' with h | h
      · exact hp p h
      · exact h)
    refine ⟨out, ?_, by rw [h2, List.length_set], h3⟩
    simp only [RenderItems32, hslot, h1]

/-- The reflectance with which `SampleLight` starts is finite. -/
theorem SampleLightInit32_finite (r : Ray F32) (seed : RenderRandomSeed) :
    (SampleLightInit32 r seed).accumulatedReflectance.isFinite32 = true := by
  have h : (⟨1, 1, 1⟩ : Color F32).isFinite32 = true := by decide
  exact h

/-- Without primitives the loop of `SampleLight` is entered once. -/
theorem SampleLightTrace32_nil (m : MathOps32) (mats : List (Material F32)) (fuel : Nat)
    (st : PathState F32) : ∀ s ∈ SampleLightTrace32 m [] mats fuel st, s = st := by
  cases fuel with
  | zero => simp [SampleLightTrace32]
  | succ fuel =>
    have hb : SampleLightBody32 m [] mats st = .ret st.accumulatedColor st.seed := by
      rcases SampleLightBody32_cases m [] mats st with hb | ⟨_, p, hp, _⟩
      · exact hb
      · simp at hp
    simp [SampleLightTrace32, hb]

/-- A colour of components of magnitude at most one is finite. -/
theorem atMostOne32_finite (c : Color F32) (h : c.atMostOne32 = true) :
    c.isFinite32 = true := by
  simp only [Vector3f.atMostOne32, Bool.and_eq_true] at h
  obtain ⟨⟨hx, hy⟩, hz⟩ := h
  simp only [Vector3f.isFinite32, F32_atMostOne_finite _ hx, F32_atMostOne_finite _ hy,
    F32_atMostOne_finite _ hz, Bool.and_self]

/-- The reflectance with which `SampleLight` starts has components of magnitude one. -/
theorem SampleLightInit32_atMostOne (r : Ray F32) (seed : RenderRandomSeed) :
    (SampleLightInit32 r seed).accumulatedReflectance.atMostOne32 = true := by
  have h : (⟨1, 1, 1⟩ : Color F32).atMostOne32 = true := by decide
  exact h

/-- On surfaces that do not refract and whose colour components have magnitude at most
one, the components of the reflectance keep a magnitude of at most one. -/
theorem SampleLightTrace32_atMostOne (m : MathOps32) (prims : List (ScenePrimative F32))
    (mats : List (Material F32))
    (hcol : ∀ p ∈ prims, (mats.getD p.materialId Material.default32).color.atMostOne32 = true ∧
      (mats.getD p.materialId Material.default32).materialType ≠ .REFRACTION) :
    ∀ (fuel : Nat) (st : PathState F32), st.accumulatedReflectance.atMostOne32 = true →
      ∀ s ∈ SampleLightTrace32 m prims mats fuel st,
        s.accumulatedReflectance.atMostOne32 = true := by
  intro fuel
  induction fuel with
  | zero => intro st _ s hs; simp [SampleLightTrace32] at hs
  | succ fuel ih =>
    intro st hst s hs
    rcases SampleLightBody32_cases m prims mats st with hb | ⟨st', p, hp, hb, _, _, _, h4⟩
    · simp only [SampleLightTrace32, hb, List.mem_singleton] at hs
      rw [hs]
      exact hst
    · simp only [SampleLightTrace32, hb, List.mem_cons] at hs
      rcases hs with hs | hs
      · rw [hs]
        exact hst
      · refine ih st' ?_ s hs
        rw [h4 (hcol p hp).2]
        have hc := (hcol p hp).1
        simp only [Vector3f.atMostOne32, Bool.and_eq_true] at hst hc ⊢
        obtain ⟨⟨hx, hy⟩, hz⟩ := hst
        obtain ⟨⟨cx, cy⟩, cz⟩ := hc
        exact ⟨⟨F32_mul_atMostOne _ _ hx cx, F32_mul_atMostOne _ _ hy cy⟩,
          F32_mul_atMostOne _ _ hz cz⟩

/-- On mirrors the loop body of `SampleLight` calls no function of the math library but
the square root. -/
theorem SampleLightBody32_specular (m : MathOps32) (cos sin : F32 → F32)
    (pow : F32 → F32 → F32) (prims : List (ScenePrimative F32)) (mats : List (Material F32))
    (hspec : ∀ p ∈ prims,
      (mats.getD p.materialId Material.default32).materialType = .SPECULAR)
    (st : PathState F32) :
    SampleLightBody32 m prims mats st =
      SampleLightBody32 ⟨m.sqrt, cos, sin, pow⟩ prims mats st := by
  by_cases hmiss : (ClosestIntersection32 m.sqrt st.r prims).1.eq
      Intersection32.NO_INTERSECTION = true
  · unfold SampleLightBody32
    dsimp only
    rw [if_pos hmiss, if_pos hmiss]
  by_cases hdeep : st.depth + 1 > 7
  · unfold SampleLightBody32
    dsimp only
    rw [if_neg hmiss, if_pos hdeep, if_neg hmiss, if_pos hdeep]
  rcases ClosestIntersection32_cases m.sqrt st.r prims with h | ⟨j, p, hj, h⟩
  · rw [h] at hmiss
    exact absurd Intersection32_sentinel_eq hmiss
  · have hp : prims.getD (ClosestIntersection32 m.sqrt st.r prims).2
        ⟨⟨F32.zero, ⟨F32.zero, F32.zero, F32.zero⟩⟩, 0⟩ = p := by
      rw [h, List.getD_eq_getElem?_getD, hj]
      rfl
    have hty := hspec p (List.getElem?_mem hj)
    unfold SampleLightBody32
    dsimp only
    rw [if_neg hmiss, if_neg hdeep, if_neg hmiss, if_neg hdeep, hp]
    simp only [hty]

/-- On mirrors `SampleLight` calls no function of the math library but the square root. -/
theorem SampleLight32_specular (m : MathOps32) (cos sin : F32 → F32)
    (pow : F32 → F32 → F32) (prims : List (ScenePrimative F32)) (mats : List (Material F32))
    (hspec : ∀ p ∈ prims,
      (mats.getD p.materialId Material.default32).materialType = .SPECULAR)
    (fuel : Nat) (r : Ray F32) (seed : RenderRandomSeed) :
    SampleLight32 m fuel r prims mats seed =
      SampleLight32 ⟨m.sqrt, cos, sin, pow⟩ fuel r prims mats seed := by
  have hloop : ∀ (fuel : Nat) (st : PathState F32),
      SampleLightLoop32 m prims mats fuel st =
        SampleLightLoop32 ⟨m.sqrt, cos, sin, pow⟩ prims mats fuel st := by
    intro fuel
    induction fuel with
    | zero => intro st; rfl
    | succ fuel ih =>
      intro st
      simp only [SampleLightLoop32, ← SampleLightBody32_specular m cos sin pow prims mats hspec st]
      cases SampleLightBody32 m prims mats st with
      | ret c seed => rfl
      | next st' => exact ih st'
  exact hloop fuel _

/-! ## Claim C5 -/

/-- C5 as stated fails in binary32.  The scene is one mirror sphere of radius `1` around
the origin whose material has zero emission and the colour `(2^100, 2^100, 2^100)`; the
ray starts at the centre along `(0,0,1)`.  The reflectance is `2^100` after the first hit
and overflows to `+inf` at the second, and at the third `inf * 0` makes the colour
`(NaN, NaN, NaN)`, which `SampleLight` returns, for every math library with the correctly
rounded square root. -/
theorem zero_emission_overflow_counterexample :
    (∀ p ∈ [(⟨⟨1, ⟨0, 0, 0⟩⟩, 0⟩ : ScenePrimative F32)],
      (([(⟨⟨0, 0, 0⟩, ⟨F32.ofNat (2 ^ 100), F32.ofNat (2 ^ 100), F32.ofNat (2 ^ 100)⟩,
        .SPECULAR⟩ : Material F32)]).getD p.materialId Material.default32).emission =
        ⟨0, 0, 0⟩) ∧
    (∀ cos sin pow, SampleLight32 ⟨F32.sqrt, cos, sin, pow⟩ 8 ⟨⟨0, 0, 0⟩, ⟨0, 0, 1⟩⟩
      [⟨⟨1, ⟨0, 0, 0⟩⟩, 0⟩]
      [⟨⟨0, 0, 0⟩, ⟨F32.ofNat (2 ^ 100), F32.ofNat (2 ^ 100), F32.ofNat (2 ^ 100)⟩, .SPECULAR⟩]
      ⟨0, 0⟩ = some (⟨.nan, .nan, .nan⟩, ⟨0, 0⟩)) := by
  constructor
  · intro p hp
    simp only [List.mem_singleton] at hp
    subst hp
    rfl
  · intro cos sin pow
    have hspec : ∀ p ∈ [(⟨⟨1, ⟨0, 0, 0⟩⟩, 0⟩ : ScenePrimative F32)],
        (([(⟨⟨0, 0, 0⟩, ⟨F32.ofNat (2 ^ 100), F32.ofNat (2 ^ 100), F32.ofNat (2 ^ 100)⟩,
          .SPECULAR⟩ : Material F32)]).getD p.materialId Material.default32).materialType =
          .SPECULAR := by
      intro p hp
      simp only [List.mem_singleton] at hp
      subst hp
      rfl
    have h := SampleLight32_specular ⟨F32.sqrt, fun _ => .nan, fun _ => .nan, fun _ _ => .nan⟩
      cos sin pow _ _ hspec 8 ⟨⟨0, 0, 0⟩, ⟨0, 0, 1⟩⟩ ⟨0, 0⟩
    rw [← h]
    decide

/-- C5 (amended): in binary32, if every material that a primitive of the scene refers to
has zero emission, `SampleLight` returns `(0,0,0)` for every ray and sampler state for
which the accumulated reflectance is finite on entry to every iteration of its loop; if
that is so for every ray and sampler state (and `pow(0, 1/2.2F) = 0`), every work item of
`RenderScene` writes `Pixel(0,0,0)` and the rendered image is black, for every resolution
and sample count.  The reflectance is finite throughout when the scene has no primitives,
whatever the material store holds, and when the primitives' materials do not refract and
have colour components of magnitude at most one. -/
theorem zero_emission_renders_black32 (m : MathOps32) (prims : List (ScenePrimative F32))
    (mats : List (Material F32))
    (hzero : ∀ p ∈ prims, (mats.getD p.materialId Material.default32).emission =
      ⟨F32.zero, F32.zero, F32.zero⟩)
    (fuel : Nat) (hf : 8 ≤ fuel) :
    (∀ (r : Ray F32) (seed : RenderRandomSeed),
      (∀ st ∈ SampleLightTrace32 m prims mats fuel (SampleLightInit32 r seed),
        st.accumulatedReflectance.isFinite32 = true) →
      ∃ seed', SampleLight32 m fuel r prims mats seed =
        some (⟨F32.zero, F32.zero, F32.zero⟩, seed')) ∧
    ((∀ (r : Ray F32) (seed : RenderRandomSeed),
        ∀ st ∈ SampleLightTrace32 m prims mats fuel (SampleLightInit32 r seed),
          st.accumulatedReflectance.isFinite32 = true) →
      m.pow F32.zero (1 / F32.ofRatio 22 10) = F32.zero →
      ∀ (cam : Camera F32) (samplesPerPixel width height : Nat), samplesPerPixel < 2 ^ 32 →
        (∀ threadId, ∃ slot, RenderKernel32 m fuel prims mats cam samplesPerPixel width height
          threadId = some (slot, ⟨0, 0, 0⟩)) ∧
        ∃ img, RenderScene32 m fuel prims mats cam samplesPerPixel width height = some img ∧
          img.data.length = width * height % 2 ^ 32 ∧ ∀ p ∈ img.data, p = ⟨0, 0, 0⟩) ∧
    (prims = [] → ∀ (r : Ray F32) (seed : RenderRandomSeed),
      ∀ st ∈ SampleLightTrace32 m prims mats fuel (SampleLightInit32 r seed),
        st.accumulatedReflectance.isFinite32 = true) ∧
    ((∀ p ∈ prims, (mats.getD p.materialId Material.default32).color.atMostOne32 = true ∧
        (mats.getD p.materialId Material.default32).materialType ≠ .REFRACTION) →
      ∀ (r : Ray F32) (seed : RenderRandomSeed),
        ∀ st ∈ SampleLightTrace32 m prims mats fuel (SampleLightInit32 r seed),
          st.accumulatedReflectance.isFinite32 = true) := by
  have hsl : ∀ (r : Ray F32) (seed : RenderRandomSeed),
      (∀ st ∈ SampleLightTrace32 m prims mats fuel (SampleLightInit32 r seed),
        st.accumulatedReflectance.isFinite32 = true) →
      ∃ seed', SampleLight32 m fuel r prims mats seed =
        some (⟨F32.zero, F32.zero, F32.zero⟩, seed') := by
    intro r seed hfin
    obtain ⟨res, hres⟩ := SampleLightLoop32_returns m prims mats fuel (SampleLightInit32 r seed)
      (by omega) (by omega)
    have := SampleLightLoop32_black m prims mats hzero fuel (SampleLightInit32 r seed) res rfl
      hfin hres
    refine ⟨res.2, ?_⟩
    rw [SampleLight32, hres, ← this]
  refine ⟨hsl, ?_, ?_, ?_⟩
  · intro hfin hpow cam spp w h hspp
    have hk : ∀ id, ∃ slot, RenderKernel32 m fuel prims mats cam spp w h id =
        some (slot, ⟨0, 0, 0⟩) :=
      RenderKernel32_black m prims mats fuel (fun r seed => hsl r seed (hfin r seed)) hpow
        cam spp w h hspp
    refine ⟨hk, ?_⟩
    obtain ⟨out, h1, h2, h3⟩ := RenderItems32_black m fuel prims mats cam spp w h hk
      (w * h % 2 ^ 32) 0 (Image.new w h).data (by
        intro p hp
        simp only [Image.new] at hp
        exact List.eq_of_mem_replicate hp)
    refine ⟨⟨w, h, out⟩, ?_, ?_, h3⟩
    · simp only [RenderScene32, h1]
    · rw [h2]
      simp [Image.new]
  · intro hnil r seed st hst
    subst hnil
    rw [SampleLightTrace32_nil m mats fuel _ st hst]
    exact SampleLightInit32_finite r seed
  · intro hcol r seed st hst
    exact atMostOne32_finite _ (SampleLightTrace32_atMostOne m prims mats hcol fuel _
      (SampleLightInit32_atMostOne r seed) st hst)

/-- Witness for C5: a mirror sphere of radius `1` around the origin whose material has
zero emission and the colour `(0.999F, 0.999F, 0.999F)`, in a scene whose material store
also holds an emitter that no primitive refers to: every estimate is black, and with three
samples per pixel every work item of a 4x2 image writes the black pixel. -/
theorem zero_emission_renders_black32_witness :
    (([(⟨⟨0, 0, 0⟩, ⟨F32.ofRatio 999 1000, F32.ofRatio 999 1000, F32.ofRatio 999 1000⟩,
        .SPECULAR⟩ : Material F32),
      ⟨⟨1, 1, 1⟩, ⟨0, 0, 0⟩, .DIFFUSE⟩]).getD 1 Material.default32).emission ≠
        ⟨F32.zero, F32.zero, F32.zero⟩ ∧
    (∀ (m : MathOps32) (r : Ray F32) (seed : RenderRandomSeed),
      ∃ seed', SampleLight32 m 8 r [⟨⟨1, ⟨0, 0, 0⟩⟩, 0⟩]
        [⟨⟨0, 0, 0⟩, ⟨F32.ofRatio 999 1000, F32.ofRatio 999 1000, F32.ofRatio 999 1000⟩,
          .SPECULAR⟩, ⟨⟨1, 1, 1⟩, ⟨0, 0, 0⟩, .DIFFUSE⟩] seed =
          some (⟨F32.zero, F32.zero, F32.zero⟩, seed')) ∧
    (∀ (m : MathOps32) (cam : Camera F32), m.pow F32.zero (1 / F32.ofRatio 22 10) = F32.zero →
      ∀ threadId, ∃ slot, RenderKernel32 m 8 [⟨⟨1, ⟨0, 0, 0⟩⟩, 0⟩]
        [⟨⟨0, 0, 0⟩, ⟨F32.ofRatio 999 1000, F32.ofRatio 999 1000, F32.ofRatio 999 1000⟩,
          .SPECULAR⟩, ⟨⟨1, 1, 1⟩, ⟨0, 0, 0⟩, .DIFFUSE⟩] cam 3 4 2
          threadId = some (slot, ⟨0, 0, 0⟩)) := by
  have hzero : ∀ p ∈ [(⟨⟨1, ⟨0, 0, 0⟩⟩, 0⟩ : ScenePrimative F32)],
      (([(⟨⟨0, 0, 0⟩, ⟨F32.ofRatio 999 1000, F32.ofRatio 999 1000, F32.ofRatio 999 1000⟩,
          .SPECULAR⟩ : Material F32),
        ⟨⟨1, 1, 1⟩, ⟨0, 0, 0⟩, .DIFFUSE⟩]).getD p.materialId Material.default32).emission =
        ⟨F32.zero, F32.zero, F32.zero⟩ := by
    intro p hp
    simp only [List.mem_singleton] at hp
    subst hp
    decide
  have hcol : ∀ p ∈ [(⟨⟨1, ⟨0, 0, 0⟩⟩, 0⟩ : ScenePrimative F32)],
      (([(⟨⟨0, 0, 0⟩, ⟨F32.ofRatio 999 1000, F32.ofRatio 999 1000, F32.ofRatio 999 1000⟩,
          .SPECULAR⟩ : Material F32),
        ⟨⟨1, 1, 1⟩, ⟨0, 0, 0⟩, .DIFFUSE⟩]).getD p.materialId
          Material.default32).color.atMostOne32 = true ∧
      (([(⟨⟨0, 0, 0⟩, ⟨F32.ofRatio 999 1000, F32.ofRatio 999 1000, F32.ofRatio 999 1000⟩,
          .SPECULAR⟩ : Material F32),
        ⟨⟨1, 1, 1⟩, ⟨0, 0, 0⟩, .DIFFUSE⟩]).getD p.materialId Material.default32).materialType ≠
          .REFRACTION := by
    intro p hp
    simp only [List.mem_singleton] at hp
    subst hp
    decide
  refine ⟨by decide, fun m r seed => ?_, fun m cam hpow threadId => ?_⟩
  · exact (zero_emission_renders_black32 m _ _ hzero 8 (le_refl 8)).1 r seed
      ((zero_emission_renders_black32 m _ _ hzero 8 (le_refl 8)).2.2.2 hcol r seed)
  · exact ((zero_emission_renders_black32 m _ _ hzero 8 (le_refl 8)).2.1
      ((zero_emission_renders_black32 m _ _ hzero 8 (le_refl 8)).2.2.2 hcol) hpow cam 3 4 2
      (by norm_num)).1 threadId

end Tracer
